import Mathlib

/-!
# Verification of the perceptron network engine (nwclass.cpp, rand.cpp)

Shallow embedding of the unit graph and its mutation API
(CreateUnit, DeleteUnit, CreateConnection, DeleteConnection, ULongSearch)
and of the additive-feedback generator (Rand32).

Modelling conventions.

* A C array of unsigned long or of double is a list of naturals, one per
  element; a double is represented by its 64-bit pattern.  The length of the
  list is the number of allocated elements, and the unit's NumInput field is
  kept separately, exactly as in the source.
* memmove is modelled on the little-endian byte image of the array, because
  the source passes byte counts that are not multiples of the element size.
* realloc keeps the common prefix; new elements read as 0 (every new element
  is overwritten before it is read).
* Allocation never fails: the NW_ERR_MEMORY paths are not modelled.
* The unit table UnitList is the list of the live units, so that NumUnits is
  its length; UnitSpace, the capacity, is a separate field.
* The width of unsigned long depends on the data model of the target
  (4 bytes under ILP32, 8 bytes under LP64) and is a parameter.
* The input count of a unit and array indices are bounded by the size of
  memory: their arithmetic is exact.  The cached counters NumInput and
  NumOutput of the network wrap modulo 2 ^ (8 * sizeof(unsigned long)).
* A loop of the source is a structurally recursive function whose bound is the
  number of iterations left; for the while loop of ULongSearch the invariant
  that relates the bound to the loop variable is part of the definition.
* The source computes an initial weight from a generator draw in floating
  point.  Floating-point arithmetic is not modelled: the map from a draw to the
  bit pattern of the resulting double is a parameter of the target.  Where a
  statement is about the value of such a weight, it assumes that the stored
  double is within one unit in the last place of the exact quotient, which
  holds under ILP32, where the division is the only operation that rounds.
-/

namespace Perceptron

/-! ## Target description -/

/-- Data model of the C target: it fixes the size of unsigned long. -/
inductive DataModel where
  | ILP32
  | LP64
deriving DecidableEq

/-- Value of sizeof(unsigned long), in bytes. -/
def DataModel.sizeofULong : DataModel → Nat
  | .ILP32 => 4
  | .LP64 => 8

/-- Number of values of an unsigned long: 2 ^ (8 * sizeof(unsigned long)). -/
def DataModel.ulongMod (M : DataModel) : Nat := 256 ^ M.sizeofULong

/-- The value of (unsigned long)(-1). -/
def DataModel.ulongMax (M : DataModel) : Nat := M.ulongMod - 1

/-- Value of sizeof(double), in bytes. -/
def sizeofDouble : Nat := 8

/-- Compilation target: the data model, and the bit pattern of the double that
the expression (double)((double)r - LONG_MAX) / LONG_MAX evaluates to for a
generator draw r. -/
structure Target where
  abi : DataModel
  initWgt : Nat → Nat

/-! ## Byte images of arrays, memmove, realloc -/

/-- The W little-endian bytes of the element x. -/
def wordBytes : Nat → Nat → List Nat
  | 0, _ => []
  | W + 1, x => x % 256 :: wordBytes W (x / 256)

/-- The element whose little-endian bytes are bs. -/
def bytesWord : List Nat → Nat
  | [] => 0
  | b :: bs => b + 256 * bytesWord bs

/-- Byte image of an array of elements of W bytes each. -/
def toBytes (W : Nat) : List Nat → List Nat
  | [] => []
  | x :: xs => wordBytes W x ++ toBytes W xs

/-- The array of n elements of W bytes each stored in the byte image bs. -/
def fromBytes (W : Nat) : Nat → List Nat → List Nat
  | 0, _ => []
  | n + 1, bs => bytesWord (bs.take W) :: fromBytes W n (bs.drop W)

/-- Byte-level memmove inside one buffer: the n bytes at offset src are copied
to offset dst (the regions may overlap; the bytes copied are the original
ones). -/
def memmoveBytes (bs : List Nat) (dst src n : Nat) : List Nat :=
  bs.take dst ++ ((bs.drop src).take n ++ bs.drop (dst + n))

/-- The call memmove(&a[dst], &a[src], n) on an array a of elements of W bytes:
n is a number of BYTES, dst and src are element indices. -/
def memmove (W : Nat) (a : List Nat) (dst src n : Nat) : List Nat :=
  fromBytes W a.length (memmoveBytes (toBytes W a) (W * dst) (W * src) n)

/-- The call realloc(a, n * sizeof(element)): the first n elements are kept,
elements added by growth read as 0. -/
def realloc (a : List Nat) (n : Nat) : List Nat :=
  a.take n ++ List.replicate (n - a.length) 0

/-! ## Data model of the network (nwclass.h) -/

/-- Unit type UNIT_INPUT. -/
def UNIT_INPUT : Nat := 0
/-- Unit type UNIT_INTERNAL. -/
def UNIT_INTERNAL : Nat := 1
/-- Unit type UNIT_OUTPUT. -/
def UNIT_OUTPUT : Nat := 2

/-- Error values of the engine (enum NWErr). -/
inductive NWErr where
  | NW_SUCCESS
  | NW_ERR_NETOPEN
  | NW_ERR_NONETOPEN
  | NW_ERR_NOFILEOPEN
  | NW_ERR_CREATING
  | NW_ERR_OPENING
  | NW_ERR_FILEEXISTS
  | NW_ERR_READING
  | NW_ERR_WRITING
  | NW_ERR_BADFILE
  | NW_ERR_MEMORY
  | NW_ERR_RECURSIVE
  | NW_ERR_BADPARAM
  | NW_ERR_CONNEXISTS
  | NW_ERR_CONNTOSELF
  | NW_ERR_NOTCONN
  | NW_ERR_IOCONN
  | NW_ERR_NOUNITS
  | NW_ERR_NOTINPUT
  | NW_ERR_NOTOUTPUT
deriving DecidableEq

open NWErr

/-- Input or output unit definition (struct NWIODef): the name as a list of
character codes (without the terminator), and the range as two doubles. -/
structure NWIODef where
  Name : List Nat
  Min : Nat
  Max : Nat
deriving DecidableEq

/-- Network processing unit (struct NWUnit).  The one-bit fields are booleans,
the two-bit field Type is the natural UnitType, IODef is none for the null pointer. -/
structure NWUnit where
  X : Nat
  Y : Nat
  NumInput : Nat
  UnitType : Nat
  Binary : Bool
  Bias : Bool
  Sigmoid : Bool
  Flag1 : Bool
  Flag2 : Bool
  Flag3 : Bool
  BiasWgt : Nat
  IODef : Option NWIODef
  InputUnits : List Nat
  InputWgts : List Nat
deriving DecidableEq

/-- The unit right after memset(unit, 0, sizeof(NWUnit)). -/
def NWUnit.zero : NWUnit :=
  { X := 0, Y := 0, NumInput := 0, UnitType := 0, Binary := false, Bias := false,
    Sigmoid := false, Flag1 := false, Flag2 := false, Flag3 := false,
    BiasWgt := 0, IODef := none, InputUnits := [], InputWgts := [] }

/-- The graph part of class Network: the live units, the capacity of the unit
table and the cached counts of Input and Output units. -/
structure Network where
  UnitList : List NWUnit
  UnitSpace : Nat
  NumInput : Nat
  NumOutput : Nat
deriving DecidableEq

/-- Field NumUnits of the source: the number of live units. -/
def Network.NumUnits (nw : Network) : Nat := nw.UnitList.length

/-- The unit UnitList[i] (the zero unit when i is out of range, which no
guarded access of the source reaches). -/
def Network.unit (nw : Network) (i : Nat) : NWUnit := nw.UnitList.getD i NWUnit.zero

/-- The network built by the constructor Network(). -/
def Network.empty : Network :=
  { UnitList := [], UnitSpace := 0, NumInput := 0, NumOutput := 0 }

/-! ## The generator (rand.cpp) -/

/-- The static variables of rand.cpp. -/
structure RandState where
  RandNums : List Nat
  RandIx1 : Int
  RandIx2 : Int
deriving DecidableEq

/-- Function Rand32: the draw and the next generator state. -/
def Rand32 (M : DataModel) (g : RandState) : Nat × RandState :=
  let result := (g.RandNums.getD g.RandIx1.toNat 0 + g.RandNums.getD g.RandIx2.toNat 0)
    % M.ulongMod
  let nums := g.RandNums.set g.RandIx1.toNat result
  let ix1 := if g.RandIx1 - 1 < 0 then 16 else g.RandIx1 - 1
  let ix2 := if g.RandIx2 - 1 < 0 then 16 else g.RandIx2 - 1
  (result, { RandNums := nums, RandIx1 := ix1, RandIx2 := ix2 })

/-- Program state seen by the mutation API: the network object and the
generator statics. -/
structure State where
  nw : Network
  rnd : RandState
deriving DecidableEq

/-! ## Network::ULongSearch -/

/-- The while loop of ULongSearch.  The first argument bounds the number of
iterations left; the loop invariant num ≤ fuel is carried along, so that the
bound is reached only when num is 0, which is the exit of the loop. -/
def ULongSearchLoop (M : DataModel) (key : Nat) (list : List Nat) :
    (fuel base num : Nat) → num ≤ fuel → Nat
  | 0, _, _, _ => M.ulongMax
  | fuel + 1, base, num, h =>
    if hn : num = 0 then M.ulongMax
    else
      if list.getD (base + num / 2) 0 = key then base + num / 2
      else if list.getD (base + num / 2) 0 > key then
        ULongSearchLoop M key list fuel base (num / 2) (by omega)
      else
        ULongSearchLoop M key list fuel (base + (num / 2 + 1)) (num - (num / 2 + 1)) (by omega)

/-- Function Network::ULongSearch(key, num, list). -/
def ULongSearch (M : DataModel) (key num : Nat) (list : List Nat) : Nat :=
  ULongSearchLoop M key list num 0 num (Nat.le_refl num)

/-! ## Network::CreateUnit -/

/-- Function Network::CreateUnit.  The result is the error value, the value
written through the index pointer (none when nothing is written) and the new
state. -/
def CreateUnit (T : Target) (s : State) (x y : Nat) (type binary bias sigmoid : Int)
    (name : List Nat) (min max : Nat) : NWErr × Option Nat × State :=
  let space := if s.nw.NumUnits ≥ s.nw.UnitSpace then s.nw.NumUnits + 512 else s.nw.UnitSpace
  let type1 : Int := if type < 0 ∨ type > 2 then 1 else type
  if ¬ (type < 0 ∨ type > 2) ∧ (type = 2 ∧ sigmoid = 0 ∧ binary ≠ 0) then
    (NW_ERR_BADPARAM, none, { s with nw := { s.nw with UnitSpace := space } })
  else
    let iodef : Option NWIODef :=
      if type1 ≠ 1 then some { Name := name, Min := min, Max := max } else none
    let sigmoid1 : Int := if type1 ≠ 2 then 1 else sigmoid
    let draw := Rand32 T.abi s.rnd
    let u : NWUnit :=
      { NWUnit.zero with
        IODef := iodef
        X := x
        Y := y
        UnitType := type1.toNat
        Binary := decide (binary % 2 = 1)
        Sigmoid := decide (sigmoid1 % 2 = 1)
        Bias := decide (bias % 2 = 1)
        BiasWgt := T.initWgt draw.1 }
    let numInput :=
      if type1 = 0 then (s.nw.NumInput + 1) % T.abi.ulongMod else s.nw.NumInput
    let numOutput :=
      if type1 ≠ 0 ∧ type1 = 2 then (s.nw.NumOutput + 1) % T.abi.ulongMod else s.nw.NumOutput
    (NW_SUCCESS, some s.nw.NumUnits,
      { nw := { UnitList := s.nw.UnitList ++ [u], UnitSpace := space,
                NumInput := numInput, NumOutput := numOutput },
        rnd := draw.2 })

/-! ## Network::CreateConnection -/

/-- The for loop of CreateConnection over ix < NumInput: none when the source
is found (the function returns NW_ERR_CONNEXISTS), else the value of ix at the
exit of the loop.  The first argument is NumInput - ix. -/
def scanInputs (source : Nat) (InputUnits : List Nat) : Nat → Nat → Option Nat
  | 0, ix => some ix
  | k + 1, ix =>
    if InputUnits.getD ix 0 = source then none
    else if InputUnits.getD ix 0 > source then some ix
    else scanInputs source InputUnits k (ix + 1)

/-- Function Network::CreateConnection. -/
def CreateConnection (T : Target) (s : State) (source dest : Nat) : NWErr × State :=
  if source ≥ s.nw.NumUnits ∨ dest ≥ s.nw.NumUnits then (NW_ERR_BADPARAM, s)
  else if source = dest then (NW_ERR_CONNTOSELF, s)
  else if (s.nw.unit source).UnitType = UNIT_OUTPUT then (NW_ERR_IOCONN, s)
  else if (s.nw.unit dest).UnitType = UNIT_INPUT then (NW_ERR_IOCONN, s)
  else
    let u := s.nw.unit dest
    match scanInputs source u.InputUnits u.NumInput 0 with
    | none => (NW_ERR_CONNEXISTS, s)
    | some ix =>
      let units0 := realloc u.InputUnits (u.NumInput + 1)
      let wgts0 := realloc u.InputWgts (u.NumInput + 1)
      let units1 := memmove T.abi.sizeofULong units0 (ix + 1) ix
        ((u.NumInput - ix) * T.abi.sizeofULong)
      let units2 := units1.set ix source
      let wgts1 := memmove sizeofDouble wgts0 (ix + 1) ix ((u.NumInput - ix) * sizeofDouble)
      let draw := Rand32 T.abi s.rnd
      let wgts2 := wgts1.set ix (T.initWgt draw.1)
      let u1 : NWUnit :=
        { u with InputUnits := units2, InputWgts := wgts2, NumInput := u.NumInput + 1 }
      (NW_SUCCESS, { nw := { s.nw with UnitList := s.nw.UnitList.set dest u1 }, rnd := draw.2 })

/-! ## Network::DeleteConnection and Network::DeleteUnit -/

/-- The splice shared by DeleteConnection and DeleteUnit, applied to a unit
whose entry at index jx is removed: NumInput is decremented, then each array
is moved by memmove with the byte count NumInput - jx of the source and
shrunk by realloc. -/
def spliceInput (M : DataModel) (u : NWUnit) (jx : Nat) : NWUnit :=
  let n := u.NumInput - 1
  let units1 := memmove M.sizeofULong u.InputUnits jx (jx + 1) (n - jx)
  let units2 := realloc units1 n
  let wgts1 := memmove sizeofDouble u.InputWgts jx (jx + 1) (n - jx)
  let wgts2 := realloc wgts1 n
  { u with NumInput := n, InputUnits := units2, InputWgts := wgts2 }

/-- Function Network::DeleteConnection. -/
def DeleteConnection (T : Target) (s : State) (source dest : Nat) : NWErr × State :=
  if source ≥ s.nw.NumUnits ∨ dest ≥ s.nw.NumUnits then (NW_ERR_BADPARAM, s)
  else
    let u := s.nw.unit dest
    let ix := ULongSearch T.abi source u.NumInput u.InputUnits
    if ix = T.abi.ulongMax then (NW_ERR_NOTCONN, s)
    else
      (NW_SUCCESS,
        { s with nw := { s.nw with UnitList := s.nw.UnitList.set dest (spliceInput T.abi u ix) } })

/-- Body of the first loop of DeleteUnit for one unit: the interconnection
from the deleted unit is searched and spliced out. -/
def removeInput (M : DataModel) (unit : Nat) (u : NWUnit) : NWUnit :=
  let jx := ULongSearch M unit u.NumInput u.InputUnits
  if jx ≠ M.ulongMax then spliceInput M u jx else u

/-- Body of the last loop of DeleteUnit for one unit: among the first NumInput
entries, each connection id above the deleted id is decremented. -/
def renumberInputs (unit : Nat) (u : NWUnit) : NWUnit :=
  { u with InputUnits :=
      (u.InputUnits.take u.NumInput).map (fun id => if id > unit then id - 1 else id)
        ++ u.InputUnits.drop u.NumInput }

/-- Function Network::DeleteUnit. -/
def DeleteUnit (T : Target) (s : State) (unit : Nat) : NWErr × State :=
  if unit ≥ s.nw.NumUnits then (NW_ERR_BADPARAM, s)
  else
    let numInput :=
      if (s.nw.unit unit).UnitType = UNIT_INPUT then
        (s.nw.NumInput + T.abi.ulongMod - 1) % T.abi.ulongMod
      else s.nw.NumInput
    let numOutput :=
      if (s.nw.unit unit).UnitType ≠ UNIT_INPUT ∧ (s.nw.unit unit).UnitType = UNIT_OUTPUT then
        (s.nw.NumOutput + T.abi.ulongMod - 1) % T.abi.ulongMod
      else s.nw.NumOutput
    let units1 := s.nw.UnitList.map (removeInput T.abi unit)
    let units2 := units1.eraseIdx unit
    let units3 := units2.map (renumberInputs unit)
    (NW_SUCCESS,
      { s with nw := { s.nw with UnitList := units3, NumInput := numInput,
                                 NumOutput := numOutput } })


/-! ## Representation invariant, call sequences, reachable states -/

/-- Representation invariant of one unit: both arrays hold NumInput elements,
each connection id fits an unsigned long and each weight fits a double. -/
def UnitWF (M : DataModel) (u : NWUnit) : Prop :=
  u.InputUnits.length = u.NumInput ∧ u.InputWgts.length = u.NumInput ∧
    (∀ x ∈ u.InputUnits, x < 256 ^ M.sizeofULong) ∧
    (∀ w ∈ u.InputWgts, w < 256 ^ sizeofDouble)

instance (M : DataModel) (u : NWUnit) : Decidable (UnitWF M u) := by
  unfold UnitWF
  infer_instance

/-- A strictly ascending list: sorted, without duplicates. -/
def Ascending (l : List Nat) : Prop := l.Pairwise (fun a b => a < b)

instance (l : List Nat) : Decidable (Ascending l) := by
  unfold Ascending
  infer_instance

/-- One call of the mutation API. -/
inductive Call where
  | createUnit (x y : Nat) (type binary bias sigmoid : Int) (name : List Nat) (min max : Nat)
  | deleteUnit (unit : Nat)
  | createConnection (source dest : Nat)
  | deleteConnection (source dest : Nat)

/-- The state after one call (the error value is dropped). -/
def Call.run (T : Target) (s : State) : Call → State
  | .createUnit x y type binary bias sigmoid name min max =>
    (CreateUnit T s x y type binary bias sigmoid name min max).2.2
  | .deleteUnit unit => (DeleteUnit T s unit).2
  | .createConnection source dest => (CreateConnection T s source dest).2
  | .deleteConnection source dest => (DeleteConnection T s source dest).2

/-- The state after a sequence of calls, first call first. -/
def runCalls (T : Target) (s : State) (calls : List Call) : State :=
  calls.foldl (Call.run T) s

/-- The states reachable from the empty network (with any generator state) by
CreateUnit, DeleteUnit, CreateConnection and DeleteConnection. -/
def Reachable (T : Target) (s : State) : Prop :=
  ∃ (g : RandState) (calls : List Call), s = runCalls T { nw := Network.empty, rnd := g } calls

/-- The generator statics at program start (static initialisers of rand.cpp). -/
def startRand : RandState := { RandNums := List.replicate 17 0, RandIx1 := 16, RandIx2 := 4 }

/-- The program state at start: the empty network and the initial statics. -/
def startState : State := { nw := Network.empty, rnd := startRand }

/-- The bit pattern of the double -1.0. -/
def minusOne : Nat := 0xBFF0000000000000

/-- A target used for concrete runs.  From startRand every draw is 0 (no call of
Randomize32 intervenes), and (0 - LONG_MAX) / LONG_MAX is -1.0 exactly, so every
initial weight of such a run is the double -1.0. -/
def exampleTarget (M : DataModel) : Target := { abi := M, initWgt := fun _ => minusOne }

/-- The error values returned for a parameter reason. -/
def paramError (e : NWErr) : Prop :=
  e = NW_ERR_BADPARAM ∨ e = NW_ERR_CONNTOSELF ∨ e = NW_ERR_IOCONN ∨ e = NW_ERR_CONNEXISTS ∨
    e = NW_ERR_NOTCONN

instance (e : NWErr) : Decidable (paramError e) := by
  unfold paramError
  infer_instance

/-- Calls building four Internal units and the connections 0 → 3, 1 → 3 and
2 → 3. -/
def fanInCalls : List Call :=
  [.createUnit 0 0 1 0 1 1 [] 0 0, .createUnit 0 0 1 0 1 1 [] 0 0,
   .createUnit 0 0 1 0 1 1 [] 0 0, .createUnit 0 0 1 0 1 1 [] 0 0,
   .createConnection 0 3, .createConnection 1 3, .createConnection 2 3]

/-- The state after fanInCalls: unit 3 has the incoming list [0, 1, 2]. -/
def fanInState (M : DataModel) : State := runCalls (exampleTarget M) startState fanInCalls

/-- The bit pattern of the double 1.0. -/
def dblOne : Nat := 0x3FF0000000000000

/-- The bit pattern of the double 2.0. -/
def dblTwo : Nat := 0x4000000000000000

/-- An Internal unit without incoming connection. -/
def plainUnit : NWUnit :=
  { NWUnit.zero with UnitType := UNIT_INTERNAL, Sigmoid := true, Bias := true, BiasWgt := minusOne }

/-- A network of three Internal units in which unit 2 receives a connection of
weight 1.0 from unit 0 and a connection of weight 2.0 from unit 1. -/
def weightedState : State :=
  { nw := { UnitList := [plainUnit, plainUnit,
              { plainUnit with NumInput := 2, InputUnits := [0, 1], InputWgts := [dblOne, dblTwo] }],
            UnitSpace := 512, NumInput := 0, NumOutput := 0 },
    rnd := startRand }

/-- Calls building three Input units 0, 1, 2 and two Internal units 3, 4, the
connections 0 → 3, 2 → 3 and 4 → 3, and then deleting the connection 0 → 3. -/
def dupCalls : List Call :=
  [.createUnit 0 0 0 0 1 1 [105] 0 1, .createUnit 0 0 0 0 1 1 [105] 0 1,
   .createUnit 0 0 0 0 1 1 [105] 0 1, .createUnit 0 0 1 0 1 1 [] 0 0,
   .createUnit 0 0 1 0 1 1 [] 0 0,
   .createConnection 0 3, .createConnection 2 3, .createConnection 4 3,
   .deleteConnection 0 3]

/-- The state after dupCalls. -/
def dupState (M : DataModel) : State := runCalls (exampleTarget M) startState dupCalls

/-- The state after dupCalls followed by DeleteUnit(2). -/
def selfState (M : DataModel) : State :=
  runCalls (exampleTarget M) startState (dupCalls ++ [.deleteUnit 2])

/-! ## Close, call sequences with Close, unit counts -/

/-- Function Network::Close, on the graph part of the state: the units are
freed and the network is the empty one again; the generator is not touched. -/
def Close (s : State) : NWErr × State :=
  (NW_SUCCESS, { s with nw := Network.empty })

/-- A call of the mutation API or of Close. -/
inductive CallC where
  | api (c : Call)
  | close

/-- The state after one call of the mutation API or of Close. -/
def CallC.run (T : Target) (s : State) : CallC → State
  | .api c => c.run T s
  | .close => (Close s).2

/-- The state after a sequence of calls, first call first. -/
def runCallsC (T : Target) (s : State) (calls : List CallC) : State :=
  calls.foldl (CallC.run T) s

/-- The states reachable from the empty network (with any generator state) by
CreateUnit, DeleteUnit, CreateConnection, DeleteConnection and Close, whether
the calls succeed or fail. -/
def ReachableC (T : Target) (s : State) : Prop :=
  ∃ (g : RandState) (calls : List CallC), s = runCallsC T { nw := Network.empty, rnd := g } calls

/-- The number of units of the given kind. -/
def Network.countType (nw : Network) (t : Nat) : Nat :=
  nw.UnitList.countP (fun u => decide (u.UnitType = t))

/-! ## Randomize32 and the initial weight in exact arithmetic -/

/-- Function Randomize32(seed), applied to the generator statics g. -/
def Randomize32 (M : DataModel) (g : RandState) (seed : Nat) : RandState :=
  let filled := (List.range 17).foldl
    (fun (p : List Nat × Nat) ix =>
      (p.1.set ix p.2, (p.2 * 4226497 % M.ulongMod + 1) % M.ulongMod))
    (g.RandNums, seed * seed % M.ulongMod)
  let nums1 := filled.1.set 1 ((filled.1.getD 1 0 + 1) % M.ulongMod)
  let nums8 := nums1.set 8 ((nums1.getD 8 0 + 1) % M.ulongMod)
  let nums15 := nums8.set 15 ((nums8.getD 15 0 + 1) % M.ulongMod)
  { RandNums := nums15, RandIx1 := 16, RandIx2 := 4 }

/-- The generator statics after n calls of Rand32. -/
def afterDraws (M : DataModel) : Nat → RandState → RandState
  | 0, g => g
  | n + 1, g => afterDraws M n (Rand32 M g).2

/-- The constant LONG_MAX of limits.h: long has the width of unsigned long. -/
def LONG_MAX (M : DataModel) : Nat := M.ulongMod / 2 - 1

/-- The value of (r - LONG_MAX) / LONG_MAX in exact arithmetic for a draw r,
under ILP32.  There r, LONG_MAX and their difference are integers below 2 ^ 53,
which the conversions to double and the subtraction of the source represent
exactly: the double that the source stores is this quotient, rounded by the
division.  (Under LP64 the conversions round already; that case is not
modelled.) -/
def initWgtExact (r : Nat) : ℚ :=
  ((r : ℚ) - (LONG_MAX .ILP32 : ℚ)) / (LONG_MAX .ILP32 : ℚ)

/-- The value of the double with the bit pattern bits (IEEE 754 binary64: the
sign in bit 63, the exponent in the bits 52 to 62, the fraction in the bits 0
to 51).  The patterns with the exponent 2047, infinities and NaN, have no
value; they do not occur where this function is used. -/
def doubleValue (bits : Nat) : ℚ :=
  (if bits / 2 ^ 63 % 2 = 1 then -1 else 1)
    * (if bits / 2 ^ 52 % 2048 = 0 then ((bits % 2 ^ 52 : Nat) : ℚ) / 2 ^ 1074
        else ((2 ^ 52 + bits % 2 ^ 52 : Nat) : ℚ) * 2 ^ (bits / 2 ^ 52 % 2048) / 2 ^ 1075)

/-- The double 1 + 2 ^ (-31), the double nearest to 2147483648 / 2147483647. -/
def dblAboveOne : Nat := 0x3FF0000000200000

/-- A target under ILP32 whose initial weight is the double 1 + 2 ^ (-31), the
weight of the draw 4294967295; it is used for that draw only. -/
def topDrawTarget : Target := { abi := .ILP32, initWgt := fun _ => dblAboveOne }

/-- The counters agree with the unit counts modulo the range of unsigned
long. -/
def CountersOK (T : Target) (s : State) : Prop :=
  s.nw.NumInput = s.nw.countType UNIT_INPUT % T.abi.ulongMod ∧
  s.nw.NumOutput = s.nw.countType UNIT_OUTPUT % T.abi.ulongMod

/-! ## The network with doubles as values

ForwardPass and BackwardPass compute with the doubles.  They are modelled over
an arbitrary linearly ordered field R and an arbitrary function expf for exp:
exact arithmetic is the instance R = ℝ with the real exponential, and every
definition can be run over ℚ.  The structures below are struct NWUnit and
class Network again, with each double represented by its value in R.

* Sum, ActLevel and Error are the arrays behind the pointers (the empty list
  for a null pointer); an access outside the array reads 0 and writes nothing.
  ApplyTarget is the exception: its one effect is the store into Error, and it
  has no result when Error or ActLevel has no element for the unit.
* BackSeq, Accum and Momentum are tested against NULL by the code modelled
  here, they are none for the null pointer.
* A call has no result (none) when a loop bound of the model is exhausted or a
  null BackSeq is read.
* The processed flags (Flag1) are written for every unit at the start of
  ForwardPass and cleared for every unit before each return, so the model
  holds them in a list of its own during the pass. -/

/-- Input or output unit definition (struct NWIODef) with values in R. -/
structure NWIODefV (R : Type) where
  Name : List Nat
  Min : R
  Max : R

/-- Network processing unit (struct NWUnit) with values in R. -/
structure NWUnitV (R : Type) where
  X : Nat
  Y : Nat
  NumInput : Nat
  UnitType : Nat
  Binary : Bool
  Bias : Bool
  Sigmoid : Bool
  Flag1 : Bool
  Flag2 : Bool
  Flag3 : Bool
  BiasWgt : R
  IODef : Option (NWIODefV R)
  InputUnits : List Nat
  InputWgts : List R

/-- The unit right after memset(unit, 0, sizeof(NWUnit)). -/
def NWUnitV.zero {R : Type} [Zero R] : NWUnitV R :=
  { X := 0, Y := 0, NumInput := 0, UnitType := 0, Binary := false, Bias := false,
    Sigmoid := false, Flag1 := false, Flag2 := false, Flag3 := false,
    BiasWgt := 0, IODef := none, InputUnits := [], InputWgts := [] }

/-- The unit u with each double decoded by val. -/
def NWUnit.toV {R : Type} (val : Nat → R) (u : NWUnit) : NWUnitV R :=
  { X := u.X, Y := u.Y, NumInput := u.NumInput, UnitType := u.UnitType, Binary := u.Binary,
    Bias := u.Bias, Sigmoid := u.Sigmoid, Flag1 := u.Flag1, Flag2 := u.Flag2,
    Flag3 := u.Flag3, BiasWgt := val u.BiasWgt,
    IODef := u.IODef.map (fun d => { Name := d.Name, Min := val d.Min, Max := val d.Max }),
    InputUnits := u.InputUnits, InputWgts := u.InputWgts.map val }

/-- Class Network with values in R: the units, the cached counters and the
execution and training buffers. -/
structure NetworkV (R : Type) where
  UnitList : List (NWUnitV R)
  NumInput : Nat
  NumOutput : Nat
  Sum : List R
  ActLevel : List R
  Error : List R
  BackSeq : Option (List Nat)
  Accum : Option (List (List R))
  Momentum : Option (List (List R))

/-- Field NumUnits of the source: the number of live units. -/
def NetworkV.NumUnits {R : Type} (net : NetworkV R) : Nat := net.UnitList.length

/-- The unit UnitList[i]. -/
def NetworkV.unit {R : Type} [Zero R] (net : NetworkV R) (i : Nat) : NWUnitV R :=
  net.UnitList.getD i NWUnitV.zero

/-- The network nw with each double decoded by val, before any buffer is
allocated. -/
def Network.toV {R : Type} (val : Nat → R) (nw : Network) : NetworkV R :=
  { UnitList := nw.UnitList.map (NWUnit.toV val), NumInput := nw.NumInput,
    NumOutput := nw.NumOutput, Sum := [], ActLevel := [], Error := [], BackSeq := none,
    Accum := none, Momentum := none }

section Passes

variable {R : Type} [LinearOrderedField R]

/-! ## Network::ForwardPass -/

/-- The two loops of ForwardPass that test the input units of u: true when
every unit in the first NumInput entries of InputUnits has its flag set. -/
def inputsDone (u : NWUnitV R) (flags : List Bool) : Bool :=
  (List.range u.NumInput).all (fun jx => flags.getD (u.InputUnits.getD jx 0) false)

/-- The weighted sum Sum[ix] computed by ForwardPass for the unit u: the bias
weight or 0, then each ActLevel[InputUnits[jx]] * InputWgts[jx] added in turn. -/
def weightedSum (u : NWUnitV R) (ActLevel : List R) : R :=
  (List.range u.NumInput).foldl
    (fun sum jx => sum + ActLevel.getD (u.InputUnits.getD jx 0) 0 * u.InputWgts.getD jx 0)
    (if u.Bias then u.BiasWgt else 0)

/-- The activation level computed by ForwardPass from the weighted sum. -/
def activation (expf : R → R) (u : NWUnitV R) (sum : R) : R :=
  if u.Binary then (if sum > 0 then 1 else 0)
  else if u.UnitType = UNIT_OUTPUT ∧ u.Sigmoid = false then
    (if sum > 1 / 2 then 1 / 2 else (if sum < -(1 / 2) then -(1 / 2) else sum))
  else 1 / (1 + expf (-sum))

/-- The flags, buffers and counters that ForwardPass works on. -/
structure FwdState (R : Type) where
  flags : List Bool
  Sum : List R
  ActLevel : List R
  BackSeq : Option (List Nat)
  num_processed : Nat
  tot_processed : Nat

/-- Body of the first loop of ForwardPass for the index ix. -/
def fwdInit (U : List (NWUnitV R)) (st : FwdState R) (ix : Nat) : FwdState R :=
  if (U.getD ix NWUnitV.zero).UnitType = UNIT_INPUT then
    { st with
      flags := st.flags.set ix true
      tot_processed := st.tot_processed + 1
      BackSeq := st.BackSeq.map (fun b => b.set ix (U.length - (st.tot_processed + 1))) }
  else { st with flags := st.flags.set ix false }

/-- Body of the scan loop of ForwardPass for the index ix. -/
def fwdUnit (expf : R → R) (U : List (NWUnitV R)) (st : FwdState R) (ix : Nat) : FwdState R :=
  if st.flags.getD ix false = true then st
  else if inputsDone (U.getD ix NWUnitV.zero) st.flags = false then st
  else
    { flags := st.flags.set ix true
      Sum := st.Sum.set ix (weightedSum (U.getD ix NWUnitV.zero) st.ActLevel)
      ActLevel := (st.ActLevel.set ix
        (activation expf (U.getD ix NWUnitV.zero)
          (weightedSum (U.getD ix NWUnitV.zero) st.ActLevel)))
      BackSeq := st.BackSeq.map (fun b => b.set ix (U.length - (st.tot_processed + 1)))
      num_processed := st.num_processed + 1
      tot_processed := st.tot_processed + 1 }

/-- One scan over all units, with num_processed reset first. -/
def fwdSweep (expf : R → R) (U : List (NWUnitV R)) (st : FwdState R) : FwdState R :=
  (List.range U.length).foldl (fwdUnit expf U) { st with num_processed := 0 }

/-- The call memset(a, 0, n * sizeof(double)). -/
def zeroPrefix (n : Nat) (a : List R) : List R :=
  (a.take n).map (fun _ => 0) ++ a.drop n

/-- The for(;;) loop of ForwardPass; the first argument bounds the number of
scans. -/
def fwdLoop (expf : R → R) (U : List (NWUnitV R)) :
    Nat → FwdState R → Option (NWErr × FwdState R)
  | 0, _ => none
  | fuel + 1, st =>
    if (fwdSweep expf U st).tot_processed = U.length then
      some (NW_SUCCESS, fwdSweep expf U st)
    else if (fwdSweep expf U st).num_processed = 0 then
      some (NW_ERR_RECURSIVE,
        { fwdSweep expf U st with
          Sum := zeroPrefix U.length (fwdSweep expf U st).Sum
          ActLevel := zeroPrefix U.length (fwdSweep expf U st).ActLevel })
    else fwdLoop expf U fuel (fwdSweep expf U st)

/-- The state of ForwardPass after its first loop. -/
def fwdStart (net : NetworkV R) : FwdState R :=
  (List.range net.UnitList.length).foldl (fwdInit net.UnitList)
    { flags := net.UnitList.map (fun u => u.Flag1), Sum := net.Sum, ActLevel := net.ActLevel,
      BackSeq := net.BackSeq, num_processed := 0, tot_processed := 0 }

/-- Function Network::ForwardPass.  Each scan but the last flags at least one
more unit, so NumUnits scans are allowed. -/
def ForwardPass (expf : R → R) (net : NetworkV R) : Option (NWErr × NetworkV R) :=
  if net.NumUnits = 0 then some (NW_SUCCESS, net)
  else
    match fwdLoop expf net.UnitList net.NumUnits (fwdStart net) with
    | none => none
    | some (e, st) =>
      some (e, { net with
        UnitList := net.UnitList.map (fun u => { u with Flag1 := false })
        Sum := st.Sum
        ActLevel := st.ActLevel
        BackSeq := st.BackSeq })

/-! ## Network::BackwardPass -/

/-- Body of the first loop of BackwardPass for the index ix. -/
def resetError (U : List (NWUnitV R)) (Error : List R) (ix : Nat) : List R :=
  if (U.getD ix NWUnitV.zero).UnitType ≠ UNIT_OUTPUT then Error.set ix 0 else Error

/-- The loop over jx of BackwardPass that adds Error[ix] * InputWgts[jx] to the
error of each input unit of the unit u at index ix. -/
def propagate (u : NWUnitV R) (ix : Nat) (Error : List R) : List R :=
  (List.range u.NumInput).foldl
    (fun err jx => err.set (u.InputUnits.getD jx 0)
      (err.getD (u.InputUnits.getD jx 0) 0 + err.getD ix 0 * u.InputWgts.getD jx 0))
    Error

/-- Body of the scan loop of the replay for the index ix; the state is the
sequence index idx and the array Error. -/
def replayUnit (U : List (NWUnitV R)) (BackSeq : List Nat) (st : Nat × List R) (ix : Nat) :
    Nat × List R :=
  if BackSeq.getD ix 0 = st.1 then (st.1 + 1, propagate (U.getD ix NWUnitV.zero) ix st.2)
  else st

/-- One scan of the replay, from ix = NumUnits - 1 down to 0. -/
def replaySweep (U : List (NWUnitV R)) (BackSeq : List Nat) (st : Nat × List R) :
    Nat × List R :=
  (List.range U.length).reverse.foldl (replayUnit U BackSeq) st

/-- The outer loop of the replay; the first argument bounds the number of
scans. -/
def replayLoop (U : List (NWUnitV R)) (BackSeq : List Nat) :
    Nat → Nat × List R → Option (List R)
  | 0, _ => none
  | fuel + 1, st =>
    if (replaySweep U BackSeq st).1 = U.length then some (replaySweep U BackSeq st).2
    else replayLoop U BackSeq fuel (replaySweep U BackSeq st)

/-- The value basic_err of BackwardPass for the unit u. -/
def basicErr (eta : R) (u : NWUnitV R) (err act : R) : R :=
  if u.Binary = true ∨ (u.UnitType = UNIT_OUTPUT ∧ u.Sigmoid = false) then eta * err
  else eta * err * (act * (1 - act))

/-- The arrays that the weight update of one unit works on: the bias weight and
the weights of the unit, and the rows Momentum[ix] and Accum[ix]. -/
structure UnitUpd (R : Type) where
  BiasWgt : R
  InputWgts : List R
  mom : List R
  acc : List R

/-- The update of the bias weight of the unit u; useMom and useAcc tell whether
Momentum and Accum are non-null. -/
def updateBias (c basic : R) (u : NWUnitV R) (useMom useAcc : Bool) (st : UnitUpd R) :
    UnitUpd R :=
  if u.Bias = true then
    if useMom = true then
      { st with
        BiasWgt := st.BiasWgt + (basic + c * st.mom.getD u.NumInput 0)
        mom := st.mom.set u.NumInput (basic + c * st.mom.getD u.NumInput 0) }
    else if useAcc = true then
      { st with acc := st.acc.set u.NumInput (st.acc.getD u.NumInput 0 + basic) }
    else { st with BiasWgt := st.BiasWgt + basic }
  else st

/-- The update of the weight of connection jx of the unit u. -/
def updateWeight (c basic : R) (ActLevel : List R) (u : NWUnitV R) (useMom useAcc : Bool)
    (st : UnitUpd R) (jx : Nat) : UnitUpd R :=
  if useMom = true then
    { st with
      InputWgts := (st.InputWgts.set jx (st.InputWgts.getD jx 0 +
        (basic * ActLevel.getD (u.InputUnits.getD jx 0) 0 + c * st.mom.getD jx 0)))
      mom := (st.mom.set jx
        (basic * ActLevel.getD (u.InputUnits.getD jx 0) 0 + c * st.mom.getD jx 0)) }
  else if useAcc = true then
    { st with acc := (st.acc.set jx
        (st.acc.getD jx 0 + basic * ActLevel.getD (u.InputUnits.getD jx 0) 0)) }
  else
    { st with InputWgts := (st.InputWgts.set jx
        (st.InputWgts.getD jx 0 + basic * ActLevel.getD (u.InputUnits.getD jx 0) 0)) }

/-- The weight update of the unit u at index ix: bias weight first, then each
connection in turn. -/
def updateUnitArrays (eta c : R) (Error ActLevel : List R) (u : NWUnitV R) (ix : Nat)
    (useMom useAcc : Bool) (st : UnitUpd R) : UnitUpd R :=
  (List.range u.NumInput).foldl
    (updateWeight c (basicErr eta u (Error.getD ix 0) (ActLevel.getD ix 0)) ActLevel u
      useMom useAcc)
    (updateBias c (basicErr eta u (Error.getD ix 0) (ActLevel.getD ix 0)) u useMom useAcc st)

/-- Body of the last loop of BackwardPass for the index ix.  The state is the
unit table and the arrays behind Momentum and Accum (empty when the pointer is
null); useMom and useAcc tell whether Momentum and Accum are non-null. -/
def updateUnit (eta c : R) (Error ActLevel : List R) (useMom useAcc : Bool)
    (st : List (NWUnitV R) × List (List R) × List (List R)) (ix : Nat) :
    List (NWUnitV R) × List (List R) × List (List R) :=
  (st.1.set ix
      { st.1.getD ix NWUnitV.zero with
        BiasWgt := (updateUnitArrays eta c Error ActLevel (st.1.getD ix NWUnitV.zero) ix
          useMom useAcc
          { BiasWgt := (st.1.getD ix NWUnitV.zero).BiasWgt,
            InputWgts := (st.1.getD ix NWUnitV.zero).InputWgts,
            mom := st.2.1.getD ix [], acc := st.2.2.getD ix [] }).BiasWgt
        InputWgts := (updateUnitArrays eta c Error ActLevel (st.1.getD ix NWUnitV.zero) ix
          useMom useAcc
          { BiasWgt := (st.1.getD ix NWUnitV.zero).BiasWgt,
            InputWgts := (st.1.getD ix NWUnitV.zero).InputWgts,
            mom := st.2.1.getD ix [], acc := st.2.2.getD ix [] }).InputWgts },
    st.2.1.set ix
      (updateUnitArrays eta c Error ActLevel (st.1.getD ix NWUnitV.zero) ix useMom useAcc
        { BiasWgt := (st.1.getD ix NWUnitV.zero).BiasWgt,
          InputWgts := (st.1.getD ix NWUnitV.zero).InputWgts,
          mom := st.2.1.getD ix [], acc := st.2.2.getD ix [] }).mom,
    st.2.2.set ix
      (updateUnitArrays eta c Error ActLevel (st.1.getD ix NWUnitV.zero) ix useMom useAcc
        { BiasWgt := (st.1.getD ix NWUnitV.zero).BiasWgt,
          InputWgts := (st.1.getD ix NWUnitV.zero).InputWgts,
          mom := st.2.1.getD ix [], acc := st.2.2.getD ix [] }).acc)

/-- The last loop of BackwardPass, run with the propagated errors err. -/
def updateAll (eta c : R) (net : NetworkV R) (err : List R) :
    List (NWUnitV R) × List (List R) × List (List R) :=
  (List.range net.NumUnits).foldl
    (updateUnit eta c err net.ActLevel net.Momentum.isSome net.Accum.isSome)
    (net.UnitList, net.Momentum.getD [], net.Accum.getD [])

/-- The array Error after the first loop of BackwardPass. -/
def resetErrors (net : NetworkV R) : List R :=
  (List.range net.NumUnits).foldl (resetError net.UnitList) net.Error

/-- Function Network::BackwardPass.  Each scan of the replay finds at least the
next unit of the sequence, so NumUnits scans are allowed. -/
def BackwardPass (eta momentum_coeff : R) (net : NetworkV R) : Option (NWErr × NetworkV R) :=
  if net.NumUnits = 0 then some (NW_SUCCESS, net)
  else
    match net.BackSeq with
    | none => none
    | some bs =>
      match replayLoop net.UnitList bs net.NumUnits (0, resetErrors net) with
      | none => none
      | some err =>
        some (NW_SUCCESS,
          { net with
            Error := err
            UnitList := (updateAll eta momentum_coeff net err).1
            Momentum := net.Momentum.map (fun _ => (updateAll eta momentum_coeff net err).2.1)
            Accum := net.Accum.map (fun _ => (updateAll eta momentum_coeff net err).2.2) })

end Passes

section Operations

variable {R : Type} [LinearOrderedField R]

/-! ## SetupExec, SetupTrain, EndExec, EndTrain

A pointer that is freed without being reset stays non-null: in the model it
stays some, with its stale contents. -/

/-- Function Network::SetupExec. -/
def SetupExec (net : NetworkV R) : NWErr × NetworkV R :=
  if net.NumUnits = 0 then (NW_SUCCESS, net)
  else
    (NW_SUCCESS,
      { net with
        Sum := List.replicate net.NumUnits 0
        ActLevel := List.replicate net.NumUnits 0 })

/-- An array of n elements obtained from new[] without initialisation: its
contents are those of junk. -/
def freshArray {α : Type} (n : Nat) (junk : List α) (d : α) : List α :=
  (List.range n).map (fun i => junk.getD i d)

/-- The zeroed rows allocated by SetupTrain for Accum or Momentum: one slot
per connection of the unit, and one more when the unit has a bias. -/
def trainRows (U : List (NWUnitV R)) : List (List R) :=
  U.map (fun u => List.replicate (if u.Bias = true then u.NumInput + 1 else u.NumInput) 0)

/-- Function Network::SetupTrain(accumulate, momentum); errJunk and seqJunk
are the contents of the uninitialised arrays Error and BackSeq. -/
def SetupTrain (accumulate momentum : Int) (errJunk : List R) (seqJunk : List Nat)
    (net : NetworkV R) : NWErr × NetworkV R :=
  if net.NumUnits = 0 then (NW_SUCCESS, net)
  else if accumulate ≠ 0 ∧ momentum ≠ 0 then (NW_ERR_BADPARAM, net)
  else
    SetupExec
      { net with
        Error := freshArray net.NumUnits errJunk 0
        BackSeq := some (freshArray net.NumUnits seqJunk 0)
        Accum := (if accumulate ≠ 0 then some (trainRows net.UnitList) else net.Accum)
        Momentum := (if accumulate ≠ 0 then net.Momentum
          else if momentum ≠ 0 then some (trainRows net.UnitList) else net.Momentum) }

/-- Function Network::EndExec. -/
def EndExec (net : NetworkV R) : NWErr × NetworkV R :=
  (NW_SUCCESS, { net with Sum := [], ActLevel := [] })

/-- Function Network::EndTrain. -/
def EndTrain (net : NetworkV R) : NWErr × NetworkV R :=
  EndExec
    { net with
      Error := []
      BackSeq := none
      Accum := none
      Momentum := (if net.Accum.isSome = true then net.Momentum else none) }

/-! ## SetInput, ReadOutput, ApplyTarget -/

/-- The statements of SetInput and ApplyTarget that truncate a value to the
range of the unit. -/
def truncate (d : NWIODefV R) (value : R) : R :=
  if value > d.Max then d.Max else if value < d.Min then d.Min else value

/-- Function Network::SetInput.  There is no result when the unit has no I/O
definition (a null pointer is read). -/
def SetInput (net : NetworkV R) (unit : Nat) (value : R) : Option (NWErr × NetworkV R) :=
  if unit ≥ net.NumUnits then some (NW_ERR_BADPARAM, net)
  else if (net.unit unit).UnitType ≠ UNIT_INPUT then some (NW_ERR_NOTINPUT, net)
  else
    match (net.unit unit).IODef with
    | none => none
    | some d =>
      some (NW_SUCCESS,
        { net with
          Sum := net.Sum.set unit ((truncate d value - d.Min) / (d.Max - d.Min))
          ActLevel := net.ActLevel.set unit ((truncate d value - d.Min) / (d.Max - d.Min)) })

/-- Function Network::ReadOutput: the error value and the value written
through the pointer (none when nothing is written). -/
def ReadOutput (net : NetworkV R) (unit : Nat) : Option (NWErr × Option R) :=
  if unit ≥ net.NumUnits then some (NW_ERR_BADPARAM, none)
  else if (net.unit unit).UnitType ≠ UNIT_OUTPUT then some (NW_ERR_NOTOUTPUT, none)
  else
    match (net.unit unit).IODef with
    | none => none
    | some d =>
      some (NW_SUCCESS,
        some ((net.ActLevel.getD unit 0 + (if (net.unit unit).Sigmoid = false then 1 / 2 else 0))
          * (d.Max - d.Min) + d.Min))

/-- Function Network::ApplyTarget.  There is no result when the unit has no I/O
definition, or when Error or ActLevel has no element for the unit: the source
then reads or writes through a null pointer or outside the array. -/
def ApplyTarget (net : NetworkV R) (unit : Nat) (target : R) : Option (NWErr × NetworkV R) :=
  if unit ≥ net.NumUnits then some (NW_ERR_BADPARAM, net)
  else if (net.unit unit).UnitType ≠ UNIT_OUTPUT then some (NW_ERR_NOTOUTPUT, net)
  else
    match (net.unit unit).IODef with
    | none => none
    | some d =>
      if unit < net.Error.length ∧ unit < net.ActLevel.length then
        some (NW_SUCCESS,
          { net with
            Error := (net.Error.set unit
              ((truncate d target - d.Min) / (d.Max - d.Min)
                - (if (net.unit unit).Sigmoid = false then 1 / 2 else 0)
                - net.ActLevel.getD unit 0)) })
      else none

/-! ## Network::ApplyAccum -/

/-- Body of the inner loop of ApplyAccum for connection jx: the pair is the
array InputWgts and the row Accum[ix]. -/
def applyAccumWeight (st : List R × List R) (jx : Nat) : List R × List R :=
  (st.1.set jx (st.1.getD jx 0 + st.2.getD jx 0), st.2.set jx 0)

/-- The effect of the body of the outer loop of ApplyAccum on the unit u and on
its row of Accum. -/
def applyAccumArrays (u : NWUnitV R) (row : List R) : NWUnitV R × List R :=
  if u.Bias = true then
    ({ u with
        InputWgts := ((List.range u.NumInput).foldl applyAccumWeight (u.InputWgts, row)).1
        BiasWgt := u.BiasWgt
          + ((List.range u.NumInput).foldl applyAccumWeight (u.InputWgts, row)).2.getD
              u.NumInput 0 },
      ((List.range u.NumInput).foldl applyAccumWeight (u.InputWgts, row)).2.set u.NumInput 0)
  else
    ({ u with
        InputWgts := ((List.range u.NumInput).foldl applyAccumWeight (u.InputWgts, row)).1 },
      ((List.range u.NumInput).foldl applyAccumWeight (u.InputWgts, row)).2)

/-- Body of the outer loop of ApplyAccum for the index ix; the state is the
unit table and the array behind Accum. -/
def applyAccumUnit (st : List (NWUnitV R) × List (List R)) (ix : Nat) :
    List (NWUnitV R) × List (List R) :=
  (st.1.set ix (applyAccumArrays (st.1.getD ix NWUnitV.zero) (st.2.getD ix [])).1,
    st.2.set ix (applyAccumArrays (st.1.getD ix NWUnitV.zero) (st.2.getD ix [])).2)

/-- Function Network::ApplyAccum. -/
def ApplyAccum (net : NetworkV R) : NWErr × NetworkV R :=
  match net.Accum with
  | none => (NW_SUCCESS, net)
  | some a =>
    (NW_SUCCESS,
      { net with
        UnitList := ((List.range net.NumUnits).foldl applyAccumUnit (net.UnitList, a)).1
        Accum := some ((List.range net.NumUnits).foldl applyAccumUnit (net.UnitList, a)).2 })

end Operations

section Examples

variable {R : Type} [LinearOrderedField R]

/-- An Input unit (non-binary, with bias flag) without incoming connection,
with the I/O range [lo, hi]. -/
def inputUnitV (lo hi : R) : NWUnitV R :=
  { X := 0, Y := 0, NumInput := 0, UnitType := UNIT_INPUT, Binary := false, Bias := true,
    Sigmoid := true, Flag1 := false, Flag2 := false, Flag3 := false, BiasWgt := 0,
    IODef := some { Name := [105], Min := lo, Max := hi }, InputUnits := [], InputWgts := [] }

/-- The identity network: the Input unit 0 with range [lo, hi], connected with
weight 1 to the Output unit 1, which is non-binary, non-sigmoid, has no bias
and has the same range.  The buffers are those left by SetupExec. -/
def identityNet (lo hi : R) : NetworkV R :=
  { UnitList :=
      [inputUnitV lo hi,
       { X := 0, Y := 0, NumInput := 1, UnitType := UNIT_OUTPUT, Binary := false, Bias := false,
         Sigmoid := false, Flag1 := false, Flag2 := false, Flag3 := false, BiasWgt := 0,
         IODef := some { Name := [111], Min := lo, Max := hi }, InputUnits := [0],
         InputWgts := [1] }]
    NumInput := 1
    NumOutput := 1
    Sum := [0, 0]
    ActLevel := [0, 0]
    Error := []
    BackSeq := none
    Accum := none
    Momentum := none }

/-- The layered network of two Input units 0 and 1 with range [0, 1], the
Internal unit 2 fed by both and the sigmoid Output unit 3 fed by unit 2; every
connection weight is 1 and the units 2 and 3 have the bias weight 0, so that
all bias contributions are 0.  The buffers are those left by SetupExec. -/
def layeredNet : NetworkV R :=
  { UnitList :=
      [inputUnitV 0 1, inputUnitV 0 1,
       { X := 0, Y := 0, NumInput := 2, UnitType := UNIT_INTERNAL, Binary := false, Bias := true,
         Sigmoid := true, Flag1 := false, Flag2 := false, Flag3 := false, BiasWgt := 0,
         IODef := none, InputUnits := [0, 1], InputWgts := [1, 1] },
       { X := 0, Y := 0, NumInput := 1, UnitType := UNIT_OUTPUT, Binary := false, Bias := true,
         Sigmoid := true, Flag1 := false, Flag2 := false, Flag3 := false, BiasWgt := 0,
         IODef := some { Name := [111], Min := 0, Max := 1 }, InputUnits := [2],
         InputWgts := [1] }]
    NumInput := 2
    NumOutput := 1
    Sum := [0, 0, 0, 0]
    ActLevel := [0, 0, 0, 0]
    Error := []
    BackSeq := none
    Accum := none
    Momentum := none }

/-- The network without units and without buffers. -/
def NetworkV.empty : NetworkV R :=
  { UnitList := [], NumInput := 0, NumOutput := 0, Sum := [], ActLevel := [], Error := [],
    BackSeq := none, Accum := none, Momentum := none }

end Examples

section AccumDefs

variable {R : Type} [LinearOrderedField R]

/-- The rows of Accum have the shape allocated by SetupTrain: one row per
unit, one slot per connection and one more for a unit with a bias; and each
unit has NumInput weights. -/
def AccumShape (net : NetworkV R) (a : List (List R)) : Prop :=
  a.length = net.NumUnits ∧
  ∀ ix, ix < net.NumUnits →
    (net.unit ix).InputWgts.length = (net.unit ix).NumInput ∧
    (a.getD ix []).length
      = if (net.unit ix).Bias = true then (net.unit ix).NumInput + 1 else (net.unit ix).NumInput


end AccumDefs

section AccumExamples

variable {R : Type} [LinearOrderedField R]

/-- The layered network in accumulate mode, with the accumulator rows
[5], [6], [1, 2, 3] and [4, 7] (the last slot of each row is the bias slot). -/
def accumNet : NetworkV R :=
  { (layeredNet : NetworkV R) with Accum := some [[5], [6], [1, 2, 3], [4, 7]] }

end AccumExamples

section UpdateDefs

variable {R : Type} [LinearOrderedField R]

/-- The arrays of the unit ix after the body of the last loop of BackwardPass
has run for ix, from the network before the loop and the propagated errors
err. -/
def unitUpdate (eta c : R) (net : NetworkV R) (err : List R) (ix : Nat) : UnitUpd R :=
  updateUnitArrays eta c err net.ActLevel (net.unit ix) ix net.Momentum.isSome net.Accum.isSome
    { BiasWgt := (net.unit ix).BiasWgt, InputWgts := (net.unit ix).InputWgts,
      mom := (net.Momentum.getD []).getD ix [], acc := (net.Accum.getD []).getD ix [] }

/-- Every unit has NumInput weights. -/
def WeightShape (net : NetworkV R) : Prop :=
  ∀ ix, ix < net.NumUnits → (net.unit ix).InputWgts.length = (net.unit ix).NumInput

end UpdateDefs

section TrainExamples

variable {R : Type} [LinearOrderedField R]

/-- The layered network with the training buffers in place: errors 0 and the
ranks 3, 2, 1, 0 that ForwardPass gives its units. -/
def trainNet : NetworkV R :=
  { (layeredNet : NetworkV R) with Error := [0, 0, 0, 0], BackSeq := some [3, 2, 1, 0] }

/-- The network trainNet where the Output unit 3 still holds the error 1 of an
earlier example. -/
def staleErrorNet : NetworkV R :=
  { (trainNet : NetworkV R) with Error := [0, 0, 0, 1] }

/-- The network trainNet with the activation levels 1, 1/2, 1/2, 1/2 and the
error 1/4 on the Output unit 3, as ApplyTarget leaves it. -/
def errorNet : NetworkV R :=
  { (trainNet : NetworkV R) with ActLevel := [1, 1 / 2, 1 / 2, 1 / 2], Error := [0, 0, 0, 1 / 4] }

/-- The network errorNet in accumulate mode, with the accumulator rows
[5], [6], [1, 2, 3] and [4, 7] (the last slot of the rows of the units 2 and 3
is the bias slot). -/
def errorNetAccum : NetworkV R :=
  { (errorNet : NetworkV R) with Accum := some [[5], [6], [1, 2, 3], [4, 7]] }

/-- The network errorNet in momentum mode, with the rows of previous changes
[5], [6], [1, 2, 3] and [4, 7]. -/
def errorNetMomentum : NetworkV R :=
  { (errorNet : NetworkV R) with Momentum := some [[5], [6], [1, 2, 3], [4, 7]] }

end TrainExamples

section ForwardInvariants

variable {R : Type} [LinearOrderedField R]

/-- There is a connection from the unit s to the unit d of the unit table U:
s is one of the first NumInput entries of the array InputUnits of d. -/
def Connection (U : List (NWUnitV R)) (s d : Nat) : Prop :=
  d < U.length ∧
  ∃ j, j < (U.getD d NWUnitV.zero).NumInput ∧ (U.getD d NWUnitV.zero).InputUnits.getD j 0 = s

/-- A connection between two units neither of which is an Input unit. -/
def InnerConnection (U : List (NWUnitV R)) (s d : Nat) : Prop :=
  Connection U s d ∧ (U.getD s NWUnitV.zero).UnitType ≠ UNIT_INPUT ∧
  (U.getD d NWUnitV.zero).UnitType ≠ UNIT_INPUT

/-- Every connection id of the unit table is the index of a unit. -/
def IdsInRange (U : List (NWUnitV R)) : Prop :=
  ∀ s d, Connection U s d → s < U.length

/-- The connection graph has no directed cycle. -/
def Acyclic (U : List (NWUnitV R)) : Prop :=
  ∀ u, ¬ Relation.TransGen (Connection U) u u

/-- The indices below N whose processed flag is set. -/
def doneSet (N : Nat) (flags : List Bool) : Finset Nat :=
  (Finset.range N).filter (fun ix => flags.getD ix false = true)

/-- The ranks written so far: tot counts the units in done, and when BackSeq
has N elements, the units in done hold pairwise different ranks in
[N - tot, N). -/
def RankInv (N : Nat) (done : Finset Nat) (tot : Nat) (bs : Option (List Nat)) : Prop :=
  done ⊆ Finset.range N ∧ tot = done.card ∧
  ∀ b, bs = some b → b.length = N →
    (∀ ix, ix ∈ done → N - tot ≤ b.getD ix 0 ∧ b.getD ix 0 < N) ∧
    (∀ ix iy, ix ∈ done → iy ∈ done → b.getD ix 0 = b.getD iy 0 → ix = iy)

/-- The invariant of the scan loop of ForwardPass on the unit table U, started
with the buffers S0, A0 and B0. -/
structure FwdInv (expf : R → R) (U : List (NWUnitV R)) (S0 A0 : List R)
    (B0 : Option (List Nat)) (st : FwdState R) : Prop where
  flen : st.flags.length = U.length
  inflag : ∀ ix, ix < U.length → (U.getD ix NWUnitV.zero).UnitType = UNIT_INPUT →
    st.flags.getD ix false = true
  rank : RankInv U.length (doneSet U.length st.flags) st.tot_processed st.BackSeq
  srcdone : ∀ d, d < U.length → st.flags.getD d false = true →
    (U.getD d NWUnitV.zero).UnitType ≠ UNIT_INPUT →
    ∀ j, j < (U.getD d NWUnitV.zero).NumInput →
      st.flags.getD ((U.getD d NWUnitV.zero).InputUnits.getD j 0) false = true
  order : ∀ b, st.BackSeq = some b → b.length = U.length →
    ∀ d, d < U.length → st.flags.getD d false = true →
    (U.getD d NWUnitV.zero).UnitType ≠ UNIT_INPUT →
    ∀ j, j < (U.getD d NWUnitV.zero).NumInput →
      b.getD d 0 < b.getD ((U.getD d NWUnitV.zero).InputUnits.getD j 0) 0
  slen : st.Sum.length = S0.length
  alen : st.ActLevel.length = A0.length
  keep : ∀ ix, (U.length ≤ ix ∨ (U.getD ix NWUnitV.zero).UnitType = UNIT_INPUT) →
    st.Sum.getD ix 0 = S0.getD ix 0 ∧ st.ActLevel.getD ix 0 = A0.getD ix 0
  bkeep : st.BackSeq.isSome = B0.isSome ∧
    (st.BackSeq.getD []).length = (B0.getD []).length ∧
    ∀ ix, U.length ≤ ix → (st.BackSeq.getD []).getD ix 0 = (B0.getD []).getD ix 0
  val : S0.length = U.length → A0.length = U.length →
    ∀ d, d < U.length → st.flags.getD d false = true →
    (U.getD d NWUnitV.zero).UnitType ≠ UNIT_INPUT →
      st.Sum.getD d 0 = weightedSum (U.getD d NWUnitV.zero) st.ActLevel ∧
      st.ActLevel.getD d 0 = activation expf (U.getD d NWUnitV.zero) (st.Sum.getD d 0)

/-- Two runs of the scan loop at the same point: the same flags and counters,
and the same buffer entries at every flagged unit. -/
structure FwdSim (U : List (NWUnitV R)) (s1 s2 : FwdState R) : Prop where
  flags : s1.flags = s2.flags
  tot : s1.tot_processed = s2.tot_processed
  num : s1.num_processed = s2.num_processed
  slen : s1.Sum.length = s2.Sum.length
  alen : s1.ActLevel.length = s2.ActLevel.length
  bsome : s1.BackSeq.isSome = s2.BackSeq.isSome
  blen : (s1.BackSeq.getD []).length = (s2.BackSeq.getD []).length
  agree : ∀ ix, ix < U.length → s1.flags.getD ix false = true →
    s1.Sum.getD ix 0 = s2.Sum.getD ix 0 ∧ s1.ActLevel.getD ix 0 = s2.ActLevel.getD ix 0 ∧
    (s1.BackSeq.getD []).getD ix 0 = (s2.BackSeq.getD []).getD ix 0

end ForwardInvariants

section ForwardLoopDefs

variable {R : Type} [LinearOrderedField R]

/-- A property of the scan state that each step of the scan keeps, and that
does not depend on num_processed. -/
def ScanStable (expf : R → R) (U : List (NWUnitV R)) (P : FwdState R → Prop) : Prop :=
  (∀ s, P s → P { s with num_processed := 0 }) ∧
  (∀ s k, k < U.length → P s → P (fwdUnit expf U s k))

/-- The unit x lies on a directed cycle all of whose units are non-Input
units. -/
def OnCycle (U : List (NWUnitV R)) (x : Nat) : Prop :=
  Relation.TransGen (InnerConnection U) x x

/-- No unit on a cycle of non-Input units is flagged. -/
def CycleInv (U : List (NWUnitV R)) (st : FwdState R) : Prop :=
  ∀ x, OnCycle U x → st.flags.getD x false ≠ true

end ForwardLoopDefs

section CycleExample

variable {R : Type} [LinearOrderedField R]

/-- A network with a cycle: the Input unit 0 and the Internal units 1 and 2,
with the connections 0 -> 1, 2 -> 1 and 1 -> 2, all of weight 1.  The buffers
are those left by SetupExec followed by SetInput(0, 1). -/
def cycleNet : NetworkV R :=
  { UnitList :=
      [inputUnitV 0 1,
       { X := 0, Y := 0, NumInput := 2, UnitType := UNIT_INTERNAL, Binary := false, Bias := true,
         Sigmoid := true, Flag1 := false, Flag2 := false, Flag3 := false, BiasWgt := 0,
         IODef := none, InputUnits := [0, 2], InputWgts := [1, 1] },
       { X := 0, Y := 0, NumInput := 1, UnitType := UNIT_INTERNAL, Binary := false, Bias := true,
         Sigmoid := true, Flag1 := false, Flag2 := false, Flag3 := false, BiasWgt := 0,
         IODef := none, InputUnits := [1], InputWgts := [1] }]
    NumInput := 1
    NumOutput := 0
    Sum := [1, 0, 0]
    ActLevel := [1, 0, 0]
    Error := []
    BackSeq := none
    Accum := none
    Momentum := none }

end CycleExample

section ReplayTrace

/-- The rank replay of BackwardPass with a record of its finds: the test and
the update of the sequence index idx are those of the scan loop; the second
component lists the units for which the test BackSeq[ix] == idx succeeded, in
the order in which they were found. -/
def replayFind (BackSeq : List Nat) (st : Nat × List Nat) (ix : Nat) : Nat × List Nat :=
  if BackSeq.getD ix 0 = st.1 then (st.1 + 1, st.2 ++ [ix]) else st

/-- One scan of the replay with the record of finds, from ix = N - 1 down to 0. -/
def replayFindSweep (BackSeq : List Nat) (N : Nat) (st : Nat × List Nat) : Nat × List Nat :=
  (List.range N).reverse.foldl (replayFind BackSeq) st

/-- The outer loop of the replay with the record of finds; the first argument
bounds the number of scans. -/
def replayFindLoop (BackSeq : List Nat) (N : Nat) : Nat → Nat × List Nat → Option (List Nat)
  | 0, _ => none
  | fuel + 1, st =>
    if (replayFindSweep BackSeq N st).1 = N then some (replayFindSweep BackSeq N st).2
    else replayFindLoop BackSeq N fuel (replayFindSweep BackSeq N st)

end ReplayTrace

/-- The values returned by n successive calls of Rand32, first call first. -/
def drawList (M : DataModel) : Nat → RandState → List Nat
  | 0, _ => []
  | n + 1, g => (Rand32 M g).1 :: drawList M n (Rand32 M g).2

/-- The statement seed *= 4226497; seed++ of Randomize32. -/
def nextSeed (M : DataModel) (s : Nat) : Nat := (s * 4226497 % M.ulongMod + 1) % M.ulongMod

/-- The value returned by the n-th call of Rand32 (n = 1 for the first call)
when the generator starts in the state g. -/
def nthDraw (M : DataModel) (g : RandState) (n : Nat) : Nat :=
  (drawList M n g).getD (n - 1) 0

/-! ## The example selection of the training driver (train.c) -/

/-- The loop while(touched[l]) l++ of train.c.  The first argument bounds the
number of iterations; an entry outside the array reads as FALSE. -/
def skipLoop (touched : List Bool) : Nat → Nat → Nat
  | 0, l => l
  | fuel + 1, l => if touched.getD l false = true then skipLoop touched fuel (l + 1) else l

/-- The loop while(touched[l]) l++, started at l: at most as many iterations
as the array has entries. -/
def skipTouched (touched : List Bool) (l : Nat) : Nat :=
  skipLoop touched touched.length l

/-- The loop for(l = 0; k >= 0; k--) { while(touched[l]) l++; } of train.c,
with the current values of k and l. -/
def pickLoop (touched : List Bool) : Nat → Nat → Nat
  | 0, l => skipTouched touched l
  | k + 1, l => pickLoop touched k (skipTouched touched l)

/-- The example selected for the value k of Rand32() % (data_cnt - j). -/
def pick (touched : List Bool) (k : Nat) : Nat := pickLoop touched k 0

/-- The variables of the selection loop: the array touched, the generator
statics, and the examples presented so far, first one first. -/
structure TrainSel where
  touched : List Bool
  rnd : RandState
  order : List Nat

/-- Body of the loop over j of train.c, as far as the selection goes: the draw,
the pick, and the mark in touched. -/
def selectStep (M : DataModel) (data_cnt : Nat) (st : TrainSel) (j : Nat) : TrainSel :=
  { touched := st.touched.set (pick st.touched ((Rand32 M st.rnd).1 % (data_cnt - j))) true
    rnd := (Rand32 M st.rnd).2
    order := st.order ++ [pick st.touched ((Rand32 M st.rnd).1 % (data_cnt - j))] }

/-- One training iteration over data_cnt examples, started with the generator
statics g and touched all FALSE (as memset leaves it). -/
def selectIteration (M : DataModel) (data_cnt : Nat) (g : RandState) : TrainSel :=
  (List.range data_cnt).foldl (selectStep M data_cnt)
    { touched := List.replicate data_cnt false, rnd := g, order := [] }

section ErrorPropagationDefs

variable {R : Type} [LinearOrderedField R]

/-- The error that the unit d passes to the unit u along its connections from
u: the sum over the connections jx of d whose source is u of E[d] * weight jx. -/
def contribution (U : List (NWUnitV R)) (E : List R) (d u : Nat) : R :=
  ((List.range (U.getD d NWUnitV.zero).NumInput).map
    (fun jx => if (U.getD d NWUnitV.zero).InputUnits.getD jx 0 = u
      then E.getD d 0 * (U.getD d NWUnitV.zero).InputWgts.getD jx 0 else 0)).sum

/-- The sum over all connections u -> d of the unit table of E[d] times the
weight of the connection. -/
def downstreamSum (U : List (NWUnitV R)) (E : List R) (u : Nat) : R :=
  ((List.range U.length).map (fun d => contribution U E d u)).sum

/-- The step of the replay for the unit d: its error is passed to its input
units. -/
def replayStep (U : List (NWUnitV R)) (E : List R) (d : Nat) : List R :=
  propagate (U.getD d NWUnitV.zero) d E

/-- A network with a connection into an Input unit: the chain
0 -> 1 -> 2 -> 3 with the Input units 0 and 2, the Internal unit 1 and the
Output unit 3, every weight 1.  The buffers are those left by SetupTrain. -/
def inputFedNet : NetworkV R :=
  { UnitList :=
      [inputUnitV 0 1,
       { X := 0, Y := 0, NumInput := 1, UnitType := UNIT_INTERNAL, Binary := false, Bias := false,
         Sigmoid := true, Flag1 := false, Flag2 := false, Flag3 := false, BiasWgt := 0,
         IODef := none, InputUnits := [0], InputWgts := [1] },
       { X := 0, Y := 0, NumInput := 1, UnitType := UNIT_INPUT, Binary := false, Bias := false,
         Sigmoid := true, Flag1 := false, Flag2 := false, Flag3 := false, BiasWgt := 0,
         IODef := some { Name := [105], Min := 0, Max := 1 }, InputUnits := [1],
         InputWgts := [1] },
       { X := 0, Y := 0, NumInput := 1, UnitType := UNIT_OUTPUT, Binary := false, Bias := false,
         Sigmoid := true, Flag1 := false, Flag2 := false, Flag3 := false, BiasWgt := 0,
         IODef := some { Name := [111], Min := 0, Max := 1 }, InputUnits := [2],
         InputWgts := [1] }]
    NumInput := 2
    NumOutput := 1
    Sum := [0, 0, 0, 0]
    ActLevel := [0, 0, 0, 0]
    Error := [0, 0, 0, 0]
    BackSeq := some [0, 0, 0, 0]
    Accum := none
    Momentum := none }

end ErrorPropagationDefs

/-! ## Network::Save and Network::Open

A file is the list of its bytes.  A handle is a file with a position; the file
behind the path p is the one file of the model.

* The layouts are those of the common compilers for the two data models:
  struct NWFileHdr is MagicNum (2 bytes), padding up to the alignment of
  unsigned long, NumUnits, the 250 reserved bytes and padding up to the size
  of the struct (260 bytes under ILP32, 272 under LP64); struct NWFileUnit is
  X, Y, NumInput, the 4-byte word of the bit-fields (Type in the bits 0 and 1,
  Binary in bit 2, Bias in bit 3, Sigmoid in bit 4), padding up to the
  alignment of double, and BiasWgt (24 bytes under ILP32, 40 under LP64).
* Save clears hdr with memset, but not the variable unit: the 27 bits of the
  bit-field word that belong to no field and the padding bytes of unit hold
  what the stack held.  They are the parameters jbits and jpad.
* The source calls no file positioning function: a write through a handle
  takes place at the position of the handle, behind the bytes read.
* fopen and fwrite do not fail.  Allocation does not fail, except for the
  array of a negative number of characters.
* Save has no result (none) when it reads outside an object: a null IODef, a
  negative byte count for the name, or an array shorter than NumInput.
* After an error inside its loop, Open runs a cleanup loop over the units
  built so far, the current one included, which reads units[ix]->IODef->Name
  without a null check.  Open has no result (none) when this loop reads
  through a null pointer (units[ix] after a short read of unit_def, IODef of
  an Internal unit) or deletes the pointer Name before it was assigned. -/

/-- The call fread(buf, 1, n, handle) on the bytes bs that follow the position
of the handle: the n bytes read and the bytes that follow them, or none for a
short read. -/
def fread (n : Nat) (bs : List Nat) : Option (List Nat × List Nat) :=
  if bs.length < n then none else some (bs.take n, bs.drop n)

/-- The member of len bytes at the offset off of the object with the bytes
bs. -/
def readField (bs : List Nat) (off len : Nat) : Nat :=
  bytesWord ((bs.drop off).take len)

/-- Value of sizeof(NWFileHdr). -/
def sizeofNWFileHdr (M : DataModel) : Nat := 3 * M.sizeofULong + 248

/-- Value of sizeof(NWFileUnit). -/
def sizeofNWFileUnit (M : DataModel) : Nat := 4 * M.sizeofULong + 8

/-- The bytes of the variable hdr of Save after memset and the two
assignments, for NumUnits = n. -/
def hdrBytes (M : DataModel) (n : Nat) : List Nat :=
  wordBytes 2 0x574E ++ (List.replicate (M.sizeofULong - 2) 0 ++ (wordBytes M.sizeofULong n ++
    (List.replicate 250 0 ++ List.replicate (M.sizeofULong - 2) 0)))

/-- The value of a one-bit field. -/
def bitOf (b : Bool) : Nat := if b = true then 1 else 0

/-- The word of the bit-fields of the variable unit of Save after the
assignments from the unit u. -/
def bitfieldWord (jbits : Nat) (u : NWUnit) : Nat :=
  u.UnitType % 4 + 4 * bitOf u.Binary + 8 * bitOf u.Bias + 16 * bitOf u.Sigmoid
    + 32 * (jbits % 2 ^ 27)

/-- The bytes of the variable unit of Save after the assignments from the unit
u. -/
def unitBytes (M : DataModel) (jbits jpad : Nat) (u : NWUnit) : List Nat :=
  wordBytes M.sizeofULong u.X ++ (wordBytes M.sizeofULong u.Y ++
    (wordBytes M.sizeofULong u.NumInput ++ (wordBytes 4 (bitfieldWord jbits u) ++
      (wordBytes (M.sizeofULong - 4) jpad ++ wordBytes sizeofDouble u.BiasWgt))))

/-- The value of strlen for the string with the characters name in memory,
followed by the terminator. -/
def strlen (name : List Nat) : Nat := (name.takeWhile (fun c => decide (c ≠ 0))).length

/-- The bytes that Save writes for the I/O definition d: the short word, word
bytes of the name, Min and Max. -/
def saveIODef (d : NWIODef) : Option (List Nat) :=
  if (strlen d.Name + 1) % 65536 ≥ 32768 then none
  else
    some (wordBytes 2 ((strlen d.Name + 1) % 65536) ++
      ((toBytes 1 (d.Name ++ [0])).take ((strlen d.Name + 1) % 65536) ++
        (wordBytes sizeofDouble d.Min ++ wordBytes sizeofDouble d.Max)))

/-- The bytes that the body of the loop of Save writes for the unit u. -/
def saveUnit (M : DataModel) (jbits jpad : Nat) (u : NWUnit) : Option (List Nat) :=
  match (if u.UnitType % 4 ≠ UNIT_INTERNAL then
      (match u.IODef with
        | none => none
        | some d => saveIODef d)
    else some []) with
  | none => none
  | some io =>
    if u.NumInput > 0 then
      if u.InputUnits.length < u.NumInput ∨ u.InputWgts.length < u.NumInput then none
      else
        some (unitBytes M jbits jpad u ++ (io ++
          (toBytes M.sizeofULong (u.InputUnits.take u.NumInput) ++
            toBytes sizeofDouble (u.InputWgts.take u.NumInput))))
    else some (unitBytes M jbits jpad u ++ (io ++ []))

/-- The bytes that the loop of Save writes for the units us. -/
def saveUnits (M : DataModel) (jbits jpad : Nat) : List NWUnit → Option (List Nat)
  | [] => some []
  | u :: us =>
    match saveUnit M jbits jpad u, saveUnits M jbits jpad us with
    | some a, some b => some (a ++ b)
    | _, _ => none

/-- The bytes that Save writes through its handle: the header and the
units. -/
def saveImage (M : DataModel) (jbits jpad : Nat) (nw : Network) : Option (List Nat) :=
  (saveUnits M jbits jpad nw.UnitList).map (fun bs => hdrBytes M nw.NumUnits ++ bs)

/-- The file with the bytes bs written at the position pos. -/
def writeAt (content : List Nat) (pos : Nat) (bs : List Nat) : List Nat :=
  content.take pos ++ (bs ++ content.drop (pos + bs.length))

/-- Function Network::Save.  The argument Handle is the member Handle: none
for NULL, else the file behind it and its position.  The argument file is
none for NULL; for a file name it is the file to write, which fopen with the
mode w+ truncates.  The result is the error value and the member Handle after
the call, with the file behind it. -/
def Save (M : DataModel) (jbits jpad : Nat) (nw : Network) (Handle : Option (List Nat × Nat))
    (file : Option Unit) : Option (NWErr × Option (List Nat × Nat)) :=
  if file = none ∧ Handle = none then some (NW_ERR_NOFILEOPEN, Handle)
  else
    match saveImage M jbits jpad nw with
    | none => none
    | some bs =>
      match (if file ≠ none then some (([] : List Nat), 0) else Handle) with
      | none => none
      | some handle =>
        some (NW_SUCCESS, some (writeAt handle.1 handle.2 bs, handle.2 + bs.length))

/-- The part of the loop of Open that reads an I/O definition.  An error is
none where the cleanup loop of Open then deletes the pointer Name of the new
NWIODef before any value was assigned to it. -/
def readIODef (bs : List Nat) : Except (Option NWErr) (NWIODef × List Nat) :=
  match fread 2 bs with
  | none => .error none
  | some (word, bs1) =>
    if bytesWord word ≥ 32768 then .error (some NW_ERR_MEMORY)
    else
      match fread (bytesWord word) bs1 with
      | none => .error (some NW_ERR_READING)
      | some (name, bs2) =>
        match fread sizeofDouble bs2 with
        | none => .error (some NW_ERR_READING)
        | some (min, bs3) =>
          match fread sizeofDouble bs3 with
          | none => .error (some NW_ERR_READING)
          | some (max, bs4) =>
            .ok ({ Name := name.takeWhile (fun c => decide (c ≠ 0)), Min := bytesWord min,
                   Max := bytesWord max }, bs4)

/-- The part of the loop of Open that reads the n connections of a unit: none
for a short read. -/
def readInputs (M : DataModel) (n : Nat) (bs : List Nat) :
    Option ((List Nat × List Nat) × List Nat) :=
  match fread (n * M.sizeofULong % M.ulongMod) bs with
  | none => none
  | some (units, bs1) =>
    match fread (n * sizeofDouble % M.ulongMod) bs1 with
    | none => none
    | some (wgts, bs2) =>
      some ((fromBytes M.sizeofULong n units, fromBytes sizeofDouble n wgts), bs2)

/-- The body of the loop of Open: the unit read and the bytes that follow it.
An error is none where the cleanup loop of Open reads through a null pointer
for this unit: units[ix] is null when the read of unit_def fails, and the
pointer IODef of an Internal unit is null. -/
def readUnit (M : DataModel) (bs : List Nat) : Except (Option NWErr) (NWUnit × List Nat) :=
  match fread (sizeofNWFileUnit M) bs with
  | none => .error none
  | some (unit_def, bs1) =>
    match (if readField unit_def (3 * M.sizeofULong) 4 % 4 ≠ UNIT_INTERNAL then
        (match readIODef bs1 with
          | .error e => .error e
          | .ok (d, bs2) => .ok (some d, bs2))
      else (.ok (none, bs1) : Except (Option NWErr) (Option NWIODef × List Nat))) with
    | .error e => .error e
    | .ok (iodef, bs2) =>
      match (if readField unit_def (2 * M.sizeofULong) M.sizeofULong > 0 then
          readInputs M (readField unit_def (2 * M.sizeofULong) M.sizeofULong) bs2
        else some (([], []), bs2)) with
      | none => .error (if iodef = none then none else some NW_ERR_READING)
      | some (inputs, bs3) =>
        .ok ({ NWUnit.zero with
                IODef := iodef
                X := readField unit_def 0 M.sizeofULong
                Y := readField unit_def M.sizeofULong M.sizeofULong
                NumInput := readField unit_def (2 * M.sizeofULong) M.sizeofULong
                UnitType := readField unit_def (3 * M.sizeofULong) 4 % 4
                Binary := decide (readField unit_def (3 * M.sizeofULong) 4 / 4 % 2 = 1)
                Sigmoid := decide (readField unit_def (3 * M.sizeofULong) 4 / 16 % 2 = 1)
                Bias := decide (readField unit_def (3 * M.sizeofULong) 4 / 8 % 2 = 1)
                BiasWgt := readField unit_def (4 * M.sizeofULong) sizeofDouble
                InputUnits := inputs.1
                InputWgts := inputs.2 }, bs3)

/-- The loop of Open over n units.  After an error at a later unit the cleanup
loop comes back to the unit u read here and reads u.IODef->Name: the error
becomes none when u has no I/O definition. -/
def readUnits (M : DataModel) :
    Nat → List Nat → Except (Option NWErr) (List NWUnit × List Nat)
  | 0, bs => .ok ([], bs)
  | n + 1, bs =>
    match readUnit M bs with
    | .error e => .error e
    | .ok (u, bs1) =>
      match readUnits M n bs1 with
      | .error e => .error (if u.IODef = none then none else e)
      | .ok (us, bs2) => .ok (u :: us, bs2)

/-- Function Network::Open on the file with the bytes file, called for the
network nw.  The result is the error value, the network after the call and,
after NW_SUCCESS, the position of the member Handle, which stays open on the
file (0 after an error, where the handle is closed).  There is no result
(none) when the cleanup loop after an error inside the loop reads through a
null or uninitialised pointer. -/
def Open (M : DataModel) (nw : Network) (file : List Nat) : Option (NWErr × Network × Nat) :=
  match fread (sizeofNWFileHdr M) file with
  | none => some (NW_ERR_READING, (if nw.NumUnits ≠ 0 then Network.empty else nw), 0)
  | some (hdr, bs1) =>
    if readField hdr 0 2 ≠ 0x574E then
      some (NW_ERR_BADFILE, (if nw.NumUnits ≠ 0 then Network.empty else nw), 0)
    else
      match readUnits M (readField hdr M.sizeofULong M.sizeofULong) bs1 with
      | .error none => none
      | .error (some e) => some (e, (if nw.NumUnits ≠ 0 then Network.empty else nw), 0)
      | .ok (units, bs2) =>
        some (NW_SUCCESS,
          { UnitList := units
            UnitSpace := (readField hdr M.sizeofULong M.sizeofULong + 512) % M.ulongMod
            NumInput := units.countP (fun u => decide (u.UnitType = UNIT_INPUT)) % M.ulongMod
            NumOutput := units.countP (fun u => decide (u.UnitType = UNIT_OUTPUT)) % M.ulongMod },
          file.length - bs2.length)

/-- The unit u as Open builds it: the three flags are cleared by memset. -/
def NWUnit.stored (u : NWUnit) : NWUnit :=
  { u with Flag1 := false, Flag2 := false, Flag3 := false }

/-- A unit that Save can write and Open can read back: each member holds a
value of its C type, both arrays have NumInput elements and fit into the
address space, a unit has an I/O definition exactly when it is not an Internal
unit, and the name is a C string of fewer than 32767 characters. -/
def StorableUnit (M : DataModel) (u : NWUnit) : Prop :=
  UnitWF M u ∧ u.X < M.ulongMod ∧ u.Y < M.ulongMod ∧ u.NumInput < M.ulongMod ∧
  u.NumInput * sizeofDouble < M.ulongMod ∧ u.UnitType < 4 ∧ u.BiasWgt < 256 ^ sizeofDouble ∧
  (u.IODef = none ↔ u.UnitType = UNIT_INTERNAL) ∧
  ∀ d, u.IODef = some d →
    d.Name.length < 32767 ∧ (∀ c ∈ d.Name, 0 < c ∧ c < 256) ∧
    d.Min < 256 ^ sizeofDouble ∧ d.Max < 256 ^ sizeofDouble

/-- A network of storable units whose counters hold the numbers of Input and
Output units. -/
def Storable (M : DataModel) (nw : Network) : Prop :=
  nw.NumUnits < M.ulongMod ∧ (∀ u ∈ nw.UnitList, StorableUnit M u) ∧
  nw.NumInput = nw.countType UNIT_INPUT ∧ nw.NumOutput = nw.countType UNIT_OUTPUT

/-- The network of the Input unit 0 with the name "i" and the range from -1.0
to 1.0 and of the Internal unit 1 with a bias and the connection from unit 0
of weight 2.0. -/
def storedNet : Network :=
  { UnitList :=
      [{ X := 3, Y := 4, NumInput := 0, UnitType := UNIT_INPUT, Binary := false, Bias := false,
         Sigmoid := true, Flag1 := false, Flag2 := false, Flag3 := false, BiasWgt := dblOne,
         IODef := some { Name := [105], Min := minusOne, Max := dblOne }, InputUnits := [],
         InputWgts := [] },
       { X := 5, Y := 6, NumInput := 1, UnitType := UNIT_INTERNAL, Binary := false, Bias := true,
         Sigmoid := true, Flag1 := false, Flag2 := false, Flag3 := false, BiasWgt := dblOne,
         IODef := none, InputUnits := [0], InputWgts := [dblTwo] }]
    UnitSpace := 512
    NumInput := 1
    NumOutput := 0 }

/-- The network storedNet after a change of the bias weight of unit 1 from 1.0
to 2.0. -/
def changedNet : Network :=
  { UnitList :=
      [{ X := 3, Y := 4, NumInput := 0, UnitType := UNIT_INPUT, Binary := false, Bias := false,
         Sigmoid := true, Flag1 := false, Flag2 := false, Flag3 := false, BiasWgt := dblOne,
         IODef := some { Name := [105], Min := minusOne, Max := dblOne }, InputUnits := [],
         InputWgts := [] },
       { X := 5, Y := 6, NumInput := 1, UnitType := UNIT_INTERNAL, Binary := false, Bias := true,
         Sigmoid := true, Flag1 := false, Flag2 := false, Flag3 := false, BiasWgt := dblTwo,
         IODef := none, InputUnits := [0], InputWgts := [dblTwo] }]
    UnitSpace := 514
    NumInput := 1
    NumOutput := 0 }

/-! ## Lemmas on byte images, memmove and realloc -/

theorem length_wordBytes (W x : Nat) : (wordBytes W x).length = W := by
  induction W generalizing x with
  | zero => rfl
  | succ W ih => simp [wordBytes, ih]

theorem bytesWord_wordBytes (W x : Nat) : bytesWord (wordBytes W x) = x % 256 ^ W := by
  induction W generalizing x with
  | zero => simp [wordBytes, bytesWord, Nat.mod_one]
  | succ W ih =>
    simp only [wordBytes, bytesWord, ih]
    rw [pow_succ, mul_comm (256 ^ W) 256, Nat.mod_mul]

theorem length_toBytes (W : Nat) (a : List Nat) : (toBytes W a).length = W * a.length := by
  induction a with
  | nil => rfl
  | cons x xs ih => simp [toBytes, length_wordBytes, ih, Nat.mul_succ, Nat.add_comm]

theorem toBytes_append (W : Nat) (a b : List Nat) :
    toBytes W (a ++ b) = toBytes W a ++ toBytes W b := by
  induction a with
  | nil => rfl
  | cons x xs ih => simp [toBytes, ih]

theorem take_toBytes (W : Nat) (a : List Nat) (i : Nat) :
    (toBytes W a).take (W * i) = toBytes W (a.take i) := by
  induction a generalizing i with
  | nil => simp [toBytes]
  | cons x xs ih =>
    cases i with
    | zero => simp [toBytes]
    | succ i =>
      have h : W * (i + 1) = (wordBytes W x).length + W * i := by
        rw [length_wordBytes]; ring
      simp only [toBytes, List.take_succ_cons]
      rw [h, List.take_append, ih]

theorem drop_toBytes (W : Nat) (a : List Nat) (i : Nat) :
    (toBytes W a).drop (W * i) = toBytes W (a.drop i) := by
  induction a generalizing i with
  | nil => simp [toBytes]
  | cons x xs ih =>
    cases i with
    | zero => simp [toBytes]
    | succ i =>
      have h : W * (i + 1) = (wordBytes W x).length + W * i := by
        rw [length_wordBytes]; ring
      simp only [toBytes, List.drop_succ_cons]
      rw [h, List.drop_append, ih]

theorem fromBytes_toBytes (W : Nat) (a rest : List Nat) (h : ∀ x ∈ a, x < 256 ^ W) :
    fromBytes W a.length (toBytes W a ++ rest) = a := by
  induction a with
  | nil => rfl
  | cons x xs ih =>
    have hx : x < 256 ^ W := h x (List.mem_cons_self _ _)
    have hxs : ∀ y ∈ xs, y < 256 ^ W := fun y hy => h y (List.mem_cons_of_mem _ hy)
    have e1 : (wordBytes W x ++ toBytes W xs ++ rest).take W = wordBytes W x := by
      rw [List.append_assoc, List.take_append_of_le_length (by rw [length_wordBytes])]
      rw [List.take_of_length_le (by rw [length_wordBytes])]
    have e2 : (wordBytes W x ++ toBytes W xs ++ rest).drop W = toBytes W xs ++ rest := by
      rw [List.append_assoc, List.drop_append_of_le_length (by rw [length_wordBytes])]
      rw [List.drop_of_length_le (by rw [length_wordBytes])]
      rfl
    simp only [List.length_cons, fromBytes, toBytes]
    rw [e1, e2, ih hxs, bytesWord_wordBytes, Nat.mod_eq_of_lt hx]

/-- A memmove whose byte count is a whole number k of elements moves k elements. -/
theorem memmove_elems (W : Nat) (a : List Nat) (dst src k : Nat)
    (hb : ∀ x ∈ a, x < 256 ^ W) (hs : src + k ≤ a.length) (hd : dst + k ≤ a.length) :
    memmove W a dst src (k * W) = a.take dst ++ ((a.drop src).take k ++ a.drop (dst + k)) := by
  unfold memmove memmoveBytes
  have e : W * dst + k * W = W * (dst + k) := by ring
  rw [e, take_toBytes, drop_toBytes, drop_toBytes, mul_comm k W, take_toBytes,
    ← toBytes_append, ← toBytes_append]
  have hl : (a.take dst ++ ((a.drop src).take k ++ a.drop (dst + k))).length = a.length := by
    simp only [List.length_append, List.length_take, List.length_drop]
    omega
  have := fromBytes_toBytes W (a.take dst ++ ((a.drop src).take k ++ a.drop (dst + k))) [] (by
    intro x hx
    simp only [List.mem_append] at hx
    rcases hx with hx | hx | hx
    · exact hb x (List.mem_of_mem_take hx)
    · exact hb x (List.mem_of_mem_drop (List.mem_of_mem_take hx))
    · exact hb x (List.mem_of_mem_drop hx))
  rw [hl, List.append_nil] at this
  exact this

theorem set_take_succ (l r : List Nat) (ix v : Nat) (h : ix < l.length) :
    (l.take (ix + 1) ++ r).set ix v = l.take ix ++ v :: r := by
  induction l generalizing ix with
  | nil => simp at h
  | cons x xs ih =>
    cases ix with
    | zero => simp
    | succ i =>
      have hi : i < xs.length := by simpa using h
      simp only [List.take_succ_cons, List.cons_append, List.set_cons_succ, ih i hi]

theorem realloc_grow (a : List Nat) : realloc a (a.length + 1) = a ++ [0] := by
  unfold realloc
  rw [List.take_of_length_le (by omega)]
  simp

theorem realloc_shrink (a : List Nat) (n : Nat) (h : n ≤ a.length) : realloc a n = a.take n := by
  unfold realloc
  have : n - a.length = 0 := by omega
  simp [this]

/-- The growth, shift and store of CreateConnection insert the value at index ix. -/
theorem insert_elems (W : Nat) (a : List Nat) (ix v : Nat)
    (hb : ∀ x ∈ a, x < 256 ^ W) (hix : ix ≤ a.length) :
    (memmove W (realloc a (a.length + 1)) (ix + 1) ix ((a.length - ix) * W)).set ix v
      = a.take ix ++ v :: a.drop ix := by
  rw [realloc_grow]
  have hb1 : ∀ x ∈ a ++ [0], x < 256 ^ W := by
    intro x hx
    rcases List.mem_append.1 hx with hx | hx
    · exact hb x hx
    · have : x = 0 := by simpa using hx
      subst this
      exact Nat.pos_of_ne_zero (pow_ne_zero _ (by decide))
  rw [memmove_elems W (a ++ [0]) (ix + 1) ix (a.length - ix) hb1 (by simp; omega) (by simp; omega)]
  have e1 : (a ++ [0]).drop (ix + 1 + (a.length - ix)) = [] := by
    apply List.drop_of_length_le
    simp; omega
  have e2 : ((a ++ [0]).drop ix).take (a.length - ix) = a.drop ix := by
    rw [List.drop_append_of_le_length hix, List.take_append_of_le_length (by simp)]
    rw [List.take_of_length_le (by simp)]
  rw [e1, e2, List.append_nil]
  exact set_take_succ (a ++ [0]) (a.drop ix) ix v (by simp; omega) |>.trans (by
    rw [List.take_append_of_le_length hix])

theorem scanInputs_some (source : Nat) (l : List Nat) (k ix j : Nat)
    (h : scanInputs source l k ix = some j) :
    ix ≤ j ∧ j ≤ ix + k ∧ (∀ i, ix ≤ i → i < j → l.getD i 0 < source) ∧
      (j < ix + k → source < l.getD j 0) := by
  induction k generalizing ix with
  | zero =>
    simp only [scanInputs, Option.some.injEq] at h
    subst h
    exact ⟨le_refl _, le_refl _, fun i h1 h2 => absurd h2 (by omega), fun h => absurd h (by omega)⟩
  | succ k ih =>
    simp only [scanInputs] at h
    split at h
    · exact absurd h (by simp)
    · split at h
      · simp only [Option.some.injEq] at h
        subst h
        exact ⟨le_refl _, by omega, fun i h1 h2 => absurd h2 (by omega), fun _ => by assumption⟩
      · obtain ⟨h1, h2, h3, h4⟩ := ih (ix + 1) h
        refine ⟨by omega, by omega, ?_, fun hj => h4 (by omega)⟩
        intro i hi hij
        rcases Nat.eq_or_lt_of_le hi with e | e
        · subst e; omega
        · exact h3 i e hij

theorem scanInputs_none (source : Nat) (l : List Nat) (k ix : Nat)
    (h : scanInputs source l k ix = none) :
    ∃ j, ix ≤ j ∧ j < ix + k ∧ l.getD j 0 = source := by
  induction k generalizing ix with
  | zero => simp [scanInputs] at h
  | succ k ih =>
    simp only [scanInputs] at h
    split at h
    · exact ⟨ix, le_refl _, by omega, by assumption⟩
    · split at h
      · exact absurd h (by simp)
      · obtain ⟨j, h1, h2, h3⟩ := ih (ix + 1) h
        exact ⟨j, by omega, by omega, h3⟩

theorem scanInputs_found (source : Nat) (l : List Nat) (k ix j : Nat)
    (hlt : ∀ i, ix ≤ i → i < j → l.getD i 0 < source) (hj : l.getD j 0 = source)
    (h1 : ix ≤ j) (h2 : j < ix + k) : scanInputs source l k ix = none := by
  induction k generalizing ix with
  | zero => omega
  | succ k ih =>
    simp only [scanInputs]
    rcases Nat.eq_or_lt_of_le h1 with e | e
    · subst e; rw [if_pos hj]
    · have hlt1 := hlt ix (le_refl _) e
      rw [if_neg (by omega), if_neg (by omega)]
      exact ih (ix + 1) (fun i hi hij => hlt i (by omega) hij) e (by omega)

theorem unit_set_self (nw : Network) (d : Nat) (u : NWUnit) (h : d < nw.NumUnits) :
    ({ nw with UnitList := nw.UnitList.set d u } : Network).unit d = u := by
  unfold Network.NumUnits at h
  simp [Network.unit, List.getD_eq_getElem?_getD, h]

theorem unit_set_other (nw : Network) (d i : Nat) (u : NWUnit) (h : i ≠ d) :
    ({ nw with UnitList := nw.UnitList.set d u } : Network).unit i = nw.unit i := by
  simp [Network.unit, List.getD_eq_getElem?_getD, List.getElem?_set_ne (Ne.symm h)]

/-- Effect of a call of CreateConnection that passes the parameter checks and
whose scan stops at index ix. -/
theorem CreateConnection_insert (T : Target) (s : State) (source dest ix : Nat)
    (hs : source < s.nw.NumUnits) (hd : dest < s.nw.NumUnits) (hne : source ≠ dest)
    (hso : (s.nw.unit source).UnitType ≠ UNIT_OUTPUT)
    (hdi : (s.nw.unit dest).UnitType ≠ UNIT_INPUT)
    (hwf : UnitWF T.abi (s.nw.unit dest))
    (hscan : scanInputs source (s.nw.unit dest).InputUnits (s.nw.unit dest).NumInput 0 = some ix) :
    CreateConnection T s source dest =
      (NW_SUCCESS,
        { nw := { s.nw with UnitList := (s.nw.UnitList.set dest
                    ({ s.nw.unit dest with
                       InputUnits := (s.nw.unit dest).InputUnits.take ix
                         ++ source :: (s.nw.unit dest).InputUnits.drop ix
                       InputWgts := (s.nw.unit dest).InputWgts.take ix
                         ++ T.initWgt (Rand32 T.abi s.rnd).1 :: (s.nw.unit dest).InputWgts.drop ix
                       NumInput := (s.nw.unit dest).NumInput + 1 } : NWUnit)) },
          rnd := (Rand32 T.abi s.rnd).2 }) := by
  obtain ⟨hl1, hl2, hb1, hb2⟩ := hwf
  have hix : ix ≤ (s.nw.unit dest).NumInput := by
    have := (scanInputs_some _ _ _ _ _ hscan).2.1
    omega
  unfold CreateConnection
  rw [if_neg (by omega), if_neg hne, if_neg hso, if_neg hdi]
  simp only [hscan]
  have e1 := insert_elems T.abi.sizeofULong (s.nw.unit dest).InputUnits ix source hb1
    (by omega)
  have e2 := insert_elems sizeofDouble (s.nw.unit dest).InputWgts ix
    (T.initWgt (Rand32 T.abi s.rnd).1) hb2 (by omega)
  rw [hl1] at e1
  rw [hl2] at e2
  rw [e1, e2]


/-! ## CreateConnection -/

theorem scanInputs_take_lt (source : Nat) (l : List Nat) (ix : Nat)
    (h : scanInputs source l l.length 0 = some ix) : ∀ x ∈ l.take ix, x < source := by
  intro x hx
  obtain ⟨i, hi, rfl⟩ := List.mem_take_iff_getElem.1 hx
  have hi1 : i < l.length := by omega
  have := (scanInputs_some _ _ _ _ _ h).2.2.1 i (Nat.zero_le _) (by omega)
  rwa [List.getD_eq_getElem l 0 hi1] at this

theorem scanInputs_drop_gt (source : Nat) (l : List Nat) (ix : Nat) (hasc : Ascending l)
    (h : scanInputs source l l.length 0 = some ix) : ∀ x ∈ l.drop ix, source < x := by
  intro x hx
  obtain ⟨i, hi, rfl⟩ := List.mem_drop_iff_getElem.1 hx
  have hix : ix < l.length := by omega
  have h0 := (scanInputs_some _ _ _ _ _ h).2.2.2 (by omega)
  rw [List.getD_eq_getElem l 0 hix] at h0
  rcases Nat.eq_zero_or_pos i with e | e
  · subst e
    simpa using h0
  · have := List.pairwise_iff_getElem.1 hasc ix (ix + i) hix (by omega) (by omega)
    omega

theorem scanInputs_of_not_mem (source : Nat) (l : List Nat) (h : source ∉ l) :
    ∃ ix, scanInputs source l l.length 0 = some ix := by
  cases hsc : scanInputs source l l.length 0 with
  | some ix => exact ⟨ix, rfl⟩
  | none =>
    obtain ⟨j, _, hj, hjs⟩ := scanInputs_none _ _ _ _ hsc
    have hj1 : j < l.length := by omega
    rw [List.getD_eq_getElem l 0 hj1] at hjs
    exact absurd (hjs ▸ List.getElem_mem hj1) h

theorem ascending_insert (l : List Nat) (ix v : Nat) (hasc : Ascending l)
    (h1 : ∀ x ∈ l.take ix, x < v) (h2 : ∀ x ∈ l.drop ix, v < x) :
    Ascending (l.take ix ++ v :: l.drop ix) := by
  unfold Ascending at *
  rw [List.pairwise_append, List.pairwise_cons]
  refine ⟨hasc.sublist (List.take_sublist _ _), ⟨h2, hasc.sublist (List.drop_sublist _ _)⟩, ?_⟩
  intro a ha b hb
  rcases List.mem_cons.1 hb with e | e
  · subst e; exact h1 a ha
  · exact Nat.lt_trans (h1 a ha) (h2 b e)

/-- C1: for ids s, d in range with s ≠ d, unit s not an Output, unit d not an
Input and s absent from the ascending incoming list of d, CreateConnection(s, d)
succeeds; there is a position ix with every earlier id below s and every later
id above s such that unit d afterwards is the old unit with s inserted at ix in
the id list, the new weight (computed from one generator draw) inserted at ix in
the weight list and the input count grown by one; the new id list is ascending,
every other unit and the rest of the network are unchanged. -/
theorem C1_CreateConnection_inserts (T : Target) (s : State) (source dest : Nat)
    (hs : source < s.nw.NumUnits) (hd : dest < s.nw.NumUnits) (hne : source ≠ dest)
    (hso : (s.nw.unit source).UnitType ≠ UNIT_OUTPUT)
    (hdi : (s.nw.unit dest).UnitType ≠ UNIT_INPUT)
    (hwf : UnitWF T.abi (s.nw.unit dest))
    (hasc : Ascending (s.nw.unit dest).InputUnits)
    (hnot : source ∉ (s.nw.unit dest).InputUnits) :
    (CreateConnection T s source dest).1 = NW_SUCCESS ∧
    ∃ ix, ix ≤ (s.nw.unit dest).NumInput ∧
      (∀ x ∈ (s.nw.unit dest).InputUnits.take ix, x < source) ∧
      (∀ x ∈ (s.nw.unit dest).InputUnits.drop ix, source < x) ∧
      (CreateConnection T s source dest).2.nw.unit dest =
        { s.nw.unit dest with
          InputUnits := (s.nw.unit dest).InputUnits.take ix
            ++ source :: (s.nw.unit dest).InputUnits.drop ix
          InputWgts := (s.nw.unit dest).InputWgts.take ix
            ++ T.initWgt (Rand32 T.abi s.rnd).1 :: (s.nw.unit dest).InputWgts.drop ix
          NumInput := (s.nw.unit dest).NumInput + 1 } ∧
      Ascending ((CreateConnection T s source dest).2.nw.unit dest).InputUnits ∧
      (∀ i, i ≠ dest → (CreateConnection T s source dest).2.nw.unit i = s.nw.unit i) ∧
      (CreateConnection T s source dest).2.nw.NumUnits = s.nw.NumUnits ∧
      (CreateConnection T s source dest).2.nw.NumInput = s.nw.NumInput ∧
      (CreateConnection T s source dest).2.nw.NumOutput = s.nw.NumOutput := by
  obtain ⟨ix, hscan⟩ := scanInputs_of_not_mem source _ hnot
  have hlen : (s.nw.unit dest).InputUnits.length = (s.nw.unit dest).NumInput := hwf.1
  have hscan1 : scanInputs source (s.nw.unit dest).InputUnits (s.nw.unit dest).NumInput 0
      = some ix := by rw [← hlen]; exact hscan
  have hlt := scanInputs_take_lt source _ ix hscan
  have hgt := scanInputs_drop_gt source _ ix hasc hscan
  have hle : ix ≤ (s.nw.unit dest).NumInput := by
    have := (scanInputs_some _ _ _ _ _ hscan1).2.1
    omega
  rw [CreateConnection_insert T s source dest ix hs hd hne hso hdi hwf hscan1]
  refine ⟨rfl, ix, hle, hlt, hgt, ?_, ?_, ?_, ?_, rfl, rfl⟩
  · exact unit_set_self _ _ _ hd
  · rw [unit_set_self _ _ _ hd]
    exact ascending_insert _ ix source hasc hlt hgt
  · intro i hi
    exact unit_set_other _ _ _ _ hi
  · simp [Network.NumUnits]

/-- Witness of C1: after four Internal units are created and unit 3 receives
connections from 0 and 2, CreateConnection(1, 3) meets the hypotheses. -/
theorem C1_CreateConnection_inserts_witness :
    (CreateConnection (exampleTarget .LP64)
      (runCalls (exampleTarget .LP64) startState
        [.createUnit 0 0 1 0 1 1 [] 0 0, .createUnit 0 0 1 0 1 1 [] 0 0,
         .createUnit 0 0 1 0 1 1 [] 0 0, .createUnit 0 0 1 0 1 1 [] 0 0,
         .createConnection 0 3, .createConnection 2 3]) 1 3).1 = NW_SUCCESS :=
  (C1_CreateConnection_inserts (exampleTarget .LP64)
    (runCalls (exampleTarget .LP64) startState
      [.createUnit 0 0 1 0 1 1 [] 0 0, .createUnit 0 0 1 0 1 1 [] 0 0,
       .createUnit 0 0 1 0 1 1 [] 0 0, .createUnit 0 0 1 0 1 1 [] 0 0,
       .createConnection 0 3, .createConnection 2 3]) 1 3
    (by decide) (by decide) (by decide) (by decide) (by decide) (by decide) (by decide)
    (by decide)).1


theorem CreateConnection_success_inv (T : Target) (s : State) (source dest : Nat)
    (h : (CreateConnection T s source dest).1 = NW_SUCCESS) :
    source < s.nw.NumUnits ∧ dest < s.nw.NumUnits ∧ source ≠ dest ∧
      (s.nw.unit source).UnitType ≠ UNIT_OUTPUT ∧ (s.nw.unit dest).UnitType ≠ UNIT_INPUT ∧
      ∃ ix, scanInputs source (s.nw.unit dest).InputUnits (s.nw.unit dest).NumInput 0
        = some ix := by
  unfold CreateConnection at h
  by_cases h1 : source ≥ s.nw.NumUnits ∨ dest ≥ s.nw.NumUnits
  · rw [if_pos h1] at h; simp at h
  rw [if_neg h1] at h
  by_cases h2 : source = dest
  · rw [if_pos h2] at h; simp at h
  rw [if_neg h2] at h
  by_cases h3 : (s.nw.unit source).UnitType = UNIT_OUTPUT
  · rw [if_pos h3] at h; simp at h
  rw [if_neg h3] at h
  by_cases h4 : (s.nw.unit dest).UnitType = UNIT_INPUT
  · rw [if_pos h4] at h; simp at h
  rw [if_neg h4] at h
  refine ⟨by omega, by omega, h2, h3, h4, ?_⟩
  cases hsc : scanInputs source (s.nw.unit dest).InputUnits (s.nw.unit dest).NumInput 0 with
  | some ix => exact ⟨ix, rfl⟩
  | none =>
    simp only [hsc] at h
    simp at h

theorem CreateConnection_exists (T : Target) (s : State) (source dest : Nat)
    (hs : source < s.nw.NumUnits) (hd : dest < s.nw.NumUnits) (hne : source ≠ dest)
    (hso : (s.nw.unit source).UnitType ≠ UNIT_OUTPUT)
    (hdi : (s.nw.unit dest).UnitType ≠ UNIT_INPUT)
    (hscan : scanInputs source (s.nw.unit dest).InputUnits (s.nw.unit dest).NumInput 0 = none) :
    CreateConnection T s source dest = (NW_ERR_CONNEXISTS, s) := by
  unfold CreateConnection
  rw [if_neg (by omega), if_neg hne, if_neg hso, if_neg hdi]
  simp only [hscan]

theorem getD_insert_lt (l : List Nat) (ix v i : Nat) (hix : ix ≤ l.length) (hi : i < ix) :
    (l.take ix ++ v :: l.drop ix).getD i 0 = l.getD i 0 := by
  have h1 : i < (l.take ix).length := by simp; omega
  rw [List.getD_eq_getElem _ 0 (by simp; omega), List.getD_eq_getElem l 0 (by omega),
    List.getElem_append_left h1, List.getElem_take]

theorem getD_insert_eq (l : List Nat) (ix v : Nat) (hix : ix ≤ l.length) :
    (l.take ix ++ v :: l.drop ix).getD ix 0 = v := by
  have h1 : (l.take ix).length = ix := by simp; omega
  rw [List.getD_eq_getElem _ 0 (by simp; omega), List.getElem_append_right (by omega)]
  simp [h1]

/-- C8: if CreateConnection(a, b) succeeds, on any state whose unit b satisfies
the representation invariant (no sortedness assumed), then the same call made
right after returns NW_ERR_CONNEXISTS and leaves the whole state, hence the id
list and the weight list of b, as the first call left it. -/
theorem C8_second_CreateConnection_exists (T : Target) (s : State) (a b : Nat)
    (hwf : UnitWF T.abi (s.nw.unit b))
    (h : (CreateConnection T s a b).1 = NW_SUCCESS) :
    CreateConnection T (CreateConnection T s a b).2 a b
      = (NW_ERR_CONNEXISTS, (CreateConnection T s a b).2) := by
  obtain ⟨hs, hd, hne, hso, hdi, ix, hscan⟩ := CreateConnection_success_inv T s a b h
  have hlen : (s.nw.unit b).InputUnits.length = (s.nw.unit b).NumInput := hwf.1
  obtain ⟨_, hle, hlt, _⟩ := scanInputs_some _ _ _ _ _ hscan
  have hix : ix ≤ (s.nw.unit b).InputUnits.length := by omega
  rw [CreateConnection_insert T s a b ix hs hd hne hso hdi hwf hscan]
  apply CreateConnection_exists
  · simpa [Network.NumUnits] using hs
  · simpa [Network.NumUnits] using hd
  · exact hne
  · simp only []
    rw [unit_set_other _ _ _ _ hne]
    exact hso
  · simp only []
    rw [unit_set_self _ _ _ hd]
    exact hdi
  · simp only []
    rw [unit_set_self _ _ _ hd]
    apply scanInputs_found a _ _ 0 ix
    · intro i _ hi
      rw [getD_insert_lt _ _ _ _ hix hi]
      exact hlt i (Nat.zero_le _) hi
    · exact getD_insert_eq _ _ _ hix
    · exact Nat.zero_le _
    · show ix < 0 + ((s.nw.unit b).NumInput + 1)
      omega

/-- Witness of C8: the first CreateConnection(1, 3) of the run used for C1
succeeds, and unit 3 satisfies the representation invariant. -/
theorem C8_second_CreateConnection_exists_witness :
    (CreateConnection (exampleTarget .LP64)
      (CreateConnection (exampleTarget .LP64)
        (runCalls (exampleTarget .LP64) startState
          [.createUnit 0 0 1 0 1 1 [] 0 0, .createUnit 0 0 1 0 1 1 [] 0 0,
           .createUnit 0 0 1 0 1 1 [] 0 0, .createUnit 0 0 1 0 1 1 [] 0 0,
           .createConnection 0 3, .createConnection 2 3]) 1 3).2 1 3).1
      = NW_ERR_CONNEXISTS :=
  congrArg Prod.fst
    (C8_second_CreateConnection_exists (exampleTarget .LP64)
      (runCalls (exampleTarget .LP64) startState
        [.createUnit 0 0 1 0 1 1 [] 0 0, .createUnit 0 0 1 0 1 1 [] 0 0,
         .createUnit 0 0 1 0 1 1 [] 0 0, .createUnit 0 0 1 0 1 1 [] 0 0,
         .createConnection 0 3, .createConnection 2 3]) 1 3 (by decide) (by decide))

/-! ## Parameter checks of CreateConnection -/

/-- C6 fails as stated when s = d: on the network whose only unit is an Output
unit, CreateConnection(0, 0) has an Output source and returns NW_ERR_CONNTOSELF,
not NW_ERR_IOCONN. -/
theorem C6_counterexample :
    0 < (runCalls (exampleTarget .LP64) startState
          [.createUnit 0 0 2 0 1 1 [111] 0 0]).nw.NumUnits ∧
    ((runCalls (exampleTarget .LP64) startState
          [.createUnit 0 0 2 0 1 1 [111] 0 0]).nw.unit 0).UnitType = UNIT_OUTPUT ∧
    (CreateConnection (exampleTarget .LP64)
        (runCalls (exampleTarget .LP64) startState
          [.createUnit 0 0 2 0 1 1 [111] 0 0]) 0 0).1 = NW_ERR_CONNTOSELF ∧
    (CreateConnection (exampleTarget .LP64)
        (runCalls (exampleTarget .LP64) startState
          [.createUnit 0 0 2 0 1 1 [111] 0 0]) 0 0).1 ≠ NW_ERR_IOCONN := by
  decide

/-- C6 (amended): for existing unit ids s ≠ d such that unit s is an Output
unit or unit d is an Input unit, CreateConnection(s, d) returns NW_ERR_IOCONN
and leaves the state unchanged. -/
theorem C6_CreateConnection_ioconn (T : Target) (s : State) (source dest : Nat)
    (hs : source < s.nw.NumUnits) (hd : dest < s.nw.NumUnits) (hne : source ≠ dest)
    (hio : (s.nw.unit source).UnitType = UNIT_OUTPUT ∨ (s.nw.unit dest).UnitType = UNIT_INPUT) :
    CreateConnection T s source dest = (NW_ERR_IOCONN, s) := by
  unfold CreateConnection
  rw [if_neg (by omega), if_neg hne]
  rcases hio with h | h
  · rw [if_pos h]
  · by_cases h3 : (s.nw.unit source).UnitType = UNIT_OUTPUT
    · rw [if_pos h3]
    · rw [if_neg h3, if_pos h]

/-- Witness of C6 (amended): with an Input unit 0 and an Output unit 1,
CreateConnection(1, 0) is refused with NW_ERR_IOCONN. -/
theorem C6_CreateConnection_ioconn_witness :
    (CreateConnection (exampleTarget .LP64)
      (runCalls (exampleTarget .LP64) startState
        [.createUnit 0 0 0 0 1 1 [105] 0 0, .createUnit 0 0 2 0 1 1 [111] 0 0]) 1 0).1
      = NW_ERR_IOCONN :=
  congrArg Prod.fst
    (C6_CreateConnection_ioconn (exampleTarget .LP64)
      (runCalls (exampleTarget .LP64) startState
        [.createUnit 0 0 0 0 1 1 [105] 0 0, .createUnit 0 0 2 0 1 1 [111] 0 0]) 1 0
      (by decide) (by decide) (by decide) (by decide))

/-- C7: for every existing unit id a, whatever the kind of unit a,
CreateConnection(a, a) returns NW_ERR_CONNTOSELF and leaves the state
unchanged. -/
theorem C7_CreateConnection_self (T : Target) (s : State) (a : Nat)
    (ha : a < s.nw.NumUnits) : CreateConnection T s a a = (NW_ERR_CONNTOSELF, s) := by
  unfold CreateConnection
  rw [if_neg (by omega), if_pos rfl]

/-- Witness of C7: CreateConnection(0, 0) on the network whose only unit is an
Output unit. -/
theorem C7_CreateConnection_self_witness :
    (CreateConnection (exampleTarget .LP64)
      (runCalls (exampleTarget .LP64) startState [.createUnit 0 0 2 0 1 1 [111] 0 0]) 0 0).1
      = NW_ERR_CONNTOSELF :=
  congrArg Prod.fst
    (C7_CreateConnection_self (exampleTarget .LP64)
      (runCalls (exampleTarget .LP64) startState [.createUnit 0 0 2 0 1 1 [111] 0 0]) 0
      (by decide))


/-! ## CreateUnit and the failure paths -/

/-- C10: CreateUnit returns NW_ERR_BADPARAM exactly when the kind is 2 (Output),
sigmoid is 0 and binary is nonzero; in every other case it returns NW_SUCCESS
and the previous unit count as index, and the unit table is the old one with
one unit appended: its kind is the given kind if that is 0, 1 or 2 and Internal
otherwise, its sigmoid flag is set unless the kind is Output (then it is the
low bit of the argument), it has no incoming connection, and it carries the
descriptor (name, min, max) iff its kind is not Internal. -/
theorem C10_CreateUnit (T : Target) (s : State) (x y : Nat) (type binary bias sigmoid : Int)
    (name : List Nat) (min max : Nat) :
    ((CreateUnit T s x y type binary bias sigmoid name min max).1 = NW_ERR_BADPARAM ↔
      (type = 2 ∧ sigmoid = 0 ∧ binary ≠ 0)) ∧
    (¬ (type = 2 ∧ sigmoid = 0 ∧ binary ≠ 0) →
      (CreateUnit T s x y type binary bias sigmoid name min max).1 = NW_SUCCESS ∧
      (CreateUnit T s x y type binary bias sigmoid name min max).2.1 = some s.nw.NumUnits ∧
      ∃ u : NWUnit,
        (CreateUnit T s x y type binary bias sigmoid name min max).2.2.nw.UnitList
          = s.nw.UnitList ++ [u] ∧
        u.UnitType = (if type = 0 ∨ type = 1 ∨ type = 2 then type.toNat else UNIT_INTERNAL) ∧
        (u.UnitType ≠ UNIT_OUTPUT → u.Sigmoid = true) ∧
        (u.UnitType = UNIT_OUTPUT → u.Sigmoid = decide (sigmoid % 2 = 1)) ∧
        u.NumInput = 0 ∧ u.InputUnits = [] ∧ u.InputWgts = [] ∧
        (u.UnitType ≠ UNIT_INTERNAL →
          u.IODef = some { Name := name, Min := min, Max := max }) ∧
        (u.UnitType = UNIT_INTERNAL → u.IODef = none) ∧
        u.X = x ∧ u.Y = y ∧ u.Binary = decide (binary % 2 = 1) ∧
        u.Bias = decide (bias % 2 = 1) ∧
        u.BiasWgt = T.initWgt (Rand32 T.abi s.rnd).1) := by
  by_cases hbad : type = 2 ∧ sigmoid = 0 ∧ binary ≠ 0
  · refine ⟨⟨fun _ => hbad, fun _ => ?_⟩, fun h => absurd hbad h⟩
    unfold CreateUnit
    rw [if_pos ⟨by omega, hbad⟩]
  · have hguard : ¬ (¬ (type < 0 ∨ type > 2) ∧ (type = 2 ∧ sigmoid = 0 ∧ binary ≠ 0)) :=
      fun h => hbad h.2
    refine ⟨⟨fun h => ?_, fun h => absurd h hbad⟩, fun _ => ?_⟩
    · unfold CreateUnit at h
      rw [if_neg hguard] at h
      simp at h
    · unfold CreateUnit
      rw [if_neg hguard]
      refine ⟨rfl, rfl, _, rfl, ?_, ?_, ?_, rfl, rfl, rfl, ?_, ?_, rfl, rfl, rfl, rfl, rfl⟩
      · show (if type < 0 ∨ type > 2 then (1 : Int) else type).toNat = _
        unfold UNIT_INTERNAL
        split_ifs <;> first | rfl | omega
      · show (if type < 0 ∨ type > 2 then (1 : Int) else type).toNat ≠ UNIT_OUTPUT → _
        unfold UNIT_OUTPUT
        intro h
        have h2 : (if type < 0 ∨ type > 2 then (1 : Int) else type) ≠ 2 := by
          split_ifs at h ⊢ <;> omega
        simp [NWUnit.zero, h2]
      · show (if type < 0 ∨ type > 2 then (1 : Int) else type).toNat = UNIT_OUTPUT → _
        unfold UNIT_OUTPUT
        intro h
        have h2 : (if type < 0 ∨ type > 2 then (1 : Int) else type) = 2 := by
          split_ifs at h ⊢ <;> omega
        simp [NWUnit.zero, h2]
      · show (if type < 0 ∨ type > 2 then (1 : Int) else type).toNat ≠ UNIT_INTERNAL → _
        unfold UNIT_INTERNAL
        intro h
        have h2 : (if type < 0 ∨ type > 2 then (1 : Int) else type) ≠ 1 := by
          split_ifs at h ⊢ <;> omega
        simp [NWUnit.zero, h2]
      · show (if type < 0 ∨ type > 2 then (1 : Int) else type).toNat = UNIT_INTERNAL → _
        unfold UNIT_INTERNAL
        intro h
        have h2 : (if type < 0 ∨ type > 2 then (1 : Int) else type) = 1 := by
          split_ifs at h ⊢ <;> omega
        simp [NWUnit.zero, h2]

/-- Witness of C10: CreateUnit with kind 7, binary and non-sigmoid, on the
start state is not refused; it returns index 0. -/
theorem C10_CreateUnit_witness :
    (CreateUnit (exampleTarget .LP64) startState 3 4 7 1 1 0 [97] 0 1).2.1
      = some startState.nw.NumUnits :=
  ((C10_CreateUnit (exampleTarget .LP64) startState 3 4 7 1 1 0 [97] 0 1).2 (by decide)).2.1

/-- C9: a call of CreateUnit, DeleteUnit, CreateConnection or DeleteConnection
that returns NW_ERR_BADPARAM, NW_ERR_CONNTOSELF, NW_ERR_IOCONN,
NW_ERR_CONNEXISTS or NW_ERR_NOTCONN leaves the units (kinds, flags, connection
lists, weights), the unit count, the Input and Output counters and the
generator state as before the call; for the last three functions the whole
state is unchanged, for CreateUnit nothing is written through the index
pointer (only the capacity UnitSpace of the unit table may have grown). -/
theorem C9_failure_keeps_state (T : Target) (s : State) :
    (∀ (x y : Nat) (type binary bias sigmoid : Int) (name : List Nat) (min max : Nat),
      paramError (CreateUnit T s x y type binary bias sigmoid name min max).1 →
        (CreateUnit T s x y type binary bias sigmoid name min max).2.2.nw.UnitList
            = s.nw.UnitList ∧
        (CreateUnit T s x y type binary bias sigmoid name min max).2.2.nw.NumUnits
            = s.nw.NumUnits ∧
        (CreateUnit T s x y type binary bias sigmoid name min max).2.2.nw.NumInput
            = s.nw.NumInput ∧
        (CreateUnit T s x y type binary bias sigmoid name min max).2.2.nw.NumOutput
            = s.nw.NumOutput ∧
        (CreateUnit T s x y type binary bias sigmoid name min max).2.2.rnd = s.rnd ∧
        (CreateUnit T s x y type binary bias sigmoid name min max).2.1 = none) ∧
    (∀ unit : Nat, paramError (DeleteUnit T s unit).1 → (DeleteUnit T s unit).2 = s) ∧
    (∀ source dest : Nat, paramError (CreateConnection T s source dest).1 →
      (CreateConnection T s source dest).2 = s) ∧
    (∀ source dest : Nat, paramError (DeleteConnection T s source dest).1 →
      (DeleteConnection T s source dest).2 = s) := by
  refine ⟨?_, ?_, ?_, ?_⟩
  · intro x y type binary bias sigmoid name min max h
    by_cases hg : ¬ (type < 0 ∨ type > 2) ∧ (type = 2 ∧ sigmoid = 0 ∧ binary ≠ 0)
    · unfold CreateUnit
      rw [if_pos hg]
      exact ⟨rfl, rfl, rfl, rfl, rfl, rfl⟩
    · unfold CreateUnit at h
      rw [if_neg hg] at h
      simp [paramError] at h
  · intro unit h
    by_cases hg : unit ≥ s.nw.NumUnits
    · unfold DeleteUnit
      rw [if_pos hg]
    · unfold DeleteUnit at h
      rw [if_neg hg] at h
      simp [paramError] at h
  · intro source dest h
    unfold CreateConnection at h ⊢
    split_ifs at h ⊢
    · rfl
    · rfl
    · rfl
    · rfl
    · cases hsc : scanInputs source (s.nw.unit dest).InputUnits (s.nw.unit dest).NumInput 0 with
      | none => simp only [hsc]
      | some ix =>
        simp only [hsc] at h
        simp [paramError] at h
  · intro source dest h
    by_cases hg : source ≥ s.nw.NumUnits ∨ dest ≥ s.nw.NumUnits
    · unfold DeleteConnection
      rw [if_pos hg]
    · by_cases hx : ULongSearch T.abi source (s.nw.unit dest).NumInput
          (s.nw.unit dest).InputUnits = T.abi.ulongMax
      · unfold DeleteConnection
        rw [if_neg hg]
        simp only [hx, if_true]
      · unfold DeleteConnection at h
        rw [if_neg hg] at h
        simp only [hx, if_false] at h
        simp [paramError] at h

/-- Witness of C9: on the network of two Internal units, the refused calls
CreateUnit (binary linear Output), DeleteUnit(5), CreateConnection(0, 0) and
DeleteConnection(0, 1) each leave the state as it was. -/
theorem C9_failure_keeps_state_witness :
    (CreateUnit (exampleTarget .LP64)
        (runCalls (exampleTarget .LP64) startState
          [.createUnit 0 0 1 0 1 1 [] 0 0, .createUnit 0 0 1 0 1 1 [] 0 0])
        0 0 2 1 1 0 [111] 0 1).2.2.nw.UnitList
      = (runCalls (exampleTarget .LP64) startState
          [.createUnit 0 0 1 0 1 1 [] 0 0, .createUnit 0 0 1 0 1 1 [] 0 0]).nw.UnitList ∧
    (DeleteUnit (exampleTarget .LP64)
        (runCalls (exampleTarget .LP64) startState
          [.createUnit 0 0 1 0 1 1 [] 0 0, .createUnit 0 0 1 0 1 1 [] 0 0]) 5).2
      = runCalls (exampleTarget .LP64) startState
          [.createUnit 0 0 1 0 1 1 [] 0 0, .createUnit 0 0 1 0 1 1 [] 0 0] ∧
    (CreateConnection (exampleTarget .LP64)
        (runCalls (exampleTarget .LP64) startState
          [.createUnit 0 0 1 0 1 1 [] 0 0, .createUnit 0 0 1 0 1 1 [] 0 0]) 0 0).2
      = runCalls (exampleTarget .LP64) startState
          [.createUnit 0 0 1 0 1 1 [] 0 0, .createUnit 0 0 1 0 1 1 [] 0 0] ∧
    (DeleteConnection (exampleTarget .LP64)
        (runCalls (exampleTarget .LP64) startState
          [.createUnit 0 0 1 0 1 1 [] 0 0, .createUnit 0 0 1 0 1 1 [] 0 0]) 0 1).2
      = runCalls (exampleTarget .LP64) startState
          [.createUnit 0 0 1 0 1 1 [] 0 0, .createUnit 0 0 1 0 1 1 [] 0 0] :=
  ⟨((C9_failure_keeps_state (exampleTarget .LP64)
      (runCalls (exampleTarget .LP64) startState
        [.createUnit 0 0 1 0 1 1 [] 0 0, .createUnit 0 0 1 0 1 1 [] 0 0])).1
      0 0 2 1 1 0 [111] 0 1 (by decide)).1,
   (C9_failure_keeps_state (exampleTarget .LP64)
      (runCalls (exampleTarget .LP64) startState
        [.createUnit 0 0 1 0 1 1 [] 0 0, .createUnit 0 0 1 0 1 1 [] 0 0])).2.1 5 (by decide),
   (C9_failure_keeps_state (exampleTarget .LP64)
      (runCalls (exampleTarget .LP64) startState
        [.createUnit 0 0 1 0 1 1 [] 0 0, .createUnit 0 0 1 0 1 1 [] 0 0])).2.2.1 0 0 (by decide),
   (C9_failure_keeps_state (exampleTarget .LP64)
      (runCalls (exampleTarget .LP64) startState
        [.createUnit 0 0 1 0 1 1 [] 0 0, .createUnit 0 0 1 0 1 1 [] 0 0])).2.2.2 0 1 (by decide)⟩


/-! ## DeleteConnection and DeleteUnit: the splice moves too few bytes

Both functions call memmove with the byte count NumInput - jx where the number
of bytes of NumInput - jx elements is meant (CreateConnection multiplies by the
element size).  The theorems below evaluate the code on small networks. -/

/-- Every state obtained from the start state by a sequence of calls is
reachable. -/
theorem reachable_runCalls (T : Target) (calls : List Call) :
    Reachable T (runCalls T startState calls) :=
  ⟨startRand, calls, rfl⟩

/-- C2 does not hold on the code.  First run: unit 3 has the ascending incoming
list [0, 1, 2]; DeleteUnit(0) succeeds and leaves the surviving unit (now at
index 2) with the id list [0, 0], where the claim requires [0, 1].  Second run:
unit 2 has the connections 0 (weight 1.0) and 1 (weight 2.0); after
DeleteUnit(0) the kept connection, renumbered 0, carries the weight 1.0 of the
removed one. -/
theorem C2_DeleteUnit_splice_evaluated (M : DataModel) :
    (∀ u ∈ (fanInState M).nw.UnitList, Ascending u.InputUnits) ∧
    ((fanInState M).nw.unit 3).InputUnits = [0, 1, 2] ∧
    (DeleteUnit (exampleTarget M) (fanInState M) 0).1 = NW_SUCCESS ∧
    ((DeleteUnit (exampleTarget M) (fanInState M) 0).2.nw.unit 2).InputUnits = [0, 0] ∧
    (∀ u ∈ weightedState.nw.UnitList, Ascending u.InputUnits) ∧
    (DeleteUnit (exampleTarget M) weightedState 0).1 = NW_SUCCESS ∧
    ((DeleteUnit (exampleTarget M) weightedState 0).2.nw.unit 1).InputUnits = [0] ∧
    ((DeleteUnit (exampleTarget M) weightedState 0).2.nw.unit 1).InputWgts = [dblOne] := by
  cases M <;> decide

/-- C3 does not hold on the code.  First run: unit 3 has the ascending incoming
list [0, 1, 2]; DeleteConnection(0, 3) succeeds and leaves the id list [1, 1],
where the claim requires [1, 2].  Second run: unit 2 has the connections 0
(weight 1.0) and 1 (weight 2.0); after DeleteConnection(0, 2) the remaining
connection 1 carries the weight 1.0 of the removed one. -/
theorem C3_DeleteConnection_splice_evaluated (M : DataModel) :
    (∀ u ∈ (fanInState M).nw.UnitList, Ascending u.InputUnits) ∧
    ((fanInState M).nw.unit 3).InputUnits = [0, 1, 2] ∧
    (DeleteConnection (exampleTarget M) (fanInState M) 0 3).1 = NW_SUCCESS ∧
    ((DeleteConnection (exampleTarget M) (fanInState M) 0 3).2.nw.unit 3).InputUnits = [1, 1] ∧
    (∀ u ∈ weightedState.nw.UnitList, Ascending u.InputUnits) ∧
    (weightedState.nw.unit 2).InputUnits = [0, 1] ∧
    (weightedState.nw.unit 2).InputWgts = [dblOne, dblTwo] ∧
    (DeleteConnection (exampleTarget M) weightedState 0 2).1 = NW_SUCCESS ∧
    ((DeleteConnection (exampleTarget M) weightedState 0 2).2.nw.unit 2).InputUnits = [1] ∧
    ((DeleteConnection (exampleTarget M) weightedState 0 2).2.nw.unit 2).InputWgts = [dblOne] := by
  cases M <;> decide

/-- C4 does not hold on the code: the state reached from the empty network by
creating five units, the connections 0 → 3, 2 → 3, 4 → 3 and deleting the
connection 0 → 3 has the incoming list [2, 2] at unit 3, which is not strictly
ascending (the lengths still agree with the input count 2). -/
theorem C4_ascending_broken (M : DataModel) :
    Reachable (exampleTarget M) (dupState M) ∧
    ((dupState M).nw.unit 3).InputUnits = [2, 2] ∧
    ((dupState M).nw.unit 3).InputWgts.length = 2 ∧
    ((dupState M).nw.unit 3).NumInput = 2 ∧
    ¬ Ascending ((dupState M).nw.unit 3).InputUnits :=
  ⟨reachable_runCalls _ _, by cases M <;> decide⟩

/-- C5 does not hold on the code: in the state reached by the calls of C4, all
connections are legal (unit 3 receives from the Input unit 2, twice); after
DeleteUnit(2) the former unit 3 sits at index 2 and its incoming list is [2],
a connection from unit 2 to itself. -/
theorem C5_self_connection_reached (M : DataModel) :
    Reachable (exampleTarget M) (selfState M) ∧
    ((dupState M).nw.unit 3).InputUnits = [2, 2] ∧
    ((dupState M).nw.unit 2).UnitType = UNIT_INPUT ∧
    selfState M = (DeleteUnit (exampleTarget M) (dupState M) 2).2 ∧
    (DeleteUnit (exampleTarget M) (dupState M) 2).1 = NW_SUCCESS ∧
    (selfState M).nw.NumUnits = 4 ∧
    ((selfState M).nw.unit 2).InputUnits = [2] ∧
    2 ∈ ((selfState M).nw.unit 2).InputUnits :=
  ⟨reachable_runCalls _ _, by cases M <;> decide,
    by cases M <;> decide, by cases M <;> rfl, by cases M <;> decide,
    by cases M <;> decide, by cases M <;> decide, by cases M <;> decide⟩

/-! ## DeleteUnit: the unit table -/

theorem removeInput_attrs (M : DataModel) (k : Nat) (u : NWUnit) :
    (removeInput M k u).X = u.X ∧ (removeInput M k u).Y = u.Y ∧
    (removeInput M k u).UnitType = u.UnitType ∧ (removeInput M k u).Binary = u.Binary ∧
    (removeInput M k u).Bias = u.Bias ∧ (removeInput M k u).Sigmoid = u.Sigmoid ∧
    (removeInput M k u).Flag1 = u.Flag1 ∧ (removeInput M k u).Flag2 = u.Flag2 ∧
    (removeInput M k u).Flag3 = u.Flag3 ∧ (removeInput M k u).BiasWgt = u.BiasWgt ∧
    (removeInput M k u).IODef = u.IODef := by
  unfold removeInput
  simp only []
  split_ifs
  · exact ⟨rfl, rfl, rfl, rfl, rfl, rfl, rfl, rfl, rfl, rfl, rfl⟩
  · exact ⟨rfl, rfl, rfl, rfl, rfl, rfl, rfl, rfl, rfl, rfl, rfl⟩

theorem DeleteUnit_getD (T : Target) (s : State) (k i : Nat) (hk : k < s.nw.NumUnits)
    (hi : i < s.nw.NumUnits) (hik : i ≠ k) :
    (DeleteUnit T s k).2.nw.unit (if i < k then i else i - 1)
      = renumberInputs k (removeInput T.abi k (s.nw.unit i)) := by
  unfold DeleteUnit
  rw [if_neg (by omega)]
  unfold Network.NumUnits at hk hi
  simp only [Network.unit, List.getD_eq_getElem?_getD, List.getElem?_map,
    List.getElem?_eraseIdx]
  by_cases h : i < k
  · simp only [h, if_true]
    rw [List.getElem?_eq_getElem hi]
    rfl
  · have h1 : ¬ (i - 1 < k) := by omega
    have h2 : i - 1 + 1 = i := by omega
    simp only [h, h1, if_false, h2]
    rw [List.getElem?_eq_getElem hi]
    rfl

/-- C11: DeleteUnit(k) returns NW_ERR_BADPARAM iff k ≥ NumUnits; otherwise it
returns NW_SUCCESS, the unit count decreases by exactly one, and the unit that
was at index i ≠ k is afterwards at index i when i < k and at index i - 1 when
i > k, with its coordinates, kind, flags, bias weight and I/O descriptor
unchanged. -/
theorem C11_DeleteUnit_table (T : Target) (s : State) (k : Nat) :
    ((DeleteUnit T s k).1 = NW_ERR_BADPARAM ↔ k ≥ s.nw.NumUnits) ∧
    (k < s.nw.NumUnits →
      (DeleteUnit T s k).1 = NW_SUCCESS ∧
      (DeleteUnit T s k).2.nw.NumUnits + 1 = s.nw.NumUnits ∧
      ∀ i, i < s.nw.NumUnits → i ≠ k →
        ((DeleteUnit T s k).2.nw.unit (if i < k then i else i - 1)).X = (s.nw.unit i).X ∧
        ((DeleteUnit T s k).2.nw.unit (if i < k then i else i - 1)).Y = (s.nw.unit i).Y ∧
        ((DeleteUnit T s k).2.nw.unit (if i < k then i else i - 1)).UnitType
          = (s.nw.unit i).UnitType ∧
        ((DeleteUnit T s k).2.nw.unit (if i < k then i else i - 1)).Binary
          = (s.nw.unit i).Binary ∧
        ((DeleteUnit T s k).2.nw.unit (if i < k then i else i - 1)).Bias
          = (s.nw.unit i).Bias ∧
        ((DeleteUnit T s k).2.nw.unit (if i < k then i else i - 1)).Sigmoid
          = (s.nw.unit i).Sigmoid ∧
        ((DeleteUnit T s k).2.nw.unit (if i < k then i else i - 1)).BiasWgt
          = (s.nw.unit i).BiasWgt ∧
        ((DeleteUnit T s k).2.nw.unit (if i < k then i else i - 1)).IODef
          = (s.nw.unit i).IODef) := by
  refine ⟨?_, ?_⟩
  · by_cases hk : k ≥ s.nw.NumUnits
    · unfold DeleteUnit
      rw [if_pos hk]
      exact ⟨fun _ => hk, fun _ => rfl⟩
    · unfold DeleteUnit
      rw [if_neg hk]
      exact ⟨fun h => by simp at h, fun h => absurd h hk⟩
  · intro hk
    refine ⟨?_, ?_, ?_⟩
    · unfold DeleteUnit
      rw [if_neg (by omega)]
    · unfold DeleteUnit
      rw [if_neg (by omega)]
      unfold Network.NumUnits at hk ⊢
      simp only [List.length_map]
      rw [List.length_eraseIdx_of_lt (by simpa using hk)]
      simp only [List.length_map]
      omega
    · intro i hi hik
      rw [DeleteUnit_getD T s k i hk hi hik]
      obtain ⟨h1, h2, h3, h4, h5, h6, _, _, _, h10, h11⟩ :=
        removeInput_attrs T.abi k (s.nw.unit i)
      exact ⟨h1, h2, h3, h4, h5, h6, h10, h11⟩

/-- Witness of C11: DeleteUnit(1) on the network of four units built by
fanInCalls. -/
theorem C11_DeleteUnit_table_witness :
    (DeleteUnit (exampleTarget .LP64) (fanInState .LP64) 1).1 = NW_SUCCESS :=
  ((C11_DeleteUnit_table (exampleTarget .LP64) (fanInState .LP64) 1).2 (by decide)).1

/-! ## The cached counters NumInput and NumOutput -/

theorem countType_set (nw : Network) (d t : Nat) (u : NWUnit) (hd : d < nw.NumUnits)
    (h : u.UnitType = (nw.unit d).UnitType) :
    ({ nw with UnitList := nw.UnitList.set d u } : Network).countType t = nw.countType t := by
  unfold Network.NumUnits at hd
  unfold Network.countType
  simp only []
  rw [List.countP_set _ _ _ _ hd]
  have hu : (nw.unit d) = nw.UnitList[d] := by
    simp [Network.unit, List.getD_eq_getElem?_getD, hd]
  rw [hu] at h
  rw [h]
  have := List.boole_getElem_le_countP (fun u => decide (u.UnitType = t)) nw.UnitList d hd
  omega

theorem countP_eraseIdx (p : NWUnit → Bool) (l : List NWUnit) (k : Nat) (hk : k < l.length) :
    (l.eraseIdx k).countP p + (if p (l.getD k NWUnit.zero) then 1 else 0) = l.countP p := by
  induction l generalizing k with
  | nil => simp at hk
  | cons x xs ih =>
    cases k with
    | zero => simp [List.countP_cons]
    | succ k =>
      have hk1 : k < xs.length := by simpa using hk
      have := ih k hk1
      simp only [List.eraseIdx_cons_succ, List.countP_cons, List.getD_cons_succ]
      omega

theorem spliceInput_type (M : DataModel) (u : NWUnit) (jx : Nat) :
    (spliceInput M u jx).UnitType = u.UnitType := rfl

theorem renumberInputs_type (k : Nat) (u : NWUnit) :
    (renumberInputs k u).UnitType = u.UnitType := rfl

theorem DeleteUnit_countType (T : Target) (s : State) (k t : Nat) (hk : k < s.nw.NumUnits) :
    (DeleteUnit T s k).2.nw.countType t + (if (s.nw.unit k).UnitType = t then 1 else 0)
      = s.nw.countType t := by
  unfold DeleteUnit
  rw [if_neg (by omega)]
  unfold Network.NumUnits at hk
  unfold Network.countType
  simp only [List.countP_map]
  have hf1 : ((fun u => decide (u.UnitType = t)) ∘ renumberInputs k)
      = (fun u : NWUnit => decide (u.UnitType = t)) := by
    funext u; rfl
  have hf2 : ((fun u => decide (u.UnitType = t)) ∘ removeInput T.abi k)
      = (fun u : NWUnit => decide (u.UnitType = t)) := by
    funext u
    simp only [Function.comp, (removeInput_attrs T.abi k u).2.2.1]
  rw [hf1]
  have h1 := countP_eraseIdx (fun u => decide (u.UnitType = t))
    (s.nw.UnitList.map (removeInput T.abi k)) k (by simpa using hk)
  have h2 : ((s.nw.UnitList.map (removeInput T.abi k)).getD k NWUnit.zero).UnitType
      = (s.nw.unit k).UnitType := by
    simp only [Network.unit, List.getD_eq_getElem?_getD, List.getElem?_map,
      List.getElem?_eq_getElem hk, Option.map_some', Option.getD_some]
    exact (removeInput_attrs T.abi k _).2.2.1
  rw [List.countP_map, hf2] at h1
  simp only [h2, decide_eq_true_eq] at h1
  exact h1

theorem countType_le (nw : Network) (t : Nat) : nw.countType t ≤ nw.NumUnits :=
  List.countP_le_length _


theorem CreateUnit_counters (T : Target) (s : State) (x y : Nat)
    (type binary bias sigmoid : Int) (name : List Nat) (min max : Nat)
    (h : CountersOK T s) :
    CountersOK T (CreateUnit T s x y type binary bias sigmoid name min max).2.2 := by
  obtain ⟨hi, ho⟩ := h
  by_cases hg : ¬ (type < 0 ∨ type > 2) ∧ (type = 2 ∧ sigmoid = 0 ∧ binary ≠ 0)
  · unfold CreateUnit
    rw [if_pos hg]
    exact ⟨hi, ho⟩
  · unfold CreateUnit
    rw [if_neg hg]
    have hty : (if type < 0 ∨ type > 2 then (1 : Int) else type) = 0 ∨
        (if type < 0 ∨ type > 2 then (1 : Int) else type) = 1 ∨
        (if type < 0 ∨ type > 2 then (1 : Int) else type) = 2 := by
      split_ifs <;> omega
    generalize (if type < 0 ∨ type > 2 then (1 : Int) else type) = ty at hty
    unfold CountersOK Network.countType
    unfold Network.countType at hi ho
    unfold UNIT_INPUT UNIT_OUTPUT at *
    simp only [List.countP_append, List.countP_cons, List.countP_nil, Nat.zero_add,
      decide_eq_true_eq]
    rcases hty with e | e | e <;> subst e
    · refine ⟨?_, ?_⟩
      · simp only [Int.toNat_zero, if_true, hi]
        exact Nat.mod_add_mod _ _ _
      · simp [ho]
    · refine ⟨?_, ?_⟩
      · simp [hi]
      · simp [ho]
    · refine ⟨?_, ?_⟩
      · simp [hi]
      · have h2 : (2 : Int).toNat = 2 := rfl
        simp only [h2, if_true, ho, ne_eq, OfNat.ofNat_ne_zero, not_false_eq_true, and_self]
        exact Nat.mod_add_mod _ _ _

theorem CreateConnection_fail_state (T : Target) (s : State) (source dest : Nat)
    (h : (CreateConnection T s source dest).1 ≠ NW_SUCCESS) :
    (CreateConnection T s source dest).2 = s := by
  unfold CreateConnection at h ⊢
  split_ifs at h ⊢
  · rfl
  · rfl
  · rfl
  · rfl
  · cases hsc : scanInputs source (s.nw.unit dest).InputUnits (s.nw.unit dest).NumInput 0 with
    | none => simp only [hsc]
    | some ix =>
      simp only [hsc] at h
      exact absurd rfl h

theorem CreateConnection_counters (T : Target) (s : State) (source dest : Nat)
    (h : CountersOK T s) : CountersOK T (CreateConnection T s source dest).2 := by
  by_cases hok : (CreateConnection T s source dest).1 = NW_SUCCESS
  · obtain ⟨_, hd, _, _, _, ix, hscan⟩ := CreateConnection_success_inv T s source dest hok
    have e : (CreateConnection T s source dest).2.nw =
        { s.nw with UnitList := (s.nw.UnitList.set dest
            ((CreateConnection T s source dest).2.nw.unit dest)) } ∧
        ((CreateConnection T s source dest).2.nw.unit dest).UnitType
          = (s.nw.unit dest).UnitType := by
      unfold CreateConnection
      rw [if_neg (by
        have := (CreateConnection_success_inv T s source dest hok)
        omega), if_neg (CreateConnection_success_inv T s source dest hok).2.2.1,
        if_neg (CreateConnection_success_inv T s source dest hok).2.2.2.1,
        if_neg (CreateConnection_success_inv T s source dest hok).2.2.2.2.1]
      simp only [hscan]
      rw [unit_set_self _ _ _ hd]
      exact ⟨rfl, rfl⟩
    unfold CountersOK
    rw [e.1]
    rw [countType_set _ _ _ _ hd e.2, countType_set _ _ _ _ hd e.2]
    exact h
  · rw [CreateConnection_fail_state T s source dest hok]
    exact h

theorem DeleteConnection_counters (T : Target) (s : State) (source dest : Nat)
    (h : CountersOK T s) : CountersOK T (DeleteConnection T s source dest).2 := by
  by_cases hg : source ≥ s.nw.NumUnits ∨ dest ≥ s.nw.NumUnits
  · unfold DeleteConnection
    rw [if_pos hg]
    exact h
  · by_cases hx : ULongSearch T.abi source (s.nw.unit dest).NumInput
        (s.nw.unit dest).InputUnits = T.abi.ulongMax
    · unfold DeleteConnection
      rw [if_neg hg]
      simp only [hx, if_true]
      exact h
    · unfold DeleteConnection
      rw [if_neg hg]
      simp only [hx, if_false]
      unfold CountersOK
      simp only []
      rw [countType_set _ _ _ _ (by omega) (spliceInput_type _ _ _),
        countType_set _ _ _ _ (by omega) (spliceInput_type _ _ _)]
      exact h

theorem DeleteUnit_counters (T : Target) (s : State) (k : Nat)
    (h : CountersOK T s) : CountersOK T (DeleteUnit T s k).2 := by
  by_cases hk : k ≥ s.nw.NumUnits
  · unfold DeleteUnit
    rw [if_pos hk]
    exact h
  · have hk1 : k < s.nw.NumUnits := by omega
    have ci := DeleteUnit_countType T s k UNIT_INPUT hk1
    have co := DeleteUnit_countType T s k UNIT_OUTPUT hk1
    obtain ⟨hi, ho⟩ := h
    have hm : 0 < T.abi.ulongMod := by
      unfold DataModel.ulongMod
      exact Nat.pos_of_ne_zero (pow_ne_zero _ (by decide))
    have key : ∀ c d m : Nat, 0 < m → d + 1 = c → (c % m + m - 1) % m = d % m := by
      intro c d m hm hdc
      subst hdc
      have h1 : (d + 1) % m + m - 1 = (d + 1) % m + (m - 1) := by omega
      rw [h1, Nat.mod_add_mod]
      have h2 : d + 1 + (m - 1) = d + m := by omega
      rw [h2, Nat.add_mod_right]
    have e1 : (DeleteUnit T s k).2.nw.NumInput =
        if (s.nw.unit k).UnitType = UNIT_INPUT then
          (s.nw.NumInput + T.abi.ulongMod - 1) % T.abi.ulongMod
        else s.nw.NumInput := by
      unfold DeleteUnit
      rw [if_neg hk]
    have e2 : (DeleteUnit T s k).2.nw.NumOutput =
        if (s.nw.unit k).UnitType ≠ UNIT_INPUT ∧ (s.nw.unit k).UnitType = UNIT_OUTPUT then
          (s.nw.NumOutput + T.abi.ulongMod - 1) % T.abi.ulongMod
        else s.nw.NumOutput := by
      unfold DeleteUnit
      rw [if_neg hk]
    unfold CountersOK
    rw [e1, e2]
    constructor
    · by_cases ht : (s.nw.unit k).UnitType = UNIT_INPUT
      · rw [if_pos ht] at ci ⊢
        rw [hi]
        exact key _ _ _ hm ci
      · rw [if_neg ht] at ci ⊢
        rw [hi, ← ci, Nat.add_zero]
    · by_cases ht : (s.nw.unit k).UnitType = UNIT_OUTPUT
      · have hne : (s.nw.unit k).UnitType ≠ UNIT_INPUT := by
          rw [ht]; decide
        rw [if_pos ht] at co
        rw [if_pos ⟨hne, ht⟩, ho]
        exact key _ _ _ hm co
      · rw [if_neg ht] at co
        rw [if_neg (fun h => ht h.2), ho, ← co, Nat.add_zero]

theorem runCallsC_counters (T : Target) (calls : List CallC) (s : State)
    (h : CountersOK T s) : CountersOK T (runCallsC T s calls) := by
  induction calls generalizing s with
  | nil => exact h
  | cons c cs ih =>
    apply ih
    cases c with
    | close =>
      unfold CallC.run Close CountersOK Network.countType Network.empty
      simp
    | api c =>
      cases c with
      | createUnit x y type binary bias sigmoid name min max =>
        exact CreateUnit_counters T s x y type binary bias sigmoid name min max h
      | deleteUnit k => exact DeleteUnit_counters T s k h
      | createConnection a b => exact CreateConnection_counters T s a b h
      | deleteConnection a b => exact DeleteConnection_counters T s a b h

/-- C12: in every state reached from the empty network by CreateUnit,
DeleteUnit, CreateConnection, DeleteConnection and Close calls, successful or
failing, the cached NumInput is the number of Input units and the cached
NumOutput is the number of Output units, both reduced modulo the range of
unsigned long; when the unit count fits an unsigned long, as the field
NumUnits of the source does, the counters are exactly these numbers. -/
theorem C12_counters (T : Target) (s : State) (h : ReachableC T s) :
    s.nw.NumInput = s.nw.countType UNIT_INPUT % T.abi.ulongMod ∧
    s.nw.NumOutput = s.nw.countType UNIT_OUTPUT % T.abi.ulongMod ∧
    (s.nw.NumUnits < T.abi.ulongMod →
      s.nw.NumInput = s.nw.countType UNIT_INPUT ∧
      s.nw.NumOutput = s.nw.countType UNIT_OUTPUT) := by
  obtain ⟨g, calls, rfl⟩ := h
  have h0 : CountersOK T { nw := Network.empty, rnd := g } := by
    unfold CountersOK Network.countType Network.empty
    simp
  obtain ⟨hi, ho⟩ := runCallsC_counters T calls _ h0
  refine ⟨hi, ho, fun hlt => ?_⟩
  rw [hi, ho]
  exact ⟨Nat.mod_eq_of_lt (lt_of_le_of_lt (countType_le _ _) hlt),
    Nat.mod_eq_of_lt (lt_of_le_of_lt (countType_le _ _) hlt)⟩

/-- Witness of C12: after three Input units, two Internal units, some
connections and DeleteUnit(2) the unit count fits an unsigned long, and the
counter NumInput is 2. -/
theorem C12_counters_witness :
    (runCallsC (exampleTarget .LP64) { nw := Network.empty, rnd := startRand }
      ((dupCalls ++ [Call.deleteUnit 2]).map CallC.api)).nw.NumInput
      = (runCallsC (exampleTarget .LP64) { nw := Network.empty, rnd := startRand }
          ((dupCalls ++ [Call.deleteUnit 2]).map CallC.api)).nw.countType UNIT_INPUT :=
  ((C12_counters (exampleTarget .LP64)
      (runCallsC (exampleTarget .LP64) { nw := Network.empty, rnd := startRand }
        ((dupCalls ++ [Call.deleteUnit 2]).map CallC.api))
      ⟨startRand, (dupCalls ++ [Call.deleteUnit 2]).map CallC.api, rfl⟩).2.2 (by decide)).1

/-! ## Lemmas on loops over an index range -/

theorem foldl_range_succ {σ : Type} (f : σ → Nat → σ) (s : σ) (n : Nat) :
    (List.range (n + 1)).foldl f s = f ((List.range n).foldl f s) n := by
  rw [List.range_succ, List.foldl_append]
  rfl

theorem getD_set_eq {α : Type} (l : List α) (i : Nat) (x d : α) (h : i < l.length) :
    (l.set i x).getD i d = x := by
  simp [List.getD_eq_getElem?_getD, h]

theorem getD_set_ne {α : Type} (l : List α) (i j : Nat) (x d : α) (h : i ≠ j) :
    (l.set j x).getD i d = l.getD i d := by
  simp [List.getD_eq_getElem?_getD, List.getElem?_set_ne (Ne.symm h)]

theorem getD_set {α : Type} (l : List α) (i j : Nat) (x d : α) :
    (l.set j x).getD i d = if i = j ∧ i < l.length then x else l.getD i d := by
  by_cases h : i = j
  · subst h
    by_cases hl : i < l.length
    · rw [getD_set_eq l i x d hl, if_pos ⟨rfl, hl⟩]
    · rw [if_neg (fun h => hl h.2)]
      rw [List.set_eq_of_length_le (by omega)]
  · rw [getD_set_ne l i j x d h, if_neg (fun h1 => h h1.1)]

theorem getD_of_length_le {α : Type} (l : List α) (i : Nat) (d : α) (h : l.length ≤ i) :
    l.getD i d = d := by
  simp [List.getD_eq_getElem?_getD, List.getElem?_eq_none h]

theorem list_ext_getD {α : Type} (l l' : List α) (d : α) (hl : l.length = l'.length)
    (h : ∀ i, i < l.length → l.getD i d = l'.getD i d) : l = l' := by
  apply List.ext_getElem hl
  intro i h1 h2
  have := h i h1
  rwa [List.getD_eq_getElem l d h1, List.getD_eq_getElem l' d h2] at this

/-- A loop that rewrites the entry of each index below n from its own old
value rewrites exactly these entries. -/
theorem foldl_range_pointwise {α : Type} (g : Nat → α → α) (l : List α) (d : α) (n : Nat) :
    ((List.range n).foldl (fun a j => a.set j (g j (a.getD j d))) l).length = l.length ∧
    ∀ i, ((List.range n).foldl (fun a j => a.set j (g j (a.getD j d))) l).getD i d
      = if i < n ∧ i < l.length then g i (l.getD i d) else l.getD i d := by
  induction n with
  | zero => simp
  | succ n ih =>
    rw [foldl_range_succ]
    obtain ⟨ihl, ihv⟩ := ih
    refine ⟨by rw [List.length_set, ihl], fun i => ?_⟩
    rw [getD_set, ihl, ihv, ihv]
    by_cases h1 : i = n
    · subst h1
      by_cases h2 : i < l.length
      · simp [h2]
      · simp [h2]
    · by_cases h2 : i < n
      · have : i < n + 1 := by omega
        simp [h1, h2, this]
      · have : ¬ i < n + 1 := by omega
        simp [h1, h2, this]

/-! ## SetInput, ReadOutput, ApplyTarget, SetupTrain -/

section OperationsTheorems

variable {R : Type} [LinearOrderedField R]

theorem truncate_eq_clamp (d : NWIODefV R) (v : R) (h : d.Min ≤ d.Max) :
    truncate d v = max d.Min (min v d.Max) := by
  unfold truncate
  by_cases h1 : v > d.Max
  · rw [if_pos h1, min_eq_right (le_of_lt h1), max_eq_right h]
  · rw [if_neg h1]
    have h1' : v ≤ d.Max := not_lt.1 h1
    rw [min_eq_left h1']
    by_cases h2 : v < d.Min
    · rw [if_pos h2, max_eq_left (le_of_lt h2)]
    · rw [if_neg h2, max_eq_right (not_lt.1 h2)]

theorem normalised_range (lo hi v : R) (h : lo < hi) :
    0 ≤ (max lo (min v hi) - lo) / (hi - lo) ∧ (max lo (min v hi) - lo) / (hi - lo) ≤ 1 := by
  have hpos : 0 < hi - lo := sub_pos.2 h
  have h1 : lo ≤ max lo (min v hi) := le_max_left _ _
  have h2 : max lo (min v hi) ≤ hi := max_le (le_of_lt h) (min_le_right _ _)
  refine ⟨div_nonneg (sub_nonneg.2 h1) (le_of_lt hpos), ?_⟩
  rw [div_le_one hpos]
  linarith

/-- C24: SetInput(u, v) returns NW_ERR_BADPARAM if u ≥ NumUnits and
NW_ERR_NOTINPUT if unit u exists but is not an Input unit, and changes nothing
then; for an Input unit with range min < max it returns NW_SUCCESS and stores
(clamp(v, min, max) - min) / (max - min), a value in [0, 1], into both Sum[u]
and ActLevel[u], changing no other entry and nothing else. -/
theorem C24_SetInput (net : NetworkV R) (u : Nat) (v : R) :
    (u ≥ net.NumUnits → SetInput net u v = some (NW_ERR_BADPARAM, net)) ∧
    (u < net.NumUnits → (net.unit u).UnitType ≠ UNIT_INPUT →
      SetInput net u v = some (NW_ERR_NOTINPUT, net)) ∧
    (∀ d : NWIODefV R, u < net.NumUnits → (net.unit u).UnitType = UNIT_INPUT →
      (net.unit u).IODef = some d → d.Min < d.Max →
      0 ≤ (max d.Min (min v d.Max) - d.Min) / (d.Max - d.Min) ∧
      (max d.Min (min v d.Max) - d.Min) / (d.Max - d.Min) ≤ 1 ∧
      SetInput net u v = some (NW_SUCCESS,
        { net with
          Sum := net.Sum.set u ((max d.Min (min v d.Max) - d.Min) / (d.Max - d.Min))
          ActLevel := net.ActLevel.set u
            ((max d.Min (min v d.Max) - d.Min) / (d.Max - d.Min)) })) := by
  refine ⟨fun h => ?_, fun h1 h2 => ?_, fun d h1 h2 h3 h4 => ?_⟩
  · unfold SetInput
    rw [if_pos h]
  · unfold SetInput
    rw [if_neg (by omega), if_pos h2]
  · refine ⟨(normalised_range _ _ v h4).1, (normalised_range _ _ v h4).2, ?_⟩
    unfold SetInput
    rw [if_neg (by omega), if_neg (by simpa using h2)]
    simp only [h3, truncate_eq_clamp d v (le_of_lt h4)]

/-- C25: ReadOutput(u) returns NW_ERR_BADPARAM if u ≥ NumUnits and
NW_ERR_NOTOUTPUT if unit u exists but is not an Output unit; for an Output
unit it returns NW_SUCCESS and the value
(ActLevel[u] + (0 if the sigmoid flag is set, else 0.5)) * (max - min) + min.
The function returns no state: it changes none. -/
theorem C25_ReadOutput (net : NetworkV R) (u : Nat) :
    (u ≥ net.NumUnits → ReadOutput net u = some (NW_ERR_BADPARAM, none)) ∧
    (u < net.NumUnits → (net.unit u).UnitType ≠ UNIT_OUTPUT →
      ReadOutput net u = some (NW_ERR_NOTOUTPUT, none)) ∧
    (∀ d : NWIODefV R, u < net.NumUnits → (net.unit u).UnitType = UNIT_OUTPUT →
      (net.unit u).IODef = some d →
      ReadOutput net u = some (NW_SUCCESS,
        some ((net.ActLevel.getD u 0 + (if (net.unit u).Sigmoid = true then 0 else 1 / 2))
          * (d.Max - d.Min) + d.Min))) := by
  refine ⟨fun h => ?_, fun h1 h2 => ?_, fun d h1 h2 h3 => ?_⟩
  · unfold ReadOutput
    rw [if_pos h]
  · unfold ReadOutput
    rw [if_neg (by omega), if_pos h2]
  · unfold ReadOutput
    rw [if_neg (by omega), if_neg (by simpa using h2)]
    simp only [h3]
    cases (net.unit u).Sigmoid <;> simp

/-- C23 fails as stated on the empty network: SetupTrain(1, 1) returns
NW_SUCCESS there, because the test for an empty network comes first. -/
theorem C23_counterexample :
    (SetupTrain 1 1 [] [] (NetworkV.empty : NetworkV ℚ)).1 = NW_SUCCESS ∧
    (SetupTrain 1 1 [] [] (NetworkV.empty : NetworkV ℚ)).1 ≠ NW_ERR_BADPARAM := by
  constructor
  · rfl
  · intro h
    have : (SetupTrain 1 1 [] [] (NetworkV.empty : NetworkV ℚ)).1 = NW_SUCCESS := rfl
    rw [this] at h
    exact absurd h (by decide)

/-- C23 (amended): for every network with at least one unit,
SetupTrain(accumulate, momentum) with both arguments true returns
NW_ERR_BADPARAM and changes nothing. -/
theorem C23_SetupTrain_both (net : NetworkV R) (accumulate momentum : Int)
    (errJunk : List R) (seqJunk : List Nat)
    (hn : net.NumUnits ≠ 0) (ha : accumulate ≠ 0) (hm : momentum ≠ 0) :
    SetupTrain accumulate momentum errJunk seqJunk net = (NW_ERR_BADPARAM, net) := by
  unfold SetupTrain
  rw [if_neg hn, if_pos ⟨ha, hm⟩]

end OperationsTheorems

/-- Witness of C23 (amended): SetupTrain(1, 1) on the identity network. -/
theorem C23_SetupTrain_both_witness :
    (SetupTrain 1 1 [] [] (identityNet (0 : ℚ) 1)).1 = NW_ERR_BADPARAM :=
  congrArg Prod.fst
    (C23_SetupTrain_both (identityNet (0 : ℚ) 1) 1 1 [] [] (by decide) (by decide) (by decide))

/-- Witness of C24: SetInput(0, 3) on the identity network with range [0, 2]
stores the clamped and normalised value. -/
theorem C24_SetInput_witness :
    SetInput (identityNet (0 : ℚ) 2) 0 3 = some (NW_SUCCESS,
      { identityNet (0 : ℚ) 2 with
        Sum := (identityNet (0 : ℚ) 2).Sum.set 0 ((max 0 (min 3 2) - 0) / (2 - 0))
        ActLevel := (identityNet (0 : ℚ) 2).ActLevel.set 0 ((max 0 (min 3 2) - 0) / (2 - 0)) }) :=
  ((C24_SetInput (identityNet (0 : ℚ) 2) 0 3).2.2 { Name := [105], Min := 0, Max := 2 }
    (by decide) rfl rfl (by norm_num)).2.2

/-- Witness of C25: ReadOutput(1) on the identity network with range [0, 2]. -/
theorem C25_ReadOutput_witness :
    ReadOutput (identityNet (0 : ℚ) 2) 1 = some (NW_SUCCESS,
      some (((identityNet (0 : ℚ) 2).ActLevel.getD 1 0
          + (if ((identityNet (0 : ℚ) 2).unit 1).Sigmoid = true then 0 else 1 / 2))
        * (2 - 0) + 0)) :=
  (C25_ReadOutput (identityNet (0 : ℚ) 2) 1).2.2 { Name := [111], Min := 0, Max := 2 }
    (by decide) rfl rfl

/-- A loop over two arrays that rewrites the entries of each index below n from
their own old values rewrites exactly these entries. -/
theorem foldl_range_pointwise2 {α β : Type} (F : List α × List β → Nat → List α × List β)
    (g : Nat → α → β → α × β) (da : α) (db : β)
    (hF : ∀ p j, F p j = (p.1.set j (g j (p.1.getD j da) (p.2.getD j db)).1,
      p.2.set j (g j (p.1.getD j da) (p.2.getD j db)).2))
    (l : List α) (m : List β) (n : Nat) :
    ((List.range n).foldl F (l, m)).1.length = l.length ∧
    ((List.range n).foldl F (l, m)).2.length = m.length ∧
    (∀ i, ((List.range n).foldl F (l, m)).1.getD i da
      = if i < n ∧ i < l.length then (g i (l.getD i da) (m.getD i db)).1 else l.getD i da) ∧
    (∀ i, ((List.range n).foldl F (l, m)).2.getD i db
      = if i < n ∧ i < m.length then (g i (l.getD i da) (m.getD i db)).2 else m.getD i db) := by
  induction n with
  | zero => simp
  | succ n ih =>
    rw [foldl_range_succ, hF]
    obtain ⟨ihl, ihm, ihv, ihw⟩ := ih
    have e1 : ((List.range n).foldl F (l, m)).1.getD n da = l.getD n da := by
      rw [ihv]; simp
    have e2 : ((List.range n).foldl F (l, m)).2.getD n db = m.getD n db := by
      rw [ihw]; simp
    refine ⟨by simp only [List.length_set, ihl], by simp only [List.length_set, ihm],
      fun i => ?_, fun i => ?_⟩
    · simp only []
      rw [e1, e2, getD_set, ihl, ihv]
      by_cases h1 : i = n
      · subst h1
        by_cases h2 : i < l.length
        · simp [h2]
        · simp [h2]
      · by_cases h2 : i < n
        · have : i < n + 1 := by omega
          simp [h1, h2, this]
        · have : ¬ i < n + 1 := by omega
          simp [h1, h2, this]
    · simp only []
      rw [e1, e2, getD_set, ihm, ihw]
      by_cases h1 : i = n
      · subst h1
        by_cases h2 : i < m.length
        · simp [h2]
        · simp [h2]
      · by_cases h2 : i < n
        · have : i < n + 1 := by omega
          simp [h1, h2, this]
        · have : ¬ i < n + 1 := by omega
          simp [h1, h2, this]

/-- The same for a loop over three arrays. -/
theorem foldl_range_pointwise3 {α β γ : Type}
    (F : List α × List β × List γ → Nat → List α × List β × List γ)
    (g : Nat → α → β → γ → α × β × γ) (da : α) (db : β) (dc : γ)
    (hF : ∀ p j, F p j =
      (p.1.set j (g j (p.1.getD j da) (p.2.1.getD j db) (p.2.2.getD j dc)).1,
        p.2.1.set j (g j (p.1.getD j da) (p.2.1.getD j db) (p.2.2.getD j dc)).2.1,
        p.2.2.set j (g j (p.1.getD j da) (p.2.1.getD j db) (p.2.2.getD j dc)).2.2))
    (l : List α) (m : List β) (k : List γ) (n : Nat) :
    ((List.range n).foldl F (l, m, k)).1.length = l.length ∧
    ((List.range n).foldl F (l, m, k)).2.1.length = m.length ∧
    ((List.range n).foldl F (l, m, k)).2.2.length = k.length ∧
    (∀ i, ((List.range n).foldl F (l, m, k)).1.getD i da
      = if i < n ∧ i < l.length then (g i (l.getD i da) (m.getD i db) (k.getD i dc)).1
        else l.getD i da) ∧
    (∀ i, ((List.range n).foldl F (l, m, k)).2.1.getD i db
      = if i < n ∧ i < m.length then (g i (l.getD i da) (m.getD i db) (k.getD i dc)).2.1
        else m.getD i db) ∧
    (∀ i, ((List.range n).foldl F (l, m, k)).2.2.getD i dc
      = if i < n ∧ i < k.length then (g i (l.getD i da) (m.getD i db) (k.getD i dc)).2.2
        else k.getD i dc) := by
  induction n with
  | zero => simp
  | succ n ih =>
    rw [foldl_range_succ, hF]
    obtain ⟨ihl, ihm, ihk, ihv, ihw, ihx⟩ := ih
    have e1 : ((List.range n).foldl F (l, m, k)).1.getD n da = l.getD n da := by
      rw [ihv]; simp
    have e2 : ((List.range n).foldl F (l, m, k)).2.1.getD n db = m.getD n db := by
      rw [ihw]; simp
    have e3 : ((List.range n).foldl F (l, m, k)).2.2.getD n dc = k.getD n dc := by
      rw [ihx]; simp
    refine ⟨by simp only [List.length_set, ihl], by simp only [List.length_set, ihm],
      by simp only [List.length_set, ihk], fun i => ?_, fun i => ?_, fun i => ?_⟩
    · simp only []
      rw [e1, e2, e3, getD_set, ihl, ihv]
      by_cases h1 : i = n
      · subst h1
        by_cases h2 : i < l.length
        · simp [h2]
        · simp [h2]
      · by_cases h2 : i < n
        · have : i < n + 1 := by omega
          simp [h1, h2, this]
        · have : ¬ i < n + 1 := by omega
          simp [h1, h2, this]
    · simp only []
      rw [e1, e2, e3, getD_set, ihm, ihw]
      by_cases h1 : i = n
      · subst h1
        by_cases h2 : i < m.length
        · simp [h2]
        · simp [h2]
      · by_cases h2 : i < n
        · have : i < n + 1 := by omega
          simp [h1, h2, this]
        · have : ¬ i < n + 1 := by omega
          simp [h1, h2, this]
    · simp only []
      rw [e1, e2, e3, getD_set, ihk, ihx]
      by_cases h1 : i = n
      · subst h1
        by_cases h2 : i < k.length
        · simp [h2]
        · simp [h2]
      · by_cases h2 : i < n
        · have : i < n + 1 := by omega
          simp [h1, h2, this]
        · have : ¬ i < n + 1 := by omega
          simp [h1, h2, this]

/-! ## ApplyAccum -/

section AccumTheorems

variable {R : Type} [LinearOrderedField R]

theorem applyAccumWeight_fold (w r : List R) (n : Nat) :
    ((List.range n).foldl applyAccumWeight (w, r)).1.length = w.length ∧
    ((List.range n).foldl applyAccumWeight (w, r)).2.length = r.length ∧
    (∀ i, ((List.range n).foldl applyAccumWeight (w, r)).1.getD i 0
      = if i < n ∧ i < w.length then w.getD i 0 + r.getD i 0 else w.getD i 0) ∧
    (∀ i, ((List.range n).foldl applyAccumWeight (w, r)).2.getD i 0
      = if i < n ∧ i < r.length then 0 else r.getD i 0) :=
  foldl_range_pointwise2 applyAccumWeight (fun _ x y => (x + y, 0)) 0 0
    (fun _ _ => rfl) w r n

/-- The row of zeros that SetupTrain allocates for the unit u. -/
theorem trainRows_getD (U : List (NWUnitV R)) (ix : Nat) (h : ix < U.length) :
    (trainRows U).getD ix []
      = List.replicate (if (U.getD ix NWUnitV.zero).Bias = true
          then (U.getD ix NWUnitV.zero).NumInput + 1
          else (U.getD ix NWUnitV.zero).NumInput) 0 := by
  unfold trainRows
  rw [List.getD_eq_getElem _ _ (by simpa using h), List.getD_eq_getElem _ _ h]
  simp

theorem applyAccumArrays_spec (u : NWUnitV R) (row : List R)
    (hw : u.InputWgts.length = u.NumInput)
    (hr : row.length = if u.Bias = true then u.NumInput + 1 else u.NumInput) :
    (applyAccumArrays u row).1 =
      { u with
        InputWgts := (applyAccumArrays u row).1.InputWgts
        BiasWgt := (if u.Bias = true then u.BiasWgt + row.getD u.NumInput 0 else u.BiasWgt) } ∧
    (applyAccumArrays u row).1.InputWgts.length = u.NumInput ∧
    (∀ j, j < u.NumInput →
      (applyAccumArrays u row).1.InputWgts.getD j 0 = u.InputWgts.getD j 0 + row.getD j 0) ∧
    (applyAccumArrays u row).2
      = List.replicate (if u.Bias = true then u.NumInput + 1 else u.NumInput) 0 := by
  obtain ⟨f1, f2, f3, f4⟩ := applyAccumWeight_fold u.InputWgts row u.NumInput
  unfold applyAccumArrays
  by_cases hb : u.Bias = true
  · rw [if_pos hb] at hr ⊢
    simp only [hb, if_true]
    refine ⟨?_, by rw [f1, hw], fun j hj => ?_, ?_⟩
    · rw [f4]
      simp
    · rw [f3, if_pos ⟨hj, by omega⟩]
    · apply list_ext_getD _ _ 0
      · simp [f2, hr]
      · intro i hi
        rw [List.length_set, f2, hr] at hi
        rw [getD_set, f2, f4, hr]
        by_cases h1 : i = u.NumInput
        · simp [h1, List.getD_eq_getElem?_getD]
        · have : i < u.NumInput := by omega
          simp [h1, this, List.getD_eq_getElem?_getD, hi]
  · rw [if_neg hb] at hr ⊢
    simp only [hb, if_false]
    refine ⟨by simp, by rw [f1, hw], fun j hj => ?_, ?_⟩
    · rw [f3, if_pos ⟨hj, by omega⟩]
    · apply list_ext_getD _ _ 0
      · simp [f2, hr]
      · intro i hi
        rw [f2, hr] at hi
        rw [f4, hr]
        simp [hi, List.getD_eq_getElem?_getD]

theorem applyAccumUnit_fold (U : List (NWUnitV R)) (a : List (List R)) (n : Nat) :
    ((List.range n).foldl applyAccumUnit (U, a)).1.length = U.length ∧
    ((List.range n).foldl applyAccumUnit (U, a)).2.length = a.length ∧
    (∀ i, ((List.range n).foldl applyAccumUnit (U, a)).1.getD i NWUnitV.zero
      = if i < n ∧ i < U.length
        then (applyAccumArrays (U.getD i NWUnitV.zero) (a.getD i [])).1
        else U.getD i NWUnitV.zero) ∧
    (∀ i, ((List.range n).foldl applyAccumUnit (U, a)).2.getD i []
      = if i < n ∧ i < a.length
        then (applyAccumArrays (U.getD i NWUnitV.zero) (a.getD i [])).2
        else a.getD i []) :=
  foldl_range_pointwise2 applyAccumUnit (fun _ u r => applyAccumArrays u r) NWUnitV.zero []
    (fun _ _ => rfl) U a n

/-- ApplyAccum under the shape of the rows: unit by unit. -/
theorem ApplyAccum_units (net : NetworkV R) (a : List (List R))
    (hacc : net.Accum = some a) (hs : AccumShape net a) :
    (ApplyAccum net).1 = NW_SUCCESS ∧
    (ApplyAccum net).2.NumUnits = net.NumUnits ∧
    (∀ ix, ix < net.NumUnits →
      (ApplyAccum net).2.unit ix = (applyAccumArrays (net.unit ix) (a.getD ix [])).1) ∧
    (ApplyAccum net).2.Accum = some (trainRows net.UnitList) ∧
    (ApplyAccum net).2.Sum = net.Sum ∧ (ApplyAccum net).2.ActLevel = net.ActLevel ∧
    (ApplyAccum net).2.Error = net.Error ∧ (ApplyAccum net).2.BackSeq = net.BackSeq ∧
    (ApplyAccum net).2.Momentum = net.Momentum := by
  obtain ⟨f1, f2, f3, f4⟩ := applyAccumUnit_fold net.UnitList a net.NumUnits
  obtain ⟨ha, hrow⟩ := hs
  unfold ApplyAccum
  simp only [hacc]
  refine ⟨trivial, f1, fun ix hix => ?_, ?_, trivial, trivial, trivial, trivial, trivial⟩
  · show ((List.range net.NumUnits).foldl applyAccumUnit (net.UnitList, a)).1.getD ix
      NWUnitV.zero = _
    rw [f3, if_pos ⟨hix, hix⟩]
    rfl
  · congr 1
    apply list_ext_getD _ _ []
    · rw [f2, ha]
      simp [trainRows, NetworkV.NumUnits]
    · intro i hi
      rw [f2, ha] at hi
      rw [f4, if_pos ⟨hi, by rw [ha]; exact hi⟩, trainRows_getD _ _ hi]
      exact (applyAccumArrays_spec _ _ (hrow i hi).1 (hrow i hi).2).2.2.2

theorem applyAccumArrays_zero (u : NWUnitV R)
    (hw : u.InputWgts.length = u.NumInput) :
    (applyAccumArrays u
      (List.replicate (if u.Bias = true then u.NumInput + 1 else u.NumInput) 0)).1 = u := by
  obtain ⟨h1, h2, h3, _⟩ := applyAccumArrays_spec u
    (List.replicate (if u.Bias = true then u.NumInput + 1 else u.NumInput) 0) hw (by simp)
  have hz : ∀ j, (List.replicate (if u.Bias = true then u.NumInput + 1 else u.NumInput)
      (0 : R)).getD j 0 = 0 := by
    intro j
    rw [List.getD_eq_getElem?_getD, List.getElem?_replicate]
    split_ifs <;> rfl
  have hl : (applyAccumArrays u
      (List.replicate (if u.Bias = true then u.NumInput + 1 else u.NumInput) 0)).1.InputWgts
        = u.InputWgts := by
    apply list_ext_getD _ _ 0 (by rw [h2, hw])
    intro j hj
    rw [h2] at hj
    rw [h3 j hj, hz, add_zero]
  rw [h1, hl, hz]
  simp

end AccumTheorems

section AccumClaim

variable {R : Type} [LinearOrderedField R]

theorem ApplyAccum_twice (net : NetworkV R) (a : List (List R))
    (hacc : net.Accum = some a) (hs : AccumShape net a) :
    (ApplyAccum (ApplyAccum net).2).2.UnitList = (ApplyAccum net).2.UnitList := by
  obtain ⟨_, hn, hu, ha, _⟩ := ApplyAccum_units net a hacc hs
  have hspec : ∀ ix, ix < net.NumUnits →
      ((ApplyAccum net).2.unit ix).InputWgts.length = ((ApplyAccum net).2.unit ix).NumInput ∧
      ((ApplyAccum net).2.unit ix).NumInput = (net.unit ix).NumInput ∧
      ((ApplyAccum net).2.unit ix).Bias = (net.unit ix).Bias := by
    intro ix hix
    obtain ⟨h1, h2, _, _⟩ := applyAccumArrays_spec _ _ (hs.2 ix hix).1 (hs.2 ix hix).2
    rw [hu ix hix]
    refine ⟨?_, ?_, ?_⟩
    · rw [h2, h1]
    · rw [h1]
    · rw [h1]
  have hs2 : AccumShape (ApplyAccum net).2 (trainRows net.UnitList) := by
    refine ⟨by rw [hn]; simp [trainRows, NetworkV.NumUnits], fun ix hix => ?_⟩
    rw [hn] at hix
    obtain ⟨h1, h2, h3⟩ := hspec ix hix
    refine ⟨h1, ?_⟩
    rw [trainRows_getD _ _ hix, h2, h3]
    simp [NetworkV.unit]
  obtain ⟨_, hn2, hu2, _⟩ := ApplyAccum_units (ApplyAccum net).2 _ ha hs2
  apply list_ext_getD _ _ NWUnitV.zero hn2
  intro i hi
  have hi2 : i < (ApplyAccum net).2.NumUnits := by rw [← hn2]; exact hi
  have hi3 : i < net.NumUnits := by rw [← hn]; exact hi2
  obtain ⟨h1, h2, h3⟩ := hspec i hi3
  have := hu2 i hi2
  unfold NetworkV.unit at this h1 h2 h3
  rw [this, trainRows_getD _ _ hi3, ← h2, ← h3]
  exact applyAccumArrays_zero _ h1

/-- C21: when accumulate mode is not active (Accum is null) ApplyAccum returns
success and changes nothing.  In accumulate mode, with the rows of Accum shaped
as SetupTrain allocates them, ApplyAccum returns success, adds to every
connection weight the value of its accumulator slot and to the bias weight of
every unit with the bias flag the value of the bias slot (slot NumInput),
leaves the bias weight of the other units as it was, leaves every accumulator
slot at 0 (the rows are again the zero rows of SetupTrain), and a second
ApplyAccum right after leaves the whole unit table as it is. -/
theorem C21_ApplyAccum (net : NetworkV R) :
    (net.Accum = none → ApplyAccum net = (NW_SUCCESS, net)) ∧
    (∀ a, net.Accum = some a → AccumShape net a →
      (ApplyAccum net).1 = NW_SUCCESS ∧
      (ApplyAccum net).2.NumUnits = net.NumUnits ∧
      (∀ ix, ix < net.NumUnits →
        ((ApplyAccum net).2.unit ix).InputWgts.length = (net.unit ix).NumInput ∧
        (∀ j, j < (net.unit ix).NumInput →
          ((ApplyAccum net).2.unit ix).InputWgts.getD j 0
            = (net.unit ix).InputWgts.getD j 0 + (a.getD ix []).getD j 0) ∧
        ((ApplyAccum net).2.unit ix).BiasWgt
          = (if (net.unit ix).Bias = true
              then (net.unit ix).BiasWgt + (a.getD ix []).getD (net.unit ix).NumInput 0
              else (net.unit ix).BiasWgt)) ∧
      (ApplyAccum net).2.Accum = some (trainRows net.UnitList) ∧
      (∀ row, row ∈ trainRows net.UnitList → ∀ x, x ∈ row → x = 0) ∧
      (ApplyAccum (ApplyAccum net).2).2.UnitList = (ApplyAccum net).2.UnitList) := by
  refine ⟨fun h => ?_, fun a hacc hs => ?_⟩
  · unfold ApplyAccum
    rw [h]
  · obtain ⟨h0, hn, hu, ha, _⟩ := ApplyAccum_units net a hacc hs
    refine ⟨h0, hn, fun ix hix => ?_, ha, ?_, ApplyAccum_twice net a hacc hs⟩
    · obtain ⟨h1, h2, h3, _⟩ := applyAccumArrays_spec _ _ (hs.2 ix hix).1 (hs.2 ix hix).2
      rw [hu ix hix]
      refine ⟨h2, h3, ?_⟩
      rw [h1]
    · intro row hrow x hx
      unfold trainRows at hrow
      rw [List.mem_map] at hrow
      obtain ⟨u, _, rfl⟩ := hrow
      exact List.eq_of_mem_replicate hx

end AccumClaim

/-- Witness of C21: on the layered network with the accumulator rows
[5], [6], [1, 2, 3], [4, 7], ApplyAccum makes the weight of connection 1 of
unit 2 equal to 1 + 2. -/
theorem C21_ApplyAccum_witness :
    (((ApplyAccum (accumNet : NetworkV ℚ)).2.unit 2).InputWgts.getD 1 0
      = ((accumNet : NetworkV ℚ).unit 2).InputWgts.getD 1 0
        + (([[5], [6], [1, 2, 3], [4, 7]] : List (List ℚ)).getD 2 []).getD 1 0) :=
  ((((C21_ApplyAccum (accumNet : NetworkV ℚ)).2 [[5], [6], [1, 2, 3], [4, 7]] rfl
    ⟨rfl, by decide⟩).2.2.1 2 (by decide)).2.1 1 (by decide))

/-! ## The identity network and the layered network -/

section ExampleRuns

variable {R : Type} [LinearOrderedField R]

theorem SetInput_identityNet (lo hi v : R) :
    SetInput (identityNet lo hi) 0 v = some (NW_SUCCESS,
      { identityNet lo hi with
        Sum := [(truncate { Name := [105], Min := lo, Max := hi } v - lo) / (hi - lo), 0]
        ActLevel := [(truncate { Name := [105], Min := lo, Max := hi } v - lo) / (hi - lo), 0] }) :=
  rfl

theorem ForwardPass_identityNet (expf : R → R) (lo hi a : R) :
    ForwardPass expf { identityNet lo hi with Sum := [a, 0], ActLevel := [a, 0] }
      = some (NW_SUCCESS,
        { identityNet lo hi with
          Sum := [a, 0 + a * 1]
          ActLevel := [a, if 0 + a * 1 > 1 / 2 then 1 / 2
            else (if 0 + a * 1 < -(1 / 2) then -(1 / 2) else 0 + a * 1)] }) :=
  rfl

theorem ReadOutput_identityNet (lo hi : R) (S A : List R) :
    ReadOutput { identityNet lo hi with Sum := S, ActLevel := A } 1
      = some (NW_SUCCESS, some ((A.getD 1 0 + 1 / 2) * (hi - lo) + lo)) :=
  rfl

theorem identity_read (lo hi c : R) (h : lo < hi) (hc1 : lo ≤ c) :
    ((if 0 + (c - lo) / (hi - lo) * 1 > 1 / 2 then 1 / 2
        else (if 0 + (c - lo) / (hi - lo) * 1 < -(1 / 2) then -(1 / 2)
          else 0 + (c - lo) / (hi - lo) * 1)) + 1 / 2) * (hi - lo) + lo
      = min (c + (hi - lo) / 2) hi := by
  have hpos : 0 < hi - lo := sub_pos.2 h
  have ha0 : 0 ≤ (c - lo) / (hi - lo) := div_nonneg (sub_nonneg.2 hc1) (le_of_lt hpos)
  have hc : (c - lo) / (hi - lo) * (hi - lo) = c - lo := div_mul_cancel₀ _ (ne_of_gt hpos)
  rw [zero_add, mul_one]
  by_cases h1 : (c - lo) / (hi - lo) > 1 / 2
  · rw [if_pos h1]
    have : hi ≤ c + (hi - lo) / 2 := by
      have := mul_lt_mul_of_pos_right h1 hpos
      rw [hc] at this
      linarith
    rw [min_eq_right this]
    ring
  · rw [if_neg h1, if_neg (by linarith)]
    have : c + (hi - lo) / 2 ≤ hi := by
      have := mul_le_mul_of_nonneg_right (not_lt.1 h1) (le_of_lt hpos)
      rw [hc] at this
      linarith
    rw [min_eq_left this, add_mul, hc]
    ring

/-- C27 fails as stated: on the identity network with range [0, 1] and the raw
value 0, SetInput, ForwardPass and ReadOutput succeed and ReadOutput gives 1/2,
which is not clamp(0, 0, 1) = 0.  The linear Output unit holds the activation
0 and ReadOutput adds 1/2 before it scales. -/
theorem C27_counterexample :
    ∃ n1 n2 : NetworkV ℚ,
      SetInput (identityNet (0 : ℚ) 1) 0 0 = some (NW_SUCCESS, n1) ∧
      ForwardPass (fun _ => 1) n1 = some (NW_SUCCESS, n2) ∧
      ReadOutput n2 1 = some (NW_SUCCESS, some (1 / 2)) ∧
      (1 / 2 : ℚ) ≠ max 0 (min 0 1) := by
  refine ⟨_, _, SetInput_identityNet 0 1 0, ForwardPass_identityNet _ 0 1 _, ?_, by norm_num⟩
  rw [ReadOutput_identityNet]
  norm_num [truncate]

/-- C27 (amended): on the identity network with range min < max, for every raw
value v and every function used for exp, SetInput(input, v) and ForwardPass
succeed and ReadOutput(output) then gives
min(clamp(v, min, max) + (max - min) / 2, max): the clamped raw value shifted
up by half the range and capped at max. -/
theorem C27_identity_network (expf : R → R) (lo hi v : R) (h : lo < hi) :
    ∃ n1 n2 : NetworkV R,
      SetInput (identityNet lo hi) 0 v = some (NW_SUCCESS, n1) ∧
      ForwardPass expf n1 = some (NW_SUCCESS, n2) ∧
      ReadOutput n2 1
        = some (NW_SUCCESS, some (min (max lo (min v hi) + (hi - lo) / 2) hi)) := by
  refine ⟨_, _, SetInput_identityNet lo hi v, ForwardPass_identityNet expf lo hi _, ?_⟩
  rw [ReadOutput_identityNet]
  have ht := truncate_eq_clamp { Name := [105], Min := lo, Max := hi } v (le_of_lt h)
  simp only [] at ht
  rw [ht]
  have := identity_read lo hi (max lo (min v hi)) h (le_max_left _ _)
  simp only [List.getD_cons_succ, List.getD_cons_zero]
  rw [this]

end ExampleRuns

/-- Witness of C27 (amended): range [0, 2] and raw value 3 over ℚ. -/
theorem C27_identity_network_witness :
    ∃ n1 n2 : NetworkV ℚ,
      SetInput (identityNet (0 : ℚ) 2) 0 3 = some (NW_SUCCESS, n1) ∧
      ForwardPass (fun _ => 1) n1 = some (NW_SUCCESS, n2) ∧
      ReadOutput n2 1
        = some (NW_SUCCESS, some (min (max 0 (min 3 2) + (2 - 0) / 2) 2)) :=
  C27_identity_network (fun _ => 1) 0 2 3 (by norm_num)

section LayeredRun

variable {R : Type} [LinearOrderedField R]

theorem SetInput_layeredNet (S A : List R) (a v : R) :
    SetInput { (layeredNet : NetworkV R) with Sum := a :: 0 :: S, ActLevel := a :: 0 :: A } 1 v
      = some (NW_SUCCESS,
        { (layeredNet : NetworkV R) with
          Sum := a :: (truncate ({ Name := [105], Min := 0, Max := 1 } : NWIODefV R) v - 0)
            / (1 - 0) :: S
          ActLevel := a :: (truncate ({ Name := [105], Min := 0, Max := 1 } : NWIODefV R) v - 0)
            / (1 - 0) :: A }) :=
  rfl

theorem SetInput_layeredNet_zero (v : R) :
    SetInput (layeredNet : NetworkV R) 0 v
      = some (NW_SUCCESS,
        { (layeredNet : NetworkV R) with
          Sum := [(truncate ({ Name := [105], Min := 0, Max := 1 } : NWIODefV R) v - 0)
            / (1 - 0), 0, 0, 0]
          ActLevel := [(truncate ({ Name := [105], Min := 0, Max := 1 } : NWIODefV R) v - 0)
            / (1 - 0), 0, 0, 0] }) :=
  rfl

theorem fwdStart_layeredNet (a b : R) :
    fwdStart { (layeredNet : NetworkV R) with Sum := [a, b, 0, 0], ActLevel := [a, b, 0, 0] }
      = { flags := [true, true, false, false], Sum := [a, b, 0, 0], ActLevel := [a, b, 0, 0],
          BackSeq := none, num_processed := 0, tot_processed := 2 } :=
  rfl

theorem fwdSweep_layeredNet (expf : R → R) (a b : R) :
    fwdSweep expf (layeredNet : NetworkV R).UnitList
      { flags := [true, true, false, false], Sum := [a, b, 0, 0], ActLevel := [a, b, 0, 0],
          BackSeq := none, num_processed := 0, tot_processed := 2 }
      = { flags := [true, true, true, true],
          Sum := [a, b, 0 + a * 1 + b * 1, 0 + 1 / (1 + expf (-(0 + a * 1 + b * 1))) * 1],
          ActLevel := [a, b, 1 / (1 + expf (-(0 + a * 1 + b * 1))),
            1 / (1 + expf (-(0 + 1 / (1 + expf (-(0 + a * 1 + b * 1))) * 1)))],
          BackSeq := none, num_processed := 2, tot_processed := 4 } :=
  rfl

theorem ForwardPass_one_sweep (expf : R → R) (net : NetworkV R) (st : FwdState R)
    (hn : net.NumUnits ≠ 0) (hs : fwdSweep expf net.UnitList (fwdStart net) = st)
    (ht : st.tot_processed = net.UnitList.length) :
    ForwardPass expf net = some (NW_SUCCESS,
      { net with
        UnitList := net.UnitList.map (fun u => { u with Flag1 := false })
        Sum := st.Sum
        ActLevel := st.ActLevel
        BackSeq := st.BackSeq }) := by
  unfold ForwardPass
  rw [if_neg hn]
  obtain ⟨k, hk⟩ := Nat.exists_eq_succ_of_ne_zero hn
  rw [hk]
  unfold fwdLoop
  rw [hs, if_pos ht]

theorem ForwardPass_layeredNet (expf : R → R) (a b : R) :
    ForwardPass expf
        { (layeredNet : NetworkV R) with Sum := [a, b, 0, 0], ActLevel := [a, b, 0, 0] }
      = some (NW_SUCCESS,
        { (layeredNet : NetworkV R) with
          Sum := [a, b, 0 + a * 1 + b * 1, 0 + 1 / (1 + expf (-(0 + a * 1 + b * 1))) * 1]
          ActLevel := [a, b, 1 / (1 + expf (-(0 + a * 1 + b * 1))),
            1 / (1 + expf (-(0 + 1 / (1 + expf (-(0 + a * 1 + b * 1))) * 1)))] }) := by
  rw [ForwardPass_one_sweep expf
    { (layeredNet : NetworkV R) with Sum := [a, b, 0, 0], ActLevel := [a, b, 0, 0] } _
    (Nat.succ_ne_zero 3)
    ((congrArg _ (fwdStart_layeredNet a b)).trans (fwdSweep_layeredNet expf a b)) rfl]
  rfl

theorem layeredNet_run (expf : R → R) :
    ∃ n1 n2 n3 : NetworkV R,
      SetInput (layeredNet : NetworkV R) 0 0 = some (NW_SUCCESS, n1) ∧
      SetInput n1 1 0 = some (NW_SUCCESS, n2) ∧
      ForwardPass expf n2 = some (NW_SUCCESS, n3) ∧
      n3.ActLevel.getD 2 0
        = 1 / (1 + expf (-(0
            + (truncate ({ Name := [105], Min := 0, Max := 1 } : NWIODefV R) 0 - 0) / (1 - 0) * 1
            + (truncate ({ Name := [105], Min := 0, Max := 1 } : NWIODefV R) 0 - 0) / (1 - 0) * 1))) ∧
      n3.ActLevel.getD 3 0 = 1 / (1 + expf (-(0 + n3.ActLevel.getD 2 0 * 1))) :=
  ⟨_, _, _, SetInput_layeredNet_zero 0, SetInput_layeredNet _ _ _ 0,
    ForwardPass_layeredNet expf _ _, rfl, rfl⟩

end LayeredRun

theorem layeredNet_run_real :
    ∃ n1 n2 n3 : NetworkV ℝ,
      SetInput (layeredNet : NetworkV ℝ) 0 0 = some (NW_SUCCESS, n1) ∧
      SetInput n1 1 0 = some (NW_SUCCESS, n2) ∧
      ForwardPass Real.exp n2 = some (NW_SUCCESS, n3) ∧
      n3.ActLevel.getD 2 0 = 1 / 2 ∧
      n3.ActLevel.getD 3 0 = 1 / (1 + Real.exp (-(1 / 2))) := by
  obtain ⟨n1, n2, n3, h1, h2, h3, h4, h5⟩ := layeredNet_run Real.exp
  have e : n3.ActLevel.getD 2 0 = 1 / 2 := by
    rw [h4]
    norm_num [truncate]
  refine ⟨n1, n2, n3, h1, h2, h3, e, ?_⟩
  rw [h5, e]
  norm_num

/-- C28 fails as stated: on the layered network (two Input units, one
Internal unit, one sigmoid Output unit, all weights 1, all bias weights 0),
after SetInput of 0 on both Input units and ForwardPass over the reals, the
Internal unit has the activation 1/2 and the Output unit, whose only input is
the Internal unit, has the activation sigmoid(1/2), which differs from
sigmoid(1). -/
theorem C28_counterexample :
    ∃ n1 n2 n3 : NetworkV ℝ,
      SetInput (layeredNet : NetworkV ℝ) 0 0 = some (NW_SUCCESS, n1) ∧
      SetInput n1 1 0 = some (NW_SUCCESS, n2) ∧
      ForwardPass Real.exp n2 = some (NW_SUCCESS, n3) ∧
      n3.ActLevel.getD 3 0 = 1 / (1 + Real.exp (-(1 / 2))) ∧
      n3.ActLevel.getD 3 0 ≠ 1 / (1 + Real.exp (-1)) := by
  obtain ⟨n1, n2, n3, h1, h2, h3, _, h5⟩ := layeredNet_run_real
  refine ⟨n1, n2, n3, h1, h2, h3, h5, ?_⟩
  rw [h5]
  intro h
  have hpos1 : (0 : ℝ) < 1 + Real.exp (-(1 / 2)) := by positivity
  have hpos2 : (0 : ℝ) < 1 + Real.exp (-1) := by positivity
  rw [div_eq_div_iff (ne_of_gt hpos1) (ne_of_gt hpos2)] at h
  have h3 : Real.exp (-(1 / 2)) = Real.exp (-1) := by linarith
  have := Real.exp_injective h3
  norm_num at this

/-- C28 (amended): on the layered network, after SetInput of 0 on both Input
units, ForwardPass over the reals succeeds, the Internal unit has the
activation sigmoid(0) = 1/2 and the Output unit has the activation
sigmoid(1/2) = 1 / (1 + exp(-1/2)). -/
theorem C28_layered_network :
    ∃ n1 n2 n3 : NetworkV ℝ,
      SetInput (layeredNet : NetworkV ℝ) 0 0 = some (NW_SUCCESS, n1) ∧
      SetInput n1 1 0 = some (NW_SUCCESS, n2) ∧
      ForwardPass Real.exp n2 = some (NW_SUCCESS, n3) ∧
      n3.ActLevel.getD 2 0 = 1 / 2 ∧
      n3.ActLevel.getD 3 0 = 1 / (1 + Real.exp (-(1 / 2))) :=
  layeredNet_run_real

/-! ## BackwardPass: the replay terminates -/

section ReplayTheorems

variable {R : Type} [LinearOrderedField R]

theorem replay_fold_mono (U : List (NWUnitV R)) (bs : List Nat) (L : List Nat)
    (st : Nat × List R) : st.1 ≤ (L.foldl (replayUnit U bs) st).1 := by
  induction L generalizing st with
  | nil => exact le_refl _
  | cons x L ih =>
    rw [List.foldl_cons]
    refine le_trans ?_ (ih _)
    unfold replayUnit
    split_ifs
    · exact Nat.le_succ _
    · exact le_refl _

theorem replay_fold_le (U : List (NWUnitV R)) (bs : List Nat) (N : Nat) (L : List Nat)
    (hb : ∀ ix, ix ∈ L → bs.getD ix 0 < N) (st : Nat × List R) (h : st.1 ≤ N) :
    (L.foldl (replayUnit U bs) st).1 ≤ N := by
  induction L generalizing st with
  | nil => exact h
  | cons x L ih =>
    rw [List.foldl_cons]
    apply ih (fun ix hix => hb ix (List.mem_cons_of_mem _ hix))
    unfold replayUnit
    split_ifs with h1
    · have := hb x (List.mem_cons_self _ _)
      show st.1 + 1 ≤ N
      omega
    · exact h

theorem replay_fold_progress (U : List (NWUnitV R)) (bs : List Nat) (L : List Nat)
    (st : Nat × List R) (h : ∃ ix, ix ∈ L ∧ bs.getD ix 0 = st.1) :
    st.1 < (L.foldl (replayUnit U bs) st).1 := by
  induction L generalizing st with
  | nil =>
    obtain ⟨ix, hix, _⟩ := h
    simp at hix
  | cons x L ih =>
    rw [List.foldl_cons]
    by_cases h1 : bs.getD x 0 = st.1
    · have e : replayUnit U bs st x = (st.1 + 1, propagate (U.getD x NWUnitV.zero) x st.2) := by
        unfold replayUnit
        rw [if_pos h1]
      have := replay_fold_mono U bs L (replayUnit U bs st x)
      rw [e] at this ⊢
      exact lt_of_lt_of_le (Nat.lt_succ_self _) this
    · have e : replayUnit U bs st x = st := by
        unfold replayUnit
        rw [if_neg h1]
      rw [e]
      apply ih
      obtain ⟨ix, hix, hv⟩ := h
      rcases List.mem_cons.1 hix with rfl | hmem
      · exact absurd hv h1
      · exact ⟨ix, hmem, hv⟩

/-- The replay returns when the ranks in BackSeq are a permutation of
0, ..., NumUnits - 1. -/
theorem replayLoop_some (U : List (NWUnitV R)) (bs : List Nat)
    (hperm : bs.Perm (List.range U.length)) :
    ∀ (fuel : Nat) (st : Nat × List R), st.1 ≤ U.length → U.length - st.1 ≤ fuel → 1 ≤ fuel →
      ∃ err, replayLoop U bs fuel st = some err := by
  have hlen : bs.length = U.length := by rw [hperm.length_eq, List.length_range]
  have hb : ∀ ix, ix ∈ (List.range U.length).reverse → bs.getD ix 0 < U.length := by
    intro ix hix
    have hix2 : ix < bs.length := by
      rw [hlen]
      exact List.mem_range.1 (List.mem_reverse.1 hix)
    rw [List.getD_eq_getElem _ _ hix2]
    exact List.mem_range.1 (hperm.subset (List.getElem_mem _))
  have hs : ∀ k, k < U.length → ∃ ix, ix ∈ (List.range U.length).reverse ∧ bs.getD ix 0 = k := by
    intro k hk
    have : k ∈ bs := hperm.symm.subset (List.mem_range.2 hk)
    obtain ⟨ix, hix, hv⟩ := List.getElem_of_mem this
    refine ⟨ix, List.mem_reverse.2 (List.mem_range.2 (by rw [← hlen]; exact hix)), ?_⟩
    rw [List.getD_eq_getElem _ _ hix, hv]
  intro fuel
  induction fuel with
  | zero => intro st _ _ h; omega
  | succ fuel ih =>
    intro st h1 h2 _
    unfold replayLoop
    by_cases he : (replaySweep U bs st).1 = U.length
    · rw [if_pos he]
      exact ⟨_, rfl⟩
    · rw [if_neg he]
      have hle : (replaySweep U bs st).1 ≤ U.length := replay_fold_le U bs _ _ hb st h1
      have hmono : st.1 ≤ (replaySweep U bs st).1 := replay_fold_mono U bs _ st
      have hlt : st.1 < U.length := by omega
      have hprog : st.1 < (replaySweep U bs st).1 :=
        replay_fold_progress U bs _ st (hs st.1 hlt)
      exact ih _ hle (by omega) (by omega)

theorem BackwardPass_some (eta c : R) (net : NetworkV R) (bs : List Nat)
    (hbs : net.BackSeq = some bs) (hperm : bs.Perm (List.range net.NumUnits)) :
    ∃ err, BackwardPass eta c net = some (NW_SUCCESS,
      if net.NumUnits = 0 then net else
      { net with
        Error := err
        UnitList := (updateAll eta c net err).1
        Momentum := net.Momentum.map (fun _ => (updateAll eta c net err).2.1)
        Accum := net.Accum.map (fun _ => (updateAll eta c net err).2.2) }) ∧
      (net.NumUnits ≠ 0 →
        replayLoop net.UnitList bs net.NumUnits (0, resetErrors net) = some err) := by
  by_cases hn : net.NumUnits = 0
  · refine ⟨[], ?_, fun h => absurd hn h⟩
    unfold BackwardPass
    rw [if_pos hn, if_pos hn]
  · obtain ⟨err, herr⟩ := replayLoop_some net.UnitList bs hperm net.NumUnits (0, resetErrors net)
      (Nat.zero_le _) (by unfold NetworkV.NumUnits; omega) (Nat.pos_of_ne_zero hn)
    refine ⟨err, ?_, fun _ => herr⟩
    unfold BackwardPass
    rw [if_neg hn, if_neg hn]
    simp only [hbs, herr]

end ReplayTheorems

/-! ## BackwardPass: the weight update -/

section UpdateTheorems

variable {R : Type} [LinearOrderedField R]

theorem updateWeight_fold_immediate (c basic : R) (A : List R) (u : NWUnitV R)
    (st : UnitUpd R) (n : Nat) :
    (List.range n).foldl (updateWeight c basic A u false false) st
      = { st with
          InputWgts := (List.range n).foldl
            (fun a j => a.set j ((fun j x => x + basic * A.getD (u.InputUnits.getD j 0) 0) j
              (a.getD j 0))) st.InputWgts } := by
  induction n with
  | zero => rfl
  | succ n ih =>
    rw [foldl_range_succ, foldl_range_succ, ih]
    rfl

theorem updateWeight_fold_accum (c basic : R) (A : List R) (u : NWUnitV R)
    (st : UnitUpd R) (n : Nat) :
    (List.range n).foldl (updateWeight c basic A u false true) st
      = { st with
          acc := (List.range n).foldl
            (fun a j => a.set j ((fun j x => x + basic * A.getD (u.InputUnits.getD j 0) 0) j
              (a.getD j 0))) st.acc } := by
  induction n with
  | zero => rfl
  | succ n ih =>
    rw [foldl_range_succ, foldl_range_succ, ih]
    rfl

/-- Body of the weight loop in momentum mode, on the pair of the weights and
the row of Momentum. -/
theorem updateWeight_fold_momentum (c basic : R) (A : List R) (u : NWUnitV R)
    (useAcc : Bool) (st : UnitUpd R) (n : Nat) :
    (List.range n).foldl (updateWeight c basic A u true useAcc) st
      = { st with
          InputWgts := ((List.range n).foldl
            (fun (p : List R × List R) j =>
              (p.1.set j (p.1.getD j 0
                  + (basic * A.getD (u.InputUnits.getD j 0) 0 + c * p.2.getD j 0)),
                p.2.set j (basic * A.getD (u.InputUnits.getD j 0) 0 + c * p.2.getD j 0)))
            (st.InputWgts, st.mom)).1
          mom := ((List.range n).foldl
            (fun (p : List R × List R) j =>
              (p.1.set j (p.1.getD j 0
                  + (basic * A.getD (u.InputUnits.getD j 0) 0 + c * p.2.getD j 0)),
                p.2.set j (basic * A.getD (u.InputUnits.getD j 0) 0 + c * p.2.getD j 0)))
            (st.InputWgts, st.mom)).2 } := by
  induction n with
  | zero => rfl
  | succ n ih =>
    rw [foldl_range_succ, foldl_range_succ, ih]
    rfl

theorem updateBias_immediate (c basic : R) (u : NWUnitV R) (st : UnitUpd R) :
    updateBias c basic u false false st
      = { st with BiasWgt := if u.Bias = true then st.BiasWgt + basic else st.BiasWgt } := by
  unfold updateBias
  by_cases h : u.Bias = true
  · rw [if_pos h, if_pos h]
    rfl
  · rw [if_neg h, if_neg h]

theorem updateBias_accum (c basic : R) (u : NWUnitV R) (st : UnitUpd R) :
    updateBias c basic u false true st
      = { st with
          acc := if u.Bias = true then st.acc.set u.NumInput (st.acc.getD u.NumInput 0 + basic)
            else st.acc } := by
  unfold updateBias
  by_cases h : u.Bias = true
  · rw [if_pos h, if_pos h]
    rfl
  · rw [if_neg h, if_neg h]

theorem updateBias_momentum (c basic : R) (u : NWUnitV R) (useAcc : Bool) (st : UnitUpd R) :
    updateBias c basic u true useAcc st
      = { st with
          BiasWgt := (if u.Bias = true then st.BiasWgt + (basic + c * st.mom.getD u.NumInput 0)
            else st.BiasWgt)
          mom := (if u.Bias = true then st.mom.set u.NumInput (basic + c * st.mom.getD u.NumInput 0)
            else st.mom) } := by
  unfold updateBias
  by_cases h : u.Bias = true
  · rw [if_pos h, if_pos h, if_pos h]
    rfl
  · rw [if_neg h, if_neg h, if_neg h]

theorem updateUnitArrays_immediate (eta c : R) (E A : List R) (u : NWUnitV R) (ix : Nat)
    (st : UnitUpd R) :
    (updateUnitArrays eta c E A u ix false false st).mom = st.mom ∧
    (updateUnitArrays eta c E A u ix false false st).acc = st.acc ∧
    (updateUnitArrays eta c E A u ix false false st).BiasWgt
      = (if u.Bias = true then st.BiasWgt + basicErr eta u (E.getD ix 0) (A.getD ix 0)
          else st.BiasWgt) ∧
    (updateUnitArrays eta c E A u ix false false st).InputWgts.length = st.InputWgts.length ∧
    ∀ j, (updateUnitArrays eta c E A u ix false false st).InputWgts.getD j 0
      = if j < u.NumInput ∧ j < st.InputWgts.length
        then st.InputWgts.getD j 0
          + basicErr eta u (E.getD ix 0) (A.getD ix 0) * A.getD (u.InputUnits.getD j 0) 0
        else st.InputWgts.getD j 0 := by
  unfold updateUnitArrays
  rw [updateWeight_fold_immediate, updateBias_immediate]
  obtain ⟨h1, h2⟩ := foldl_range_pointwise
    (fun j x => x + basicErr eta u (E.getD ix 0) (A.getD ix 0) * A.getD (u.InputUnits.getD j 0) 0)
    st.InputWgts 0 u.NumInput
  exact ⟨rfl, rfl, rfl, h1, h2⟩

theorem updateUnitArrays_accum (eta c : R) (E A : List R) (u : NWUnitV R) (ix : Nat)
    (st : UnitUpd R) :
    (updateUnitArrays eta c E A u ix false true st).mom = st.mom ∧
    (updateUnitArrays eta c E A u ix false true st).BiasWgt = st.BiasWgt ∧
    (updateUnitArrays eta c E A u ix false true st).InputWgts = st.InputWgts ∧
    (updateUnitArrays eta c E A u ix false true st).acc.length = st.acc.length ∧
    ∀ j, (updateUnitArrays eta c E A u ix false true st).acc.getD j 0
      = if j < u.NumInput ∧ j < st.acc.length
        then st.acc.getD j 0
          + basicErr eta u (E.getD ix 0) (A.getD ix 0) * A.getD (u.InputUnits.getD j 0) 0
        else if j = u.NumInput ∧ j < st.acc.length ∧ u.Bias = true
        then st.acc.getD j 0 + basicErr eta u (E.getD ix 0) (A.getD ix 0)
        else st.acc.getD j 0 := by
  unfold updateUnitArrays
  rw [updateWeight_fold_accum, updateBias_accum]
  obtain ⟨h1, h2⟩ := foldl_range_pointwise
    (fun j x => x + basicErr eta u (E.getD ix 0) (A.getD ix 0) * A.getD (u.InputUnits.getD j 0) 0)
    (if u.Bias = true
      then st.acc.set u.NumInput (st.acc.getD u.NumInput 0
        + basicErr eta u (E.getD ix 0) (A.getD ix 0))
      else st.acc) 0 u.NumInput
  have hl : (if u.Bias = true
      then st.acc.set u.NumInput (st.acc.getD u.NumInput 0
        + basicErr eta u (E.getD ix 0) (A.getD ix 0))
      else st.acc).length = st.acc.length := by
    split_ifs
    · rw [List.length_set]
    · rfl
  have hg : ∀ j, j < u.NumInput → (if u.Bias = true
      then st.acc.set u.NumInput (st.acc.getD u.NumInput 0
        + basicErr eta u (E.getD ix 0) (A.getD ix 0))
      else st.acc).getD j 0 = st.acc.getD j 0 := by
    intro j hj
    split_ifs
    · rw [getD_set_ne _ _ _ _ _ (by omega)]
    · rfl
  refine ⟨rfl, rfl, rfl, h1.trans hl, fun j => ?_⟩
  refine (h2 j).trans ?_
  rw [hl]
  by_cases hj : j < u.NumInput ∧ j < st.acc.length
  · rw [if_pos hj, if_pos hj, hg j hj.1]
  · rw [if_neg hj, if_neg hj]
    by_cases hb : u.Bias = true
    · simp only [hb, if_true, and_true]
      rw [getD_set]
      by_cases h5 : j = u.NumInput
      · subst h5
        simp
      · simp [h5]
    · simp [hb]

theorem updateUnitArrays_momentum (eta c : R) (E A : List R) (u : NWUnitV R) (ix : Nat)
    (useAcc : Bool) (st : UnitUpd R) :
    (updateUnitArrays eta c E A u ix true useAcc st).acc = st.acc ∧
    (updateUnitArrays eta c E A u ix true useAcc st).BiasWgt
      = (if u.Bias = true
          then st.BiasWgt
            + (basicErr eta u (E.getD ix 0) (A.getD ix 0) + c * st.mom.getD u.NumInput 0)
          else st.BiasWgt) ∧
    (updateUnitArrays eta c E A u ix true useAcc st).InputWgts.length = st.InputWgts.length ∧
    (updateUnitArrays eta c E A u ix true useAcc st).mom.length = st.mom.length ∧
    (∀ j, (updateUnitArrays eta c E A u ix true useAcc st).InputWgts.getD j 0
      = if j < u.NumInput ∧ j < st.InputWgts.length
        then st.InputWgts.getD j 0
          + (basicErr eta u (E.getD ix 0) (A.getD ix 0) * A.getD (u.InputUnits.getD j 0) 0
            + c * st.mom.getD j 0)
        else st.InputWgts.getD j 0) ∧
    (∀ j, (updateUnitArrays eta c E A u ix true useAcc st).mom.getD j 0
      = if j < u.NumInput ∧ j < st.mom.length
        then basicErr eta u (E.getD ix 0) (A.getD ix 0) * A.getD (u.InputUnits.getD j 0) 0
            + c * st.mom.getD j 0
        else if j = u.NumInput ∧ j < st.mom.length ∧ u.Bias = true
        then basicErr eta u (E.getD ix 0) (A.getD ix 0) + c * st.mom.getD j 0
        else st.mom.getD j 0) := by
  unfold updateUnitArrays
  rw [updateWeight_fold_momentum, updateBias_momentum]
  obtain ⟨h1, h2, h3, h4⟩ := foldl_range_pointwise2
    (fun (p : List R × List R) j =>
      (p.1.set j (p.1.getD j 0
          + (basicErr eta u (E.getD ix 0) (A.getD ix 0) * A.getD (u.InputUnits.getD j 0) 0
            + c * p.2.getD j 0)),
        p.2.set j (basicErr eta u (E.getD ix 0) (A.getD ix 0)
          * A.getD (u.InputUnits.getD j 0) 0 + c * p.2.getD j 0)))
    (fun j w m =>
      (w + (basicErr eta u (E.getD ix 0) (A.getD ix 0) * A.getD (u.InputUnits.getD j 0) 0
          + c * m),
        basicErr eta u (E.getD ix 0) (A.getD ix 0) * A.getD (u.InputUnits.getD j 0) 0 + c * m))
    0 0 (fun _ _ => rfl) st.InputWgts
    (if u.Bias = true
      then st.mom.set u.NumInput
        (basicErr eta u (E.getD ix 0) (A.getD ix 0) + c * st.mom.getD u.NumInput 0)
      else st.mom) u.NumInput
  have hl : (if u.Bias = true
      then st.mom.set u.NumInput
        (basicErr eta u (E.getD ix 0) (A.getD ix 0) + c * st.mom.getD u.NumInput 0)
      else st.mom).length = st.mom.length := by
    split_ifs
    · rw [List.length_set]
    · rfl
  have hg : ∀ j, j < u.NumInput → (if u.Bias = true
      then st.mom.set u.NumInput
        (basicErr eta u (E.getD ix 0) (A.getD ix 0) + c * st.mom.getD u.NumInput 0)
      else st.mom).getD j 0 = st.mom.getD j 0 := by
    intro j hj
    split_ifs
    · rw [getD_set_ne _ _ _ _ _ (by omega)]
    · rfl
  refine ⟨rfl, rfl, h1, h2.trans hl, fun j => ?_, fun j => ?_⟩
  · refine (h3 j).trans ?_
    by_cases hj : j < u.NumInput ∧ j < st.InputWgts.length
    · rw [if_pos hj, if_pos hj, hg j hj.1]
    · rw [if_neg hj, if_neg hj]
  · refine (h4 j).trans ?_
    rw [hl]
    by_cases hj : j < u.NumInput ∧ j < st.mom.length
    · rw [if_pos hj, if_pos hj, hg j hj.1]
    · rw [if_neg hj, if_neg hj]
      by_cases hb : u.Bias = true
      · simp only [hb, if_true, and_true]
        rw [getD_set]
        by_cases h5 : j = u.NumInput
        · subst h5
          simp
        · simp [h5]
      · simp [hb]

theorem updateAll_spec (eta c : R) (net : NetworkV R) (err : List R) :
    (updateAll eta c net err).1.length = net.NumUnits ∧
    (updateAll eta c net err).2.1.length = (net.Momentum.getD []).length ∧
    (updateAll eta c net err).2.2.length = (net.Accum.getD []).length ∧
    (∀ ix, ix < net.NumUnits →
      (updateAll eta c net err).1.getD ix NWUnitV.zero
        = { net.unit ix with
            BiasWgt := (unitUpdate eta c net err ix).BiasWgt
            InputWgts := (unitUpdate eta c net err ix).InputWgts }) ∧
    (∀ ix, (updateAll eta c net err).2.1.getD ix []
      = if ix < net.NumUnits ∧ ix < (net.Momentum.getD []).length
        then (unitUpdate eta c net err ix).mom else (net.Momentum.getD []).getD ix []) ∧
    (∀ ix, (updateAll eta c net err).2.2.getD ix []
      = if ix < net.NumUnits ∧ ix < (net.Accum.getD []).length
        then (unitUpdate eta c net err ix).acc else (net.Accum.getD []).getD ix []) := by
  obtain ⟨h1, h2, h3, h4, h5, h6⟩ := foldl_range_pointwise3
    (updateUnit eta c err net.ActLevel net.Momentum.isSome net.Accum.isSome)
    (fun ix u m a =>
      ({ u with
          BiasWgt := (updateUnitArrays eta c err net.ActLevel u ix net.Momentum.isSome
            net.Accum.isSome
            { BiasWgt := u.BiasWgt, InputWgts := u.InputWgts, mom := m, acc := a }).BiasWgt
          InputWgts := (updateUnitArrays eta c err net.ActLevel u ix net.Momentum.isSome
            net.Accum.isSome
            { BiasWgt := u.BiasWgt, InputWgts := u.InputWgts, mom := m, acc := a }).InputWgts },
        (updateUnitArrays eta c err net.ActLevel u ix net.Momentum.isSome net.Accum.isSome
          { BiasWgt := u.BiasWgt, InputWgts := u.InputWgts, mom := m, acc := a }).mom,
        (updateUnitArrays eta c err net.ActLevel u ix net.Momentum.isSome net.Accum.isSome
          { BiasWgt := u.BiasWgt, InputWgts := u.InputWgts, mom := m, acc := a }).acc))
    NWUnitV.zero [] [] (fun _ _ => rfl) net.UnitList (net.Momentum.getD []) (net.Accum.getD [])
    net.NumUnits
  refine ⟨h1, h2, h3, fun ix hix => ?_, h5, h6⟩
  exact (h4 ix).trans (if_pos ⟨hix, hix⟩)

end UpdateTheorems

section BackwardClaims

variable {R : Type} [LinearOrderedField R]

/-- BackwardPass returns when the ranks are a permutation; the units, rows and
errors of the result. -/
theorem BackwardPass_units (eta c : R) (net : NetworkV R) (bs : List Nat)
    (hbs : net.BackSeq = some bs) (hperm : bs.Perm (List.range net.NumUnits)) :
    ∃ net', BackwardPass eta c net = some (NW_SUCCESS, net') ∧
      net'.NumUnits = net.NumUnits ∧ net'.ActLevel = net.ActLevel ∧
      net'.Sum = net.Sum ∧ net'.BackSeq = net.BackSeq ∧
      (∀ ix, ix < net.NumUnits →
        net'.unit ix
          = { net.unit ix with
              BiasWgt := (unitUpdate eta c net net'.Error ix).BiasWgt
              InputWgts := (unitUpdate eta c net net'.Error ix).InputWgts }) ∧
      net'.Momentum = net.Momentum.map (fun _ => (updateAll eta c net net'.Error).2.1) ∧
      net'.Accum = net.Accum.map (fun _ => (updateAll eta c net net'.Error).2.2) ∧
      (net.NumUnits = 0 → net' = net) ∧
      (net.NumUnits ≠ 0 →
        replayLoop net.UnitList bs net.NumUnits (0, resetErrors net) = some net'.Error) := by
  obtain ⟨err, h1, h2⟩ := BackwardPass_some eta c net bs hbs hperm
  by_cases hn : net.NumUnits = 0
  · rw [if_pos hn] at h1
    have hU : net.UnitList = [] := List.length_eq_zero.1 hn
    have hfold : updateAll eta c net net.Error
        = (net.UnitList, net.Momentum.getD [], net.Accum.getD []) := by
      unfold updateAll
      rw [hn]
      rfl
    refine ⟨net, h1, rfl, rfl, rfl, rfl, fun ix hix => by omega, ?_, ?_, fun _ => rfl,
      fun h => absurd hn h⟩
    · rw [hfold]
      cases net.Momentum <;> rfl
    · rw [hfold]
      cases net.Accum <;> rfl
  · rw [if_neg hn] at h1
    obtain ⟨u1, _, _, u4, _, _⟩ := updateAll_spec eta c net err
    exact ⟨_, h1, u1, rfl, rfl, rfl, fun ix hix => u4 ix hix, rfl, rfl,
      fun h => absurd h hn, fun _ => h2 hn⟩

theorem BackwardPass_indep (eta c c' : R) (net : NetworkV R) (hm : net.Momentum = none) :
    BackwardPass eta c net = BackwardPass eta c' net := by
  have e : ∀ err, updateAll eta c net err = updateAll eta c' net err := by
    intro err
    unfold updateAll
    rw [hm]
    congr 1
  unfold BackwardPass
  simp only [e]

end BackwardClaims

section WeightClaims

variable {R : Type} [LinearOrderedField R]

/-- C19: in immediate mode (Momentum and Accum null), with the ranks in BackSeq
a permutation of 0, ..., NumUnits - 1 and NumInput weights per unit,
BackwardPass(eta, c) returns NW_SUCCESS and changes each unit u as follows,
with basic(u) = basicErr eta u Error[u] ActLevel[u], which is eta * Error[u]
if u is binary or a non-sigmoid Output unit and
eta * Error[u] * ActLevel[u] * (1 - ActLevel[u]) otherwise (Error being the
propagated errors): every incoming weight j becomes
weight j + basic(u) * ActLevel[source j]; the bias weight becomes
BiasWgt + basic(u) if the bias flag is set and is unchanged otherwise; the
result is the same for every c. -/
theorem C19_immediate_update (eta c : R) (net : NetworkV R) (bs : List Nat)
    (hbs : net.BackSeq = some bs) (hperm : bs.Perm (List.range net.NumUnits))
    (hm : net.Momentum = none) (ha : net.Accum = none) (hw : WeightShape net) :
    (∃ net', BackwardPass eta c net = some (NW_SUCCESS, net') ∧
      net'.NumUnits = net.NumUnits ∧
      (∀ ix, ix < net.NumUnits →
        (net'.unit ix).InputWgts.length = (net.unit ix).NumInput ∧
        (∀ j, j < (net.unit ix).NumInput →
          (net'.unit ix).InputWgts.getD j 0
            = (net.unit ix).InputWgts.getD j 0
              + basicErr eta (net.unit ix) (net'.Error.getD ix 0) (net.ActLevel.getD ix 0)
                * net.ActLevel.getD ((net.unit ix).InputUnits.getD j 0) 0) ∧
        (net'.unit ix).BiasWgt
          = (if (net.unit ix).Bias = true
              then (net.unit ix).BiasWgt
                + basicErr eta (net.unit ix) (net'.Error.getD ix 0) (net.ActLevel.getD ix 0)
              else (net.unit ix).BiasWgt))) ∧
    (∀ (u : NWUnitV R) (err act : R),
      basicErr eta u err act
        = if u.Binary = true ∨ (u.UnitType = UNIT_OUTPUT ∧ u.Sigmoid = false) then eta * err
          else eta * err * act * (1 - act)) ∧
    (∀ c', BackwardPass eta c' net = BackwardPass eta c net) := by
  refine ⟨?_, fun u err act => ?_, fun c' => BackwardPass_indep eta c' c net hm⟩
  · obtain ⟨net', h1, h2, _, _, _, h3, _⟩ := BackwardPass_units eta c net bs hbs hperm
    refine ⟨net', h1, h2, fun ix hix => ?_⟩
    have hu := h3 ix hix
    obtain ⟨_, _, i3, i4, i5⟩ := updateUnitArrays_immediate eta c net'.Error net.ActLevel
      (net.unit ix) ix
      { BiasWgt := (net.unit ix).BiasWgt, InputWgts := (net.unit ix).InputWgts,
        mom := (net.Momentum.getD []).getD ix [], acc := (net.Accum.getD []).getD ix [] }
    have hmode : unitUpdate eta c net net'.Error ix
        = updateUnitArrays eta c net'.Error net.ActLevel (net.unit ix) ix false false
          { BiasWgt := (net.unit ix).BiasWgt, InputWgts := (net.unit ix).InputWgts,
            mom := (net.Momentum.getD []).getD ix [], acc := (net.Accum.getD []).getD ix [] } := by
      unfold unitUpdate
      rw [hm, ha]
      rfl
    rw [hu, hmode]
    refine ⟨?_, fun j hj => ?_, ?_⟩
    · exact i4.trans (hw ix hix)
    · exact (i5 j).trans (if_pos ⟨hj, by rw [hw ix hix]; exact hj⟩)
    · exact i3
  · unfold basicErr
    split_ifs
    · rfl
    · ring

theorem basicErr_formula (eta : R) (u : NWUnitV R) (err act : R) :
    basicErr eta u err act
      = if u.Binary = true ∨ (u.UnitType = UNIT_OUTPUT ∧ u.Sigmoid = false) then eta * err
        else eta * err * act * (1 - act) := by
  unfold basicErr
  split_ifs
  · rfl
  · ring

/-- C20: in accumulate mode (Accum non-null with rows shaped as SetupTrain
allocates them, Momentum null), with the ranks in BackSeq a permutation of
0, ..., NumUnits - 1, and with basic(u) = basicErr eta u Error[u] ActLevel[u]
for the propagated errors, which is eta * Error[u] if u is binary or a
non-sigmoid Output unit and eta * Error[u] * ActLevel[u] * (1 - ActLevel[u])
otherwise: BackwardPass returns NW_SUCCESS, leaves the unit table (every
connection weight and every bias weight) unchanged, adds
basic(u) * ActLevel[source j] to the accumulator slot of each connection j of
each unit u and basic(u) to the bias slot (slot NumInput) of each unit with the
bias flag set. -/
theorem C20_accumulate_update (eta c : R) (net : NetworkV R) (bs : List Nat)
    (a : List (List R))
    (hbs : net.BackSeq = some bs) (hperm : bs.Perm (List.range net.NumUnits))
    (hm : net.Momentum = none) (ha : net.Accum = some a) (hs : AccumShape net a) :
    (∀ (u : NWUnitV R) (err act : R),
      basicErr eta u err act
        = if u.Binary = true ∨ (u.UnitType = UNIT_OUTPUT ∧ u.Sigmoid = false) then eta * err
          else eta * err * act * (1 - act)) ∧
    ∃ net' a', BackwardPass eta c net = some (NW_SUCCESS, net') ∧
      net'.UnitList = net.UnitList ∧
      net'.Accum = some a' ∧ a'.length = net.NumUnits ∧
      (∀ ix, ix < net.NumUnits →
        (a'.getD ix []).length = (a.getD ix []).length ∧
        (∀ j, j < (net.unit ix).NumInput →
          (a'.getD ix []).getD j 0
            = (a.getD ix []).getD j 0
              + basicErr eta (net.unit ix) (net'.Error.getD ix 0) (net.ActLevel.getD ix 0)
                * net.ActLevel.getD ((net.unit ix).InputUnits.getD j 0) 0) ∧
        ((net.unit ix).Bias = true →
          (a'.getD ix []).getD (net.unit ix).NumInput 0
            = (a.getD ix []).getD (net.unit ix).NumInput 0
              + basicErr eta (net.unit ix) (net'.Error.getD ix 0)
                (net.ActLevel.getD ix 0))) := by
  refine ⟨basicErr_formula eta, ?_⟩
  obtain ⟨net', h1, h2, _, _, _, h3, _, h5, _⟩ := BackwardPass_units eta c net bs hbs hperm
  obtain ⟨_, _, u3, _, _, u6⟩ := updateAll_spec eta c net net'.Error
  have hmode : ∀ ix, unitUpdate eta c net net'.Error ix
      = updateUnitArrays eta c net'.Error net.ActLevel (net.unit ix) ix false true
        { BiasWgt := (net.unit ix).BiasWgt, InputWgts := (net.unit ix).InputWgts,
          mom := (net.Momentum.getD []).getD ix [], acc := a.getD ix [] } := by
    intro ix
    unfold unitUpdate
    rw [hm, ha]
    rfl
  rw [ha] at h5 u3 u6
  simp only [Option.map_some', Option.getD_some] at h5 u3 u6
  refine ⟨net', _, h1, ?_, h5, u3.trans hs.1, fun ix hix => ?_⟩
  · apply list_ext_getD _ _ NWUnitV.zero h2
    intro i hi
    have hi2 : i < net.NumUnits := by rw [← h2]; exact hi
    have := h3 i hi2
    rw [hmode] at this
    obtain ⟨_, i2, i3, _⟩ := updateUnitArrays_accum eta c net'.Error net.ActLevel
      (net.unit i) i
      { BiasWgt := (net.unit i).BiasWgt, InputWgts := (net.unit i).InputWgts,
        mom := (net.Momentum.getD []).getD i [], acc := a.getD i [] }
    rw [i2, i3] at this
    exact this
  · obtain ⟨_, _, _, i4, i5⟩ := updateUnitArrays_accum eta c net'.Error net.ActLevel
      (net.unit ix) ix
      { BiasWgt := (net.unit ix).BiasWgt, InputWgts := (net.unit ix).InputWgts,
        mom := (net.Momentum.getD []).getD ix [], acc := a.getD ix [] }
    have hrow := (hs.2 ix hix).2
    rw [u6, if_pos ⟨hix, by rw [hs.1]; exact hix⟩, hmode]
    refine ⟨i4, fun j hj => ?_, fun hb => ?_⟩
    · refine (i5 j).trans (if_pos ⟨hj, ?_⟩)
      show j < (a.getD ix []).length
      rw [hrow]
      split_ifs <;> omega
    · have hlt : (net.unit ix).NumInput < (a.getD ix []).length := by
        rw [hrow, if_pos hb]
        omega
      refine (i5 _).trans ?_
      rw [if_neg (by omega), if_pos ⟨rfl, hlt, hb⟩]

end WeightClaims

/-- Witness of C19: the layered network with training buffers, eta = 1; the
pass returns and its result for c = 1/2 is its result for c = 0. -/
theorem C19_immediate_update_witness :
    (∃ net' : NetworkV ℚ, BackwardPass (1 : ℚ) 0 (trainNet : NetworkV ℚ)
        = some (NW_SUCCESS, net') ∧ net'.NumUnits = (trainNet : NetworkV ℚ).NumUnits) ∧
    BackwardPass (1 : ℚ) (1 / 2) (trainNet : NetworkV ℚ)
      = BackwardPass (1 : ℚ) 0 (trainNet : NetworkV ℚ) :=
  ⟨(C19_immediate_update (1 : ℚ) 0 (trainNet : NetworkV ℚ) [3, 2, 1, 0] rfl (by decide) rfl rfl
      (by unfold WeightShape; decide)).1.imp (fun _ h => ⟨h.1, h.2.1⟩),
    (C19_immediate_update (1 : ℚ) 0 (trainNet : NetworkV ℚ) [3, 2, 1, 0] rfl (by decide) rfl rfl
      (by unfold WeightShape; decide)).2.2 (1 / 2)⟩

section MomentumClaim

variable {R : Type} [LinearOrderedField R]

theorem replicate_zero_getD (n j : Nat) : (List.replicate n (0 : R)).getD j 0 = 0 := by
  rw [List.getD_eq_getElem?_getD, List.getElem?_replicate]
  split_ifs <;> rfl

theorem SetupExec_of_ne (net : NetworkV R) (hn : net.NumUnits ≠ 0) :
    SetupExec net = (NW_SUCCESS,
      { net with
        Sum := List.replicate net.NumUnits 0
        ActLevel := List.replicate net.NumUnits 0 }) := by
  unfold SetupExec
  rw [if_neg hn]

/-- C22: in momentum mode (Momentum non-null with rows shaped as SetupTrain
allocates them), with the ranks in BackSeq a permutation of
0, ..., NumUnits - 1, BackwardPass(eta, c) returns NW_SUCCESS and, with
basic(u) = basicErr eta u Error[u] ActLevel[u] for the propagated errors,
which is eta * Error[u] if u is binary or a non-sigmoid Output unit and
eta * Error[u] * ActLevel[u] * (1 - ActLevel[u]) otherwise: for
each connection j of each unit u the change is
basic(u) * ActLevel[source j] + c * previous change (u, j), it is added to the
weight and stored in slot j of the row of u; for each unit with the bias flag
the change basic(u) + c * previous bias change is added to the bias weight and
stored in slot NumInput; the bias weight of the other units is unchanged.
SetupTrain with momentum and without accumulate on a network with units
leaves the unit table as it is and makes Momentum the all-zero rows, and when
the rows are these zero rows, the unit table after the pass is the unit table
after the pass in immediate mode. -/
theorem C22_momentum_update (eta c : R) (net : NetworkV R) (bs : List Nat)
    (m : List (List R))
    (hbs : net.BackSeq = some bs) (hperm : bs.Perm (List.range net.NumUnits))
    (hm : net.Momentum = some m) (hs : AccumShape net m) :
    (∀ (u : NWUnitV R) (err act : R),
      basicErr eta u err act
        = if u.Binary = true ∨ (u.UnitType = UNIT_OUTPUT ∧ u.Sigmoid = false) then eta * err
          else eta * err * act * (1 - act)) ∧
    (∃ net' m', BackwardPass eta c net = some (NW_SUCCESS, net') ∧
      net'.Momentum = some m' ∧ m'.length = net.NumUnits ∧
      (∀ ix, ix < net.NumUnits →
        (∀ j, j < (net.unit ix).NumInput →
          (net'.unit ix).InputWgts.getD j 0
            = (net.unit ix).InputWgts.getD j 0
              + (basicErr eta (net.unit ix) (net'.Error.getD ix 0) (net.ActLevel.getD ix 0)
                  * net.ActLevel.getD ((net.unit ix).InputUnits.getD j 0) 0
                + c * (m.getD ix []).getD j 0) ∧
          (m'.getD ix []).getD j 0
            = basicErr eta (net.unit ix) (net'.Error.getD ix 0) (net.ActLevel.getD ix 0)
                  * net.ActLevel.getD ((net.unit ix).InputUnits.getD j 0) 0
                + c * (m.getD ix []).getD j 0) ∧
        ((net.unit ix).Bias = true →
          (net'.unit ix).BiasWgt
            = (net.unit ix).BiasWgt
              + (basicErr eta (net.unit ix) (net'.Error.getD ix 0) (net.ActLevel.getD ix 0)
                + c * (m.getD ix []).getD (net.unit ix).NumInput 0) ∧
          (m'.getD ix []).getD (net.unit ix).NumInput 0
            = basicErr eta (net.unit ix) (net'.Error.getD ix 0) (net.ActLevel.getD ix 0)
                + c * (m.getD ix []).getD (net.unit ix).NumInput 0) ∧
        ((net.unit ix).Bias = false → (net'.unit ix).BiasWgt = (net.unit ix).BiasWgt)) ∧
      (m = trainRows net.UnitList →
        ∃ netI, BackwardPass eta c { net with Momentum := none, Accum := none }
            = some (NW_SUCCESS, netI) ∧
          net'.UnitList = netI.UnitList)) ∧
    (∀ (net0 : NetworkV R) (momentum : Int) (errJunk : List R) (seqJunk : List Nat),
      net0.NumUnits ≠ 0 → momentum ≠ 0 →
      (SetupTrain 0 momentum errJunk seqJunk net0).1 = NW_SUCCESS ∧
      (SetupTrain 0 momentum errJunk seqJunk net0).2.UnitList = net0.UnitList ∧
      (SetupTrain 0 momentum errJunk seqJunk net0).2.Momentum
        = some (trainRows net0.UnitList) ∧
      ∀ row, row ∈ trainRows net0.UnitList → ∀ x, x ∈ row → x = 0) := by
  refine ⟨fun u err act => ?_, ?_⟩
  · unfold basicErr
    split_ifs
    · rfl
    · ring
  constructor
  · obtain ⟨net', h1, h2, _, _, _, h3, h4, _, h6, h7⟩ :=
      BackwardPass_units eta c net bs hbs hperm
    obtain ⟨_, u2, _, _, u5, _⟩ := updateAll_spec eta c net net'.Error
    have hmode : ∀ ix, unitUpdate eta c net net'.Error ix
        = updateUnitArrays eta c net'.Error net.ActLevel (net.unit ix) ix true net.Accum.isSome
          { BiasWgt := (net.unit ix).BiasWgt, InputWgts := (net.unit ix).InputWgts,
            mom := m.getD ix [], acc := (net.Accum.getD []).getD ix [] } := by
      intro ix
      unfold unitUpdate
      rw [hm]
      rfl
    rw [hm] at h4 u2 u5
    simp only [Option.map_some', Option.getD_some] at h4 u2 u5
    have hspec : ∀ ix, ix < net.NumUnits →
        (net'.unit ix).InputWgts.length = (net.unit ix).NumInput ∧
        (∀ j, j < (net.unit ix).NumInput →
          (net'.unit ix).InputWgts.getD j 0
            = (net.unit ix).InputWgts.getD j 0
              + (basicErr eta (net.unit ix) (net'.Error.getD ix 0) (net.ActLevel.getD ix 0)
                  * net.ActLevel.getD ((net.unit ix).InputUnits.getD j 0) 0
                + c * (m.getD ix []).getD j 0)) ∧
        (net'.unit ix).BiasWgt
          = (if (net.unit ix).Bias = true
              then (net.unit ix).BiasWgt
                + (basicErr eta (net.unit ix) (net'.Error.getD ix 0) (net.ActLevel.getD ix 0)
                  + c * (m.getD ix []).getD (net.unit ix).NumInput 0)
              else (net.unit ix).BiasWgt) := by
      intro ix hix
      obtain ⟨_, i2, i3, _, i5, _⟩ := updateUnitArrays_momentum eta c net'.Error net.ActLevel
        (net.unit ix) ix net.Accum.isSome
        { BiasWgt := (net.unit ix).BiasWgt, InputWgts := (net.unit ix).InputWgts,
          mom := m.getD ix [], acc := (net.Accum.getD []).getD ix [] }
      rw [h3 ix hix, hmode]
      exact ⟨i3.trans (hs.2 ix hix).1,
        fun j hj => (i5 j).trans (if_pos ⟨hj, by rw [(hs.2 ix hix).1]; exact hj⟩), i2⟩
    refine ⟨net', _, h1, h4, u2.trans hs.1, fun ix hix => ?_, fun hz => ?_⟩
    · obtain ⟨_, _, _, _, _, i6⟩ := updateUnitArrays_momentum eta c net'.Error net.ActLevel
        (net.unit ix) ix net.Accum.isSome
        { BiasWgt := (net.unit ix).BiasWgt, InputWgts := (net.unit ix).InputWgts,
          mom := m.getD ix [], acc := (net.Accum.getD []).getD ix [] }
      have hrow := (hs.2 ix hix).2
      obtain ⟨_, s2, s3⟩ := hspec ix hix
      rw [u5, if_pos ⟨hix, by rw [hs.1]; exact hix⟩, hmode]
      refine ⟨fun j hj => ⟨s2 j hj, ?_⟩, fun hb => ⟨?_, ?_⟩, fun hb => ?_⟩
      · refine (i6 j).trans (if_pos ⟨hj, ?_⟩)
        show j < (m.getD ix []).length
        rw [hrow]
        split_ifs <;> omega
      · rw [s3, if_pos hb]
      · have hlt : (net.unit ix).NumInput < (m.getD ix []).length := by
          rw [hrow, if_pos hb]
          omega
        refine (i6 _).trans ?_
        rw [if_neg (by omega), if_pos ⟨rfl, hlt, hb⟩]
      · rw [s3, if_neg (by rw [hb]; decide)]
    · have hbsI : ({ net with Momentum := none, Accum := none } : NetworkV R).BackSeq = some bs :=
        hbs
      obtain ⟨netI, k1, k2, _, _, _, k3, _, _, k6, k7⟩ :=
        BackwardPass_units eta c { net with Momentum := none, Accum := none } bs hbsI hperm
      refine ⟨netI, k1, ?_⟩
      by_cases hn : net.NumUnits = 0
      · rw [h6 hn, k6 hn]
      · have herr : net'.Error = netI.Error := by
          have a1 := h7 hn
          have a2 := k7 hn
          have a3 : replayLoop net.UnitList bs net.NumUnits (0, resetErrors net)
              = some netI.Error := a2
          rw [a1] at a3
          exact Option.some.inj a3
        apply list_ext_getD _ _ NWUnitV.zero (h2.trans k2.symm)
        intro i hi
        have hi2 : i < net.NumUnits := by rw [← h2]; exact hi
        obtain ⟨s1, s2, s3⟩ := hspec i hi2
        obtain ⟨_, _, i3, i4, i5⟩ := updateUnitArrays_immediate eta c netI.Error net.ActLevel
          (net.unit i) i
          { BiasWgt := (net.unit i).BiasWgt, InputWgts := (net.unit i).InputWgts,
            mom := [], acc := [] }
        have hk := k3 i hi2
        have hz0 : ∀ j, (m.getD i []).getD j 0 = 0 := by
          intro j
          rw [hz, trainRows_getD _ _ hi2]
          exact replicate_zero_getD _ _
        have hunit : net'.unit i
            = { net.unit i with
                BiasWgt := (net'.unit i).BiasWgt, InputWgts := (net'.unit i).InputWgts } := by
          rw [h3 i hi2]
        show net'.unit i = netI.unit i
        rw [hunit, hk]
        have e1 : (net'.unit i).BiasWgt
            = (unitUpdate eta c { net with Momentum := none, Accum := none } netI.Error
                i).BiasWgt := by
          rw [s3, hz0, mul_zero, add_zero, herr]
          exact i3.symm
        have e2 : (net'.unit i).InputWgts
            = (unitUpdate eta c { net with Momentum := none, Accum := none } netI.Error
                i).InputWgts := by
          apply list_ext_getD _ _ 0
          · rw [s1]
            exact ((i4.trans (hs.2 i hi2).1)).symm
          · intro j hj
            rw [s1] at hj
            rw [s2 j hj, hz0, mul_zero, add_zero, herr]
            exact ((i5 j).trans (if_pos ⟨hj, by
              show j < (net.unit i).InputWgts.length
              rw [(hs.2 i hi2).1]; exact hj⟩)).symm
        rw [e1, e2]
        rfl
  · intro net0 momentum errJunk seqJunk hn hmom
    have hS : SetupTrain 0 momentum errJunk seqJunk net0
        = SetupExec
          { net0 with
            Error := freshArray net0.NumUnits errJunk 0
            BackSeq := some (freshArray net0.NumUnits seqJunk 0)
            Momentum := some (trainRows net0.UnitList) } := by
      unfold SetupTrain
      rw [if_neg hn, if_neg (by simp)]
      simp [hmom]
    rw [hS, SetupExec_of_ne _ (by exact hn)]
    refine ⟨rfl, rfl, rfl, ?_⟩
    intro row hrow x hx
    unfold trainRows at hrow
    rw [List.mem_map] at hrow
    obtain ⟨u, _, rfl⟩ := hrow
    exact List.eq_of_mem_replicate hx

end MomentumClaim

/-! ## ForwardPass: basic lemmas -/

theorem inputsDone_iff {R : Type} (u : NWUnitV R) (flags : List Bool) :
    inputsDone u flags = true ↔
      ∀ j, j < u.NumInput → flags.getD (u.InputUnits.getD j 0) false = true := by
  unfold inputsDone
  rw [List.all_eq_true]
  constructor
  · intro h j hj
    exact h j (List.mem_range.2 hj)
  · intro h j hj
    exact h j (List.mem_range.1 hj)

section ForwardBasics

variable {R : Type} [LinearOrderedField R]

theorem getD_true_lt (flags : List Bool) (ix : Nat) (h : flags.getD ix false = true) :
    ix < flags.length := by
  by_contra hc
  rw [getD_of_length_le flags ix false (by omega)] at h
  exact absurd h (by decide)

theorem weightedSum_fold_congr (u : NWUnitV R) (A A' : List R) (n : Nat) (init : R)
    (h : ∀ j, j < n → A.getD (u.InputUnits.getD j 0) 0 = A'.getD (u.InputUnits.getD j 0) 0) :
    (List.range n).foldl
        (fun sum jx => sum + A.getD (u.InputUnits.getD jx 0) 0 * u.InputWgts.getD jx 0) init
      = (List.range n).foldl
        (fun sum jx => sum + A'.getD (u.InputUnits.getD jx 0) 0 * u.InputWgts.getD jx 0) init := by
  induction n with
  | zero => rfl
  | succ n ih =>
    rw [foldl_range_succ, foldl_range_succ, ih (fun j hj => h j (by omega)), h n (by omega)]

theorem weightedSum_congr (u : NWUnitV R) (A A' : List R)
    (h : ∀ j, j < u.NumInput →
      A.getD (u.InputUnits.getD j 0) 0 = A'.getD (u.InputUnits.getD j 0) 0) :
    weightedSum u A = weightedSum u A' :=
  weightedSum_fold_congr u A A' u.NumInput _ h

theorem weightedSum_fold_sum (u : NWUnitV R) (A : List R) (n : Nat) (init : R) :
    (List.range n).foldl
        (fun sum jx => sum + A.getD (u.InputUnits.getD jx 0) 0 * u.InputWgts.getD jx 0) init
      = init + ((List.range n).map
          (fun jx => A.getD (u.InputUnits.getD jx 0) 0 * u.InputWgts.getD jx 0)).sum := by
  induction n with
  | zero => simp
  | succ n ih =>
    rw [foldl_range_succ, ih, List.range_succ, List.map_append, List.sum_append]
    simp [add_assoc]

theorem weightedSum_eq_sum (u : NWUnitV R) (A : List R) :
    weightedSum u A
      = (if u.Bias = true then u.BiasWgt else 0)
        + ((List.range u.NumInput).map
            (fun jx => A.getD (u.InputUnits.getD jx 0) 0 * u.InputWgts.getD jx 0)).sum :=
  weightedSum_fold_sum u A u.NumInput _

theorem mem_doneSet (N : Nat) (flags : List Bool) (ix : Nat) :
    ix ∈ doneSet N flags ↔ ix < N ∧ flags.getD ix false = true := by
  unfold doneSet
  rw [Finset.mem_filter, Finset.mem_range]

theorem doneSet_set_true (N : Nat) (flags : List Bool) (k : Nat) (hk : k < N)
    (hl : k < flags.length) :
    doneSet N (flags.set k true) = insert k (doneSet N flags) := by
  ext ix
  rw [Finset.mem_insert, mem_doneSet, mem_doneSet, getD_set]
  by_cases h : ix = k
  · subst h
    simp [hk, hl]
  · simp [h]

theorem doneSet_card_le (N : Nat) (flags : List Bool) : (doneSet N flags).card ≤ N := by
  have := Finset.card_le_card (Finset.filter_subset (fun ix => flags.getD ix false = true)
    (Finset.range N))
  rw [Finset.card_range] at this
  exact this

theorem doneSet_card_lt (N : Nat) (flags : List Bool) (k : Nat) (hk : k < N)
    (hf : flags.getD k false ≠ true) : (doneSet N flags).card < N := by
  have hsub : doneSet N flags ⊆ Finset.range N := Finset.filter_subset _ _
  have hss : doneSet N flags ⊂ Finset.range N := by
    rw [Finset.ssubset_iff_of_subset hsub]
    refine ⟨k, Finset.mem_range.2 hk, ?_⟩
    rw [mem_doneSet]
    exact fun h => hf h.2
  have := Finset.card_lt_card hss
  rw [Finset.card_range] at this
  exact this

theorem doneSet_full (N : Nat) (flags : List Bool) (h : (doneSet N flags).card = N)
    (ix : Nat) (hix : ix < N) : flags.getD ix false = true := by
  by_contra hc
  have := doneSet_card_lt N flags ix hix hc
  omega

theorem RankInv_step (N : Nat) (done : Finset Nat) (tot : Nat) (bs : Option (List Nat))
    (k : Nat) (h : RankInv N done tot bs) (hk : k < N) (hnot : k ∉ done) :
    RankInv N (insert k done) (tot + 1) (bs.map (fun b => b.set k (N - (tot + 1)))) := by
  obtain ⟨h1, h2, h3⟩ := h
  have hcard : done.card < N := by
    have hss : done ⊂ Finset.range N := by
      rw [Finset.ssubset_iff_of_subset h1]
      exact ⟨k, Finset.mem_range.2 hk, hnot⟩
    have := Finset.card_lt_card hss
    rw [Finset.card_range] at this
    exact this
  refine ⟨?_, ?_, ?_⟩
  · intro x hx
    rcases Finset.mem_insert.1 hx with rfl | hx
    · exact Finset.mem_range.2 hk
    · exact h1 hx
  · rw [Finset.card_insert_of_not_mem hnot, h2]
  · intro b hb hlen
    cases hbs : bs with
    | none => rw [hbs] at hb; simp at hb
    | some b0 =>
      rw [hbs] at hb
      simp only [Option.map_some', Option.some.injEq] at hb
      subst hb
      rw [List.length_set] at hlen
      obtain ⟨r1, r2⟩ := h3 b0 hbs hlen
      have hv : ∀ ix, ix ∈ insert k done →
          (b0.set k (N - (tot + 1))).getD ix 0
            = if ix = k then N - (tot + 1) else b0.getD ix 0 := by
        intro ix _
        rw [getD_set]
        by_cases e : ix = k
        · subst e
          simp [hlen, hk]
        · simp [e]
      constructor
      · intro ix hix
        rw [hv ix hix]
        by_cases e : ix = k
        · rw [if_pos e]
          omega
        · rw [if_neg e]
          have := r1 ix ((Finset.mem_insert.1 hix).resolve_left e)
          omega
      · intro ix iy hix hiy heq
        rw [hv ix hix, hv iy hiy] at heq
        by_cases e1 : ix = k
        · by_cases e2 : iy = k
          · rw [e1, e2]
          · rw [if_pos e1, if_neg e2] at heq
            have := r1 iy ((Finset.mem_insert.1 hiy).resolve_left e2)
            omega
        · by_cases e2 : iy = k
          · rw [if_neg e1, if_pos e2] at heq
            have := r1 ix ((Finset.mem_insert.1 hix).resolve_left e1)
            omega
          · rw [if_neg e1, if_neg e2] at heq
            exact r2 ix iy ((Finset.mem_insert.1 hix).resolve_left e1)
              ((Finset.mem_insert.1 hiy).resolve_left e2) heq

theorem zeroPrefix_getD (n : Nat) (a : List R) (ix : Nat) (h : ix < n) :
    (zeroPrefix n a).getD ix 0 = 0 := by
  unfold zeroPrefix
  rw [List.getD_eq_getElem?_getD]
  by_cases hl : ix < a.length
  · rw [List.getElem?_append_left (by simp; omega)]
    simp [List.getElem?_take, h, hl]
  · rw [List.getElem?_eq_none (by simp; omega)]
    rfl

theorem zeroPrefix_length (n : Nat) (a : List R) : (zeroPrefix n a).length = a.length := by
  unfold zeroPrefix
  simp
  omega

end ForwardBasics

/-! ## ForwardPass: one step of the scan loop -/

section ForwardStep

variable {R : Type} [LinearOrderedField R]

theorem fwdUnit_skip (expf : R → R) (U : List (NWUnitV R)) (st : FwdState R) (ix : Nat)
    (h : st.flags.getD ix false = true ∨ inputsDone (U.getD ix NWUnitV.zero) st.flags = false) :
    fwdUnit expf U st ix = st := by
  unfold fwdUnit
  rcases h with h | h
  · rw [if_pos h]
  · by_cases h1 : st.flags.getD ix false = true
    · rw [if_pos h1]
    · rw [if_neg h1, if_pos h]

theorem fwdUnit_proc (expf : R → R) (U : List (NWUnitV R)) (st : FwdState R) (ix : Nat)
    (h1 : st.flags.getD ix false ≠ true)
    (h2 : inputsDone (U.getD ix NWUnitV.zero) st.flags = true) :
    fwdUnit expf U st ix =
      { flags := st.flags.set ix true
        Sum := st.Sum.set ix (weightedSum (U.getD ix NWUnitV.zero) st.ActLevel)
        ActLevel := (st.ActLevel.set ix
          (activation expf (U.getD ix NWUnitV.zero)
            (weightedSum (U.getD ix NWUnitV.zero) st.ActLevel)))
        BackSeq := st.BackSeq.map (fun b => b.set ix (U.length - (st.tot_processed + 1)))
        num_processed := st.num_processed + 1
        tot_processed := st.tot_processed + 1 } := by
  unfold fwdUnit
  rw [if_neg h1, if_neg (by rw [h2]; decide)]

theorem fwdUnit_cases (expf : R → R) (U : List (NWUnitV R)) (st : FwdState R) (ix : Nat) :
    fwdUnit expf U st ix = st ∨
    (st.flags.getD ix false ≠ true ∧ inputsDone (U.getD ix NWUnitV.zero) st.flags = true ∧
      fwdUnit expf U st ix =
        { flags := st.flags.set ix true
          Sum := st.Sum.set ix (weightedSum (U.getD ix NWUnitV.zero) st.ActLevel)
          ActLevel := (st.ActLevel.set ix
            (activation expf (U.getD ix NWUnitV.zero)
              (weightedSum (U.getD ix NWUnitV.zero) st.ActLevel)))
          BackSeq := st.BackSeq.map (fun b => b.set ix (U.length - (st.tot_processed + 1)))
          num_processed := st.num_processed + 1
          tot_processed := st.tot_processed + 1 }) := by
  by_cases h1 : st.flags.getD ix false = true
  · exact Or.inl (fwdUnit_skip expf U st ix (Or.inl h1))
  · by_cases h2 : inputsDone (U.getD ix NWUnitV.zero) st.flags = true
    · exact Or.inr ⟨h1, h2, fwdUnit_proc expf U st ix h1 h2⟩
    · exact Or.inl (fwdUnit_skip expf U st ix (Or.inr (by simpa using h2)))

theorem set_true_mono (flags : List Bool) (k x : Nat) (h : flags.getD x false = true) :
    (flags.set k true).getD x false = true := by
  rw [getD_set]
  split_ifs
  · rfl
  · exact h

theorem fwdUnit_flags_mono (expf : R → R) (U : List (NWUnitV R)) (st : FwdState R) (ix x : Nat)
    (h : st.flags.getD x false = true) : (fwdUnit expf U st ix).flags.getD x false = true := by
  rcases fwdUnit_cases expf U st ix with e | ⟨_, _, e⟩
  · rw [e]; exact h
  · rw [e]; exact set_true_mono _ _ _ h

theorem fwdUnit_flags_other (expf : R → R) (U : List (NWUnitV R)) (st : FwdState R) (ix x : Nat)
    (h : x ≠ ix) : (fwdUnit expf U st ix).flags.getD x false = st.flags.getD x false := by
  rcases fwdUnit_cases expf U st ix with e | ⟨_, _, e⟩
  · rw [e]
  · rw [e]; exact getD_set_ne _ _ _ _ _ h

theorem fwdUnit_flen (expf : R → R) (U : List (NWUnitV R)) (st : FwdState R) (ix : Nat) :
    (fwdUnit expf U st ix).flags.length = st.flags.length := by
  rcases fwdUnit_cases expf U st ix with e | ⟨_, _, e⟩
  · rw [e]
  · rw [e]; exact List.length_set _ _ _

theorem fwdUnit_counter (expf : R → R) (U : List (NWUnitV R)) (st : FwdState R) (ix : Nat) :
    (fwdUnit expf U st ix).tot_processed + st.num_processed
      = st.tot_processed + (fwdUnit expf U st ix).num_processed := by
  rcases fwdUnit_cases expf U st ix with e | ⟨_, _, e⟩
  · rw [e]
  · rw [e]
    show st.tot_processed + 1 + st.num_processed = st.tot_processed + (st.num_processed + 1)
    omega

theorem fwdUnit_self (expf : R → R) (U : List (NWUnitV R)) (st : FwdState R) (ix : Nat)
    (hl : ix < st.flags.length)
    (h : inputsDone (U.getD ix NWUnitV.zero) st.flags = true) :
    (fwdUnit expf U st ix).flags.getD ix false = true := by
  by_cases h1 : st.flags.getD ix false = true
  · exact fwdUnit_flags_mono expf U st ix ix h1
  · rw [fwdUnit_proc expf U st ix h1 h]
    exact getD_set_eq _ _ _ _ hl

theorem FwdInv_step (expf : R → R) (U : List (NWUnitV R)) (S0 A0 : List R)
    (B0 : Option (List Nat)) (st : FwdState R) (k : Nat)
    (h : FwdInv expf U S0 A0 B0 st) (hk : k < U.length) :
    FwdInv expf U S0 A0 B0 (fwdUnit expf U st k) := by
  rcases fwdUnit_cases expf U st k with e | ⟨hf, hin, e⟩
  · rw [e]; exact h
  rw [e]
  have hsrc := (inputsDone_iff _ _).1 hin
  have hkl : k < st.flags.length := by rw [h.flen]; exact hk
  have hty : (U.getD k NWUnitV.zero).UnitType ≠ UNIT_INPUT := fun ht => hf (h.inflag k hk ht)
  have hne : ∀ x, st.flags.getD x false = true → x ≠ k := by
    intro x hx e2
    rw [e2] at hx
    exact hf hx
  have hnot : k ∉ doneSet U.length st.flags := by
    rw [mem_doneSet]
    exact fun hc => hf hc.2
  have htot : st.tot_processed < U.length := by
    rw [h.rank.2.1]
    exact doneSet_card_lt _ _ k hk hf
  constructor
  · exact (List.length_set _ _ _).trans h.flen
  · intro ix hix hinp
    exact set_true_mono _ _ _ (h.inflag ix hix hinp)
  · show RankInv U.length (doneSet U.length (st.flags.set k true)) (st.tot_processed + 1) _
    rw [doneSet_set_true _ _ _ hk hkl]
    exact RankInv_step _ _ _ _ k h.rank hk hnot
  · intro d hd hfd hdty j hj
    apply set_true_mono
    by_cases e2 : d = k
    · subst e2
      exact hsrc j hj
    · exact h.srcdone d hd (by rwa [getD_set_ne _ _ _ _ _ e2] at hfd) hdty j hj
  · intro b hb hlen d hd hfd hdty j hj
    have hb' : Option.map (fun b => b.set k (U.length - (st.tot_processed + 1))) st.BackSeq
        = some b := hb
    cases hbs : st.BackSeq with
    | none =>
      rw [hbs] at hb'
      simp at hb'
    | some b0 =>
      rw [hbs] at hb'
      simp only [Option.map_some', Option.some.injEq] at hb'
      subst hb'
      rw [List.length_set] at hlen
      by_cases e2 : d = k
      · subst e2
        have hs := hsrc j hj
        have hsk := hne _ hs
        have hsN : (U.getD d NWUnitV.zero).InputUnits.getD j 0 < U.length := by
          rw [← h.flen]; exact getD_true_lt _ _ hs
        rw [getD_set_eq _ _ _ _ (by rw [hlen]; exact hk), getD_set_ne _ _ _ _ _ hsk]
        have := ((h.rank.2.2 b0 hbs hlen).1 _ ((mem_doneSet _ _ _).2 ⟨hsN, hs⟩)).1
        omega
      · have hfd' : st.flags.getD d false = true := by
          rwa [getD_set_ne _ _ _ _ _ e2] at hfd
        have hs := h.srcdone d hd hfd' hdty j hj
        rw [getD_set_ne _ _ _ _ _ e2, getD_set_ne _ _ _ _ _ (hne _ hs)]
        exact h.order b0 hbs hlen d hd hfd' hdty j hj
  · exact (List.length_set _ _ _).trans h.slen
  · exact (List.length_set _ _ _).trans h.alen
  · intro x hx
    have hxk : x ≠ k := by
      rcases hx with hx | hx
      · omega
      · intro e2
        rw [e2] at hx
        exact hty hx
    show (st.Sum.set k _).getD x 0 = _ ∧ (st.ActLevel.set k _).getD x 0 = _
    rw [getD_set_ne _ _ _ _ _ hxk, getD_set_ne _ _ _ _ _ hxk]
    exact h.keep x hx
  · obtain ⟨b1, b2, b3⟩ := h.bkeep
    show (Option.map _ st.BackSeq).isSome = _ ∧ ((Option.map _ st.BackSeq).getD []).length = _ ∧
      ∀ ix, U.length ≤ ix → ((Option.map _ st.BackSeq).getD []).getD ix 0 = _
    cases hbs : st.BackSeq with
    | none =>
      rw [hbs] at b1 b2 b3
      exact ⟨b1, b2, b3⟩
    | some b0 =>
      rw [hbs] at b1 b2 b3
      refine ⟨b1, ?_, fun ix hix => ?_⟩
      · simp only [Option.map_some', Option.getD_some, List.length_set]
        exact b2
      · simp only [Option.map_some', Option.getD_some]
        rw [getD_set_ne _ _ _ _ _ (by omega)]
        exact b3 ix hix
  · intro hS hA d hd hfd hdty
    have hkS : k < st.Sum.length := by rw [h.slen, hS]; exact hk
    have hkA : k < st.ActLevel.length := by rw [h.alen, hA]; exact hk
    show (st.Sum.set k _).getD d 0 = weightedSum _ (st.ActLevel.set k _) ∧
      (st.ActLevel.set k _).getD d 0 = activation expf _ ((st.Sum.set k _).getD d 0)
    by_cases e2 : d = k
    · subst e2
      rw [getD_set_eq _ _ _ _ hkS, getD_set_eq _ _ _ _ hkA]
      refine ⟨weightedSum_congr _ _ _ (fun j hj => ?_), rfl⟩
      rw [getD_set_ne _ _ _ _ _ (hne _ (hsrc j hj))]
    · have hfd' : st.flags.getD d false = true := by
        rwa [getD_set_ne _ _ _ _ _ e2] at hfd
      rw [getD_set_ne _ _ _ _ _ e2, getD_set_ne _ _ _ _ _ e2]
      obtain ⟨v1, v2⟩ := h.val hS hA d hd hfd' hdty
      refine ⟨v1.trans (weightedSum_congr _ _ _ (fun j hj => ?_)), v2⟩
      rw [getD_set_ne _ _ _ _ _ (hne _ (h.srcdone d hd hfd' hdty j hj))]

end ForwardStep

/-! ## ForwardPass: scans and the outer loop -/

theorem inputsDone_mono {R : Type} (u : NWUnitV R) (f g : List Bool)
    (hfg : ∀ x, f.getD x false = true → g.getD x false = true)
    (h : inputsDone u f = true) : inputsDone u g = true := by
  rw [inputsDone_iff] at h ⊢
  exact fun j hj => hfg _ (h j hj)

section ForwardLoop

variable {R : Type} [LinearOrderedField R]

theorem FwdInv_stable (expf : R → R) (U : List (NWUnitV R)) (S0 A0 : List R)
    (B0 : Option (List Nat)) : ScanStable expf U (FwdInv expf U S0 A0 B0) :=
  ⟨fun _ h => ⟨h.flen, h.inflag, h.rank, h.srcdone, h.order, h.slen, h.alen, h.keep, h.bkeep,
      h.val⟩,
    fun s k hk h => FwdInv_step expf U S0 A0 B0 s k h hk⟩

theorem scan_fold (expf : R → R) (U : List (NWUnitV R)) (P : FwdState R → Prop)
    (hP : ScanStable expf U P) (s0 : FwdState R) (h0 : P s0) (n : Nat) (hn : n ≤ U.length) :
    P ((List.range n).foldl (fwdUnit expf U) s0) ∧
    ((List.range n).foldl (fwdUnit expf U) s0).flags.length = s0.flags.length ∧
    (∀ x, s0.flags.getD x false = true →
      ((List.range n).foldl (fwdUnit expf U) s0).flags.getD x false = true) ∧
    ((List.range n).foldl (fwdUnit expf U) s0).tot_processed + s0.num_processed
      = s0.tot_processed + ((List.range n).foldl (fwdUnit expf U) s0).num_processed ∧
    (∀ k, k < n → k < s0.flags.length → inputsDone (U.getD k NWUnitV.zero) s0.flags = true →
      ((List.range n).foldl (fwdUnit expf U) s0).flags.getD k false = true) := by
  induction n with
  | zero =>
    refine ⟨h0, rfl, fun _ h => h, rfl, fun k hk => ?_⟩
    omega
  | succ n ih =>
    obtain ⟨i1, i2, i3, i4, i5⟩ := ih (by omega)
    rw [foldl_range_succ]
    refine ⟨hP.2 _ n (by omega) i1, (fwdUnit_flen _ _ _ _).trans i2,
      fun x hx => fwdUnit_flags_mono _ _ _ _ _ (i3 x hx), ?_, fun k hk hkl hin => ?_⟩
    · have := fwdUnit_counter expf U ((List.range n).foldl (fwdUnit expf U) s0) n
      omega
    · by_cases e : k = n
      · subst e
        exact fwdUnit_self _ _ _ _ (by rw [i2]; exact hkl) (inputsDone_mono _ _ _ i3 hin)
      · exact fwdUnit_flags_mono _ _ _ _ _ (i5 k (by omega) hkl hin)

theorem fwdSweep_spec (expf : R → R) (U : List (NWUnitV R)) (P : FwdState R → Prop)
    (hP : ScanStable expf U P) (st : FwdState R) (h0 : P st) :
    P (fwdSweep expf U st) ∧
    (fwdSweep expf U st).flags.length = st.flags.length ∧
    (∀ x, st.flags.getD x false = true → (fwdSweep expf U st).flags.getD x false = true) ∧
    (fwdSweep expf U st).tot_processed = st.tot_processed + (fwdSweep expf U st).num_processed ∧
    (∀ k, k < U.length → k < st.flags.length →
      inputsDone (U.getD k NWUnitV.zero) st.flags = true →
      (fwdSweep expf U st).flags.getD k false = true) := by
  obtain ⟨i1, i2, i3, i4, i5⟩ := scan_fold expf U P hP { st with num_processed := 0 }
    (hP.1 st h0) U.length (le_refl _)
  exact ⟨i1, i2, i3, i4, i5⟩

/-- The outer loop returns within NumUnits scans. -/
theorem fwdLoop_total (expf : R → R) (U : List (NWUnitV R)) (S0 A0 : List R)
    (B0 : Option (List Nat)) :
    ∀ (fuel : Nat) (st : FwdState R), FwdInv expf U S0 A0 B0 st →
      U.length - st.tot_processed ≤ fuel → 1 ≤ fuel →
      ∃ r, fwdLoop expf U fuel st = some r := by
  intro fuel
  induction fuel with
  | zero => intro st _ _ h; omega
  | succ fuel ih =>
    intro st hinv h1 _
    obtain ⟨i1, _, _, i4, _⟩ := fwdSweep_spec expf U _ (FwdInv_stable expf U S0 A0 B0) st hinv
    unfold fwdLoop
    by_cases e1 : (fwdSweep expf U st).tot_processed = U.length
    · rw [if_pos e1]
      exact ⟨_, rfl⟩
    · rw [if_neg e1]
      by_cases e2 : (fwdSweep expf U st).num_processed = 0
      · rw [if_pos e2]
        exact ⟨_, rfl⟩
      · rw [if_neg e2]
        have hle : (fwdSweep expf U st).tot_processed ≤ U.length := by
          rw [i1.rank.2.1]
          exact doneSet_card_le _ _
        exact ih _ i1 (by omega) (by omega)

/-- What the outer loop returns: the state after a scan, with every unit
counted, or the zeroed state after a scan that processed no unit. -/
theorem fwdLoop_sound (expf : R → R) (U : List (NWUnitV R)) (P : FwdState R → Prop)
    (hP : ScanStable expf U P) :
    ∀ (fuel : Nat) (st : FwdState R) (e : NWErr) (st' : FwdState R), P st →
      fwdLoop expf U fuel st = some (e, st') →
      ∃ pre, P pre ∧ P (fwdSweep expf U pre) ∧
        ((e = NW_SUCCESS ∧ st' = fwdSweep expf U pre ∧
            (fwdSweep expf U pre).tot_processed = U.length) ∨
          (e = NW_ERR_RECURSIVE ∧
            st' = { fwdSweep expf U pre with
              Sum := zeroPrefix U.length (fwdSweep expf U pre).Sum
              ActLevel := zeroPrefix U.length (fwdSweep expf U pre).ActLevel } ∧
            (fwdSweep expf U pre).tot_processed ≠ U.length ∧
            (fwdSweep expf U pre).num_processed = 0)) := by
  intro fuel
  induction fuel with
  | zero =>
    intro st e st' _ h
    unfold fwdLoop at h
    exact absurd h (by simp)
  | succ fuel ih =>
    intro st e st' hinv h
    have i1 := (fwdSweep_spec expf U P hP st hinv).1
    unfold fwdLoop at h
    by_cases e1 : (fwdSweep expf U st).tot_processed = U.length
    · rw [if_pos e1] at h
      simp only [Option.some.injEq, Prod.mk.injEq] at h
      exact ⟨st, hinv, i1, Or.inl ⟨h.1.symm, h.2.symm, e1⟩⟩
    · rw [if_neg e1] at h
      by_cases e2 : (fwdSweep expf U st).num_processed = 0
      · rw [if_pos e2] at h
        simp only [Option.some.injEq, Prod.mk.injEq] at h
        exact ⟨st, hinv, i1, Or.inr ⟨h.1.symm, h.2.symm, e1, e2⟩⟩
      · rw [if_neg e2] at h
        exact ih _ e st' i1 h

end ForwardLoop

/-! ## ForwardPass: the first loop -/

section ForwardInit

variable {R : Type} [LinearOrderedField R]

theorem fwdInit_fold (U : List (NWUnitV R)) (s0 : FwdState R)
    (hl : s0.flags.length = U.length) (ht : s0.tot_processed = 0) (n : Nat)
    (hn : n ≤ U.length) :
    ((List.range n).foldl (fwdInit U) s0).flags.length = U.length ∧
    ((List.range n).foldl (fwdInit U) s0).Sum = s0.Sum ∧
    ((List.range n).foldl (fwdInit U) s0).ActLevel = s0.ActLevel ∧
    ((List.range n).foldl (fwdInit U) s0).num_processed = s0.num_processed ∧
    (∀ ix, ix < n →
      (((List.range n).foldl (fwdInit U) s0).flags.getD ix false = true ↔
        (U.getD ix NWUnitV.zero).UnitType = UNIT_INPUT)) ∧
    RankInv U.length
      ((Finset.range n).filter (fun ix => (U.getD ix NWUnitV.zero).UnitType = UNIT_INPUT))
      ((List.range n).foldl (fwdInit U) s0).tot_processed
      ((List.range n).foldl (fwdInit U) s0).BackSeq ∧
    ((List.range n).foldl (fwdInit U) s0).BackSeq.isSome = s0.BackSeq.isSome ∧
    (((List.range n).foldl (fwdInit U) s0).BackSeq.getD []).length
      = (s0.BackSeq.getD []).length ∧
    (∀ ix, U.length ≤ ix →
      (((List.range n).foldl (fwdInit U) s0).BackSeq.getD []).getD ix 0
        = (s0.BackSeq.getD []).getD ix 0) := by
  induction n with
  | zero =>
    refine ⟨hl, rfl, rfl, rfl, fun ix hix => by omega, ?_, rfl, rfl, fun _ _ => rfl⟩
    refine ⟨by simp, by simp [ht], fun b _ _ => ⟨fun ix hix => by simp at hix,
      fun ix iy hix => by simp at hix⟩⟩
  | succ n ih =>
    obtain ⟨i1, i2, i3, i4, i5, i6, i7, i8, i9⟩ := ih (by omega)
    rw [foldl_range_succ]
    have hnl : n < ((List.range n).foldl (fwdInit U) s0).flags.length := by rw [i1]; omega
    generalize (List.range n).foldl (fwdInit U) s0 = s at i1 i2 i3 i4 i5 i6 i7 i8 i9 hnl ⊢
    unfold fwdInit
    by_cases hin : (U.getD n NWUnitV.zero).UnitType = UNIT_INPUT
    · rw [if_pos hin]
      have hfil : (Finset.range (n + 1)).filter
            (fun ix => (U.getD ix NWUnitV.zero).UnitType = UNIT_INPUT)
          = insert n ((Finset.range n).filter
            (fun ix => (U.getD ix NWUnitV.zero).UnitType = UNIT_INPUT)) := by
        rw [Finset.range_succ, Finset.filter_insert, if_pos hin]
      have hnot : n ∉ (Finset.range n).filter
          (fun ix => (U.getD ix NWUnitV.zero).UnitType = UNIT_INPUT) := by
        simp
      refine ⟨(List.length_set _ _ _).trans i1, i2, i3, i4, fun ix hix => ?_, ?_, ?_, ?_, ?_⟩
      · show (List.set _ n true).getD ix false = true ↔ _
        rw [getD_set]
        by_cases e : ix = n
        · subst e
          rw [if_pos ⟨rfl, hnl⟩]
          exact ⟨fun _ => hin, fun _ => rfl⟩
        · simp only [e, false_and, if_false]
          exact i5 ix (by omega)
      · rw [hfil]
        exact RankInv_step _ _ _ _ n i6 (by omega) hnot
      · show (Option.map _ _).isSome = _
        rw [Option.isSome_map']
        exact i7
      · show ((Option.map _ _).getD []).length = _
        rw [← i8]
        cases s.BackSeq <;> simp
      · intro ix hix
        show ((Option.map _ _).getD []).getD ix 0 = _
        rw [← i9 ix hix]
        cases s.BackSeq with
        | none => rfl
        | some b =>
          simp only [Option.map_some', Option.getD_some]
          exact getD_set_ne _ _ _ _ _ (by omega)
    · rw [if_neg hin]
      have hfil : (Finset.range (n + 1)).filter
            (fun ix => (U.getD ix NWUnitV.zero).UnitType = UNIT_INPUT)
          = (Finset.range n).filter
            (fun ix => (U.getD ix NWUnitV.zero).UnitType = UNIT_INPUT) := by
        rw [Finset.range_succ, Finset.filter_insert, if_neg hin]
      refine ⟨(List.length_set _ _ _).trans i1, i2, i3, i4, fun ix hix => ?_, ?_, i7, i8, i9⟩
      · show (List.set _ n false).getD ix false = true ↔ _
        rw [getD_set]
        by_cases e : ix = n
        · subst e
          rw [if_pos ⟨rfl, hnl⟩]
          exact ⟨fun h => absurd h (by decide), fun h => absurd h hin⟩
        · simp only [e, false_and, if_false]
          exact i5 ix (by omega)
      · rw [hfil]
        exact i6

theorem fwdStart_spec (expf : R → R) (net : NetworkV R) :
    FwdInv expf net.UnitList net.Sum net.ActLevel net.BackSeq (fwdStart net) ∧
    (∀ ix, ix < net.UnitList.length →
      ((fwdStart net).flags.getD ix false = true ↔
        (net.UnitList.getD ix NWUnitV.zero).UnitType = UNIT_INPUT)) := by
  obtain ⟨i1, i2, i3, _, i5, i6, i7, i8, i9⟩ := fwdInit_fold net.UnitList
    { flags := net.UnitList.map (fun u => u.Flag1), Sum := net.Sum, ActLevel := net.ActLevel,
      BackSeq := net.BackSeq, num_processed := 0, tot_processed := 0 }
    (by simp) rfl net.UnitList.length (le_refl _)
  have hds : doneSet net.UnitList.length (fwdStart net).flags
      = (Finset.range net.UnitList.length).filter
        (fun ix => (net.UnitList.getD ix NWUnitV.zero).UnitType = UNIT_INPUT) := by
    unfold doneSet
    apply Finset.filter_congr
    intro ix hix
    exact i5 ix (Finset.mem_range.1 hix)
  have hflag : ∀ d, d < net.UnitList.length → (fwdStart net).flags.getD d false = true →
      (net.UnitList.getD d NWUnitV.zero).UnitType ≠ UNIT_INPUT → False :=
    fun d hd hf hty => hty ((i5 d hd).1 hf)
  refine ⟨⟨i1, fun ix hix hin => (i5 ix hix).2 hin, ?_, ?_, ?_, ?_, ?_, ?_, ⟨i7, i8, i9⟩, ?_⟩, i5⟩
  · rw [hds]
    exact i6
  · intro d hd hf hty
    exact (hflag d hd hf hty).elim
  · intro b _ _ d hd hf hty
    exact (hflag d hd hf hty).elim
  · exact congrArg List.length i2
  · exact congrArg List.length i3
  · intro ix _
    exact ⟨congrArg (fun l => l.getD ix 0) i2, congrArg (fun l => l.getD ix 0) i3⟩
  · intro _ _ d hd hf hty
    exact (hflag d hd hf hty).elim

end ForwardInit

/-! ## ForwardPass: the result of the call -/

section ForwardResult

variable {R : Type} [LinearOrderedField R]

theorem ForwardPass_inv (expf : R → R) (net : NetworkV R) (e : NWErr) (net' : NetworkV R)
    (hn : net.NumUnits ≠ 0) (h : ForwardPass expf net = some (e, net')) :
    ∃ st', fwdLoop expf net.UnitList net.NumUnits (fwdStart net) = some (e, st') ∧
      net' = { net with
        UnitList := net.UnitList.map (fun u => { u with Flag1 := false })
        Sum := st'.Sum
        ActLevel := st'.ActLevel
        BackSeq := st'.BackSeq } := by
  unfold ForwardPass at h
  rw [if_neg hn] at h
  cases hl : fwdLoop expf net.UnitList net.NumUnits (fwdStart net) with
  | none =>
    rw [hl] at h
    simp at h
  | some r =>
    obtain ⟨e1, st1⟩ := r
    rw [hl] at h
    simp only [Option.some.injEq, Prod.mk.injEq] at h
    obtain ⟨h1, h2⟩ := h
    subst h1
    exact ⟨st1, rfl, h2.symm⟩

theorem ForwardPass_returns (expf : R → R) (net : NetworkV R) (hn : net.NumUnits ≠ 0) :
    ∃ e st', fwdLoop expf net.UnitList net.NumUnits (fwdStart net) = some (e, st') ∧
      ForwardPass expf net = some (e,
        { net with
          UnitList := net.UnitList.map (fun u => { u with Flag1 := false })
          Sum := st'.Sum
          ActLevel := st'.ActLevel
          BackSeq := st'.BackSeq }) := by
  obtain ⟨⟨e, st'⟩, hr⟩ := fwdLoop_total expf net.UnitList net.Sum net.ActLevel net.BackSeq
    net.NumUnits (fwdStart net) (fwdStart_spec expf net).1 (Nat.sub_le _ _)
    (Nat.pos_of_ne_zero hn)
  refine ⟨e, st', hr, ?_⟩
  unfold ForwardPass
  rw [if_neg hn]
  simp only [hr]

theorem doneSet_card_full (N : Nat) (flags : List Bool)
    (h : ∀ ix, ix < N → flags.getD ix false = true) : (doneSet N flags).card = N := by
  unfold doneSet
  rw [Finset.filter_true_of_mem (fun ix hix => h ix (Finset.mem_range.1 hix)),
    Finset.card_range]

theorem doneSet_mono (N : Nat) (f g : List Bool)
    (h : ∀ x, f.getD x false = true → g.getD x false = true) :
    doneSet N f ⊆ doneSet N g := by
  intro x hx
  rw [mem_doneSet] at hx ⊢
  exact ⟨hx.1, h x hx.2⟩

/-- In an acyclic graph with all ids in range, among the units that are not
flagged there is one all of whose input units are flagged. -/
theorem min_unflagged (U : List (NWUnitV R)) (flags : List Bool)
    (hac : Acyclic U) (hir : IdsInRange U)
    (hex : ∃ k, k < U.length ∧ flags.getD k false ≠ true) :
    ∃ m, m < U.length ∧ flags.getD m false ≠ true ∧
      ∀ j, j < (U.getD m NWUnitV.zero).NumInput →
        flags.getD ((U.getD m NWUnitV.zero).InputUnits.getD j 0) false = true := by
  have hwf : WellFounded
      (fun a b : Fin U.length => Relation.TransGen (Connection U) a.val b.val) := by
    haveI : IsTrans (Fin U.length)
        (fun a b => Relation.TransGen (Connection U) a.val b.val) :=
      ⟨fun _ _ _ h1 h2 => Relation.TransGen.trans h1 h2⟩
    haveI : IsIrrefl (Fin U.length)
        (fun a b => Relation.TransGen (Connection U) a.val b.val) :=
      ⟨fun a h => hac a.val h⟩
    exact Finite.wellFounded_of_trans_of_irrefl _
  obtain ⟨k, hk, hkf⟩ := hex
  obtain ⟨m, hm, hmin⟩ := hwf.has_min
    { x : Fin U.length | flags.getD x.val false ≠ true } ⟨⟨k, hk⟩, hkf⟩
  refine ⟨m.val, m.isLt, hm, fun j hj => ?_⟩
  by_contra hc
  have hconn : Connection U ((U.getD m.val NWUnitV.zero).InputUnits.getD j 0) m.val :=
    ⟨m.isLt, j, hj, rfl⟩
  exact hmin ⟨_, hir _ _ hconn⟩ hc (Relation.TransGen.single hconn)

theorem sweep_progress (expf : R → R) (U : List (NWUnitV R)) (S0 A0 : List R)
    (B0 : Option (List Nat)) (hac : Acyclic U) (hir : IdsInRange U) (pre : FwdState R)
    (hinv : FwdInv expf U S0 A0 B0 pre)
    (hne : (fwdSweep expf U pre).tot_processed ≠ U.length) :
    (fwdSweep expf U pre).num_processed ≠ 0 := by
  intro hz
  obtain ⟨i1, _, i3, i4, i5⟩ := fwdSweep_spec expf U _ (FwdInv_stable expf U S0 A0 B0) pre hinv
  rw [hz, Nat.add_zero] at i4
  have hex : ∃ k, k < U.length ∧ pre.flags.getD k false ≠ true := by
    by_contra hc
    push_neg at hc
    have := doneSet_card_full U.length pre.flags hc
    rw [← hinv.rank.2.1, ← i4] at this
    exact hne this
  obtain ⟨m, hm, hmf, hsrc⟩ := min_unflagged U pre.flags hac hir hex
  have hms := i5 m hm (by rw [hinv.flen]; exact hm) ((inputsDone_iff _ _).2 hsrc)
  have hss : doneSet U.length pre.flags ⊂ doneSet U.length (fwdSweep expf U pre).flags := by
    rw [Finset.ssubset_iff_of_subset (doneSet_mono _ _ _ i3)]
    refine ⟨m, (mem_doneSet _ _ _).2 ⟨hm, hms⟩, ?_⟩
    rw [mem_doneSet]
    exact fun h => hmf h.2
  have := Finset.card_lt_card hss
  rw [← hinv.rank.2.1, ← i1.rank.2.1, i4] at this
  exact lt_irrefl _ this

theorem OnCycle_pred (U : List (NWUnitV R)) (x : Nat) (h : OnCycle U x) :
    ∃ y, InnerConnection U y x ∧ OnCycle U y := by
  unfold OnCycle at h
  rw [Relation.TransGen.tail'_iff] at h
  obtain ⟨y, h1, h2⟩ := h
  exact ⟨y, h2, Relation.TransGen.head' h2 h1⟩

theorem CycleInv_stable (expf : R → R) (U : List (NWUnitV R)) :
    ScanStable expf U (CycleInv U) := by
  refine ⟨fun s h => h, fun s k _ h x hx => ?_⟩
  rcases fwdUnit_cases expf U s k with e | ⟨_, hin, e⟩
  · rw [e]; exact h x hx
  · rw [e]
    show (s.flags.set k true).getD x false ≠ true
    by_cases e2 : x = k
    · subst e2
      obtain ⟨y, hy, hcy⟩ := OnCycle_pred U x hx
      obtain ⟨⟨_, j, hj, hjy⟩, _, _⟩ := hy
      have := (inputsDone_iff _ _).1 hin j hj
      rw [hjy] at this
      exact absurd this (h y hcy)
    · rw [getD_set_ne _ _ _ _ _ e2]
      exact h x hx

theorem ScanStable_and (expf : R → R) (U : List (NWUnitV R)) (P Q : FwdState R → Prop)
    (hP : ScanStable expf U P) (hQ : ScanStable expf U Q) :
    ScanStable expf U (fun s => P s ∧ Q s) :=
  ⟨fun s h => ⟨hP.1 s h.1, hQ.1 s h.2⟩, fun s k hk h => ⟨hP.2 s k hk h.1, hQ.2 s k hk h.2⟩⟩

theorem CycleInv_start (net : NetworkV R) : CycleInv net.UnitList (fwdStart net) := by
  intro x hx hf
  have hxl : x < net.UnitList.length := by
    have := getD_true_lt _ _ hf
    rwa [(fwdStart_spec (fun a => a) net).1.flen] at this
  have hin := ((fwdStart_spec (fun a => a) net).2 x hxl).1 hf
  unfold OnCycle at hx
  rw [Relation.TransGen.head'_iff] at hx
  obtain ⟨_, h1, _⟩ := hx
  exact h1.2.1 hin

end ForwardResult

/-! ## ForwardPass: success, cycles, values and ranks -/

theorem map_clear_flag {R : Type} (U : List (NWUnitV R)) :
    ∀ u, u ∈ U.map (fun u => { u with Flag1 := false }) → u.Flag1 = false := by
  intro u hu
  rw [List.mem_map] at hu
  obtain ⟨v, _, rfl⟩ := hu
  rfl

section ForwardClaims

variable {R : Type} [LinearOrderedField R]

/-- C14: for every non-empty network whose connection ids are all in range and
whose connection graph has no directed cycle, ForwardPass returns NW_SUCCESS,
and no unit of the resulting network has its processed flag Flag1 set. -/
theorem C14_ForwardPass_acyclic (expf : R → R) (net : NetworkV R)
    (hn : net.NumUnits ≠ 0) (hir : IdsInRange net.UnitList) (hac : Acyclic net.UnitList) :
    ∃ net', ForwardPass expf net = some (NW_SUCCESS, net') ∧
      ∀ u, u ∈ net'.UnitList → u.Flag1 = false := by
  obtain ⟨e, st', hl, hf⟩ := ForwardPass_returns expf net hn
  obtain ⟨pre, hpre, _, hres⟩ := fwdLoop_sound expf net.UnitList _
    (FwdInv_stable expf net.UnitList net.Sum net.ActLevel net.BackSeq) net.NumUnits
    (fwdStart net) e st' (fwdStart_spec expf net).1 hl
  rcases hres with ⟨he, _, _⟩ | ⟨_, _, hne, hz⟩
  · subst he
    exact ⟨_, hf, map_clear_flag _⟩
  · exact absurd hz (sweep_progress expf net.UnitList net.Sum net.ActLevel net.BackSeq hac hir
      pre hpre hne)

/-- C15: for every network whose connection graph contains a directed cycle
through non-Input units, ForwardPass returns NW_ERR_RECURSIVE; on return the
entry of every unit in the weighted-sum buffer and in the activation buffer
reads 0 (the entries of Input units included), the buffers keep their lengths,
and no unit has its processed flag Flag1 set. -/
theorem C15_ForwardPass_cycle (expf : R → R) (net : NetworkV R)
    (hc : ∃ x, OnCycle net.UnitList x) :
    ∃ net', ForwardPass expf net = some (NW_ERR_RECURSIVE, net') ∧
      (∀ ix, ix < net.NumUnits →
        net'.Sum.getD ix 0 = 0 ∧ net'.ActLevel.getD ix 0 = 0) ∧
      net'.Sum.length = net.Sum.length ∧ net'.ActLevel.length = net.ActLevel.length ∧
      ∀ u, u ∈ net'.UnitList → u.Flag1 = false := by
  obtain ⟨x, hx⟩ := hc
  have hxl : x < net.UnitList.length := by
    obtain ⟨y, hy, _⟩ := OnCycle_pred net.UnitList x hx
    exact hy.1.1
  have hn : net.NumUnits ≠ 0 := by
    unfold NetworkV.NumUnits
    omega
  obtain ⟨e, st', hl, hf⟩ := ForwardPass_returns expf net hn
  obtain ⟨pre, _, hsw, hres⟩ := fwdLoop_sound expf net.UnitList _
    (ScanStable_and expf net.UnitList _ _
      (FwdInv_stable expf net.UnitList net.Sum net.ActLevel net.BackSeq)
      (CycleInv_stable expf net.UnitList)) net.NumUnits
    (fwdStart net) e st' ⟨(fwdStart_spec expf net).1, CycleInv_start net⟩ hl
  rcases hres with ⟨_, _, htot⟩ | ⟨he, hst, _, _⟩
  · have hcard : (doneSet net.UnitList.length (fwdSweep expf net.UnitList pre).flags).card
        = net.UnitList.length := by
      rw [← hsw.1.rank.2.1]
      exact htot
    exact absurd (doneSet_full _ _ hcard x hxl) (hsw.2 x hx)
  · subst he
    refine ⟨_, hf, fun ix hix => ?_, ?_, ?_, map_clear_flag _⟩
    · rw [hst]
      exact ⟨zeroPrefix_getD _ _ _ hix, zeroPrefix_getD _ _ _ hix⟩
    · rw [hst]
      exact (zeroPrefix_length _ _).trans hsw.1.slen
    · rw [hst]
      exact (zeroPrefix_length _ _).trans hsw.1.alen

/-- The state of the scan loop behind a successful ForwardPass on a network
with units: every unit is flagged and the invariant holds. -/
theorem ForwardPass_success (expf : R → R) (net net' : NetworkV R) (hn : net.NumUnits ≠ 0)
    (h : ForwardPass expf net = some (NW_SUCCESS, net')) :
    ∃ st', FwdInv expf net.UnitList net.Sum net.ActLevel net.BackSeq st' ∧
      (∀ ix, ix < net.UnitList.length → st'.flags.getD ix false = true) ∧
      st'.tot_processed = net.UnitList.length ∧
      net' = { net with
        UnitList := net.UnitList.map (fun u => { u with Flag1 := false })
        Sum := st'.Sum
        ActLevel := st'.ActLevel
        BackSeq := st'.BackSeq } := by
  obtain ⟨st', hl, hnet⟩ := ForwardPass_inv expf net _ net' hn h
  obtain ⟨pre, _, hsw, hres⟩ := fwdLoop_sound expf net.UnitList _
    (FwdInv_stable expf net.UnitList net.Sum net.ActLevel net.BackSeq) net.NumUnits
    (fwdStart net) _ st' (fwdStart_spec expf net).1 hl
  rcases hres with ⟨_, hst, htot⟩ | ⟨he, _⟩
  · rw [← hst] at hsw htot
    refine ⟨st', hsw, ?_, htot, hnet⟩
    apply doneSet_full
    rw [← hsw.rank.2.1]
    exact htot
  · exact absurd he (by decide)

/-- C16: after a successful ForwardPass on a network whose buffers Sum and
ActLevel have NumUnits elements, for every non-Input unit u: Sum[u] is
(BiasWgt if the bias flag is set, else 0) plus the sum over the connections j
of u of ActLevel[source j] * weight j, with the final activation levels; and
ActLevel[u] is (1 if Sum[u] > 0 else 0) if u is binary, else Sum[u] clamped to
[-1/2, 1/2] if u is an Output unit with the sigmoid flag clear, else
1 / (1 + exp(-Sum[u])).  For every Input unit, Sum and ActLevel are as before
the call. -/
theorem C16_ForwardPass_values (expf : R → R) (net net' : NetworkV R)
    (hS : net.Sum.length = net.NumUnits) (hA : net.ActLevel.length = net.NumUnits)
    (h : ForwardPass expf net = some (NW_SUCCESS, net')) :
    ∀ ix, ix < net.NumUnits →
      ((net.unit ix).UnitType ≠ UNIT_INPUT →
        net'.Sum.getD ix 0
          = (if (net.unit ix).Bias = true then (net.unit ix).BiasWgt else 0)
            + ((List.range (net.unit ix).NumInput).map
                (fun j => net'.ActLevel.getD ((net.unit ix).InputUnits.getD j 0) 0
                  * (net.unit ix).InputWgts.getD j 0)).sum ∧
        net'.ActLevel.getD ix 0
          = (if (net.unit ix).Binary = true then (if net'.Sum.getD ix 0 > 0 then 1 else 0)
            else if (net.unit ix).UnitType = UNIT_OUTPUT ∧ (net.unit ix).Sigmoid = false then
              (if net'.Sum.getD ix 0 > 1 / 2 then 1 / 2
                else (if net'.Sum.getD ix 0 < -(1 / 2) then -(1 / 2) else net'.Sum.getD ix 0))
            else 1 / (1 + expf (-net'.Sum.getD ix 0)))) ∧
      ((net.unit ix).UnitType = UNIT_INPUT →
        net'.Sum.getD ix 0 = net.Sum.getD ix 0 ∧
        net'.ActLevel.getD ix 0 = net.ActLevel.getD ix 0) := by
  intro ix hix
  have hn : net.NumUnits ≠ 0 := by omega
  obtain ⟨st', hinv, hall, _, hnet⟩ := ForwardPass_success expf net net' hn h
  rw [hnet]
  refine ⟨fun hty => ?_, fun hty => hinv.keep ix (Or.inr hty)⟩
  obtain ⟨v1, v2⟩ := hinv.val hS hA ix hix (hall ix hix) hty
  refine ⟨v1.trans (weightedSum_eq_sum _ _), v2⟩

/-- C17: after a successful ForwardPass on a network whose array BackSeq has
NumUnits elements, the ranks in BackSeq are a permutation of
0, ..., NumUnits - 1, and for every connection s -> d into a non-Input unit d
the source has the strictly higher rank: BackSeq[d] < BackSeq[s]. -/
theorem C17_ForwardPass_ranks (expf : R → R) (net net' : NetworkV R) (b0 : List Nat)
    (hb : net.BackSeq = some b0) (hlen : b0.length = net.NumUnits)
    (h : ForwardPass expf net = some (NW_SUCCESS, net')) :
    ∃ b, net'.BackSeq = some b ∧ b.Perm (List.range net.NumUnits) ∧
      ∀ s d, Connection net.UnitList s d → (net.unit d).UnitType ≠ UNIT_INPUT →
        b.getD d 0 < b.getD s 0 := by
  by_cases hn : net.NumUnits = 0
  · have hnet : net' = net := by
      unfold ForwardPass at h
      rw [if_pos hn] at h
      simp only [Option.some.injEq, Prod.mk.injEq, true_and] at h
      exact h.symm
    rw [hnet]
    refine ⟨b0, hb, ?_, fun s d hc => ?_⟩
    · rw [hn] at hlen ⊢
      rw [List.length_eq_zero.1 hlen]
      exact List.Perm.refl _
    · have := hc.1
      unfold NetworkV.NumUnits at hn
      omega
  · obtain ⟨st', hinv, hall, htot, hnet⟩ := ForwardPass_success expf net net' hn h
    obtain ⟨k1, k2, _⟩ := hinv.bkeep
    rw [hb] at k1 k2
    cases hbs : st'.BackSeq with
    | none =>
      rw [hbs] at k1
      simp at k1
    | some b =>
      rw [hbs] at k2
      have hbl : b.length = net.UnitList.length := k2.trans hlen
      obtain ⟨r1, r2⟩ := hinv.rank.2.2 b hbs hbl
      have hmem : ∀ ix, ix < net.UnitList.length →
          ix ∈ doneSet net.UnitList.length st'.flags :=
        fun ix hix => (mem_doneSet _ _ _).2 ⟨hix, hall ix hix⟩
      rw [hnet]
      refine ⟨b, hbs, ?_, fun s d hc hty => ?_⟩
      · have hnd : b.Nodup := by
          rw [List.nodup_iff_injective_get]
          intro i j hij
          apply Fin.ext
          have hi : i.val < net.UnitList.length := by rw [← hbl]; exact i.isLt
          have hj : j.val < net.UnitList.length := by rw [← hbl]; exact j.isLt
          apply r2 i.val j.val (hmem _ hi) (hmem _ hj)
          rw [List.getD_eq_getElem _ _ i.isLt, List.getD_eq_getElem _ _ j.isLt]
          exact hij
        have hsub : b ⊆ List.range net.NumUnits := by
          intro x hx
          obtain ⟨i, hi, rfl⟩ := List.getElem_of_mem hx
          have := (r1 i (hmem i (by rw [← hbl]; exact hi))).2
          rw [List.getD_eq_getElem _ _ hi] at this
          exact List.mem_range.2 this
        exact (List.subperm_of_subset hnd hsub).perm_of_length_le
          (by rw [List.length_range, hbl]; exact le_refl _)
      · obtain ⟨hd, j, hj, hjs⟩ := hc
        have := hinv.order b hbs hbl d hd (hall d hd) hty j hj
        rw [hjs] at this
        exact this

end ForwardClaims

/-! ## ForwardPass on the example networks -/

section ForwardExamples

variable {R : Type} [LinearOrderedField R]

theorem acyclic_of_increasing (U : List (NWUnitV R))
    (h : ∀ s d, Connection U s d → s < d) : IdsInRange U ∧ Acyclic U := by
  constructor
  · intro s d hc
    exact lt_trans (h s d hc) hc.1
  · intro u hu
    have hlt : ∀ a b, Relation.TransGen (Connection U) a b → a < b := by
      intro a b hab
      induction hab with
      | single hc => exact h _ _ hc
      | tail _ hc ih => exact lt_trans ih (h _ _ hc)
    exact lt_irrefl _ (hlt u u hu)

theorem layeredNet_increasing :
    ∀ s d, Connection (layeredNet : NetworkV R).UnitList s d → s < d := by
  rintro s d ⟨hd, j, hj, rfl⟩
  have hd4 : d < 4 := hd
  interval_cases d
  · exact absurd hj (Nat.not_lt_zero _)
  · exact absurd hj (Nat.not_lt_zero _)
  · have hj2 : j < 2 := hj
    interval_cases j
    · exact Nat.zero_lt_succ _
    · exact Nat.one_lt_two
  · have hj1 : j < 1 := hj
    interval_cases j
    exact Nat.lt_succ_self 2

theorem cycleNet_onCycle : OnCycle (cycleNet : NetworkV R).UnitList 1 :=
  Relation.TransGen.tail
    (Relation.TransGen.single
      ⟨⟨Nat.lt_succ_self 2, 0, Nat.zero_lt_one, rfl⟩, Nat.one_ne_zero, Nat.one_ne_zero⟩)
    ⟨⟨Nat.lt_succ_of_lt (Nat.lt_succ_self 1), 1, Nat.one_lt_two, rfl⟩, Nat.one_ne_zero,
      Nat.one_ne_zero⟩

theorem fwdStart_trainNet :
    fwdStart (trainNet : NetworkV R)
      = { flags := [true, true, false, false], Sum := [0, 0, 0, 0], ActLevel := [0, 0, 0, 0],
          BackSeq := some [3, 2, 1, 0], num_processed := 0, tot_processed := 2 } :=
  rfl

theorem fwdSweep_trainNet (expf : R → R) :
    fwdSweep expf (trainNet : NetworkV R).UnitList
      { flags := [true, true, false, false], Sum := [0, 0, 0, 0], ActLevel := [0, 0, 0, 0],
          BackSeq := some [3, 2, 1, 0], num_processed := 0, tot_processed := 2 }
      = { flags := [true, true, true, true],
          Sum := [0, 0, 0 + 0 * 1 + 0 * 1, 0 + 1 / (1 + expf (-(0 + 0 * 1 + 0 * 1))) * 1],
          ActLevel := [0, 0, 1 / (1 + expf (-(0 + 0 * 1 + 0 * 1))),
            1 / (1 + expf (-(0 + 1 / (1 + expf (-(0 + 0 * 1 + 0 * 1))) * 1)))],
          BackSeq := some [3, 2, 1, 0], num_processed := 2, tot_processed := 4 } :=
  rfl

theorem ForwardPass_trainNet (expf : R → R) :
    ForwardPass expf (trainNet : NetworkV R)
      = some (NW_SUCCESS,
        { (trainNet : NetworkV R) with
          Sum := [0, 0, 0 + 0 * 1 + 0 * 1, 0 + 1 / (1 + expf (-(0 + 0 * 1 + 0 * 1))) * 1]
          ActLevel := [0, 0, 1 / (1 + expf (-(0 + 0 * 1 + 0 * 1))),
            1 / (1 + expf (-(0 + 1 / (1 + expf (-(0 + 0 * 1 + 0 * 1))) * 1)))] }) := by
  rw [ForwardPass_one_sweep expf (trainNet : NetworkV R) _ (Nat.succ_ne_zero 3)
    ((congrArg _ fwdStart_trainNet).trans (fwdSweep_trainNet expf)) rfl]
  rfl

end ForwardExamples

/-- Witness of C14: the layered network. -/
theorem C14_ForwardPass_acyclic_witness :
    ∃ net', ForwardPass (fun _ => 1) (layeredNet : NetworkV ℚ) = some (NW_SUCCESS, net') ∧
      ∀ u, u ∈ net'.UnitList → u.Flag1 = false :=
  C14_ForwardPass_acyclic (fun _ => 1) (layeredNet : NetworkV ℚ) (Nat.succ_ne_zero 3)
    (acyclic_of_increasing _ layeredNet_increasing).1
    (acyclic_of_increasing _ layeredNet_increasing).2

/-- Witness of C15: the network cycleNet, where the units 1 and 2 feed each
other. -/
theorem C15_ForwardPass_cycle_witness :
    ∃ net', ForwardPass (fun _ => 1) (cycleNet : NetworkV ℚ) = some (NW_ERR_RECURSIVE, net') ∧
      (∀ ix, ix < (cycleNet : NetworkV ℚ).NumUnits →
        net'.Sum.getD ix 0 = 0 ∧ net'.ActLevel.getD ix 0 = 0) ∧
      net'.Sum.length = (cycleNet : NetworkV ℚ).Sum.length ∧
      net'.ActLevel.length = (cycleNet : NetworkV ℚ).ActLevel.length ∧
      ∀ u, u ∈ net'.UnitList → u.Flag1 = false :=
  C15_ForwardPass_cycle (fun _ => 1) (cycleNet : NetworkV ℚ) ⟨1, cycleNet_onCycle⟩

/-- Witness of C16: the weighted sum of the Internal unit 2 of the layered
network. -/
theorem C16_ForwardPass_values_witness :
    ∃ net', ForwardPass (fun _ => 1) (layeredNet : NetworkV ℚ) = some (NW_SUCCESS, net') ∧
      net'.Sum.getD 2 0
        = (if ((layeredNet : NetworkV ℚ).unit 2).Bias = true
            then ((layeredNet : NetworkV ℚ).unit 2).BiasWgt else 0)
          + ((List.range ((layeredNet : NetworkV ℚ).unit 2).NumInput).map
              (fun j => net'.ActLevel.getD (((layeredNet : NetworkV ℚ).unit 2).InputUnits.getD j 0) 0
                * ((layeredNet : NetworkV ℚ).unit 2).InputWgts.getD j 0)).sum :=
  ⟨_, ForwardPass_layeredNet (fun _ => 1) 0 0,
    (((C16_ForwardPass_values (fun _ => 1) (layeredNet : NetworkV ℚ) _ rfl rfl
      (ForwardPass_layeredNet (fun _ => 1) 0 0)) 2 (by decide)).1 (by decide)).1⟩

/-- Witness of C17: the layered network with training buffers. -/
theorem C17_ForwardPass_ranks_witness :
    ∃ net', ForwardPass (fun _ => 1) (trainNet : NetworkV ℚ) = some (NW_SUCCESS, net') ∧
      ∃ b, net'.BackSeq = some b ∧ b.Perm (List.range (trainNet : NetworkV ℚ).NumUnits) ∧
        ∀ s d, Connection (trainNet : NetworkV ℚ).UnitList s d →
          ((trainNet : NetworkV ℚ).unit d).UnitType ≠ UNIT_INPUT → b.getD d 0 < b.getD s 0 :=
  ⟨_, ForwardPass_trainNet (fun _ => 1),
    C17_ForwardPass_ranks (fun _ => 1) (trainNet : NetworkV ℚ) _ [3, 2, 1, 0] rfl rfl
      (ForwardPass_trainNet (fun _ => 1))⟩

/-! ## ForwardPass: running the pass a second time -/

section ForwardTwice

variable {R : Type} [LinearOrderedField R]

theorem getD_map_clear (U : List (NWUnitV R)) (ix : Nat) :
    (U.map (fun u => { u with Flag1 := false })).getD ix NWUnitV.zero
      = { U.getD ix NWUnitV.zero with Flag1 := false } := by
  by_cases h : ix < U.length
  · rw [List.getD_eq_getElem _ _ (by simpa using h), List.getD_eq_getElem _ _ h]
    simp
  · rw [getD_of_length_le _ _ _ (by simpa using h), getD_of_length_le _ _ _ (by omega)]
    rfl

theorem fwdUnit_map_clear (expf : R → R) (U : List (NWUnitV R)) :
    fwdUnit expf (U.map (fun u => { u with Flag1 := false })) = fwdUnit expf U := by
  funext st ix
  unfold fwdUnit
  rw [getD_map_clear, List.length_map]
  rfl

theorem fwdInit_map_clear (U : List (NWUnitV R)) :
    fwdInit (U.map (fun u => { u with Flag1 := false })) = fwdInit U := by
  funext st ix
  unfold fwdInit
  rw [getD_map_clear, List.length_map]

theorem fwdSweep_map_clear (expf : R → R) (U : List (NWUnitV R)) :
    fwdSweep expf (U.map (fun u => { u with Flag1 := false })) = fwdSweep expf U := by
  funext st
  unfold fwdSweep
  rw [fwdUnit_map_clear, List.length_map]

theorem fwdLoop_map_clear (expf : R → R) (U : List (NWUnitV R)) (fuel : Nat)
    (st : FwdState R) :
    fwdLoop expf (U.map (fun u => { u with Flag1 := false })) fuel st
      = fwdLoop expf U fuel st := by
  induction fuel generalizing st with
  | zero => rfl
  | succ fuel ih =>
    unfold fwdLoop
    rw [fwdSweep_map_clear, List.length_map]
    simp only [ih]

theorem getD_set_same {α : Type} (l : List α) (k : Nat) (v d : α) :
    (l.set k v).getD k d = if k < l.length then v else d := by
  rw [getD_set]
  by_cases h : k < l.length
  · rw [if_pos ⟨rfl, h⟩, if_pos h]
  · rw [if_neg (fun hc => h hc.2), if_neg h, getD_of_length_le _ _ _ (by omega)]

theorem FwdSim_step (expf : R → R) (U : List (NWUnitV R)) (s1 s2 : FwdState R) (k : Nat)
    (h : FwdSim U s1 s2) (hl : s1.flags.length = U.length) :
    FwdSim U (fwdUnit expf U s1 k) (fwdUnit expf U s2 k) := by
  rcases fwdUnit_cases expf U s1 k with e | ⟨hf, hin, e⟩
  · have e2 : fwdUnit expf U s2 k = s2 := by
      rcases fwdUnit_cases expf U s1 k with _ | ⟨hf, hin, e3⟩
      · by_cases h1 : s1.flags.getD k false = true
        · exact fwdUnit_skip expf U s2 k (Or.inl (by rw [← h.flags]; exact h1))
        · have h2 : inputsDone (U.getD k NWUnitV.zero) s1.flags = false := by
            by_contra hc
            have hc' : inputsDone (U.getD k NWUnitV.zero) s1.flags = true := by
              simpa using hc
            have e4 := fwdUnit_proc expf U s1 k h1 hc'
            rw [e] at e4
            have := congrArg FwdState.tot_processed e4
            simp at this
          exact fwdUnit_skip expf U s2 k (Or.inr (by rw [← h.flags]; exact h2))
      · rw [e] at e3
        have := congrArg FwdState.tot_processed e3
        simp at this
    rw [e, e2]
    exact h
  · have e2 := fwdUnit_proc expf U s2 k (by rw [← h.flags]; exact hf)
      (by rw [← h.flags]; exact hin)
    have hsrc := (inputsDone_iff _ _).1 hin
    have hws : weightedSum (U.getD k NWUnitV.zero) s1.ActLevel
        = weightedSum (U.getD k NWUnitV.zero) s2.ActLevel := by
      apply weightedSum_congr
      intro j hj
      have hs := hsrc j hj
      exact (h.agree _ (by rw [← hl]; exact getD_true_lt _ _ hs) hs).2.1
    rw [e, e2]
    constructor
    · show s1.flags.set k true = s2.flags.set k true
      rw [h.flags]
    · show s1.tot_processed + 1 = s2.tot_processed + 1
      rw [h.tot]
    · show s1.num_processed + 1 = s2.num_processed + 1
      rw [h.num]
    · show (s1.Sum.set k _).length = (s2.Sum.set k _).length
      rw [List.length_set, List.length_set]
      exact h.slen
    · show (s1.ActLevel.set k _).length = (s2.ActLevel.set k _).length
      rw [List.length_set, List.length_set]
      exact h.alen
    · show (Option.map _ s1.BackSeq).isSome = (Option.map _ s2.BackSeq).isSome
      rw [Option.isSome_map', Option.isSome_map']
      exact h.bsome
    · show ((Option.map _ s1.BackSeq).getD []).length = ((Option.map _ s2.BackSeq).getD []).length
      have := h.blen
      revert this
      cases s1.BackSeq <;> cases s2.BackSeq <;> simp
    · intro ix hix hfx
      have hfx' : (s1.flags.set k true).getD ix false = true := hfx
      show (s1.Sum.set k _).getD ix 0 = (s2.Sum.set k _).getD ix 0 ∧
        (s1.ActLevel.set k _).getD ix 0 = (s2.ActLevel.set k _).getD ix 0 ∧
        ((Option.map _ s1.BackSeq).getD []).getD ix 0
          = ((Option.map _ s2.BackSeq).getD []).getD ix 0
      by_cases e3 : ix = k
      · subst e3
        refine ⟨?_, ?_, ?_⟩
        · rw [getD_set_same, getD_set_same, h.slen, hws]
        · rw [getD_set_same, getD_set_same, h.alen, hws]
        · have hb1 := h.bsome
          have hb2 := h.blen
          rw [h.tot]
          cases hs1 : s1.BackSeq with
          | none =>
            cases hs2 : s2.BackSeq with
            | none => rfl
            | some b2 => rw [hs1, hs2] at hb1; simp at hb1
          | some b1 =>
            cases hs2 : s2.BackSeq with
            | none => rw [hs1, hs2] at hb1; simp at hb1
            | some b2 =>
              rw [hs1, hs2] at hb2
              simp only [Option.getD_some] at hb2
              simp only [Option.map_some', Option.getD_some]
              rw [getD_set_same, getD_set_same, hb2]
      · rw [getD_set_ne _ _ _ _ _ e3] at hfx'
        obtain ⟨a1, a2, a3⟩ := h.agree ix hix hfx'
        refine ⟨?_, ?_, ?_⟩
        · rw [getD_set_ne _ _ _ _ _ e3, getD_set_ne _ _ _ _ _ e3]
          exact a1
        · rw [getD_set_ne _ _ _ _ _ e3, getD_set_ne _ _ _ _ _ e3]
          exact a2
        · cases hs1 : s1.BackSeq with
          | none =>
            cases hs2 : s2.BackSeq with
            | none => rfl
            | some b2 =>
              have hb1 := h.bsome
              rw [hs1, hs2] at hb1
              simp at hb1
          | some b1 =>
            cases hs2 : s2.BackSeq with
            | none =>
              have hb1 := h.bsome
              rw [hs1, hs2] at hb1
              simp at hb1
            | some b2 =>
              rw [hs1, hs2] at a3
              simp only [Option.getD_some] at a3
              simp only [Option.map_some', Option.getD_some]
              rw [getD_set_ne _ _ _ _ _ e3, getD_set_ne _ _ _ _ _ e3]
              exact a3

end ForwardTwice

section ForwardTwiceLoop

variable {R : Type} [LinearOrderedField R]

theorem FwdSim_fold (expf : R → R) (U : List (NWUnitV R)) (s1 s2 : FwdState R)
    (h : FwdSim U s1 s2) (hl : s1.flags.length = U.length) (n : Nat) :
    FwdSim U ((List.range n).foldl (fwdUnit expf U) s1)
      ((List.range n).foldl (fwdUnit expf U) s2) ∧
    ((List.range n).foldl (fwdUnit expf U) s1).flags.length = U.length := by
  induction n with
  | zero => exact ⟨h, hl⟩
  | succ n ih =>
    rw [foldl_range_succ, foldl_range_succ]
    exact ⟨FwdSim_step expf U _ _ n ih.1 ih.2, (fwdUnit_flen _ _ _ _).trans ih.2⟩

theorem FwdSim_sweep (expf : R → R) (U : List (NWUnitV R)) (s1 s2 : FwdState R)
    (h : FwdSim U s1 s2) (hl : s1.flags.length = U.length) :
    FwdSim U (fwdSweep expf U s1) (fwdSweep expf U s2) ∧
    (fwdSweep expf U s1).flags.length = U.length :=
  FwdSim_fold expf U { s1 with num_processed := 0 } { s2 with num_processed := 0 }
    ⟨h.flags, h.tot, rfl, h.slen, h.alen, h.bsome, h.blen, h.agree⟩ hl U.length

theorem FwdSim_loop (expf : R → R) (U : List (NWUnitV R)) :
    ∀ (fuel : Nat) (s1 s2 F : FwdState R), FwdSim U s1 s2 → s1.flags.length = U.length →
      fwdLoop expf U fuel s1 = some (NW_SUCCESS, F) →
      ∃ F2, fwdLoop expf U fuel s2 = some (NW_SUCCESS, F2) ∧ FwdSim U F F2 := by
  intro fuel
  induction fuel with
  | zero =>
    intro s1 s2 F _ _ h
    unfold fwdLoop at h
    exact absurd h (by simp)
  | succ fuel ih =>
    intro s1 s2 F hs hl h
    obtain ⟨hsw, hlw⟩ := FwdSim_sweep expf U s1 s2 hs hl
    unfold fwdLoop at h ⊢
    by_cases e1 : (fwdSweep expf U s1).tot_processed = U.length
    · rw [if_pos e1] at h
      rw [if_pos (by rw [← hsw.tot]; exact e1)]
      simp only [Option.some.injEq, Prod.mk.injEq, true_and] at h
      rw [← h]
      exact ⟨_, rfl, hsw⟩
    · rw [if_neg e1] at h
      rw [if_neg (by rw [← hsw.tot]; exact e1)]
      by_cases e2 : (fwdSweep expf U s1).num_processed = 0
      · rw [if_pos e2] at h
        simp only [Option.some.injEq, Prod.mk.injEq] at h
        exact absurd h.1 (by decide)
      · rw [if_neg e2] at h
        rw [if_neg (by rw [← hsw.num]; exact e2)]
        exact ih _ _ F hsw hlw h

theorem fwdInit_sim (U : List (NWUnitV R)) (a1 a2 : FwdState R)
    (ht : a1.tot_processed = a2.tot_processed) (hs : a1.BackSeq.isSome = a2.BackSeq.isSome)
    (hl : (a1.BackSeq.getD []).length = (a2.BackSeq.getD []).length) (n : Nat) :
    ((List.range n).foldl (fwdInit U) a1).tot_processed
      = ((List.range n).foldl (fwdInit U) a2).tot_processed ∧
    ((List.range n).foldl (fwdInit U) a1).BackSeq.isSome
      = ((List.range n).foldl (fwdInit U) a2).BackSeq.isSome ∧
    (((List.range n).foldl (fwdInit U) a1).BackSeq.getD []).length
      = (((List.range n).foldl (fwdInit U) a2).BackSeq.getD []).length ∧
    ∀ ix, ix < n → (U.getD ix NWUnitV.zero).UnitType = UNIT_INPUT →
      (((List.range n).foldl (fwdInit U) a1).BackSeq.getD []).getD ix 0
        = (((List.range n).foldl (fwdInit U) a2).BackSeq.getD []).getD ix 0 := by
  induction n with
  | zero => exact ⟨ht, hs, hl, fun ix hix => by omega⟩
  | succ n ih =>
    obtain ⟨i1, i2, i3, i4⟩ := ih
    rw [foldl_range_succ, foldl_range_succ]
    generalize (List.range n).foldl (fwdInit U) a1 = t1 at i1 i2 i3 i4 ⊢
    generalize (List.range n).foldl (fwdInit U) a2 = t2 at i1 i2 i3 i4 ⊢
    unfold fwdInit
    by_cases hin : (U.getD n NWUnitV.zero).UnitType = UNIT_INPUT
    · rw [if_pos hin, if_pos hin]
      show t1.tot_processed + 1 = t2.tot_processed + 1 ∧
        (Option.map _ t1.BackSeq).isSome = (Option.map _ t2.BackSeq).isSome ∧
        ((Option.map _ t1.BackSeq).getD []).length = ((Option.map _ t2.BackSeq).getD []).length ∧
        ∀ ix, ix < n + 1 → (U.getD ix NWUnitV.zero).UnitType = UNIT_INPUT →
          ((Option.map _ t1.BackSeq).getD []).getD ix 0
            = ((Option.map _ t2.BackSeq).getD []).getD ix 0
      rw [i1]
      cases hb1 : t1.BackSeq with
      | none =>
        cases hb2 : t2.BackSeq with
        | none => exact ⟨rfl, rfl, rfl, fun _ _ _ => rfl⟩
        | some b2 => rw [hb1, hb2] at i2; simp at i2
      | some b1 =>
        cases hb2 : t2.BackSeq with
        | none => rw [hb1, hb2] at i2; simp at i2
        | some b2 =>
          rw [hb1, hb2] at i3 i4
          simp only [Option.getD_some] at i3 i4
          refine ⟨rfl, rfl, ?_, fun ix hix hty => ?_⟩
          · show (b1.set _ _).length = (b2.set _ _).length
            rw [List.length_set, List.length_set]
            exact i3
          show (b1.set n _).getD ix 0 = (b2.set n _).getD ix 0
          by_cases e : ix = n
          · subst e
            rw [getD_set_same, getD_set_same, i3]
          · rw [getD_set_ne _ _ _ _ _ e, getD_set_ne _ _ _ _ _ e]
            exact i4 ix (by omega) hty
    · rw [if_neg hin, if_neg hin]
      refine ⟨i1, i2, i3, fun ix hix hty => ?_⟩
      have : ix ≠ n := fun e => hin (e ▸ hty)
      exact i4 ix (by omega) hty

end ForwardTwiceLoop

section ForwardTwiceClaim

variable {R : Type} [LinearOrderedField R]

theorem bool_eq_of_iff (a b : Bool) (P : Prop) (h1 : a = true ↔ P) (h2 : b = true ↔ P) :
    a = b := by
  cases a <;> cases b <;> simp_all

theorem ForwardPass_success_loop (expf : R → R) (net net' : NetworkV R)
    (hn : net.NumUnits ≠ 0) (h : ForwardPass expf net = some (NW_SUCCESS, net')) :
    ∃ st', fwdLoop expf net.UnitList net.NumUnits (fwdStart net) = some (NW_SUCCESS, st') ∧
      FwdInv expf net.UnitList net.Sum net.ActLevel net.BackSeq st' ∧
      (∀ ix, ix < net.UnitList.length → st'.flags.getD ix false = true) ∧
      net' = { net with
        UnitList := net.UnitList.map (fun u => { u with Flag1 := false })
        Sum := st'.Sum
        ActLevel := st'.ActLevel
        BackSeq := st'.BackSeq } := by
  obtain ⟨st', hl, hnet⟩ := ForwardPass_inv expf net _ net' hn h
  obtain ⟨pre, _, hsw, hres⟩ := fwdLoop_sound expf net.UnitList _
    (FwdInv_stable expf net.UnitList net.Sum net.ActLevel net.BackSeq) net.NumUnits
    (fwdStart net) _ st' (fwdStart_spec expf net).1 hl
  rcases hres with ⟨_, hst, htot⟩ | ⟨he, _⟩
  · rw [← hst] at hsw htot
    refine ⟨st', hl, hsw, ?_, hnet⟩
    apply doneSet_full
    rw [← hsw.rank.2.1]
    exact htot
  · exact absurd he (by decide)

/-- The scan states of two runs of ForwardPass on the same unit table agree
after the first loop, when the buffers of the second run are those a first
successful run has left in the state F. -/
theorem fwdStart_sim (expf : R → R) (net : NetworkV R) (F : FwdState R)
    (hF : FwdInv expf net.UnitList net.Sum net.ActLevel net.BackSeq F) :
    FwdSim net.UnitList (fwdStart net)
      (fwdStart
        { net with
          UnitList := net.UnitList.map (fun u => { u with Flag1 := false })
          Sum := F.Sum
          ActLevel := F.ActLevel
          BackSeq := F.BackSeq }) := by
  have e2 : fwdStart
        { net with
          UnitList := net.UnitList.map (fun u => { u with Flag1 := false })
          Sum := F.Sum
          ActLevel := F.ActLevel
          BackSeq := F.BackSeq }
      = (List.range net.UnitList.length).foldl (fwdInit net.UnitList)
        { flags := (net.UnitList.map (fun u => { u with Flag1 := false })).map
            (fun u => u.Flag1),
          Sum := F.Sum, ActLevel := F.ActLevel, BackSeq := F.BackSeq, num_processed := 0,
          tot_processed := 0 } := by
    unfold fwdStart
    simp only [List.length_map, fwdInit_map_clear]
  rw [e2]
  unfold fwdStart
  obtain ⟨a1, a2, a3, a4, a5, _, a7, a8, _⟩ := fwdInit_fold net.UnitList
    { flags := net.UnitList.map (fun u => u.Flag1), Sum := net.Sum, ActLevel := net.ActLevel,
      BackSeq := net.BackSeq, num_processed := 0, tot_processed := 0 }
    (by simp) rfl net.UnitList.length (le_refl _)
  obtain ⟨b1, b2, b3, b4, b5, _, b7, b8, _⟩ := fwdInit_fold net.UnitList
    { flags := (net.UnitList.map (fun u => { u with Flag1 := false })).map (fun u => u.Flag1),
      Sum := F.Sum, ActLevel := F.ActLevel, BackSeq := F.BackSeq, num_processed := 0,
      tot_processed := 0 }
    (by simp) rfl net.UnitList.length (le_refl _)
  obtain ⟨c1, c2, c3, c4⟩ := fwdInit_sim net.UnitList
    { flags := net.UnitList.map (fun u => u.Flag1), Sum := net.Sum, ActLevel := net.ActLevel,
      BackSeq := net.BackSeq, num_processed := 0, tot_processed := 0 }
    { flags := (net.UnitList.map (fun u => { u with Flag1 := false })).map (fun u => u.Flag1),
      Sum := F.Sum, ActLevel := F.ActLevel, BackSeq := F.BackSeq, num_processed := 0,
      tot_processed := 0 }
    rfl hF.bkeep.1.symm hF.bkeep.2.1.symm net.UnitList.length
  constructor
  · apply list_ext_getD _ _ false (a1.trans b1.symm)
    intro ix hix
    rw [a1] at hix
    exact bool_eq_of_iff _ _ _ (a5 ix hix) (b5 ix hix)
  · exact c1
  · rw [a4, b4]
  · rw [a2, b2]
    exact hF.slen.symm
  · rw [a3, b3]
    exact hF.alen.symm
  · exact c2
  · exact c3
  · intro ix hix hf
    have hin := (a5 ix hix).1 hf
    obtain ⟨k1, k2⟩ := hF.keep ix (Or.inr hin)
    rw [a2, a3, b2, b3]
    exact ⟨k1.symm, k2.symm, c4 ix hix hin⟩

/-- C29: if ForwardPass succeeds and is run again on the resulting network,
with no call in between, the second run also returns NW_SUCCESS and its result
is the network it started from: every weighted sum, every activation level
and every rank in BackSeq is as the first run left it. -/
theorem C29_ForwardPass_idempotent (expf : R → R) (net net' : NetworkV R)
    (h : ForwardPass expf net = some (NW_SUCCESS, net')) :
    ForwardPass expf net' = some (NW_SUCCESS, net') := by
  by_cases hn : net.NumUnits = 0
  · have hnet : net' = net := by
      unfold ForwardPass at h
      rw [if_pos hn] at h
      simp only [Option.some.injEq, Prod.mk.injEq, true_and] at h
      exact h.symm
    rw [hnet]
    exact hnet ▸ h
  · obtain ⟨F, hl, hF, hall, hnet⟩ := ForwardPass_success_loop expf net net' hn h
    have hsim := fwdStart_sim expf net F hF
    rw [← hnet] at hsim
    obtain ⟨F2, hl2, hs2⟩ := FwdSim_loop expf net.UnitList net.NumUnits _ _ F hsim
      (fwdStart_spec expf net).1.flen hl
    have hU : net'.UnitList = net.UnitList.map (fun u => { u with Flag1 := false }) := by
      rw [hnet]
    have hN : net'.NumUnits = net.NumUnits := by
      unfold NetworkV.NumUnits
      rw [hU, List.length_map]
    have hl3 : fwdLoop expf net'.UnitList net'.NumUnits (fwdStart net')
        = some (NW_SUCCESS, F2) := by
      rw [hN, hU, fwdLoop_map_clear]
      exact hl2
    obtain ⟨pre, _, hsw, hres⟩ := fwdLoop_sound expf net'.UnitList _
      (FwdInv_stable expf net'.UnitList net'.Sum net'.ActLevel net'.BackSeq) net'.NumUnits
      (fwdStart net') _ F2 (fwdStart_spec expf net').1 hl3
    have hF2 : FwdInv expf net'.UnitList net'.Sum net'.ActLevel net'.BackSeq F2 := by
      rcases hres with ⟨_, hst, _⟩ | ⟨he, _⟩
      · rw [hst]; exact hsw
      · exact absurd he (by decide)
    have hlen' : net'.UnitList.length = net.UnitList.length := hN
    have hS' : net'.Sum = F.Sum := by rw [hnet]
    have hA' : net'.ActLevel = F.ActLevel := by rw [hnet]
    have hB' : net'.BackSeq = F.BackSeq := by rw [hnet]
    have eS : F2.Sum = F.Sum := by
      apply list_ext_getD _ _ 0 hs2.slen.symm
      intro ix _
      by_cases hix : ix < net.UnitList.length
      · exact (hs2.agree ix hix (hall ix hix)).1.symm
      · have := (hF2.keep ix (Or.inl (by rw [hlen']; omega))).1
        rw [hS'] at this
        exact this
    have eA : F2.ActLevel = F.ActLevel := by
      apply list_ext_getD _ _ 0 hs2.alen.symm
      intro ix _
      by_cases hix : ix < net.UnitList.length
      · exact (hs2.agree ix hix (hall ix hix)).2.1.symm
      · have := (hF2.keep ix (Or.inl (by rw [hlen']; omega))).2
        rw [hA'] at this
        exact this
    have eBl : F2.BackSeq.getD [] = F.BackSeq.getD [] := by
      apply list_ext_getD _ _ 0 hs2.blen.symm
      intro ix _
      by_cases hix : ix < net.UnitList.length
      · exact (hs2.agree ix hix (hall ix hix)).2.2.symm
      · have := hF2.bkeep.2.2 ix (by rw [hlen']; omega)
        rw [hB'] at this
        exact this
    have eB : F2.BackSeq = F.BackSeq := by
      have hsome := hs2.bsome
      revert hsome eBl
      cases F2.BackSeq <;> cases F.BackSeq <;> simp
    have hn' : net'.NumUnits ≠ 0 := by rw [hN]; exact hn
    unfold ForwardPass
    rw [if_neg hn']
    simp only [hl3]
    rw [eS, eA, eB, hnet]
    simp only [List.map_map]
    rfl

end ForwardTwiceClaim

/-- Witness of C29: the layered network. -/
theorem C29_ForwardPass_idempotent_witness :
    ∃ net', ForwardPass (fun _ => 1) (layeredNet : NetworkV ℚ) = some (NW_SUCCESS, net') ∧
      ForwardPass (fun _ => 1) net' = some (NW_SUCCESS, net') :=
  ⟨_, ForwardPass_layeredNet (fun _ => 1) 0 0,
    C29_ForwardPass_idempotent (fun _ => 1) (layeredNet : NetworkV ℚ) _
      (ForwardPass_layeredNet (fun _ => 1) 0 0)⟩

/-! ## ApplyTarget applied to the value of ReadOutput -/

section MirrorClaim

variable {R : Type} [LinearOrderedField R]

theorem activation_range (expf : R → R) (hexp : ∀ x, 0 ≤ expf x) (u : NWUnitV R) (S : R)
    (hty : u.UnitType = UNIT_OUTPUT) (hnb : ¬ (u.Binary = true ∧ u.Sigmoid = false)) :
    0 ≤ activation expf u S + (if u.Sigmoid = false then 1 / 2 else 0) ∧
    activation expf u S + (if u.Sigmoid = false then 1 / 2 else 0) ≤ 1 := by
  unfold activation
  by_cases hb : u.Binary = true
  · have hs : ¬ u.Sigmoid = false := fun h => hnb ⟨hb, h⟩
    rw [if_pos hb, if_neg hs]
    split_ifs <;> norm_num
  · rw [if_neg hb]
    by_cases hs : u.Sigmoid = false
    · rw [if_pos ⟨hty, hs⟩, if_pos hs]
      split_ifs with h1 h2
      · norm_num
      · norm_num
      · constructor <;> linarith
    · rw [if_neg (fun h => hs h.2), if_neg hs, add_zero]
      have hpos : (0 : R) < 1 + expf (-S) := by linarith [hexp (-S)]
      constructor
      · exact div_nonneg zero_le_one (le_of_lt hpos)
      · rw [div_le_one hpos]
        linarith [hexp (-S)]

theorem mirror_arith (lo hi a : R) (h : lo < hi) (h0 : 0 ≤ a) (h1 : a ≤ 1) :
    lo ≤ a * (hi - lo) + lo ∧ a * (hi - lo) + lo ≤ hi ∧
    (a * (hi - lo) + lo - lo) / (hi - lo) = a := by
  have hpos : 0 < hi - lo := sub_pos.2 h
  refine ⟨?_, ?_, ?_⟩
  · nlinarith [mul_nonneg h0 (le_of_lt hpos)]
  · nlinarith [mul_nonneg (sub_nonneg.2 h1) (le_of_lt hpos)]
  · rw [add_sub_cancel_right, mul_div_assoc, div_self (ne_of_gt hpos), mul_one]

/-- C38: let ForwardPass succeed on a network whose buffers Sum, ActLevel and
Error have NumUnits elements, with a function for exp that takes no negative
value, and let u be an Output unit with range min < max that is not both
binary and non-sigmoid.  Then ReadOutput(u) returns a value r with
min ≤ r ≤ max, the normalised r minus the offset of the encoding is the
activation level of u, and ApplyTarget(u, r) returns NW_SUCCESS and its only
effect is to set Error[u] to 0: the entry of u is 0 afterwards and the other
entries are unchanged. -/
theorem C38_ApplyTarget_mirrors_ReadOutput (expf : R → R) (hexp : ∀ x, 0 ≤ expf x)
    (net net' : NetworkV R) (u : Nat) (d : NWIODefV R)
    (hS : net.Sum.length = net.NumUnits) (hA : net.ActLevel.length = net.NumUnits)
    (hE : net.Error.length = net.NumUnits)
    (hfp : ForwardPass expf net = some (NW_SUCCESS, net'))
    (hu : u < net.NumUnits) (hty : (net.unit u).UnitType = UNIT_OUTPUT)
    (hio : (net.unit u).IODef = some d) (hmm : d.Min < d.Max)
    (hnb : ¬ ((net.unit u).Binary = true ∧ (net.unit u).Sigmoid = false)) :
    ∃ r, ReadOutput net' u = some (NW_SUCCESS, some r) ∧
      d.Min ≤ r ∧ r ≤ d.Max ∧
      (r - d.Min) / (d.Max - d.Min) - (if (net.unit u).Sigmoid = false then 1 / 2 else 0)
        = net'.ActLevel.getD u 0 ∧
      ApplyTarget net' u r = some (NW_SUCCESS, { net' with Error := net'.Error.set u 0 }) ∧
      (net'.Error.set u 0).getD u 0 = 0 ∧
      ∀ i, i ≠ u → (net'.Error.set u 0).getD i 0 = net.Error.getD i 0 := by
  have hn : net.NumUnits ≠ 0 := by omega
  obtain ⟨st', hinv, hall, _, hnet⟩ := ForwardPass_success expf net net' hn hfp
  have htyI : (net.unit u).UnitType ≠ UNIT_INPUT := by
    rw [hty]; decide
  obtain ⟨_, v2⟩ := hinv.val hS hA u hu (hall u hu) htyI
  have hunit : net'.unit u = { net.unit u with Flag1 := false } := by
    rw [hnet]
    exact getD_map_clear net.UnitList u
  have hN : net'.NumUnits = net.NumUnits := by
    rw [hnet]
    exact List.length_map _ _
  have hact : net'.ActLevel.getD u 0
      = activation expf (net.unit u) (st'.Sum.getD u 0) := by
    rw [hnet]
    exact v2
  obtain ⟨r0, r1⟩ := activation_range expf hexp (net.unit u) (st'.Sum.getD u 0) hty hnb
  rw [← hact] at r0 r1
  obtain ⟨m1, m2, m3⟩ := mirror_arith d.Min d.Max _ hmm r0 r1
  have hty' : (net'.unit u).UnitType = UNIT_OUTPUT := by rw [hunit]; exact hty
  have hio' : (net'.unit u).IODef = some d := by rw [hunit]; exact hio
  have hsg : (net'.unit u).Sigmoid = (net.unit u).Sigmoid := by rw [hunit]
  have hread : ReadOutput net' u = some (NW_SUCCESS,
      some ((net'.ActLevel.getD u 0 + (if (net.unit u).Sigmoid = false then 1 / 2 else 0))
        * (d.Max - d.Min) + d.Min)) := by
    unfold ReadOutput
    rw [if_neg (by rw [hN]; omega), if_neg (by rw [hty']; exact fun h => h rfl)]
    simp only [hio', hsg]
  have hE' : net'.Error = net.Error := by rw [hnet]
  have hAl : net'.ActLevel.length = net.NumUnits := by
    rw [hnet]
    exact hinv.alen.trans hA
  refine ⟨_, hread, m1, m2, ?_, ?_, getD_set_eq _ _ _ _ (by rw [hE', hE]; exact hu),
    fun i hi => (getD_set_ne _ _ _ _ _ hi).trans (by rw [hE'])⟩
  · rw [m3]
    ring
  · unfold ApplyTarget
    rw [if_neg (by rw [hN]; omega), if_neg (by rw [hty']; exact fun h => h rfl)]
    simp only [hio', hsg]
    rw [if_pos ⟨by rw [hE', hE]; exact hu, by rw [hAl]; exact hu⟩]
    have ht : truncate d ((net'.ActLevel.getD u 0
        + (if (net.unit u).Sigmoid = false then 1 / 2 else 0)) * (d.Max - d.Min) + d.Min)
        = (net'.ActLevel.getD u 0
          + (if (net.unit u).Sigmoid = false then 1 / 2 else 0)) * (d.Max - d.Min) + d.Min := by
      unfold truncate
      rw [if_neg (not_lt.2 m2), if_neg (not_lt.2 m1)]
    rw [ht, m3]
    have hz : net'.ActLevel.getD u 0 + (if (net.unit u).Sigmoid = false then 1 / 2 else 0)
        - (if (net.unit u).Sigmoid = false then 1 / 2 else 0) - net'.ActLevel.getD u 0
        = (0 : R) := by
      ring
    rw [hz]

theorem ForwardPass_staleErrorNet (expf : R → R) :
    ForwardPass expf (staleErrorNet : NetworkV R)
      = some (NW_SUCCESS,
        { (staleErrorNet : NetworkV R) with
          Sum := [0, 0, 0 + 0 * 1 + 0 * 1, 0 + 1 / (1 + expf (-(0 + 0 * 1 + 0 * 1))) * 1]
          ActLevel := [0, 0, 1 / (1 + expf (-(0 + 0 * 1 + 0 * 1))),
            1 / (1 + expf (-(0 + 1 / (1 + expf (-(0 + 0 * 1 + 0 * 1))) * 1)))] }) := by
  rw [ForwardPass_one_sweep expf (staleErrorNet : NetworkV R) _ (Nat.succ_ne_zero 3)
    ((congrArg _ (show fwdStart (staleErrorNet : NetworkV R) = _ from fwdStart_trainNet)).trans
      (fwdSweep_trainNet expf)) rfl]
  rfl

end MirrorClaim

/-- Witness of C38: the Output unit 3 of the layered network with training
buffers, whose entry of Error is 1 before the call and 0 after it. -/
theorem C38_ApplyTarget_mirrors_ReadOutput_witness :
    ∃ net' r, ForwardPass (fun _ => 1) (staleErrorNet : NetworkV ℚ) = some (NW_SUCCESS, net') ∧
      ReadOutput net' 3 = some (NW_SUCCESS, some r) ∧
      net'.Error = [0, 0, 0, 1] ∧
      ApplyTarget net' 3 r = some (NW_SUCCESS, { net' with Error := [0, 0, 0, 0] }) ∧
      (net'.Error.set 3 0).getD 3 0 = 0 :=
  let ⟨r, h1, _, _, _, h5, h6, _⟩ :=
    C38_ApplyTarget_mirrors_ReadOutput (fun _ => 1) (fun _ => zero_le_one)
      (staleErrorNet : NetworkV ℚ) _ 3 { Name := [111], Min := 0, Max := 1 } rfl rfl rfl
      (ForwardPass_staleErrorNet (fun _ => 1)) (by decide) rfl rfl (by norm_num) (by decide)
  ⟨_, r, ForwardPass_staleErrorNet (fun _ => 1), h1, rfl, h5, h6⟩

/-! ## BackwardPass: the replay finds each rank once -/

theorem replayFind_fold (BackSeq : List Nat) (L : List Nat) (st : Nat × List Nat)
    (N : Nat) (hL : ∀ ix, ix ∈ L → ix < N)
    (h1 : st.2.map (fun ix => BackSeq.getD ix 0) = List.range st.1)
    (h2 : ∀ ix, ix ∈ st.2 → ix < N) :
    (L.foldl (replayFind BackSeq) st).2.map (fun ix => BackSeq.getD ix 0)
      = List.range (L.foldl (replayFind BackSeq) st).1 ∧
    ∀ ix, ix ∈ (L.foldl (replayFind BackSeq) st).2 → ix < N := by
  induction L generalizing st with
  | nil => exact ⟨h1, h2⟩
  | cons x L ih =>
    rw [List.foldl_cons]
    apply ih _ (fun ix hix => hL ix (List.mem_cons_of_mem _ hix))
    · unfold replayFind
      split_ifs with hx
      · show (st.2 ++ [x]).map _ = List.range (st.1 + 1)
        rw [List.map_append, h1, List.range_succ, List.map_singleton, hx]
      · exact h1
    · unfold replayFind
      split_ifs with hx
      · intro ix hix
        rcases List.mem_append.1 hix with h | h
        · exact h2 ix h
        · rw [List.mem_singleton.1 h]
          exact hL x (List.mem_cons_self _ _)
      · exact h2

section ReplayTraceTheorems

variable {R : Type} [LinearOrderedField R]

theorem replayFind_idx (U : List (NWUnitV R)) (BackSeq : List Nat) (L : List Nat)
    (st : Nat × List R) (tr : Nat × List Nat) (h : st.1 = tr.1) :
    (L.foldl (replayUnit U BackSeq) st).1 = (L.foldl (replayFind BackSeq) tr).1 := by
  induction L generalizing st tr with
  | nil => exact h
  | cons x L ih =>
    rw [List.foldl_cons, List.foldl_cons]
    apply ih
    unfold replayUnit replayFind
    rw [h]
    split_ifs
    · rfl
    · exact h

theorem replayFindLoop_spec (U : List (NWUnitV R)) (BackSeq : List Nat) :
    ∀ (fuel : Nat) (st : Nat × List R) (tr : Nat × List Nat) (err : List R),
      st.1 = tr.1 →
      tr.2.map (fun ix => BackSeq.getD ix 0) = List.range tr.1 →
      (∀ ix, ix ∈ tr.2 → ix < U.length) →
      replayLoop U BackSeq fuel st = some err →
      ∃ found, replayFindLoop BackSeq U.length fuel tr = some found ∧
        found.map (fun ix => BackSeq.getD ix 0) = List.range U.length ∧
        ∀ ix, ix ∈ found → ix < U.length := by
  intro fuel
  induction fuel with
  | zero =>
    intro st tr err _ _ _ h
    unfold replayLoop at h
    exact absurd h (by simp)
  | succ fuel ih =>
    intro st tr err hidx h1 h2 h
    have hsw : (replaySweep U BackSeq st).1 = (replayFindSweep BackSeq U.length tr).1 :=
      replayFind_idx U BackSeq _ st tr hidx
    obtain ⟨f1, f2⟩ := replayFind_fold BackSeq (List.range U.length).reverse tr U.length
      (fun ix hix => List.mem_range.1 (List.mem_reverse.1 hix)) h1 h2
    unfold replayLoop at h
    unfold replayFindLoop
    by_cases e : (replaySweep U BackSeq st).1 = U.length
    · rw [if_pos (by rw [← hsw]; exact e)]
      refine ⟨_, rfl, ?_, f2⟩
      have f1' : (replayFindSweep BackSeq U.length tr).2.map (fun ix => BackSeq.getD ix 0)
          = List.range (replayFindSweep BackSeq U.length tr).1 := f1
      rw [f1', ← hsw, e]
    · rw [if_neg e] at h
      rw [if_neg (by rw [← hsw]; exact e)]
      exact ih _ _ err hsw f1 f2 h

/-- C37: when the ranks in BackSeq are a permutation of 0, ..., NumUnits - 1,
BackwardPass returns (with NW_SUCCESS), and its replay loop returns within
NumUnits scans; the units it finds, in the order of the finds, hold the ranks
0, 1, ..., NumUnits - 1 in this order, and they are a permutation of the
units: each rank and each unit is found exactly once. -/
theorem C37_BackwardPass_terminates (eta c : R) (net : NetworkV R) (bs : List Nat)
    (hbs : net.BackSeq = some bs) (hperm : bs.Perm (List.range net.NumUnits)) :
    (∃ net', BackwardPass eta c net = some (NW_SUCCESS, net')) ∧
    (net.NumUnits ≠ 0 →
      ∃ err found,
        replayLoop net.UnitList bs net.NumUnits (0, resetErrors net) = some err ∧
        replayFindLoop bs net.NumUnits net.NumUnits (0, []) = some found ∧
        found.map (fun ix => bs.getD ix 0) = List.range net.NumUnits ∧
        found.Perm (List.range net.NumUnits)) := by
  obtain ⟨err, h1, h2⟩ := BackwardPass_some eta c net bs hbs hperm
  refine ⟨⟨_, h1⟩, fun hn => ?_⟩
  obtain ⟨found, g1, g2, g3⟩ := replayFindLoop_spec net.UnitList bs net.NumUnits
    (0, resetErrors net) (0, []) err rfl rfl (fun ix hix => by simp at hix) (h2 hn)
  refine ⟨err, found, h2 hn, g1, g2, ?_⟩
  have hnd : found.Nodup := by
    apply List.Nodup.of_map (fun ix => bs.getD ix 0)
    rw [g2]
    exact List.nodup_range _
  have hsub : found ⊆ List.range net.NumUnits :=
    fun ix hix => List.mem_range.2 (g3 ix hix)
  have hlen : found.length = net.NumUnits := by
    have := congrArg List.length g2
    rwa [List.length_map, List.length_range] at this
  exact (List.subperm_of_subset hnd hsub).perm_of_length_le
    (by rw [List.length_range, hlen])

end ReplayTraceTheorems

/-- Witness of C37: the layered network with the ranks 3, 2, 1, 0. -/
theorem C37_BackwardPass_terminates_witness :
    ∃ net' : NetworkV ℚ, BackwardPass (1 : ℚ) 0 (trainNet : NetworkV ℚ)
      = some (NW_SUCCESS, net') :=
  (C37_BackwardPass_terminates (1 : ℚ) 0 (trainNet : NetworkV ℚ) [3, 2, 1, 0] rfl
    (by decide)).1

/-! ## SetupTrain with the buffers of an earlier session still set up -/

section StaleBuffers

variable {R : Type} [LinearOrderedField R]

theorem SetupTrain_of_ne (accumulate momentum : Int) (errJunk : List R) (seqJunk : List Nat)
    (net : NetworkV R) (hn : net.NumUnits ≠ 0) (hb : ¬ (accumulate ≠ 0 ∧ momentum ≠ 0)) :
    SetupTrain accumulate momentum errJunk seqJunk net = (NW_SUCCESS,
      { net with
        Error := freshArray net.NumUnits errJunk 0
        BackSeq := some (freshArray net.NumUnits seqJunk 0)
        Accum := (if accumulate ≠ 0 then some (trainRows net.UnitList) else net.Accum)
        Momentum := (if accumulate ≠ 0 then net.Momentum
          else if momentum ≠ 0 then some (trainRows net.UnitList) else net.Momentum)
        Sum := List.replicate net.NumUnits 0
        ActLevel := List.replicate net.NumUnits 0 }) := by
  unfold SetupTrain
  rw [if_neg hn, if_neg hb, SetupExec_of_ne _ (by exact hn)]
  rfl

theorem BackwardPass_momentum_first (eta c : R) (net : NetworkV R) (bs : List Nat)
    (hm : net.Momentum.isSome = true) (hbs : net.BackSeq = some bs)
    (hperm : bs.Perm (List.range net.NumUnits)) :
    ∃ net', BackwardPass eta c net = some (NW_SUCCESS, net') ∧ net'.Accum = net.Accum := by
  obtain ⟨net', h1, _, _, _, _, _, _, h8, _⟩ := BackwardPass_units eta c net bs hbs hperm
  refine ⟨net', h1, ?_⟩
  rw [h8]
  cases ha : net.Accum with
  | none => rfl
  | some a =>
    obtain ⟨_, _, u3, _, _, u6⟩ := updateAll_spec eta c net net'.Error
    rw [ha] at u3 u6
    simp only [Option.getD_some] at u3 u6
    simp only [Option.map_some', Option.some.injEq]
    apply list_ext_getD _ _ [] u3
    intro ix _
    rw [u6]
    split_ifs with h
    · unfold unitUpdate
      rw [hm, ha]
      exact (updateUnitArrays_momentum eta c net'.Error net.ActLevel (net.unit ix) ix _ _).1
    · rfl

/-- C36 does not hold.  On a network with units, SetupTrain with momentum,
followed without EndTrain by SetupTrain with accumulate, succeeds both times
and leaves both Momentum (the freed rows of the first session, never reset)
and Accum non-null; SetupTrain with neither, after the session with momentum,
leaves Momentum non-null too.  BackwardPass tests Momentum first: whenever
Momentum is non-null it returns with the accumulator rows exactly as they were,
so the policy applied after these calls is momentum, not the one requested. -/
theorem C36_stale_training_buffers (net0 : NetworkV R) (errJunk : List R)
    (seqJunk : List Nat) (hn : net0.NumUnits ≠ 0) :
    (SetupTrain 0 1 errJunk seqJunk net0).1 = NW_SUCCESS ∧
    (SetupTrain 1 0 errJunk seqJunk (SetupTrain 0 1 errJunk seqJunk net0).2).1 = NW_SUCCESS ∧
    (SetupTrain 1 0 errJunk seqJunk (SetupTrain 0 1 errJunk seqJunk net0).2).2.Momentum
      = some (trainRows net0.UnitList) ∧
    (SetupTrain 1 0 errJunk seqJunk (SetupTrain 0 1 errJunk seqJunk net0).2).2.Accum
      = some (trainRows net0.UnitList) ∧
    (SetupTrain 0 0 errJunk seqJunk (SetupTrain 0 1 errJunk seqJunk net0).2).1 = NW_SUCCESS ∧
    (SetupTrain 0 0 errJunk seqJunk (SetupTrain 0 1 errJunk seqJunk net0).2).2.Momentum
      = some (trainRows net0.UnitList) ∧
    (∀ (eta c : R) (net : NetworkV R) (bs : List Nat),
      net.Momentum.isSome = true → net.BackSeq = some bs →
      bs.Perm (List.range net.NumUnits) →
      ∃ net', BackwardPass eta c net = some (NW_SUCCESS, net') ∧ net'.Accum = net.Accum) := by
  have e1 := SetupTrain_of_ne 0 1 errJunk seqJunk net0 hn (by decide)
  have hn1 : (SetupTrain 0 1 errJunk seqJunk net0).2.NumUnits ≠ 0 := by
    rw [e1]; exact hn
  have e2 := SetupTrain_of_ne 1 0 errJunk seqJunk _ hn1 (by decide)
  have e3 := SetupTrain_of_ne 0 0 errJunk seqJunk _ hn1 (by decide)
  refine ⟨by rw [e1], by rw [e2], ?_, ?_, by rw [e3], ?_,
    fun eta c net bs hm hbs hperm => BackwardPass_momentum_first eta c net bs hm hbs hperm⟩
  · rw [e2, e1]
    rfl
  · rw [e2, e1]
    rfl
  · rw [e3, e1]
    rfl

end StaleBuffers

/-- Witness of C36: the layered network. -/
theorem C36_stale_training_buffers_witness :
    (SetupTrain 1 0 [] [] (SetupTrain 0 1 [] [] (layeredNet : NetworkV ℚ)).2).2.Momentum
      = some (trainRows (layeredNet : NetworkV ℚ).UnitList) ∧
    (SetupTrain 1 0 [] [] (SetupTrain 0 1 [] [] (layeredNet : NetworkV ℚ)).2).2.Accum
      = some (trainRows (layeredNet : NetworkV ℚ).UnitList) :=
  ⟨(C36_stale_training_buffers (layeredNet : NetworkV ℚ) [] [] (Nat.succ_ne_zero 3)).2.2.1,
    (C36_stale_training_buffers (layeredNet : NetworkV ℚ) [] [] (Nat.succ_ne_zero 3)).2.2.2.1⟩

/-! ## ULongSearch on an ascending list -/

theorem ascending_getD (list : List Nat) (n i j : Nat) (hlen : n ≤ list.length)
    (hasc : Ascending (list.take n)) (hij : i < j) (hj : j < n) :
    list.getD i 0 < list.getD j 0 := by
  unfold Ascending at hasc
  rw [List.pairwise_iff_getElem] at hasc
  have hl : (list.take n).length = n := by rw [List.length_take]; omega
  have := hasc i j (by rw [hl]; omega) (by rw [hl]; omega) hij
  rw [List.getElem_take, List.getElem_take] at this
  rw [List.getD_eq_getElem _ _ (by omega), List.getD_eq_getElem _ _ (by omega)]
  exact this

theorem ULongSearchLoop_spec (M : DataModel) (key : Nat) (list : List Nat) (n : Nat)
    (hlen : n ≤ list.length) (hasc : Ascending (list.take n)) :
    ∀ (fuel base num : Nat) (h : num ≤ fuel), base + num ≤ n →
      (ULongSearchLoop M key list fuel base num h = M.ulongMax ∧
        ∀ i, base ≤ i → i < base + num → list.getD i 0 ≠ key) ∨
      (base ≤ ULongSearchLoop M key list fuel base num h ∧
        ULongSearchLoop M key list fuel base num h < base + num ∧
        list.getD (ULongSearchLoop M key list fuel base num h) 0 = key) := by
  intro fuel
  induction fuel with
  | zero =>
    intro base num h _
    left
    refine ⟨rfl, fun i h1 h2 => ?_⟩
    omega
  | succ fuel ih =>
    intro base num h hb
    unfold ULongSearchLoop
    by_cases hn : num = 0
    · rw [dif_pos hn]
      left
      refine ⟨rfl, fun i h1 h2 => ?_⟩
      omega
    · rw [dif_neg hn]
      have hmid : base + num / 2 < base + num := by
        have := Nat.div_lt_self (Nat.pos_of_ne_zero hn) (by decide : 1 < 2)
        omega
      by_cases h1 : list.getD (base + num / 2) 0 = key
      · rw [if_pos h1]
        right
        exact ⟨by omega, hmid, h1⟩
      · rw [if_neg h1]
        by_cases h2 : list.getD (base + num / 2) 0 > key
        · rw [if_pos h2]
          rcases ih base (num / 2) (by omega) (by omega) with ⟨r1, r2⟩ | ⟨r1, r2, r3⟩
          · left
            refine ⟨r1, fun i hi1 hi2 => ?_⟩
            by_cases hlt : i < base + num / 2
            · exact r2 i hi1 hlt
            · by_cases he : i = base + num / 2
              · rw [he]; exact h1
              · have := ascending_getD list n (base + num / 2) i hlen hasc (by omega) (by omega)
                omega
          · right
            exact ⟨r1, by omega, r3⟩
        · rw [if_neg h2]
          rcases ih (base + (num / 2 + 1)) (num - (num / 2 + 1)) (by omega) (by omega)
            with ⟨r1, r2⟩ | ⟨r1, r2, r3⟩
          · left
            refine ⟨r1, fun i hi1 hi2 => ?_⟩
            by_cases hgt : base + (num / 2 + 1) ≤ i
            · exact r2 i hgt (by omega)
            · by_cases he : i = base + num / 2
              · rw [he]; exact h1
              · have := ascending_getD list n i (base + num / 2) hlen hasc (by omega) (by omega)
                omega
          · right
            exact ⟨by omega, by omega, r3⟩

/-- C35: on a list whose first num entries are strictly ascending (num being
an unsigned long), ULongSearch(key, num, list) returns, and the result is an
index i < num with list[i] = key when key occurs among these entries, and the
sentinel (unsigned long)(-1) exactly when key does not occur among them (for
num = 0 in particular). -/
theorem C35_ULongSearch (M : DataModel) (key num : Nat) (list : List Nat)
    (hnum : num ≤ M.ulongMax) (hlen : num ≤ list.length) (hasc : Ascending (list.take num)) :
    (key ∈ list.take num →
      ULongSearch M key num list < num ∧ list.getD (ULongSearch M key num list) 0 = key) ∧
    (ULongSearch M key num list = M.ulongMax ↔ key ∉ list.take num) := by
  have hmem : key ∈ list.take num ↔ ∃ i, i < num ∧ list.getD i 0 = key := by
    constructor
    · intro h
      obtain ⟨i, hi, hv⟩ := List.getElem_of_mem h
      have hl : (list.take num).length = num := by rw [List.length_take]; omega
      rw [List.getElem_take] at hv
      refine ⟨i, by rw [← hl]; exact hi, ?_⟩
      rw [List.getD_eq_getElem _ _ (by rw [hl] at hi; omega)]
      exact hv
    · rintro ⟨i, hi, hv⟩
      rw [List.getD_eq_getElem _ _ (by omega)] at hv
      rw [← hv]
      exact List.mem_take_iff_getElem.2 ⟨i, by omega, rfl⟩
  have hspec := ULongSearchLoop_spec M key list num hlen hasc num 0 num (Nat.le_refl _)
    (by omega)
  unfold ULongSearch
  rcases hspec with ⟨r1, r2⟩ | ⟨_, r2, r3⟩
  · have hno : key ∉ list.take num := by
      rw [hmem]
      rintro ⟨i, hi, hv⟩
      exact r2 i (Nat.zero_le _) (by omega) hv
    exact ⟨fun h => absurd h hno, fun _ => hno, fun _ => r1⟩
  · have hin : key ∈ list.take num := hmem.2 ⟨_, by omega, r3⟩
    refine ⟨fun _ => ⟨by omega, r3⟩, fun h => ?_, fun h => absurd hin h⟩
    rw [h] at r2
    omega

/-- Witness of C35: searching 5 in the list 1, 3, 5, 7. -/
theorem C35_ULongSearch_witness :
    ULongSearch DataModel.LP64 5 4 [1, 3, 5, 7] < 4 ∧
    [1, 3, 5, 7].getD (ULongSearch DataModel.LP64 5 4 [1, 3, 5, 7]) 0 = 5 :=
  (C35_ULongSearch DataModel.LP64 5 4 [1, 3, 5, 7] (by decide) (by decide) (by decide)).1
    (by decide)

/-! ## The generator: Randomize32 overwrites the whole state -/

theorem seedFill_fold (M : DataModel) (l : List Nat) (s0 : Nat) (n : Nat) :
    ((List.range n).foldl
        (fun (p : List Nat × Nat) ix =>
          (p.1.set ix p.2, (p.2 * 4226497 % M.ulongMod + 1) % M.ulongMod)) (l, s0)).2
      = (nextSeed M)^[n] s0 ∧
    ((List.range n).foldl
        (fun (p : List Nat × Nat) ix =>
          (p.1.set ix p.2, (p.2 * 4226497 % M.ulongMod + 1) % M.ulongMod)) (l, s0)).1.length
      = l.length ∧
    ∀ i, ((List.range n).foldl
        (fun (p : List Nat × Nat) ix =>
          (p.1.set ix p.2, (p.2 * 4226497 % M.ulongMod + 1) % M.ulongMod)) (l, s0)).1.getD i 0
      = if i < n ∧ i < l.length then (nextSeed M)^[i] s0 else l.getD i 0 := by
  induction n with
  | zero => simp
  | succ n ih =>
    obtain ⟨i1, i2, i3⟩ := ih
    rw [foldl_range_succ]
    refine ⟨?_, ?_, fun i => ?_⟩
    · show (_ * 4226497 % M.ulongMod + 1) % M.ulongMod = _
      rw [i1, Function.iterate_succ_apply']
      rfl
    · show (List.set _ n _).length = _
      rw [List.length_set, i2]
    · show (List.set _ n _).getD i 0 = _
      rw [getD_set, i2, i1, i3]
      by_cases h1 : i = n
      · subst h1
        by_cases h2 : i < l.length
        · simp [h2]
        · simp [h2]
      · by_cases h2 : i < n
        · have : i < n + 1 := by omega
          simp [h1, h2, this]
        · have : ¬ i < n + 1 := by omega
          simp [h1, h2, this]

theorem seedFill_indep (M : DataModel) (l1 l2 : List Nat) (s0 : Nat)
    (h1 : l1.length = 17) (h2 : l2.length = 17) :
    (List.range 17).foldl
        (fun (p : List Nat × Nat) ix =>
          (p.1.set ix p.2, (p.2 * 4226497 % M.ulongMod + 1) % M.ulongMod)) (l1, s0)
      = (List.range 17).foldl
        (fun (p : List Nat × Nat) ix =>
          (p.1.set ix p.2, (p.2 * 4226497 % M.ulongMod + 1) % M.ulongMod)) (l2, s0) := by
  obtain ⟨a1, a2, a3⟩ := seedFill_fold M l1 s0 17
  obtain ⟨b1, b2, b3⟩ := seedFill_fold M l2 s0 17
  apply Prod.ext
  · apply list_ext_getD _ _ 0 (by rw [a2, b2, h1, h2])
    intro i hi
    rw [a2, h1] at hi
    rw [a3, b3, h1, h2, if_pos ⟨hi, hi⟩, if_pos ⟨hi, hi⟩]
  · rw [a1, b1]

theorem Randomize32_indep (M : DataModel) (g1 g2 : RandState) (seed : Nat)
    (h1 : g1.RandNums.length = 17) (h2 : g2.RandNums.length = 17) :
    Randomize32 M g1 seed = Randomize32 M g2 seed := by
  unfold Randomize32
  rw [seedFill_indep M g1.RandNums g2.RandNums _ h1 h2]

theorem Randomize32_square (M : DataModel) (g : RandState) (s1 s2 : Nat)
    (h : s1 * s1 % M.ulongMod = s2 * s2 % M.ulongMod) :
    Randomize32 M g s1 = Randomize32 M g s2 := by
  unfold Randomize32
  rw [h]

theorem Randomize32_shape (M : DataModel) (g : RandState) (seed : Nat)
    (h : g.RandNums.length = 17) :
    (Randomize32 M g seed).RandNums.length = 17 ∧
    (Randomize32 M g seed).RandIx1 = 16 ∧ (Randomize32 M g seed).RandIx2 = 4 ∧
    (Randomize32 M g seed).RandNums.getD 0 0 = seed * seed % M.ulongMod := by
  obtain ⟨_, a2, a3⟩ := seedFill_fold M g.RandNums (seed * seed % M.ulongMod) 17
  unfold Randomize32
  refine ⟨?_, rfl, rfl, ?_⟩
  · simp only [List.length_set]
    rw [a2, h]
  · simp only []
    rw [getD_set_ne _ _ _ _ _ (by decide), getD_set_ne _ _ _ _ _ (by decide),
      getD_set_ne _ _ _ _ _ (by decide), a3, h]
    rfl

/-- C32: for every seed and any two prior generator states (the array RandNums
has 17 elements), Randomize32(seed) leaves the same generator state, so the
values returned by the next n calls of Rand32 are the same in both runs, for
every n. -/
theorem C32_generator_deterministic (M : DataModel) (seed : Nat) (g1 g2 : RandState)
    (h1 : g1.RandNums.length = 17) (h2 : g2.RandNums.length = 17) :
    Randomize32 M g1 seed = Randomize32 M g2 seed ∧
    ∀ n, drawList M n (Randomize32 M g1 seed) = drawList M n (Randomize32 M g2 seed) := by
  have h := Randomize32_indep M g1 g2 seed h1 h2
  exact ⟨h, fun n => by rw [h]⟩

/-- Witness of C32: the start state and a state of seventeen sevens, seed 5,
three draws. -/
theorem C32_generator_deterministic_witness :
    drawList DataModel.ILP32 3 (Randomize32 DataModel.ILP32 startRand 5)
      = drawList DataModel.ILP32 3
          (Randomize32 DataModel.ILP32
            { RandNums := List.replicate 17 7, RandIx1 := 3, RandIx2 := 9 } 5) :=
  (C32_generator_deterministic DataModel.ILP32 5 startRand
    { RandNums := List.replicate 17 7, RandIx1 := 3, RandIx2 := 9 } rfl rfl).2 3

/-! ## The generator: the additive recurrence -/

theorem afterDraws_succ (M : DataModel) (t : Nat) (g : RandState) :
    afterDraws M (t + 1) g = (Rand32 M (afterDraws M t g)).2 := by
  induction t generalizing g with
  | zero => rfl
  | succ t ih =>
    show afterDraws M (t + 1) (Rand32 M g).2 = _
    rw [ih]
    rfl

theorem drawList_length (M : DataModel) (n : Nat) (g : RandState) :
    (drawList M n g).length = n := by
  induction n generalizing g with
  | zero => rfl
  | succ n ih =>
    show (_ :: drawList M n _).length = n + 1
    rw [List.length_cons, ih]

theorem drawList_getD (M : DataModel) (n t : Nat) (g : RandState) (h : t < n) :
    (drawList M n g).getD t 0 = (Rand32 M (afterDraws M t g)).1 := by
  induction n generalizing g t with
  | zero => omega
  | succ n ih =>
    cases t with
    | zero => rfl
    | succ t =>
      show (_ :: drawList M n _).getD (t + 1) 0 = _
      rw [List.getD_cons_succ, ih t _ (by omega)]
      rfl

theorem Rand32_lt (M : DataModel) (g : RandState) : (Rand32 M g).1 < M.ulongMod := by
  unfold Rand32
  exact Nat.mod_lt _ (Nat.pos_of_ne_zero (pow_ne_zero _ (by decide)))

theorem gen_inv (M : DataModel) (g0 : RandState) (h17 : g0.RandNums.length = 17)
    (h1 : g0.RandIx1 = 16) (h2 : g0.RandIx2 = 4) :
    ∀ t,
      (afterDraws M t g0).RandNums.length = 17 ∧
      (afterDraws M t g0).RandIx1 = ((16 - t % 17 : Nat) : Int) ∧
      (afterDraws M t g0).RandIx2 = (((21 - t % 17) % 17 : Nat) : Int) ∧
      (∀ s, s < t → t ≤ s + 17 →
        (afterDraws M t g0).RandNums.getD (16 - s % 17) 0
          = (Rand32 M (afterDraws M s g0)).1) ∧
      (∀ p, p + t < 17 →
        (afterDraws M t g0).RandNums.getD p 0 = g0.RandNums.getD p 0) := by
  intro t
  induction t with
  | zero =>
    refine ⟨h17, ?_, ?_, fun s hs => by omega, fun p _ => rfl⟩
    · rw [show afterDraws M 0 g0 = g0 from rfl, h1]
      rfl
    · rw [show afterDraws M 0 g0 = g0 from rfl, h2]
      rfl
  | succ t ih =>
    obtain ⟨i1, i2, i3, i4, i5⟩ := ih
    rw [afterDraws_succ]
    have hix : (afterDraws M t g0).RandIx1.toNat = 16 - t % 17 := by
      rw [i2]
      exact Int.toNat_ofNat _
    have hnums : (Rand32 M (afterDraws M t g0)).2.RandNums
        = (afterDraws M t g0).RandNums.set (16 - t % 17) (Rand32 M (afterDraws M t g0)).1 := by
      unfold Rand32
      simp only [hix]
    have hr1 : (Rand32 M (afterDraws M t g0)).2.RandIx1
        = if (afterDraws M t g0).RandIx1 - 1 < 0 then 16
          else (afterDraws M t g0).RandIx1 - 1 := rfl
    have hr2 : (Rand32 M (afterDraws M t g0)).2.RandIx2
        = if (afterDraws M t g0).RandIx2 - 1 < 0 then 16
          else (afterDraws M t g0).RandIx2 - 1 := rfl
    refine ⟨?_, ?_, ?_, fun s hs hle => ?_, fun p hp => ?_⟩
    · rw [hnums, List.length_set, i1]
    · rw [hr1, i2]
      split_ifs <;> omega
    · rw [hr2, i3]
      split_ifs <;> omega
    · rw [hnums]
      by_cases e : s = t
      · subst e
        rw [getD_set_same, i1, if_pos (by omega)]
      · rw [getD_set_ne _ _ _ _ _ (by omega)]
        exact i4 s (by omega) (by omega)
    · rw [hnums, getD_set_ne _ _ _ _ _ (by omega)]
      exact i5 p (by omega)

/-- The draw with index t (counted from 0) after Randomize32-like states: the
sum of the draws with the indices t - 17 and t - 5, reduced modulo the range of
unsigned long. -/
theorem draw_recurrence (M : DataModel) (g0 : RandState) (h17 : g0.RandNums.length = 17)
    (h1 : g0.RandIx1 = 16) (h2 : g0.RandIx2 = 4) (t : Nat) (ht : 17 ≤ t) :
    (Rand32 M (afterDraws M t g0)).1
      = ((Rand32 M (afterDraws M (t - 17) g0)).1 + (Rand32 M (afterDraws M (t - 5) g0)).1)
        % M.ulongMod := by
  obtain ⟨_, i2, i3, i4, _⟩ := gen_inv M g0 h17 h1 h2 t
  have e1 : (afterDraws M t g0).RandIx1.toNat = 16 - (t - 17) % 17 := by
    rw [i2, Int.toNat_ofNat]
    omega
  have e2 : (afterDraws M t g0).RandIx2.toNat = 16 - (t - 5) % 17 := by
    rw [i3, Int.toNat_ofNat]
    omega
  have v1 := i4 (t - 17) (by omega) (by omega)
  have v2 := i4 (t - 5) (by omega) (by omega)
  show ((afterDraws M t g0).RandNums.getD (afterDraws M t g0).RandIx1.toNat 0
    + (afterDraws M t g0).RandNums.getD (afterDraws M t g0).RandIx2.toNat 0) % M.ulongMod = _
  rw [e1, e2, v1, v2]

/-- The draw with index 16 is the sum of the first word of the state and of
the draw with index 11. -/
theorem draw_sixteen (M : DataModel) (g0 : RandState) (h17 : g0.RandNums.length = 17)
    (h1 : g0.RandIx1 = 16) (h2 : g0.RandIx2 = 4) :
    (Rand32 M (afterDraws M 16 g0)).1
      = (g0.RandNums.getD 0 0 + (Rand32 M (afterDraws M 11 g0)).1) % M.ulongMod := by
  obtain ⟨_, i2, i3, i4, i5⟩ := gen_inv M g0 h17 h1 h2 16
  have e1 : (afterDraws M 16 g0).RandIx1.toNat = 0 := by
    rw [i2]
    rfl
  have e2 : (afterDraws M 16 g0).RandIx2.toNat = 16 - 11 % 17 := by
    rw [i3]
    rfl
  have v1 := i5 0 (by omega)
  have v2 := i4 11 (by omega) (by omega)
  show ((afterDraws M 16 g0).RandNums.getD (afterDraws M 16 g0).RandIx1.toNat 0
    + (afterDraws M 16 g0).RandNums.getD (afterDraws M 16 g0).RandIx2.toNat 0) % M.ulongMod = _
  rw [e1, e2, v1, v2]

/-! ## The generator: seeds and the range of the draws -/

theorem nthDraw_eq (M : DataModel) (g : RandState) (n : Nat) (hn : 1 ≤ n) :
    nthDraw M g n = (Rand32 M (afterDraws M (n - 1) g)).1 := by
  unfold nthDraw
  exact drawList_getD M n (n - 1) g (by omega)

/-- C33 fails as stated: the seeds 1 and 2^32 - 1 are different machine words
under ILP32, and the seeds 1 and 2^64 - 1 under LP64, but Randomize32 squares
the seed first and both squares are 1 modulo the range of unsigned long, so
the generator state after Randomize32 is the same and so is every draw. -/
theorem C33_counterexample :
    (1 : Nat) ≠ 4294967295 ∧ 4294967295 < DataModel.ILP32.ulongMod ∧
    Randomize32 DataModel.ILP32 startRand 1
      = Randomize32 DataModel.ILP32 startRand 4294967295 ∧
    drawList DataModel.ILP32 20 (Randomize32 DataModel.ILP32 startRand 1)
      = drawList DataModel.ILP32 20 (Randomize32 DataModel.ILP32 startRand 4294967295) ∧
    (1 : Nat) ≠ 18446744073709551615 ∧ 18446744073709551615 < DataModel.LP64.ulongMod ∧
    Randomize32 DataModel.LP64 startRand 1
      = Randomize32 DataModel.LP64 startRand 18446744073709551615 ∧
    drawList DataModel.LP64 20 (Randomize32 DataModel.LP64 startRand 1)
      = drawList DataModel.LP64 20 (Randomize32 DataModel.LP64 startRand 18446744073709551615) := by
  have e1 := Randomize32_square DataModel.ILP32 startRand 1 4294967295 (by decide)
  have e2 := Randomize32_square DataModel.LP64 startRand 1 18446744073709551615 (by decide)
  exact ⟨by decide, by decide, e1, by rw [e1], by decide, by decide, e2, by rw [e2]⟩

/-- C33 (amended): two seeds whose squares differ modulo the range of unsigned
long give draw sequences that differ at one of the first 17 draws; two seeds
whose squares agree modulo that range give the same sequence of draws. -/
theorem C33_seeds_and_sequences (M : DataModel) (g : RandState) (s1 s2 : Nat)
    (hg : g.RandNums.length = 17) :
    (s1 * s1 % M.ulongMod ≠ s2 * s2 % M.ulongMod →
      ∃ k, k < 17 ∧
        (drawList M 17 (Randomize32 M g s1)).getD k 0
          ≠ (drawList M 17 (Randomize32 M g s2)).getD k 0) ∧
    (s1 * s1 % M.ulongMod = s2 * s2 % M.ulongMod →
      ∀ n, drawList M n (Randomize32 M g s1) = drawList M n (Randomize32 M g s2)) := by
  constructor
  · intro hne
    by_contra hc
    push_neg at hc
    obtain ⟨a1, a2, a3, a4⟩ := Randomize32_shape M g s1 hg
    obtain ⟨b1, b2, b3, b4⟩ := Randomize32_shape M g s2 hg
    have h11 := hc 11 (by decide)
    have h16 := hc 16 (by decide)
    rw [drawList_getD M 17 11 _ (by decide), drawList_getD M 17 11 _ (by decide)] at h11
    rw [drawList_getD M 17 16 _ (by decide), drawList_getD M 17 16 _ (by decide),
      draw_sixteen M _ a1 a2 a3, draw_sixteen M _ b1 b2 b3, a4, b4, h11] at h16
    have hm : s1 * s1 % M.ulongMod % M.ulongMod = s2 * s2 % M.ulongMod % M.ulongMod :=
      Nat.ModEq.add_right_cancel' _ h16
    rw [Nat.mod_mod, Nat.mod_mod] at hm
    exact hne hm
  · intro h n
    rw [Randomize32_square M g s1 s2 h]

/-- Witness of C33 (amended): the seeds 1 and 2 under ILP32. -/
theorem C33_seeds_and_sequences_witness :
    ∃ k, k < 17 ∧
      (drawList DataModel.ILP32 17 (Randomize32 DataModel.ILP32 startRand 1)).getD k 0
        ≠ (drawList DataModel.ILP32 17 (Randomize32 DataModel.ILP32 startRand 2)).getD k 0 :=
  (C33_seeds_and_sequences DataModel.ILP32 startRand 1 2 rfl).1 (by decide)

/-- The recurrence of the generator with the modulus of the type unsigned
long: for every seed, writing x_n for the value returned by the n-th call of
Rand32 after Randomize32(seed), every n ≥ 18 satisfies
x_n = (x_(n-5) + x_(n-17)) mod 2^w and every returned value is below 2^w, where
2^w is the range of unsigned long: 2^32 under ILP32 and 2^64 under LP64. -/
theorem Rand32_recurrence (M : DataModel) (g : RandState) (seed : Nat)
    (hg : g.RandNums.length = 17) :
    (∀ n, 18 ≤ n →
      nthDraw M (Randomize32 M g seed) n
        = (nthDraw M (Randomize32 M g seed) (n - 5)
            + nthDraw M (Randomize32 M g seed) (n - 17)) % M.ulongMod) ∧
    (∀ n, 1 ≤ n → nthDraw M (Randomize32 M g seed) n < M.ulongMod) ∧
    DataModel.ILP32.ulongMod = 2 ^ 32 ∧ DataModel.LP64.ulongMod = 2 ^ 64 := by
  obtain ⟨a1, a2, a3, _⟩ := Randomize32_shape M g seed hg
  refine ⟨fun n hn => ?_, fun n hn => ?_, by decide, by decide⟩
  · rw [nthDraw_eq M _ n (by omega), nthDraw_eq M _ (n - 5) (by omega),
      nthDraw_eq M _ (n - 17) (by omega),
      draw_recurrence M _ a1 a2 a3 (n - 1) (by omega), Nat.add_comm]
    have e1 : n - 1 - 5 = n - 5 - 1 := by omega
    have e2 : n - 1 - 17 = n - 17 - 1 := by omega
    rw [e1, e2]
  · rw [nthDraw_eq M _ n hn]
    exact Rand32_lt M _

/-- C34 does not hold on the code under LP64.  Where unsigned long has 32 bits
(ILP32), for every seed and every n ≥ 18 the n-th value returned by Rand32
after Randomize32(seed) is (x_(n-5) + x_(n-17)) mod 2^32 and is below 2^32, as
the claim and the header of rand.cpp say.  Under LP64 the words of the
generator have 64 bits: after Randomize32(0) the first value returned is
17658776960988423316, which is not below 2^32. -/
theorem C34_recurrence_modulus (g : RandState) (seed n : Nat)
    (hg : g.RandNums.length = 17) (hn : 18 ≤ n) :
    (nthDraw .ILP32 (Randomize32 .ILP32 g seed) n
        = (nthDraw .ILP32 (Randomize32 .ILP32 g seed) (n - 5)
            + nthDraw .ILP32 (Randomize32 .ILP32 g seed) (n - 17)) % 2 ^ 32 ∧
      nthDraw .ILP32 (Randomize32 .ILP32 g seed) n < 2 ^ 32) ∧
    nthDraw .LP64 (Randomize32 .LP64 startRand 0) 1 = 17658776960988423316 ∧
    ¬ nthDraw .LP64 (Randomize32 .LP64 startRand 0) 1 < 2 ^ 32 := by
  obtain ⟨r1, r2, r3, _⟩ := Rand32_recurrence .ILP32 g seed hg
  have h : nthDraw DataModel.LP64 (Randomize32 DataModel.LP64 startRand 0) 1
      = 17658776960988423316 := by decide
  refine ⟨⟨?_, ?_⟩, h, ?_⟩
  · rw [← r3]
    exact r1 n hn
  · rw [← r3]
    exact r2 n (by omega)
  · rw [h]
    decide

/-- Witness of C34: the 18th draw after Randomize32(5). -/
theorem C34_recurrence_modulus_witness :
    (nthDraw .ILP32 (Randomize32 .ILP32 startRand 5) 18
        = (nthDraw .ILP32 (Randomize32 .ILP32 startRand 5) (18 - 5)
            + nthDraw .ILP32 (Randomize32 .ILP32 startRand 5) (18 - 17)) % 2 ^ 32 ∧
      nthDraw .ILP32 (Randomize32 .ILP32 startRand 5) 18 < 2 ^ 32) ∧
    ¬ nthDraw .LP64 (Randomize32 .LP64 startRand 0) 1 < 2 ^ 32 :=
  ⟨(C34_recurrence_modulus startRand 5 18 rfl (by decide)).1,
    (C34_recurrence_modulus startRand 5 18 rfl (by decide)).2.2⟩

/-! ## The training driver does not shuffle -/

theorem skipLoop_run (touched : List Bool) :
    ∀ (fuel l j : Nat), l ≤ j → (∀ i, l ≤ i → i < j → touched.getD i false = true) →
      touched.getD j false = false → j - l ≤ fuel → skipLoop touched fuel l = j := by
  intro fuel
  induction fuel with
  | zero =>
    intro l j hlj _ _ hf
    have : l = j := by omega
    rw [this]
    rfl
  | succ fuel ih =>
    intro l j hlj hall hj hf
    unfold skipLoop
    by_cases e : l = j
    · rw [e, if_neg (by rw [hj]; decide)]
    · rw [if_pos (hall l (le_refl _) (by omega))]
      exact ih (l + 1) j (by omega) (fun i hi1 hi2 => hall i (by omega) hi2) hj (by omega)

theorem pickLoop_first (touched : List Bool) (j : Nat) (hj : touched.getD j false = false)
    (hjl : j ≤ touched.length) :
    ∀ (k l : Nat), l ≤ j → (∀ i, l ≤ i → i < j → touched.getD i false = true) →
      pickLoop touched k l = j := by
  intro k
  induction k with
  | zero =>
    intro l hlj hall
    exact skipLoop_run touched _ l j hlj hall hj (by omega)
  | succ k ih =>
    intro l hlj hall
    unfold pickLoop
    have : skipTouched touched l = j := skipLoop_run touched _ l j hlj hall hj (by omega)
    rw [this]
    exact ih j (le_refl _) (fun i hi1 hi2 => by omega)

theorem select_fold (M : DataModel) (n : Nat) (g : RandState) (j : Nat) (hj : j ≤ n) :
    ((List.range j).foldl (selectStep M n)
        { touched := List.replicate n false, rnd := g, order := [] }).touched.length = n ∧
    (∀ i, ((List.range j).foldl (selectStep M n)
        { touched := List.replicate n false, rnd := g, order := [] }).touched.getD i false
      = decide (i < j)) ∧
    ((List.range j).foldl (selectStep M n)
        { touched := List.replicate n false, rnd := g, order := [] }).order = List.range j ∧
    ((List.range j).foldl (selectStep M n)
        { touched := List.replicate n false, rnd := g, order := [] }).rnd = afterDraws M j g := by
  induction j with
  | zero =>
    refine ⟨by simp, fun i => ?_, rfl, rfl⟩
    show (List.replicate n false).getD i false = decide (i < 0)
    rw [List.getD_eq_getElem?_getD, List.getElem?_replicate]
    split_ifs <;> simp
  | succ j ih =>
    obtain ⟨i1, i2, i3, i4⟩ := ih (by omega)
    rw [foldl_range_succ]
    generalize (List.range j).foldl (selectStep M n)
      { touched := List.replicate n false, rnd := g, order := [] } = st at i1 i2 i3 i4 ⊢
    have hp : ∀ k, pick st.touched k = j := by
      intro k
      apply pickLoop_first st.touched j (by rw [i2]; simp) (by omega) k 0 (Nat.zero_le _)
      intro i _ hi
      rw [i2]
      simpa using hi
    unfold selectStep
    simp only [hp]
    refine ⟨by rw [List.length_set, i1], fun i => ?_, ?_, ?_⟩
    · rw [getD_set, i1, i2]
      by_cases e : i = j
      · subst e
        have : i < n := by omega
        simp [this]
      · by_cases e2 : i < j
        · have : i < j + 1 := by omega
          simp [e, e2, this]
        · have : ¬ i < j + 1 := by omega
          simp [e, e2, this]
    · rw [i3, List.range_succ]
    · rw [i4, afterDraws_succ]

/-- C39 does not hold: in one training iteration over data_cnt examples,
whatever the generator state and the draws, the examples are presented in the
order 0, 1, ..., data_cnt - 1.  Each example is presented exactly once, but the
pick for every value k of Rand32() % remaining is the first example not yet
presented (the loop over k never moves l past an example that is not touched),
so the order does not depend on the generator. -/
theorem C39_selection_order (M : DataModel) (data_cnt : Nat) (g : RandState) :
    (selectIteration M data_cnt g).order = List.range data_cnt ∧
    (∀ g2, (selectIteration M data_cnt g2).order = (selectIteration M data_cnt g).order) ∧
    (∀ k, pick [false, false] k = 0) ∧
    (selectIteration M data_cnt g).rnd = afterDraws M data_cnt g := by
  have h := fun g0 => select_fold M data_cnt g0 data_cnt (le_refl _)
  refine ⟨(h g).2.2.1, fun g2 => ?_, fun k => ?_, (h g).2.2.2⟩
  · unfold selectIteration
    rw [(h g2).2.2.1, (h g).2.2.1]
  · exact pickLoop_first [false, false] 0 rfl (by decide) k 0 (le_refl _)
      (fun i h1 h2 => by omega)

/-! ## BackwardPass: the propagation of the errors -/

section PropagateLemmas

variable {R : Type} [LinearOrderedField R]

theorem propagate_fold (u : NWUnitV R) (ix : Nat) (E : List R) (n : Nat) :
    ((List.range n).foldl
        (fun err jx => err.set (u.InputUnits.getD jx 0)
          (err.getD (u.InputUnits.getD jx 0) 0 + err.getD ix 0 * u.InputWgts.getD jx 0))
        E).length = E.length ∧
    (∀ x, (∀ jx, jx < n → u.InputUnits.getD jx 0 ≠ x) →
      ((List.range n).foldl
        (fun err jx => err.set (u.InputUnits.getD jx 0)
          (err.getD (u.InputUnits.getD jx 0) 0 + err.getD ix 0 * u.InputWgts.getD jx 0))
        E).getD x 0 = E.getD x 0) ∧
    ((∀ jx, jx < n → u.InputUnits.getD jx 0 ≠ ix) →
      ∀ x, x < E.length →
        ((List.range n).foldl
          (fun err jx => err.set (u.InputUnits.getD jx 0)
            (err.getD (u.InputUnits.getD jx 0) 0 + err.getD ix 0 * u.InputWgts.getD jx 0))
          E).getD x 0
        = E.getD x 0 + ((List.range n).map
            (fun jx => if u.InputUnits.getD jx 0 = x
              then E.getD ix 0 * u.InputWgts.getD jx 0 else 0)).sum) := by
  induction n with
  | zero =>
    refine ⟨rfl, fun _ _ => rfl, fun _ x _ => ?_⟩
    simp
  | succ n ih =>
    obtain ⟨i1, i2, i3⟩ := ih
    rw [foldl_range_succ]
    refine ⟨by rw [List.length_set, i1], fun x hx => ?_, fun hself x hxl => ?_⟩
    · rw [getD_set_ne _ _ _ _ _ (fun e => hx n (Nat.lt_succ_self _) e.symm)]
      exact i2 x (fun jx hjx => hx jx (by omega))
    · have hix := i2 ix (fun jx hjx => hself jx (by omega))
      have ihx := i3 (fun jx hjx => hself jx (by omega)) x hxl
      rw [List.range_succ, List.map_append, List.sum_append, List.map_singleton,
        List.sum_singleton, ← add_assoc, ← ihx]
      by_cases e : u.InputUnits.getD n 0 = x
      · rw [if_pos e, e, getD_set_same, i1, if_pos hxl, hix]
      · rw [if_neg e, add_zero, getD_set_ne _ _ _ _ _ (fun e2 => e e2.symm)]

/-- The effect of the replay step for the unit d on the array of errors. -/
theorem replayStep_spec (U : List (NWUnitV R)) (E : List R) (d : Nat)
    (hself : ¬ Connection U d d) (hd : d < U.length) :
    (replayStep U E d).length = E.length ∧
    (∀ x, ¬ Connection U x d → (replayStep U E d).getD x 0 = E.getD x 0) ∧
    (∀ x, x < E.length → (replayStep U E d).getD x 0 = E.getD x 0 + contribution U E d x) := by
  obtain ⟨i1, i2, i3⟩ := propagate_fold (U.getD d NWUnitV.zero) d E
    (U.getD d NWUnitV.zero).NumInput
  refine ⟨i1, fun x hx => i2 x (fun jx hjx e => hx ⟨hd, jx, hjx, e⟩), ?_⟩
  exact i3 (fun jx hjx e => hself ⟨hd, jx, hjx, e⟩)

theorem contribution_congr (U : List (NWUnitV R)) (E E' : List R) (d u : Nat)
    (h : E.getD d 0 = E'.getD d 0) : contribution U E d u = contribution U E' d u := by
  unfold contribution
  rw [h]

theorem contribution_zero (U : List (NWUnitV R)) (E : List R) (d u : Nat)
    (h : ¬ Connection U u d) (hd : d < U.length) : contribution U E d u = 0 := by
  unfold contribution
  apply List.sum_eq_zero
  intro x hx
  rw [List.mem_map] at hx
  obtain ⟨jx, hjx, rfl⟩ := hx
  rw [if_neg (fun e => h ⟨hd, jx, List.mem_range.1 hjx, e⟩)]

/-- The errors after the replay steps of the units of S, taken in this order
after those of P, when no unit of the whole list feeds itself or a later
unit. -/
theorem replay_fold_sum (U : List (NWUnitV R)) (E0 : List R) :
    ∀ (S P : List Nat) (E : List R),
      (P ++ S).Pairwise (fun a b => ¬ Connection U a b) →
      (∀ a, a ∈ P ++ S → ¬ Connection U a a ∧ a < U.length) →
      E.length = E0.length →
      (∀ u, u < E0.length →
        E.getD u 0 = E0.getD u 0 + (P.map (fun d => contribution U E d u)).sum) →
      (S.foldl (replayStep U) E).length = E0.length ∧
      ∀ u, u < E0.length →
        (S.foldl (replayStep U) E).getD u 0
          = E0.getD u 0
            + ((P ++ S).map (fun d => contribution U (S.foldl (replayStep U) E) d u)).sum := by
  intro S
  induction S with
  | nil =>
    intro P E _ _ hl h
    refine ⟨hl, fun u hu => ?_⟩
    rw [List.append_nil]
    exact h u hu
  | cons d S ih =>
    intro P E hpw hall hl h
    rw [List.foldl_cons]
    have hpw' : (P ++ [d] ++ S).Pairwise (fun a b => ¬ Connection U a b) := by
      rw [List.append_assoc]
      exact hpw
    have hall' : ∀ a, a ∈ P ++ [d] ++ S → ¬ Connection U a a ∧ a < U.length := by
      rw [List.append_assoc]
      exact hall
    have hd := hall d (List.mem_append_right _ (List.mem_cons_self _ _))
    obtain ⟨s1, s2, s3⟩ := replayStep_spec U E d hd.1 hd.2
    have hPd : ∀ a, a ∈ P → ¬ Connection U a d := by
      intro a ha
      rw [List.pairwise_append] at hpw
      exact hpw.2.2 a ha d (List.mem_cons_self _ _)
    have hkeep : ∀ a, a ∈ P ++ [d] → (replayStep U E d).getD a 0 = E.getD a 0 := by
      intro a ha
      rcases List.mem_append.1 ha with h1 | h1
      · exact s2 a (hPd a h1)
      · rw [List.mem_singleton.1 h1]
        exact s2 d hd.1
    have := ih (P ++ [d]) (replayStep U E d) hpw' hall' (s1.trans hl) (fun u hu => by
      rw [s3 u (by rw [hl]; exact hu), h u hu, List.map_append, List.sum_append,
        List.map_singleton, List.sum_singleton, add_assoc]
      congr 2
      · apply congrArg
        apply List.map_congr_left
        intro a ha
        exact contribution_congr U _ _ a u (hkeep a (List.mem_append_left _ ha)).symm
      · exact contribution_congr U _ _ d u
          (hkeep d (List.mem_append_right _ (List.mem_singleton_self _))).symm)
    rw [List.append_assoc] at this
    exact this

end PropagateLemmas

section ErrorPropagation

variable {R : Type} [LinearOrderedField R]

theorem resetErrors_fold (U : List (NWUnitV R)) (E : List R) (n : Nat) :
    ((List.range n).foldl (resetError U) E).length = E.length ∧
    ∀ u, ((List.range n).foldl (resetError U) E).getD u 0
      = if u < n ∧ (U.getD u NWUnitV.zero).UnitType ≠ UNIT_OUTPUT then 0 else E.getD u 0 := by
  induction n with
  | zero => simp
  | succ n ih =>
    obtain ⟨i1, i2⟩ := ih
    rw [foldl_range_succ]
    generalize (List.range n).foldl (resetError U) E = F at i1 i2 ⊢
    unfold resetError
    by_cases hty : (U.getD n NWUnitV.zero).UnitType ≠ UNIT_OUTPUT
    · rw [if_pos hty]
      refine ⟨by rw [List.length_set, i1], fun u => ?_⟩
      rw [getD_set, i1, i2]
      by_cases e : u = n
      · subst e
        by_cases hl : u < E.length
        · rw [if_pos ⟨rfl, hl⟩, if_pos ⟨by omega, hty⟩]
        · rw [if_neg (fun h => hl h.2), if_neg (fun h => by omega), if_pos ⟨by omega, hty⟩,
            getD_of_length_le _ _ _ (by omega)]
      · rw [if_neg (fun h => e h.1)]
        by_cases h2 : u < n ∧ (U.getD u NWUnitV.zero).UnitType ≠ UNIT_OUTPUT
        · rw [if_pos h2, if_pos ⟨by omega, h2.2⟩]
        · rw [if_neg h2, if_neg (fun h => h2 ⟨by omega, h.2⟩)]
    · rw [if_neg hty]
      refine ⟨i1, fun u => ?_⟩
      rw [i2]
      by_cases h2 : u < n ∧ (U.getD u NWUnitV.zero).UnitType ≠ UNIT_OUTPUT
      · rw [if_pos h2, if_pos ⟨by omega, h2.2⟩]
      · rw [if_neg h2, if_neg (fun h => h2 ⟨by
            have : u ≠ n := fun e => hty (e ▸ h.2)
            omega, h.2⟩)]

theorem replay_joint_fold (U : List (NWUnitV R)) (bs : List Nat) (E0 : List R) (L : List Nat)
    (st : Nat × List R) (tr : Nat × List Nat)
    (h1 : st.1 = tr.1) (h2 : st.2 = tr.2.foldl (replayStep U) E0) :
    (L.foldl (replayUnit U bs) st).1 = (L.foldl (replayFind bs) tr).1 ∧
    (L.foldl (replayUnit U bs) st).2
      = (L.foldl (replayFind bs) tr).2.foldl (replayStep U) E0 := by
  induction L generalizing st tr with
  | nil => exact ⟨h1, h2⟩
  | cons x L ih =>
    rw [List.foldl_cons, List.foldl_cons]
    apply ih
    · unfold replayUnit replayFind
      rw [h1]
      split_ifs
      · rfl
      · exact h1
    · unfold replayUnit replayFind
      rw [h1]
      split_ifs
      · show propagate _ x st.2 = (tr.2 ++ [x]).foldl (replayStep U) E0
        rw [List.foldl_append, ← h2]
        rfl
      · exact h2

theorem replayLoop_found (U : List (NWUnitV R)) (bs : List Nat) (E0 : List R) :
    ∀ (fuel : Nat) (st : Nat × List R) (tr : Nat × List Nat) (err : List R)
      (found : List Nat),
      st.1 = tr.1 → st.2 = tr.2.foldl (replayStep U) E0 →
      replayLoop U bs fuel st = some err →
      replayFindLoop bs U.length fuel tr = some found →
      err = found.foldl (replayStep U) E0 := by
  intro fuel
  induction fuel with
  | zero =>
    intro st tr err found _ _ h
    unfold replayLoop at h
    exact absurd h (by simp)
  | succ fuel ih =>
    intro st tr err found h1 h2 h hf
    obtain ⟨j1, j2⟩ := replay_joint_fold U bs E0 (List.range U.length).reverse st tr h1 h2
    unfold replayLoop at h
    unfold replayFindLoop at hf
    by_cases e : (replaySweep U bs st).1 = U.length
    · rw [if_pos e] at h
      rw [if_pos (by
        show ((List.range U.length).reverse.foldl (replayFind bs) tr).1 = U.length
        rw [← j1]; exact e)] at hf
      rw [← Option.some.inj h, ← Option.some.inj hf]
      exact j2
    · rw [if_neg e] at h
      rw [if_neg (by
        show ¬ ((List.range U.length).reverse.foldl (replayFind bs) tr).1 = U.length
        rw [← j1]; exact e)] at hf
      exact ih _ _ err found j1 j2 h hf

theorem Connection_map_clear (U : List (NWUnitV R)) (s d : Nat) :
    Connection (U.map (fun u => { u with Flag1 := false })) s d ↔ Connection U s d := by
  unfold Connection
  rw [getD_map_clear, List.length_map]

/-- The ranks after a successful ForwardPass (helper form of the statement on
ranks). -/
theorem ForwardPass_ranks (expf : R → R) (net net' : NetworkV R) (b0 : List Nat)
    (hb : net.BackSeq = some b0) (hlen : b0.length = net.NumUnits)
    (h : ForwardPass expf net = some (NW_SUCCESS, net')) :
    ∃ b, net'.BackSeq = some b ∧ b.Perm (List.range net.NumUnits) ∧
      ∀ s d, Connection net.UnitList s d → (net.unit d).UnitType ≠ UNIT_INPUT →
        b.getD d 0 < b.getD s 0 := by
  by_cases hn : net.NumUnits = 0
  · have hnet : net' = net := by
      unfold ForwardPass at h
      rw [if_pos hn] at h
      simp only [Option.some.injEq, Prod.mk.injEq, true_and] at h
      exact h.symm
    rw [hnet]
    refine ⟨b0, hb, ?_, fun s d hc => ?_⟩
    · rw [hn] at hlen ⊢
      rw [List.length_eq_zero.1 hlen]
      exact List.Perm.refl _
    · have := hc.1
      unfold NetworkV.NumUnits at hn
      omega
  · obtain ⟨st', hinv, hall, htot, hnet⟩ := ForwardPass_success expf net net' hn h
    obtain ⟨k1, k2, _⟩ := hinv.bkeep
    rw [hb] at k1 k2
    cases hbs : st'.BackSeq with
    | none =>
      rw [hbs] at k1
      simp at k1
    | some b =>
      rw [hbs] at k2
      have hbl : b.length = net.UnitList.length := k2.trans hlen
      obtain ⟨r1, r2⟩ := hinv.rank.2.2 b hbs hbl
      have hmem : ∀ ix, ix < net.UnitList.length →
          ix ∈ doneSet net.UnitList.length st'.flags :=
        fun ix hix => (mem_doneSet _ _ _).2 ⟨hix, hall ix hix⟩
      rw [hnet]
      refine ⟨b, hbs, ?_, fun s d hc hty => ?_⟩
      · have hnd : b.Nodup := by
          rw [List.nodup_iff_injective_get]
          intro i j hij
          apply Fin.ext
          have hi : i.val < net.UnitList.length := by rw [← hbl]; exact i.isLt
          have hj : j.val < net.UnitList.length := by rw [← hbl]; exact j.isLt
          apply r2 i.val j.val (hmem _ hi) (hmem _ hj)
          rw [List.getD_eq_getElem _ _ i.isLt, List.getD_eq_getElem _ _ j.isLt]
          exact hij
        have hsub : b ⊆ List.range net.NumUnits := by
          intro x hx
          obtain ⟨i, hi, rfl⟩ := List.getElem_of_mem hx
          have := (r1 i (hmem i (by rw [← hbl]; exact hi))).2
          rw [List.getD_eq_getElem _ _ hi] at this
          exact List.mem_range.2 this
        exact (List.subperm_of_subset hnd hsub).perm_of_length_le
          (by rw [List.length_range, hbl]; exact le_refl _)
      · obtain ⟨hd, j, hj, hjs⟩ := hc
        have := hinv.order b hbs hbl d hd (hall d hd) hty j hj
        rw [hjs] at this
        exact this

/-- The errors after BackwardPass when the ranks are a permutation and every
connection leads from a higher rank to a lower one. -/
theorem BackwardPass_errors (eta c : R) (net : NetworkV R) (bs : List Nat)
    (hbs : net.BackSeq = some bs) (hperm : bs.Perm (List.range net.NumUnits))
    (hord : ∀ s d, Connection net.UnitList s d → bs.getD d 0 < bs.getD s 0)
    (hout : ∀ s d, Connection net.UnitList s d → (net.unit s).UnitType ≠ UNIT_OUTPUT)
    (hE : net.Error.length = net.NumUnits) :
    ∃ net', BackwardPass eta c net = some (NW_SUCCESS, net') ∧
      (∀ u, u < net.NumUnits → (net.unit u).UnitType = UNIT_OUTPUT →
        net'.Error.getD u 0 = net.Error.getD u 0) ∧
      (∀ u, u < net.NumUnits → (net.unit u).UnitType ≠ UNIT_OUTPUT →
        net'.Error.getD u 0 = downstreamSum net.UnitList net'.Error u) := by
  obtain ⟨net', h1, _, _, _, _, _, _, _, _, h10⟩ := BackwardPass_units eta c net bs hbs hperm
  refine ⟨net', h1, ?_⟩
  by_cases hn : net.NumUnits = 0
  · exact ⟨fun u hu => by omega, fun u hu => by omega⟩
  have herr := h10 hn
  obtain ⟨found, g1, g2, g3⟩ := replayFindLoop_spec net.UnitList bs net.NumUnits
    (0, resetErrors net) (0, []) net'.Error rfl rfl (fun ix hix => by simp at hix) herr
  have hfold := replayLoop_found net.UnitList bs (resetErrors net) net.NumUnits
    (0, resetErrors net) (0, []) net'.Error found rfl rfl herr g1
  obtain ⟨e1, e2⟩ := resetErrors_fold net.UnitList net.Error net.NumUnits
  have hpw : found.Pairwise (fun a b => ¬ Connection net.UnitList a b) := by
    have hlt : (found.map (fun ix => bs.getD ix 0)).Pairwise (fun a b => a < b) := by
      rw [g2]
      exact List.pairwise_lt_range _
    rw [List.pairwise_map] at hlt
    exact hlt.imp (fun hab hc => by
      have := hord _ _ hc
      omega)
  have hall : ∀ a, a ∈ ([] : List Nat) ++ found →
      ¬ Connection net.UnitList a a ∧ a < net.UnitList.length := by
    intro a ha
    refine ⟨fun hc => ?_, g3 a (by simpa using ha)⟩
    have := hord _ _ hc
    omega
  obtain ⟨f1, f2⟩ := replay_fold_sum net.UnitList (resetErrors net) found []
    (resetErrors net) (by simpa using hpw) hall rfl (fun u _ => by simp)
  have hperm2 : found.Perm (List.range net.NumUnits) := by
    have hnd : found.Nodup := by
      apply List.Nodup.of_map (fun ix => bs.getD ix 0)
      rw [g2]
      exact List.nodup_range _
    have hlen : found.length = net.NumUnits := by
      have := congrArg List.length g2
      rwa [List.length_map, List.length_range] at this
    exact (List.subperm_of_subset hnd (fun ix hix => List.mem_range.2 (g3 ix hix))).perm_of_length_le
      (by rw [List.length_range, hlen]; exact le_refl _)
  have hEl : (resetErrors net).length = net.NumUnits := e1.trans hE
  have hsum : ∀ u, u < net.NumUnits →
      net'.Error.getD u 0 = (resetErrors net).getD u 0
        + downstreamSum net.UnitList net'.Error u := by
    intro u hu
    rw [hfold, f2 u (by rw [hEl]; exact hu), List.nil_append]
    congr 1
    exact (hperm2.map _).sum_eq
  refine ⟨fun u hu hty => ?_, fun u hu hty => ?_⟩
  · rw [hsum u hu]
    have hz : downstreamSum net.UnitList net'.Error u = 0 := by
      unfold downstreamSum
      apply List.sum_eq_zero
      intro x hx
      rw [List.mem_map] at hx
      obtain ⟨d, hd, rfl⟩ := hx
      exact contribution_zero _ _ _ _ (fun hc => hout u d hc hty) (List.mem_range.1 hd)
    rw [hz, add_zero]
    show ((List.range net.NumUnits).foldl (resetError net.UnitList) net.Error).getD u 0 = _
    rw [e2, if_neg (fun h => h.2 hty)]
  · rw [hsum u hu]
    have hz : (resetErrors net).getD u 0 = 0 := by
      show ((List.range net.NumUnits).foldl (resetError net.UnitList) net.Error).getD u 0 = _
      rw [e2, if_pos ⟨hu, hty⟩]
    rw [hz, zero_add]

end ErrorPropagation

section InputFedRun

variable {R : Type} [LinearOrderedField R]

theorem fwdStart_inputFedNet :
    fwdStart (inputFedNet : NetworkV R)
      = { flags := [true, false, true, false], Sum := [0, 0, 0, 0], ActLevel := [0, 0, 0, 0],
          BackSeq := some [3, 0, 2, 0], num_processed := 0, tot_processed := 2 } :=
  rfl

theorem fwdSweep_inputFedNet (expf : R → R) :
    fwdSweep expf (inputFedNet : NetworkV R).UnitList
      { flags := [true, false, true, false], Sum := [0, 0, 0, 0], ActLevel := [0, 0, 0, 0],
          BackSeq := some [3, 0, 2, 0], num_processed := 0, tot_processed := 2 }
      = { flags := [true, true, true, true],
          Sum := [0, 0 + 0 * 1, 0, 0 + 0 * 1],
          ActLevel := [0, 1 / (1 + expf (-(0 + 0 * 1))), 0, 1 / (1 + expf (-(0 + 0 * 1)))],
          BackSeq := some [3, 1, 2, 0], num_processed := 2, tot_processed := 4 } :=
  rfl

theorem ForwardPass_inputFedNet (expf : R → R) :
    ForwardPass expf (inputFedNet : NetworkV R)
      = some (NW_SUCCESS,
        { (inputFedNet : NetworkV R) with
          Sum := [0, 0 + 0 * 1, 0, 0 + 0 * 1]
          ActLevel := [0, 1 / (1 + expf (-(0 + 0 * 1))), 0, 1 / (1 + expf (-(0 + 0 * 1)))]
          BackSeq := some [3, 1, 2, 0] }) := by
  rw [ForwardPass_one_sweep expf (inputFedNet : NetworkV R) _ (Nat.succ_ne_zero 3)
    ((congrArg _ fwdStart_inputFedNet).trans (fwdSweep_inputFedNet expf)) rfl]
  rfl

end InputFedRun

section ErrorPropagationClaim

variable {R : Type} [LinearOrderedField R]

theorem ForwardPass_unitList (expf : R → R) (net net' : NetworkV R)
    (h : ForwardPass expf net = some (NW_SUCCESS, net')) :
    net'.UnitList = net.UnitList.map (fun u => { u with Flag1 := false }) := by
  by_cases hn : net.NumUnits = 0
  · have hnet : net' = net := by
      unfold ForwardPass at h
      rw [if_pos hn] at h
      simp only [Option.some.injEq, Prod.mk.injEq, true_and] at h
      exact h.symm
    rw [hnet, List.length_eq_zero.1 hn]
    rfl
  · obtain ⟨st', _, _, _, hnet⟩ := ForwardPass_success expf net net' hn h
    rw [hnet]

theorem layeredNet_no_input_dest :
    ∀ s d, Connection (layeredNet : NetworkV R).UnitList s d →
      ((layeredNet : NetworkV R).UnitList.getD d NWUnitV.zero).UnitType ≠ UNIT_INPUT := by
  rintro s d ⟨hd, j, hj, rfl⟩
  have hd4 : d < 4 := hd
  interval_cases d
  · exact absurd hj (Nat.not_lt_zero _)
  · exact absurd hj (Nat.not_lt_zero _)
  · exact Nat.one_ne_zero
  · exact Nat.succ_ne_zero 1

theorem layeredNet_no_output_source :
    ∀ s d, Connection (layeredNet : NetworkV R).UnitList s d →
      ((layeredNet : NetworkV R).UnitList.getD s NWUnitV.zero).UnitType ≠ UNIT_OUTPUT := by
  rintro s d ⟨hd, j, hj, rfl⟩
  have hd4 : d < 4 := hd
  interval_cases d
  · exact absurd hj (Nat.not_lt_zero _)
  · exact absurd hj (Nat.not_lt_zero _)
  · have hj2 : j < 2 := hj
    interval_cases j
    · exact (Nat.succ_ne_zero 1).symm
    · exact (Nat.succ_ne_zero 1).symm
  · have hj1 : j < 1 := hj
    interval_cases j
    exact (Nat.succ_ne_self 1).symm

/-- C18 (amended): let ForwardPass succeed on a network in which no connection
originates at an Output unit and no connection terminates at an Input unit,
and let E be the array Error (of NumUnits entries) after the calls of
ApplyTarget, which change nothing but this array.  Then BackwardPass returns
with NW_SUCCESS, leaves the error of every Output unit unchanged and gives
every non-Output unit u the error that is the sum, over all connections
(u -> d), of the final error of d times the weight of the connection before
this pass updates it. -/
theorem C18_error_propagation (expf : R → R) (eta c : R) (net0 net1 : NetworkV R)
    (E : List R) (b0 : List Nat)
    (hb0 : net0.BackSeq = some b0) (hb0l : b0.length = net0.NumUnits)
    (hfp : ForwardPass expf net0 = some (NW_SUCCESS, net1))
    (hE : E.length = net0.NumUnits)
    (hin : ∀ s d, Connection net0.UnitList s d → (net0.unit d).UnitType ≠ UNIT_INPUT)
    (hout : ∀ s d, Connection net0.UnitList s d → (net0.unit s).UnitType ≠ UNIT_OUTPUT) :
    ∃ net', BackwardPass eta c { net1 with Error := E } = some (NW_SUCCESS, net') ∧
      (∀ u, u < net0.NumUnits → (net0.unit u).UnitType = UNIT_OUTPUT →
        net'.Error.getD u 0 = E.getD u 0) ∧
      (∀ u, u < net0.NumUnits → (net0.unit u).UnitType ≠ UNIT_OUTPUT →
        net'.Error.getD u 0 = downstreamSum net1.UnitList net'.Error u) := by
  obtain ⟨b, hb, hperm, hord⟩ := ForwardPass_ranks expf net0 net1 b0 hb0 hb0l hfp
  have hU := ForwardPass_unitList expf net0 net1 hfp
  have hN : ({ net1 with Error := E } : NetworkV R).NumUnits = net0.NumUnits := by
    show net1.UnitList.length = net0.UnitList.length
    rw [hU, List.length_map]
  have hty : ∀ u, (({ net1 with Error := E } : NetworkV R).unit u).UnitType
      = (net0.unit u).UnitType := by
    intro u
    show (net1.UnitList.getD u NWUnitV.zero).UnitType = _
    rw [hU, getD_map_clear]
    rfl
  have hconn : ∀ s d, Connection ({ net1 with Error := E } : NetworkV R).UnitList s d →
      Connection net0.UnitList s d := by
    intro s d hc
    have hc2 : Connection net1.UnitList s d := hc
    rw [hU] at hc2
    exact (Connection_map_clear _ _ _).1 hc2
  obtain ⟨net', h1, h2, h3⟩ := BackwardPass_errors eta c
    ({ net1 with Error := E } : NetworkV R) b hb (by rw [hN]; exact hperm)
    (fun s d hc => hord s d (hconn s d hc) (hin s d (hconn s d hc)))
    (fun s d hc => by rw [hty]; exact hout s d (hconn s d hc))
    (by rw [hN]; exact hE)
  refine ⟨net', h1, fun u hu ht => ?_, fun u hu ht => ?_⟩
  · exact h2 u (by rw [hN]; exact hu) (by rw [hty]; exact ht)
  · exact h3 u (by rw [hN]; exact hu) (by rw [hty]; exact ht)

theorem replay_inputFedNet (e0 e1 e2 e3 : R) (S A : List R) :
    replayLoop (inputFedNet : NetworkV R).UnitList [3, 1, 2, 0] 4
        (0, resetErrors { (inputFedNet : NetworkV R) with
          Sum := S, ActLevel := A, BackSeq := some [3, 1, 2, 0], Error := [e0, e1, e2, e3] })
      = some [0 + 0 * 1, 0 + (0 + e3 * 1) * 1, 0 + e3 * 1, e3] :=
  rfl

theorem inputFedNet_no_output_source :
    ∀ s d, Connection (inputFedNet : NetworkV R).UnitList s d →
      ((inputFedNet : NetworkV R).UnitList.getD s NWUnitV.zero).UnitType ≠ UNIT_OUTPUT := by
  rintro s d ⟨hd, j, hj, rfl⟩
  have hd4 : d < 4 := hd
  interval_cases d
  · exact absurd hj (Nat.not_lt_zero _)
  · have hj1 : j < 1 := hj
    interval_cases j
    exact (Nat.succ_ne_zero 1).symm
  · have hj1 : j < 1 := hj
    interval_cases j
    exact (Nat.succ_ne_self 1).symm
  · have hj1 : j < 1 := hj
    interval_cases j
    exact (Nat.succ_ne_zero 1).symm

theorem inputFedNet_run (expf : R → R) (t : R) :
    ∃ n1 n2 n3 : NetworkV R,
      ForwardPass expf (inputFedNet : NetworkV R) = some (NW_SUCCESS, n1) ∧
      ApplyTarget n1 3 t = some (NW_SUCCESS, n2) ∧
      BackwardPass 1 0 n2 = some (NW_SUCCESS, n3) ∧
      n2.UnitList = (inputFedNet : NetworkV R).UnitList ∧
      n2.Error.getD 3 0
        = (truncate ({ Name := [111], Min := 0, Max := 1 } : NWIODefV R) t - 0) / (1 - 0) - 0
          - 1 / (1 + expf (-(0 + 0 * 1))) ∧
      n3.Error = [0 + 0 * 1, 0 + (0 + n2.Error.getD 3 0 * 1) * 1, 0 + n2.Error.getD 3 0 * 1,
        n2.Error.getD 3 0] := by
  obtain ⟨n3, h1, _, _, _, _, _, _, _, _, h10⟩ := BackwardPass_units (1 : R) 0
    ({ (inputFedNet : NetworkV R) with
        Sum := [0, 0 + 0 * 1, 0, 0 + 0 * 1]
        ActLevel := [0, 1 / (1 + expf (-(0 + 0 * 1))), 0, 1 / (1 + expf (-(0 + 0 * 1)))]
        BackSeq := some [3, 1, 2, 0]
        Error := [0, 0, 0,
          (truncate ({ Name := [111], Min := 0, Max := 1 } : NWIODefV R) t - 0) / (1 - 0) - 0
            - 1 / (1 + expf (-(0 + 0 * 1)))] } : NetworkV R)
    [3, 1, 2, 0] rfl (show [3, 1, 2, 0].Perm (List.range 4) by decide)
  have h11 := (h10 (Nat.succ_ne_zero 3)).symm.trans (replay_inputFedNet 0 0 0 _ _ _)
  exact ⟨_, _, n3, ForwardPass_inputFedNet expf, rfl, h1, rfl, rfl, Option.some.inj h11⟩

end ErrorPropagationClaim

section InputFedSum

variable {R : Type} [LinearOrderedField R]

theorem downstreamSum_inputFedNet (a b c d : R) :
    downstreamSum (inputFedNet : NetworkV R).UnitList [a, b, c, d] 0 = b := by
  show 0 + ((b * 1 + 0) + ((0 + 0) + ((0 + 0) + 0))) = b
  ring

end InputFedSum

/-- C18 fails as stated: the network inputFedNet is the chain 0 -> 1 -> 2 -> 3
of the Input unit 0, the Internal unit 1, the Input unit 2 (an Input unit with
an incoming connection, as Open reads it from a file without any check) and
the Output unit 3, all weights 1; no connection originates at an Output unit.
ForwardPass succeeds with the ranks 3, 1, 2, 0, ApplyTarget of 1 on unit 3
gives it the error 1/2, and BackwardPass replays the units 3, 1, 2, 0 in this
order: unit 1 passes its error on to unit 0 before it has received the error
of unit 2.  The final errors are 0, 1/2, 1/2, 1/2: unit 0 keeps the error 0,
whereas the sum over its connections is Error[1] * 1 = 1/2. -/
theorem C18_counterexample :
    ∃ n1 n2 n3 : NetworkV ℝ,
      ForwardPass Real.exp (inputFedNet : NetworkV ℝ) = some (NW_SUCCESS, n1) ∧
      ApplyTarget n1 3 1 = some (NW_SUCCESS, n2) ∧
      BackwardPass 1 0 n2 = some (NW_SUCCESS, n3) ∧
      (∀ s d, Connection n2.UnitList s d → (n2.unit s).UnitType ≠ UNIT_OUTPUT) ∧
      (n2.unit 0).UnitType ≠ UNIT_OUTPUT ∧
      n3.Error = [0, 1 / 2, 1 / 2, 1 / 2] ∧
      n3.Error.getD 0 0 = 0 ∧
      downstreamSum n2.UnitList n3.Error 0 = 1 / 2 ∧
      n3.Error.getD 0 0 ≠ downstreamSum n2.UnitList n3.Error 0 := by
  obtain ⟨n1, n2, n3, h1, h2, h3, h4, h5, h6⟩ := inputFedNet_run Real.exp (1 : ℝ)
  have e3 : n2.Error.getD 3 0 = 1 / 2 := by
    rw [h5]
    norm_num [truncate]
  have e : n3.Error = [0, 1 / 2, 1 / 2, 1 / 2] := by
    rw [h6, e3]
    norm_num
  refine ⟨n1, n2, n3, h1, h2, h3, ?_, ?_, e, ?_, ?_, ?_⟩
  · intro s d hc
    show (n2.UnitList.getD s NWUnitV.zero).UnitType ≠ UNIT_OUTPUT
    rw [h4] at hc ⊢
    exact inputFedNet_no_output_source s d hc
  · show (n2.UnitList.getD 0 NWUnitV.zero).UnitType ≠ UNIT_OUTPUT
    rw [h4]
    exact (Nat.succ_ne_zero 1).symm
  · rw [e]
    rfl
  · rw [e, h4]
    exact downstreamSum_inputFedNet _ _ _ _
  · rw [e, h4, downstreamSum_inputFedNet]
    norm_num

/-- Witness of C18: the layered network with training buffers, after
ForwardPass and with the error 1/2 on the Output unit 3. -/
theorem C18_error_propagation_witness :
    ∃ n1 : NetworkV ℚ, ForwardPass (fun _ => 1) (trainNet : NetworkV ℚ) = some (NW_SUCCESS, n1) ∧
      ∃ net', BackwardPass (1 : ℚ) 0 { n1 with Error := [0, 0, 0, 1 / 2] }
          = some (NW_SUCCESS, net') ∧
        net'.Error.getD 3 0 = 1 / 2 ∧
        net'.Error.getD 2 0 = downstreamSum n1.UnitList net'.Error 2 :=
  ⟨_, ForwardPass_trainNet (fun _ => 1),
    (C18_error_propagation (fun _ => 1) (1 : ℚ) 0 (trainNet : NetworkV ℚ) _ [0, 0, 0, 1 / 2]
      [3, 2, 1, 0] rfl rfl (ForwardPass_trainNet (fun _ => 1)) rfl
      layeredNet_no_input_dest layeredNet_no_output_source).imp
      (fun _ h => ⟨h.1, h.2.1 3 (Nat.lt_succ_self 3) rfl,
        h.2.2 2 (Nat.lt_succ_of_lt (Nat.lt_succ_self 2)) (Nat.succ_ne_self 1).symm⟩)⟩

/-! ## Save and Open: the round trip -/

theorem fread_append (n : Nat) (a rest : List Nat) (h : a.length = n) :
    fread n (a ++ rest) = some (a, rest) := by
  unfold fread
  subst h
  rw [if_neg (by simp), List.take_left, List.drop_left]

theorem readField_skip (a r : List Nat) (k off len : Nat) (h : a.length = k) :
    readField (a ++ r) (k + off) len = readField r off len := by
  unfold readField
  subst h
  rw [← List.drop_drop, List.drop_left]

theorem readField_word (W x : Nat) (r : List Nat) :
    readField (wordBytes W x ++ r) 0 W = x % 256 ^ W := by
  unfold readField
  rw [List.drop_zero, List.take_left' (length_wordBytes W x), bytesWord_wordBytes]

theorem readField_word_end (W x : Nat) :
    readField (wordBytes W x) 0 W = x % 256 ^ W := by
  have := readField_word W x []
  rwa [List.append_nil] at this

theorem sizeofULong_ge (M : DataModel) : 4 ≤ M.sizeofULong ∧ M.sizeofULong ≤ 8 := by
  cases M
  · exact ⟨le_refl _, by decide⟩
  · exact ⟨by decide, le_refl _⟩

theorem length_unitBytes (M : DataModel) (jbits jpad : Nat) (u : NWUnit) :
    (unitBytes M jbits jpad u).length = sizeofNWFileUnit M := by
  have hW := sizeofULong_ge M
  unfold unitBytes sizeofNWFileUnit sizeofDouble
  simp only [List.length_append, length_wordBytes]
  omega

theorem bitfieldWord_lt (jbits : Nat) (u : NWUnit) : bitfieldWord jbits u < 256 ^ 4 := by
  unfold bitfieldWord bitOf
  have h1 : u.UnitType % 4 < 4 := Nat.mod_lt _ (by decide)
  have h2 : jbits % 2 ^ 27 < 2 ^ 27 := Nat.mod_lt _ (by decide)
  norm_num at h2 ⊢
  split_ifs <;> omega

theorem bitfieldWord_fields (jbits : Nat) (u : NWUnit) (ht : u.UnitType < 4) :
    bitfieldWord jbits u % 4 = u.UnitType ∧
    decide (bitfieldWord jbits u / 4 % 2 = 1) = u.Binary ∧
    decide (bitfieldWord jbits u / 8 % 2 = 1) = u.Bias ∧
    decide (bitfieldWord jbits u / 16 % 2 = 1) = u.Sigmoid := by
  unfold bitfieldWord bitOf
  generalize jbits % 2 ^ 27 = j
  rw [Nat.mod_eq_of_lt ht]
  cases u.Binary <;> cases u.Bias <;> cases u.Sigmoid <;>
    refine ⟨by simp only [if_true, if_false, Bool.false_eq_true]; omega, ?_, ?_, ?_⟩ <;>
    simp only [if_true, if_false, Bool.false_eq_true, decide_eq_true_eq, decide_eq_false_iff_not] <;>
    omega

theorem unitBytes_fields (M : DataModel) (jbits jpad : Nat) (u : NWUnit)
    (hx : u.X < M.ulongMod) (hy : u.Y < M.ulongMod) (hn : u.NumInput < M.ulongMod)
    (hb : u.BiasWgt < 256 ^ sizeofDouble) :
    readField (unitBytes M jbits jpad u) 0 M.sizeofULong = u.X ∧
    readField (unitBytes M jbits jpad u) M.sizeofULong M.sizeofULong = u.Y ∧
    readField (unitBytes M jbits jpad u) (2 * M.sizeofULong) M.sizeofULong = u.NumInput ∧
    readField (unitBytes M jbits jpad u) (3 * M.sizeofULong) 4 = bitfieldWord jbits u ∧
    readField (unitBytes M jbits jpad u) (4 * M.sizeofULong) sizeofDouble = u.BiasWgt := by
  have hW := sizeofULong_ge M
  unfold DataModel.ulongMod at hx hy hn
  unfold unitBytes
  generalize M.sizeofULong = W at *
  have e2 : 2 * W = W + (W + 0) := by omega
  have e3 : 3 * W = W + (W + (W + 0)) := by omega
  have e4 : 4 * W = W + (W + (W + (4 + ((W - 4) + 0)))) := by omega
  refine ⟨?_, ?_, ?_, ?_, ?_⟩
  · rw [readField_word, Nat.mod_eq_of_lt hx]
  · show readField (_ ++ _) (W + 0) W = _
    rw [readField_skip _ _ _ _ _ (length_wordBytes _ _), readField_word, Nat.mod_eq_of_lt hy]
  · rw [e2, readField_skip _ _ _ _ _ (length_wordBytes _ _),
      readField_skip _ _ _ _ _ (length_wordBytes _ _), readField_word, Nat.mod_eq_of_lt hn]
  · rw [e3, readField_skip _ _ _ _ _ (length_wordBytes _ _),
      readField_skip _ _ _ _ _ (length_wordBytes _ _),
      readField_skip _ _ _ _ _ (length_wordBytes _ _), readField_word,
      Nat.mod_eq_of_lt (bitfieldWord_lt _ _)]
  · rw [e4, readField_skip _ _ _ _ _ (length_wordBytes _ _),
      readField_skip _ _ _ _ _ (length_wordBytes _ _),
      readField_skip _ _ _ _ _ (length_wordBytes _ _),
      readField_skip _ _ _ _ _ (length_wordBytes _ _),
      readField_skip _ _ _ _ _ (length_wordBytes _ _), readField_word_end,
      Nat.mod_eq_of_lt hb]

theorem toBytes_one (l : List Nat) (h : ∀ c ∈ l, c < 256) : toBytes 1 l = l := by
  induction l with
  | nil => rfl
  | cons x xs ih =>
    have hx : x < 256 := h x (List.mem_cons_self _ _)
    show x % 256 :: ([] ++ toBytes 1 xs) = x :: xs
    rw [Nat.mod_eq_of_lt hx, List.nil_append, ih (fun c hc => h c (List.mem_cons_of_mem _ hc))]

theorem takeWhile_name (name rest : List Nat) (h : ∀ c ∈ name, 0 < c) :
    (name ++ 0 :: rest).takeWhile (fun c => decide (c ≠ 0)) = name := by
  induction name with
  | nil => simp
  | cons x xs ih =>
    have hx : 0 < x := h x (List.mem_cons_self _ _)
    rw [List.cons_append, List.takeWhile_cons_of_pos (by simpa using Nat.pos_iff_ne_zero.1 hx),
      ih (fun c hc => h c (List.mem_cons_of_mem _ hc))]

theorem strlen_name (name : List Nat) (h : ∀ c ∈ name, 0 < c) : strlen name = name.length := by
  unfold strlen
  have := takeWhile_name name [] h
  have e : (name ++ [0]).takeWhile (fun c => decide (c ≠ 0))
      = name.takeWhile (fun c => decide (c ≠ 0)) := by
    induction name with
    | nil => simp
    | cons x xs ih =>
      have hx : 0 < x := h x (List.mem_cons_self _ _)
      have hxs : ∀ c ∈ xs, 0 < c := fun c hc => h c (List.mem_cons_of_mem _ hc)
      rw [List.cons_append,
        List.takeWhile_cons_of_pos (by simpa using Nat.pos_iff_ne_zero.1 hx),
        List.takeWhile_cons_of_pos (by simpa using Nat.pos_iff_ne_zero.1 hx),
        ih hxs (takeWhile_name xs [] hxs)]
  rw [← e, this]

theorem append_four (a b c d r : List Nat) :
    (a ++ (b ++ (c ++ d))) ++ r = a ++ (b ++ (c ++ (d ++ r))) := by
  simp only [List.append_assoc]

theorem readIODef_saveIODef (d : NWIODef) (rest : List Nat)
    (hlen : d.Name.length < 32767) (hc : ∀ c ∈ d.Name, 0 < c ∧ c < 256)
    (hmin : d.Min < 256 ^ sizeofDouble) (hmax : d.Max < 256 ^ sizeofDouble) :
    ∃ bs, saveIODef d = some bs ∧ readIODef (bs ++ rest) = .ok (d, rest) := by
  have hs : strlen d.Name = d.Name.length := strlen_name _ (fun c h => (hc c h).1)
  have hw : (strlen d.Name + 1) % 65536 = d.Name.length + 1 := by
    rw [hs]
    exact Nat.mod_eq_of_lt (by omega)
  have hb : toBytes 1 (d.Name ++ [0]) = d.Name ++ [0] := by
    apply toBytes_one
    intro c h
    rcases List.mem_append.1 h with h | h
    · exact (hc c h).2
    · rw [List.mem_singleton.1 h]
      decide
  have hsave : saveIODef d = some (wordBytes 2 (d.Name.length + 1) ++
      ((d.Name ++ [0]) ++ (wordBytes sizeofDouble d.Min ++ wordBytes sizeofDouble d.Max))) := by
    unfold saveIODef
    rw [hw, if_neg (by omega), hb, List.take_of_length_le (by simp)]
  refine ⟨_, hsave, ?_⟩
  · unfold readIODef
    rw [append_four, fread_append 2 _ _ (length_wordBytes _ _)]
    simp only []
    have hbw : bytesWord (wordBytes 2 (d.Name.length + 1)) = d.Name.length + 1 := by
      rw [bytesWord_wordBytes]
      exact Nat.mod_eq_of_lt (by norm_num; omega)
    rw [hbw, if_neg (by omega), fread_append (d.Name.length + 1) _ _ (by simp)]
    simp only []
    rw [fread_append sizeofDouble _ _ (length_wordBytes _ _)]
    simp only []
    rw [fread_append sizeofDouble _ _ (length_wordBytes _ _)]
    simp only []
    rw [takeWhile_name _ _ (fun c h => (hc c h).1), bytesWord_wordBytes, bytesWord_wordBytes,
      Nat.mod_eq_of_lt hmin, Nat.mod_eq_of_lt hmax]

theorem readInputs_toBytes (M : DataModel) (units wgts rest : List Nat) (n : Nat)
    (hu : units.length = n) (hw : wgts.length = n) (hn : n * sizeofDouble < M.ulongMod)
    (hux : ∀ x ∈ units, x < 256 ^ M.sizeofULong) (hwx : ∀ x ∈ wgts, x < 256 ^ sizeofDouble) :
    readInputs M n (toBytes M.sizeofULong units ++ (toBytes sizeofDouble wgts ++ rest))
      = some ((units, wgts), rest) := by
  have hW := sizeofULong_ge M
  unfold readInputs
  have h1 : n * M.sizeofULong % M.ulongMod = n * M.sizeofULong := by
    apply Nat.mod_eq_of_lt
    have : n * M.sizeofULong ≤ n * sizeofDouble := Nat.mul_le_mul_left _ hW.2
    omega
  rw [h1, Nat.mod_eq_of_lt hn,
    fread_append _ _ _ (by rw [length_toBytes, hu, Nat.mul_comm])]
  simp only []
  rw [fread_append _ _ _ (by rw [length_toBytes, hw, Nat.mul_comm])]
  simp only []
  have f1 := fromBytes_toBytes M.sizeofULong units [] hux
  have f2 := fromBytes_toBytes sizeofDouble wgts [] hwx
  rw [List.append_nil, hu] at f1
  rw [List.append_nil, hw] at f2
  rw [f1, f2]

theorem readUnit_saveUnit (M : DataModel) (jbits jpad : Nat) (u : NWUnit) (rest : List Nat)
    (h : StorableUnit M u) :
    ∃ bs, saveUnit M jbits jpad u = some bs ∧ readUnit M (bs ++ rest) = .ok (u.stored, rest) := by
  obtain ⟨⟨w1, w2, w3, w4⟩, hx, hy, hn, hn8, ht, hb, hio, hd⟩ := h
  obtain ⟨f1, f2, f3, f4, f5⟩ := unitBytes_fields M jbits jpad u hx hy hn hb
  obtain ⟨b1, b2, b3, b4⟩ := bitfieldWord_fields jbits u ht
  have hio2 : ∃ io, (if u.UnitType % 4 ≠ UNIT_INTERNAL then
        (match u.IODef with
          | none => none
          | some d => saveIODef d)
      else some []) = some io ∧
      ∀ r, (if bitfieldWord jbits u % 4 ≠ UNIT_INTERNAL then
        (match readIODef (io ++ r) with
          | .error e => .error e
          | .ok (d, bs2) => .ok (some d, bs2))
      else (.ok (none, io ++ r) : Except (Option NWErr) (Option NWIODef × List Nat)))
        = .ok (u.IODef, r) := by
    rw [b1, Nat.mod_eq_of_lt ht]
    by_cases hi : u.UnitType = UNIT_INTERNAL
    · rw [if_neg (not_not.2 hi)]
      refine ⟨[], rfl, fun r => ?_⟩
      rw [if_neg (not_not.2 hi), hio.2 hi]
      rfl
    · rw [if_pos hi]
      cases hdef : u.IODef with
      | none => exact absurd (hio.1 hdef) hi
      | some d =>
        obtain ⟨d1, d2, d3, d4⟩ := hd d hdef
        obtain ⟨bs, s1, _⟩ := readIODef_saveIODef d [] d1 d2 d3 d4
        refine ⟨bs, s1, fun r => ?_⟩
        obtain ⟨bs', s1', s2'⟩ := readIODef_saveIODef d r d1 d2 d3 d4
        rw [s1] at s1'
        rw [if_pos hi, Option.some.inj s1', s2']
  obtain ⟨io, i1, i2⟩ := hio2
  have hres : ∀ (inputs : List Nat × List Nat), inputs = (u.InputUnits, u.InputWgts) →
      ({ NWUnit.zero with
          IODef := u.IODef
          X := u.X
          Y := u.Y
          NumInput := u.NumInput
          UnitType := u.UnitType
          Binary := u.Binary
          Sigmoid := u.Sigmoid
          Bias := u.Bias
          BiasWgt := u.BiasWgt
          InputUnits := inputs.1
          InputWgts := inputs.2 } : NWUnit) = u.stored := by
    intro inputs hi
    rw [hi]
    rfl
  unfold saveUnit
  rw [i1]
  simp only []
  by_cases hz : u.NumInput > 0
  · rw [if_pos hz, if_neg (by omega)]
    refine ⟨_, rfl, ?_⟩
    unfold readUnit
    rw [List.append_assoc, fread_append _ _ _ (length_unitBytes M jbits jpad u)]
    simp only []
    rw [f1, f2, f3, f4, f5, b1, b2, b3, b4, List.append_assoc, ← b1, i2]
    simp only []
    rw [if_pos hz, List.append_assoc, List.take_of_length_le (le_of_eq w1),
      List.take_of_length_le (le_of_eq w2),
      readInputs_toBytes M _ _ _ _ w1 w2 hn8 w3 w4]
    simp only []
    rw [b1, hres _ rfl]
  · rw [if_neg hz]
    refine ⟨_, rfl, ?_⟩
    unfold readUnit
    rw [List.append_assoc, fread_append _ _ _ (length_unitBytes M jbits jpad u)]
    simp only []
    rw [f1, f2, f3, f4, f5, b1, b2, b3, b4, List.append_assoc, List.nil_append, ← b1, i2]
    simp only []
    rw [if_neg hz, b1]
    have e1 : u.InputUnits = [] := List.length_eq_zero.1 (by omega)
    have e2 : u.InputWgts = [] := List.length_eq_zero.1 (by omega)
    exact congrArg (fun x => (Except.ok (x, rest) : Except (Option NWErr) (NWUnit × List Nat)))
      (hres ([], []) (by rw [e1, e2]))

theorem readUnits_saveUnits (M : DataModel) (jbits jpad : Nat) (rest : List Nat) :
    ∀ us : List NWUnit, (∀ u ∈ us, StorableUnit M u) →
      ∃ bs, saveUnits M jbits jpad us = some bs ∧
        readUnits M us.length (bs ++ rest) = .ok (us.map NWUnit.stored, rest) := by
  intro us
  induction us with
  | nil => exact fun _ => ⟨[], rfl, rfl⟩
  | cons u us ih =>
    intro h
    obtain ⟨b, hb1, hb2⟩ := ih (fun v hv => h v (List.mem_cons_of_mem _ hv))
    obtain ⟨a, ha1, ha2⟩ := readUnit_saveUnit M jbits jpad u (b ++ rest)
      (h u (List.mem_cons_self _ _))
    refine ⟨a ++ b, ?_, ?_⟩
    · unfold saveUnits
      rw [ha1, hb1]
    · show readUnits M (us.length + 1) (a ++ b ++ rest) = _
      unfold readUnits
      rw [List.append_assoc, ha2]
      simp only []
      rw [hb2]
      rfl

theorem length_hdrBytes (M : DataModel) (n : Nat) :
    (hdrBytes M n).length = sizeofNWFileHdr M := by
  have hW := sizeofULong_ge M
  unfold hdrBytes sizeofNWFileHdr
  simp only [List.length_append, length_wordBytes, List.length_replicate]
  omega

theorem hdrBytes_fields (M : DataModel) (n : Nat) (hn : n < M.ulongMod) :
    readField (hdrBytes M n) 0 2 = 0x574E ∧
    readField (hdrBytes M n) M.sizeofULong M.sizeofULong = n := by
  have hW := sizeofULong_ge M
  unfold DataModel.ulongMod at hn
  unfold hdrBytes
  generalize M.sizeofULong = W at *
  have e : W = 2 + ((W - 2) + 0) := by omega
  refine ⟨?_, ?_⟩
  · rw [readField_word]
    rfl
  · nth_rewrite 4 [e]
    rw [readField_skip _ _ _ _ _ (length_wordBytes _ _),
      readField_skip _ _ _ _ _ (List.length_replicate _ _), readField_word,
      Nat.mod_eq_of_lt hn]

theorem countP_stored (us : List NWUnit) (t : Nat) :
    (us.map NWUnit.stored).countP (fun u => decide (u.UnitType = t))
      = us.countP (fun u => decide (u.UnitType = t)) := by
  rw [List.countP_map]
  rfl

/-- The network nw as Open builds it from the file that Save wrote. -/
theorem Open_saveImage (M : DataModel) (jbits jpad : Nat) (nw : Network)
    (h : Storable M nw) :
    ∃ bs, saveImage M jbits jpad nw = some bs ∧
      ∀ (nw0 : Network) (rest : List Nat),
        Open M nw0 (bs ++ rest)
          = some (NW_SUCCESS,
              { UnitList := nw.UnitList.map NWUnit.stored
                UnitSpace := (nw.NumUnits + 512) % M.ulongMod
                NumInput := nw.NumInput
                NumOutput := nw.NumOutput },
              bs.length) := by
  obtain ⟨hn, hu, hci, hco⟩ := h
  obtain ⟨b, hb1, _⟩ := readUnits_saveUnits M jbits jpad [] nw.UnitList hu
  refine ⟨hdrBytes M nw.NumUnits ++ b, ?_, fun nw0 rest => ?_⟩
  · unfold saveImage
    rw [hb1]
    rfl
  · obtain ⟨b', hb1', hb2'⟩ := readUnits_saveUnits M jbits jpad rest nw.UnitList hu
    rw [hb1] at hb1'
    rw [← Option.some.inj hb1'] at hb2'
    obtain ⟨g1, g2⟩ := hdrBytes_fields M nw.NumUnits hn
    have hle : ∀ t, nw.UnitList.countP (fun u => decide (u.UnitType = t)) % M.ulongMod
        = nw.countType t := by
      intro t
      apply Nat.mod_eq_of_lt
      exact lt_of_le_of_lt (List.countP_le_length _) hn
    unfold Open
    rw [List.append_assoc, fread_append _ _ _ (length_hdrBytes M nw.NumUnits)]
    simp only []
    rw [g1, g2, if_neg (by simp)]
    have hb3 : readUnits M nw.NumUnits (b ++ rest) = .ok (nw.UnitList.map NWUnit.stored, rest) :=
      hb2'
    rw [hb3]
    simp only []
    rw [countP_stored, countP_stored, hle, hle, ← hci, ← hco]
    simp only [List.length_append]
    rw [Nat.add_sub_assoc (Nat.le_add_left _ _), Nat.add_sub_cancel]

theorem writeAt_new (bs : List Nat) : writeAt [] 0 bs = bs := by
  unfold writeAt
  simp

theorem writeAt_end (content bs : List Nat) :
    writeAt content content.length bs = content ++ bs := by
  unfold writeAt
  rw [List.take_length, List.drop_of_length_le (Nat.le_add_right _ _), List.append_nil]

theorem saveImage_length (M : DataModel) (jbits jpad : Nat) (nw : Network) (bs : List Nat)
    (h : saveImage M jbits jpad nw = some bs) : 0 < bs.length := by
  unfold saveImage at h
  cases hu : saveUnits M jbits jpad nw.UnitList with
  | none =>
    rw [hu] at h
    exact absurd h (by simp)
  | some b =>
    rw [hu] at h
    rw [← Option.some.inj h, List.length_append, length_hdrBytes]
    unfold sizeofNWFileHdr
    omega

theorem storedNet_storable (M : DataModel) : Storable M storedNet := by
  refine ⟨?_, ?_, rfl, rfl⟩
  · cases M <;> decide
  · intro u hu
    have hu2 : u = storedNet.UnitList.getD 0 NWUnit.zero ∨
        u = storedNet.UnitList.getD 1 NWUnit.zero := by
      simpa [storedNet] using hu
    rcases hu2 with rfl | rfl
    · refine ⟨by cases M <;> decide, by cases M <;> decide, by cases M <;> decide,
        by cases M <;> decide, by cases M <;> decide, by decide, by decide, by decide, ?_⟩
      intro d hd
      have hd2 : d = { Name := [105], Min := minusOne, Max := dblOne } :=
        (Option.some.inj hd).symm
      rw [hd2]
      decide
    · refine ⟨by cases M <;> decide, by cases M <;> decide, by cases M <;> decide,
        by cases M <;> decide, by cases M <;> decide, by decide, by decide, by decide, ?_⟩
      intro d hd
      exact absurd hd (Option.some_ne_none d).symm

theorem changedNet_storable (M : DataModel) : Storable M changedNet := by
  refine ⟨?_, ?_, rfl, rfl⟩
  · cases M <;> decide
  · intro u hu
    have hu2 : u = changedNet.UnitList.getD 0 NWUnit.zero ∨
        u = changedNet.UnitList.getD 1 NWUnit.zero := by
      simpa [changedNet] using hu
    rcases hu2 with rfl | rfl
    · refine ⟨by cases M <;> decide, by cases M <;> decide, by cases M <;> decide,
        by cases M <;> decide, by cases M <;> decide, by decide, by decide, by decide, ?_⟩
      intro d hd
      have hd2 : d = { Name := [105], Min := minusOne, Max := dblOne } :=
        (Option.some.inj hd).symm
      rw [hd2]
      decide
    · refine ⟨by cases M <;> decide, by cases M <;> decide, by cases M <;> decide,
        by cases M <;> decide, by cases M <;> decide, by decide, by decide, by decide, ?_⟩
      intro d hd
      exact absurd hd (Option.some_ne_none d).symm

/-- C30: for every storable network nw (each member holds a value of its C
type, the arrays have NumInput elements, a unit has an I/O definition exactly
when it is not Internal, each name is a C string of fewer than 32767
characters, the counters hold the unit counts), Save to a file name succeeds
and leaves the handle at the end of the bytes bs it wrote, and Open on these
bytes succeeds with a network r of the same unit count in which every unit
equals the unit of nw at the same index in every member but the three flags
(coordinates, input count, kind, binary, bias and sigmoid flags, bias weight,
I/O definition with name, min and max, source ids and weights, all as bit
patterns), with the same counts of Input and Output units. -/
theorem C30_Save_Open_round_trip (M : DataModel) (jbits jpad : Nat) (nw nw0 : Network)
    (Handle : Option (List Nat × Nat)) (h : Storable M nw) :
    ∃ bs r pos,
      Save M jbits jpad nw Handle (some ()) = some (NW_SUCCESS, some (bs, bs.length)) ∧
      Open M nw0 bs = some (NW_SUCCESS, r, pos) ∧
      r.NumUnits = nw.NumUnits ∧
      (∀ i, i < nw.NumUnits →
        r.unit i = { nw.unit i with Flag1 := false, Flag2 := false, Flag3 := false }) ∧
      r.NumInput = nw.NumInput ∧ r.NumOutput = nw.NumOutput := by
  obtain ⟨bs, h1, h2⟩ := Open_saveImage M jbits jpad nw h
  have h3 := h2 nw0 []
  rw [List.append_nil] at h3
  refine ⟨bs, _, _, ?_, h3, ?_, ?_, rfl, rfl⟩
  · unfold Save
    rw [if_neg (by simp), h1]
    simp only [ne_eq, not_false_eq_true, if_true, reduceCtorEq]
    rw [writeAt_new, Nat.zero_add]
  · show (nw.UnitList.map NWUnit.stored).length = nw.UnitList.length
    rw [List.length_map]
  · intro i hi
    show (nw.UnitList.map NWUnit.stored).getD i NWUnit.zero = (nw.UnitList.getD i NWUnit.zero).stored
    have hi2 : i < nw.UnitList.length := hi
    rw [List.getD_eq_getElem _ _ (by rw [List.length_map]; exact hi2),
      List.getD_eq_getElem _ _ hi2, List.getElem_map]

/-- Witness of C30: the network storedNet under ILP32. -/
theorem C30_Save_Open_round_trip_witness :
    Storable .ILP32 storedNet ∧
    ∃ bs r pos,
      Save .ILP32 0 0 storedNet none (some ()) = some (NW_SUCCESS, some (bs, bs.length)) ∧
      Open .ILP32 Network.empty bs = some (NW_SUCCESS, r, pos) ∧
      r.NumUnits = storedNet.NumUnits ∧
      (∀ i, i < storedNet.NumUnits →
        r.unit i = { storedNet.unit i with Flag1 := false, Flag2 := false, Flag3 := false }) ∧
      r.NumInput = storedNet.NumInput ∧ r.NumOutput = storedNet.NumOutput :=
  ⟨storedNet_storable .ILP32,
    C30_Save_Open_round_trip .ILP32 0 0 storedNet Network.empty none
      (storedNet_storable .ILP32)⟩

/-- C31 fails: let the file p hold the bytes bs1 that Save wrote for the
network nw1.  Open(p) succeeds with a network r and leaves its handle at the
end of these bytes.  When the network is then changed to nw2, Save(NULL)
succeeds, but it writes the bytes bs2 of nw2 at the position of the handle:
the file p then holds bs1 followed by bs2, which is not the encoding bs2 of
the current network, and a following Open(p) yields the network r read
earlier again (the units of nw1), whatever the change was. -/
theorem C31_Save_current_appends (M : DataModel) (j1 p1 j2 p2 : Nat) (nw1 nw2 nw0 : Network)
    (h1 : Storable M nw1) (h2 : Storable M nw2) :
    ∃ bs1 bs2 r,
      saveImage M j1 p1 nw1 = some bs1 ∧
      Open M nw0 bs1 = some (NW_SUCCESS, r, bs1.length) ∧
      saveImage M j2 p2 nw2 = some bs2 ∧
      Save M j2 p2 nw2 (some (bs1, bs1.length)) none
        = some (NW_SUCCESS, some (bs1 ++ bs2, bs1.length + bs2.length)) ∧
      bs1 ++ bs2 ≠ bs2 ∧
      (∀ nw3, Open M nw3 (bs1 ++ bs2) = some (NW_SUCCESS, r, bs1.length)) ∧
      r.UnitList = nw1.UnitList.map NWUnit.stored := by
  obtain ⟨bs1, a1, a2⟩ := Open_saveImage M j1 p1 nw1 h1
  obtain ⟨bs2, b1, _⟩ := Open_saveImage M j2 p2 nw2 h2
  have a3 := a2 nw0 []
  rw [List.append_nil] at a3
  refine ⟨bs1, bs2, _, a1, a3, b1, ?_, ?_, fun nw3 => a2 nw3 bs2, rfl⟩
  · unfold Save
    rw [if_neg (by simp), b1]
    simp only [ne_eq, not_true_eq_false, if_false]
    rw [writeAt_end]
  · intro he
    have hl := congrArg List.length he
    rw [List.length_append] at hl
    have := saveImage_length M j1 p1 nw1 bs1 a1
    omega

/-- Witness of C31: the network storedNet is saved and opened, the bias weight
of unit 1 is changed, Save(NULL) is called and the file is opened again; the
network read is storedNet. -/
theorem C31_Save_current_appends_witness :
    Storable .LP64 storedNet ∧ Storable .LP64 changedNet ∧
    ∃ bs1 bs2 r,
      saveImage .LP64 0 0 storedNet = some bs1 ∧
      Open .LP64 Network.empty bs1 = some (NW_SUCCESS, r, bs1.length) ∧
      saveImage .LP64 0 0 changedNet = some bs2 ∧
      Save .LP64 0 0 changedNet (some (bs1, bs1.length)) none
        = some (NW_SUCCESS, some (bs1 ++ bs2, bs1.length + bs2.length)) ∧
      bs1 ++ bs2 ≠ bs2 ∧
      (∀ nw3, Open .LP64 nw3 (bs1 ++ bs2) = some (NW_SUCCESS, r, bs1.length)) ∧
      r.UnitList = storedNet.UnitList.map NWUnit.stored :=
  ⟨storedNet_storable .LP64, changedNet_storable .LP64,
    C31_Save_current_appends .LP64 0 0 0 0 storedNet changedNet Network.empty
      (storedNet_storable .LP64) (changedNet_storable .LP64)⟩

/-! ## The initial weight -/

theorem initWgtExact_bounds (r : Nat) :
    -1 ≤ initWgtExact r ∧ (initWgtExact r ≤ 1 ↔ r < 4294967295) := by
  have hr : (0 : ℚ) ≤ (r : ℚ) := Nat.cast_nonneg r
  have hL : ((LONG_MAX .ILP32 : Nat) : ℚ) = 2147483647 := by
    norm_num [LONG_MAX, DataModel.ulongMod, DataModel.sizeofULong]
  unfold initWgtExact
  rw [hL]
  refine ⟨?_, ?_⟩
  · rw [le_div_iff₀ (by norm_num)]
    linarith
  · rw [div_le_iff₀ (by norm_num)]
    constructor
    · intro h
      have h1 : (r : ℚ) ≤ ((4294967294 : Nat) : ℚ) := by push_cast; linarith
      have h2 : r ≤ 4294967294 := by exact_mod_cast h1
      omega
    · intro h
      have h2 : r ≤ 4294967294 := by omega
      have h1 : (r : ℚ) ≤ ((4294967294 : Nat) : ℚ) := by exact_mod_cast h2
      push_cast at h1
      linarith

theorem initWgtExact_top : initWgtExact 4294967295 = 1 + 1 / 2147483647 := by
  have hL : ((LONG_MAX .ILP32 : Nat) : ℚ) = 2147483647 := by
    norm_num [LONG_MAX, DataModel.ulongMod, DataModel.sizeofULong]
  unfold initWgtExact
  rw [hL]
  norm_num

theorem doubleValue_dblAboveOne : doubleValue dblAboveOne = 1 + 1 / 2147483648 := by
  unfold doubleValue dblAboveOne
  norm_num

theorem CreateUnit_BiasWgt (T : Target) (s : State) (x y : Nat)
    (type binary bias sigmoid : Int) (name : List Nat) (min max : Nat)
    (hp : ¬ (type = 2 ∧ sigmoid = 0 ∧ binary ≠ 0)) :
    (CreateUnit T s x y type binary bias sigmoid name min max).1 = NW_SUCCESS ∧
    ((CreateUnit T s x y type binary bias sigmoid name min max).2.2.nw.unit s.nw.NumUnits).BiasWgt
      = T.initWgt (Rand32 T.abi s.rnd).1 := by
  have hguard : ¬ (¬ (type < 0 ∨ type > 2) ∧ (type = 2 ∧ sigmoid = 0 ∧ binary ≠ 0)) :=
    fun h => hp h.2
  unfold CreateUnit
  rw [if_neg hguard]
  refine ⟨rfl, ?_⟩
  show ((s.nw.UnitList ++ [_]).getD s.nw.UnitList.length NWUnit.zero).BiasWgt = _
  rw [List.getD_eq_getElem _ _ (by simp), List.getElem_append_right (le_refl _)]
  simp

/-- C13 does not hold on the code under ILP32.  For every draw r the exact
value of (r - LONG_MAX) / LONG_MAX is at least -1, and it is at most 1 exactly
when r is not the largest unsigned long, 4294967295.  That draw occurs: after
Randomize32(39988138) the tenth call of Rand32 returns it.  A call of
CreateUnit in that generator state (with any arguments that CreateUnit
accepts) takes this draw and stores the bias weight computed from it, and
when the stored double is within 2 ^ (-52), one unit in the last place, of the
exact quotient 1 + 1 / 2147483647, its value is above 1. -/
theorem C13_weight_above_one (T : Target) (nw : Network) (g : RandState) (x y : Nat)
    (type binary bias sigmoid : Int) (name : List Nat) (min max : Nat)
    (hT : T.abi = .ILP32) (hg : g.RandNums.length = 17)
    (hround : abs (doubleValue (T.initWgt 4294967295) - initWgtExact 4294967295) ≤ 1 / 2 ^ 52)
    (hp : ¬ (type = 2 ∧ sigmoid = 0 ∧ binary ≠ 0)) :
    (∀ r : Nat, -1 ≤ initWgtExact r ∧ (initWgtExact r ≤ 1 ↔ r < 4294967295)) ∧
    (Rand32 .ILP32 (afterDraws .ILP32 9 (Randomize32 .ILP32 g 39988138))).1 = 4294967295 ∧
    1 < initWgtExact 4294967295 ∧
    (CreateUnit T { nw := nw, rnd := afterDraws .ILP32 9 (Randomize32 .ILP32 g 39988138) }
      x y type binary bias sigmoid name min max).1 = NW_SUCCESS ∧
    1 < doubleValue
      ((CreateUnit T { nw := nw, rnd := afterDraws .ILP32 9 (Randomize32 .ILP32 g 39988138) }
        x y type binary bias sigmoid name min max).2.2.nw.unit nw.NumUnits).BiasWgt := by
  have e1 : (Rand32 .ILP32 (afterDraws .ILP32 9 (Randomize32 .ILP32 g 39988138))).1
      = 4294967295 := by
    rw [Randomize32_indep .ILP32 g startRand 39988138 hg rfl]
    decide
  have e2 : (1 : ℚ) < initWgtExact 4294967295 := by
    rw [initWgtExact_top]
    norm_num
  obtain ⟨c1, c2⟩ := CreateUnit_BiasWgt T
    { nw := nw, rnd := afterDraws .ILP32 9 (Randomize32 .ILP32 g 39988138) }
    x y type binary bias sigmoid name min max hp
  refine ⟨initWgtExact_bounds, e1, e2, c1, ?_⟩
  rw [c2]
  show 1 < doubleValue (T.initWgt (Rand32 T.abi
    (afterDraws .ILP32 9 (Randomize32 .ILP32 g 39988138))).1)
  rw [hT, e1]
  rw [initWgtExact_top] at hround
  have h1 := (abs_le.1 hround).1
  have h2 : (1 : ℚ) / 2 ^ 52 < 1 / 2147483647 := by norm_num
  linarith

/-- Witness of C13: a CreateUnit call for an Input unit on the empty network,
on a target that stores the double 1 + 2 ^ (-31) for the draw 4294967295. -/
theorem C13_weight_above_one_witness :
    abs (doubleValue (topDrawTarget.initWgt 4294967295) - initWgtExact 4294967295)
      ≤ 1 / 2 ^ 52 ∧
    (CreateUnit topDrawTarget
      { nw := Network.empty,
        rnd := afterDraws .ILP32 9 (Randomize32 .ILP32 startRand 39988138) }
      0 0 0 0 1 1 [105] minusOne dblOne).1 = NW_SUCCESS ∧
    1 < doubleValue
      ((CreateUnit topDrawTarget
        { nw := Network.empty,
          rnd := afterDraws .ILP32 9 (Randomize32 .ILP32 startRand 39988138) }
        0 0 0 0 1 1 [105] minusOne dblOne).2.2.nw.unit Network.empty.NumUnits).BiasWgt :=
  have hround : abs (doubleValue (topDrawTarget.initWgt 4294967295)
      - initWgtExact 4294967295) ≤ 1 / 2 ^ 52 := by
    show abs (doubleValue dblAboveOne - initWgtExact 4294967295) ≤ 1 / 2 ^ 52
    rw [doubleValue_dblAboveOne, initWgtExact_top, abs_le]
    constructor <;> norm_num
  ⟨hround,
    (C13_weight_above_one topDrawTarget Network.empty startRand 0 0 0 0 1 1 [105] minusOne
      dblOne rfl rfl hround (by decide)).2.2.2⟩

/-! ## Weight updates on a network with a nonzero error -/

theorem errorNet_ranks (s d : Nat)
    (h : Connection (layeredNet : NetworkV ℚ).UnitList s d) :
    ([3, 2, 1, 0] : List Nat).getD d 0 < ([3, 2, 1, 0] : List Nat).getD s 0 := by
  obtain ⟨hd, j, hj, rfl⟩ := h
  have hd4 : d < 4 := hd
  interval_cases d
  · exact absurd hj (Nat.not_lt_zero _)
  · exact absurd hj (Nat.not_lt_zero _)
  · have hj2 : j < 2 := hj
    interval_cases j <;> decide
  · have hj1 : j < 1 := hj
    interval_cases j
    decide

/-- Witness of C20: the layered network in accumulate mode with the error 1/4
on the Output unit 3, eta = 1.  There basic(3) = 1/4 * (1/2 * 1/2) = 1/16: the
slot of the connection from unit 2 (activation 1/2) goes from 4 to 4 + 1/32
and the bias slot from 7 to 7 + 1/16, and the unit table is unchanged. -/
theorem C20_accumulate_update_witness :
    ∃ (net' : NetworkV ℚ) (a' : List (List ℚ)),
      BackwardPass (1 : ℚ) 0 (errorNetAccum : NetworkV ℚ) = some (NW_SUCCESS, net') ∧
      net'.UnitList = (errorNetAccum : NetworkV ℚ).UnitList ∧
      net'.Accum = some a' ∧ a'.length = 4 ∧
      net'.Error.getD 3 0 = 1 / 4 ∧
      (a'.getD 3 []).getD 0 0 = 4 + 1 / 32 ∧ (a'.getD 3 []).getD 1 0 = 7 + 1 / 16 := by
  obtain ⟨hb, net', a', h1, h2, h3, h4, h5⟩ :=
    C20_accumulate_update (1 : ℚ) 0 (errorNetAccum : NetworkV ℚ) [3, 2, 1, 0]
      [[5], [6], [1, 2, 3], [4, 7]] rfl (by decide) rfl rfl ⟨rfl, by decide⟩
  obtain ⟨net2, g1, g2, _⟩ := BackwardPass_errors (1 : ℚ) 0 (errorNetAccum : NetworkV ℚ)
    [3, 2, 1, 0] rfl (by decide) errorNet_ranks layeredNet_no_output_source rfl
  have he : net2 = net' := by
    rw [g1] at h1
    exact (Prod.mk.inj (Option.some.inj h1)).2
  have hE : net'.Error.getD 3 0 = 1 / 4 := by
    rw [← he]
    exact g2 3 (by decide) rfl
  obtain ⟨_, k2, k3⟩ := h5 3 (by decide)
  have e0 := k2 0 (by decide)
  have e1 := k3 rfl
  rw [hE, hb] at e0 e1
  refine ⟨net', a', h1, h2, h3, h4, hE, e0.trans ?_, e1.trans ?_⟩
  · rw [if_neg (by decide)]
    norm_num [errorNetAccum, errorNet, trainNet, layeredNet, NetworkV.unit]
  · rw [if_neg (by decide)]
    norm_num [errorNetAccum, errorNet, trainNet, layeredNet, NetworkV.unit]

/-- Witness of C22: the layered network in momentum mode with the error 1/4 on
the Output unit 3, eta = 1, c = 1/2.  There basic(3) = 1/16: the change of the
connection from unit 2 is 1/32 + 1/2 * 4, it is added to the weight 1 and
stored; the change of the bias weight 0 is 1/16 + 1/2 * 7. -/
theorem C22_momentum_update_witness :
    ∃ (net' : NetworkV ℚ) (m' : List (List ℚ)),
      BackwardPass (1 : ℚ) (1 / 2) (errorNetMomentum : NetworkV ℚ) = some (NW_SUCCESS, net') ∧
      net'.Momentum = some m' ∧ m'.length = 4 ∧
      net'.Error.getD 3 0 = 1 / 4 ∧
      (net'.unit 3).InputWgts.getD 0 0 = 1 + (1 / 32 + 1 / 2 * 4) ∧
      (m'.getD 3 []).getD 0 0 = 1 / 32 + 1 / 2 * 4 ∧
      (net'.unit 3).BiasWgt = 0 + (1 / 16 + 1 / 2 * 7) ∧
      (m'.getD 3 []).getD 1 0 = 1 / 16 + 1 / 2 * 7 := by
  obtain ⟨hb, ⟨net', m', h1, h2, h3, h4, _⟩, _⟩ :=
    C22_momentum_update (1 : ℚ) (1 / 2) (errorNetMomentum : NetworkV ℚ) [3, 2, 1, 0]
      [[5], [6], [1, 2, 3], [4, 7]] rfl (by decide) rfl ⟨rfl, by decide⟩
  obtain ⟨net2, g1, g2, _⟩ := BackwardPass_errors (1 : ℚ) (1 / 2)
    (errorNetMomentum : NetworkV ℚ) [3, 2, 1, 0] rfl (by decide) errorNet_ranks
    layeredNet_no_output_source rfl
  have he : net2 = net' := by
    rw [g1] at h1
    exact (Prod.mk.inj (Option.some.inj h1)).2
  have hE : net'.Error.getD 3 0 = 1 / 4 := by
    rw [← he]
    exact g2 3 (by decide) rfl
  obtain ⟨k1, k2, _⟩ := h4 3 (by decide)
  obtain ⟨w0, r0⟩ := k1 0 (by decide)
  obtain ⟨w1, r1⟩ := k2 rfl
  rw [hE, hb] at w0 r0 w1 r1
  rw [if_neg (by decide)] at w0 r0 w1 r1
  refine ⟨net', m', h1, h2, h3, hE, w0.trans ?_, r0.trans ?_, w1.trans ?_, r1.trans ?_⟩ <;>
    norm_num [errorNetMomentum, errorNet, trainNet, layeredNet, NetworkV.unit]

end Perceptron
